import Mathlib

/-!
# adb-kit-go: wire-layer verification

Shallow embedding of the packet layer (`pkg/adb/tcpusb`), the smart-socket
codec and parser (`pkg/adb/protocol.go`, `pkg/adb/parser.go`), the SYNC
service (`pkg/adb/sync.go`), the bridge `Service` / `Socket` state machines,
the device `Tracker`, the `RollingCounter`, the host commands
(`pkg/adb/command/host`), the public-key parser (`pkg/adb/auth.go`), the
`LineTransform` and the `TransformReader`, the shell escaping of
`pkg/adb/command.go`, the `am` and `pm` commands of
`pkg/adb/command/host-transport`, the mode predicates of
`pkg/adb/sync/stats.go` and the `RgbTransform` of `pkg/adb/framebuffer`.

Conventions
* a Go `byte` is `Fin 256`; a `[]byte` and a Go `string` are `List Byte`
  (a nil slice and an empty slice are both `[]`);
* a `uint32` is a `Nat` reduced modulo `2 ^ 32` wherever Go truncates;
* a Go `int` is 64 bits wide and is an `Int` (or a `Nat` where it is a length).
-/

namespace AdbKit

/-- One Go `byte`. -/
abbrev Byte := Fin 256

deriving instance DecidableEq for Except

/-! ## `encoding/binary.LittleEndian` -/

/-- The four bytes written by `binary.LittleEndian.PutUint32(b, v)`: the value
is truncated to 32 bits by the byte conversions. -/
def putUint32 (v : Nat) : List Byte :=
  [⟨v % 256, Nat.mod_lt _ (by decide)⟩,
   ⟨v / 256 % 256, Nat.mod_lt _ (by decide)⟩,
   ⟨v / 65536 % 256, Nat.mod_lt _ (by decide)⟩,
   ⟨v / 16777216 % 256, Nat.mod_lt _ (by decide)⟩]

/-- The value read by `binary.LittleEndian.Uint32(b)` from the first four
bytes of `b`. -/
def getUint32 (b : List Byte) : Nat :=
  (b.getD 0 0).val + 256 * (b.getD 1 0).val + 65536 * (b.getD 2 0).val
    + 16777216 * (b.getD 3 0).val

/-- The Go slice expression `b[lo:hi]`. -/
def slice (b : List Byte) (lo hi : Nat) : List Byte :=
  (b.drop lo).take (hi - lo)

/-! ## `pkg/adb/tcpusb/packet.go` -/

/-- The struct `Packet`. -/
structure Packet where
  Command : Nat
  Arg0 : Nat
  Arg1 : Nat
  Length : Nat
  Check : Nat
  Magic : Nat
  Data : List Byte
deriving DecidableEq, Repr

def A_SYNC : Nat := 0x434e5953
def A_CNXN : Nat := 0x4e584e43
def A_OPEN : Nat := 0x4e45504f
def A_OKAY : Nat := 0x59414b4f
def A_CLSE : Nat := 0x45534c43
def A_WRTE : Nat := 0x45545257
def A_AUTH : Nat := 0x48545541

/-- The function `checksum`: a `uint32` accumulator, wrapping on overflow. -/
def checksum (data : List Byte) : Nat :=
  data.foldl (fun sum b => (sum + b.val) % 2 ^ 32) 0

/-- The function `magic`: the 32-bit complement `^command`. -/
def magic (command : Nat) : Nat :=
  (command % 2 ^ 32) ^^^ 0xFFFFFFFF

/-- The function `NewPacket`. -/
def NewPacket (command arg0 arg1 : Nat) (data : List Byte) : Packet :=
  { Command := command, Arg0 := arg0, Arg1 := arg1, Length := data.length % 2 ^ 32,
    Check := checksum data, Magic := magic command, Data := data }

/-- The function `Assemble`: 24 header bytes followed by the payload; the
length field is `uint32(len(data))`. -/
def Assemble (command arg0 arg1 : Nat) (data : List Byte) : List Byte :=
  putUint32 command ++ putUint32 arg0 ++ putUint32 arg1
    ++ putUint32 (data.length % 2 ^ 32) ++ putUint32 (checksum data)
    ++ putUint32 (magic command) ++ data

/-- The method `Packet.VerifyChecksum`. -/
def Packet.VerifyChecksum (p : Packet) : Bool :=
  p.Check == checksum p.Data

/-- The method `Packet.VerifyMagic`. -/
def Packet.VerifyMagic (p : Packet) : Bool :=
  p.Magic == magic p.Command

/-- The errors of `Parse`. -/
inductive ParseError where
  | tooShort
  | incomplete
deriving DecidableEq, Repr

/-- The six header fields decoded from a 24-byte header, with no payload. -/
def decodeHeader (header : List Byte) : Packet :=
  { Command := getUint32 (slice header 0 4)
    Arg0 := getUint32 (slice header 4 8)
    Arg1 := getUint32 (slice header 8 12)
    Length := getUint32 (slice header 12 16)
    Check := getUint32 (slice header 16 20)
    Magic := getUint32 (slice header 20 24)
    Data := [] }

/-- The function `Parse`. -/
def Parse (data : List Byte) : Except ParseError Packet :=
  if data.length < 24 then .error .tooShort
  else
    let p := decodeHeader data
    if p.Length > 0 then
      if data.length < 24 + p.Length then .error .incomplete
      else .ok { p with Data := slice data 24 (24 + p.Length) }
    else .ok p


/-! ## `pkg/adb/tcpusb/packetreader.go` -/

/-- The errors `tryRead` returns: `io.EOF` from the stream, `*ChecksumError`
and `*MagicError`, the last two carrying the offending packet. -/
inductive ReadError where
  | eof
  | checksum (p : Packet)
  | magic (p : Packet)
deriving DecidableEq, Repr

/-- The struct `PacketReader` without its stream and handlers. `packet` is the
zero packet while the Go pointer is still nil. -/
structure PacketReader where
  inBody : Bool
  buffer : Option (List Byte)
  packet : Packet
deriving DecidableEq, Repr

/-- The reader state set up by `NewPacketReader`. -/
def NewPacketReader : PacketReader :=
  { inBody := false, buffer := none, packet := ⟨0, 0, 0, 0, 0, 0, []⟩ }

/-- The value `len(r.buffer)`. -/
def PacketReader.bufLen (r : PacketReader) : Nat :=
  match r.buffer with
  | none => 0
  | some b => b.length

/-- The method `appendChunk` for a `Read` that returned `chunk` and no error. -/
def PacketReader.appendChunk (r : PacketReader) (chunk : List Byte) : PacketReader :=
  if chunk.length > 0 then
    match r.buffer with
    | some b => { r with buffer := some (b ++ chunk) }
    | none => { r with buffer := some chunk }
  else r

/-- The method `consume`. -/
def PacketReader.consume (r : PacketReader) (length : Nat) : PacketReader :=
  match r.buffer with
  | none => r
  | some b =>
    if length = b.length then { r with buffer := none }
    else { r with buffer := some (b.drop length) }

/-- How the inner loop `for r.buffer != nil` of `tryRead` is left: by
`return nil`, because the buffer became nil, by returning an error, or because
the model ran out of fuel. -/
inductive LoopExit where
  | returnNil
  | bufferNil
  | fail (e : ReadError)
  | outOfFuel
deriving DecidableEq, Repr

/-- The inner loop `for r.buffer != nil { ... }` of `tryRead`; the second
component lists the packets passed to `emit("packet", ...)`, in order. -/
def PacketReader.drainBuffer : Nat → PacketReader → PacketReader × List Packet × LoopExit
  | 0, r => (r, [], .outOfFuel)
  | fuel + 1, r =>
    match r.buffer with
    | none => (r, [], .bufferNil)
    | some buf =>
      if r.inBody then
        if buf.length < r.packet.Length then (r, [], .returnNil)
        else
          let pkt : Packet := { r.packet with Data := buf.take r.packet.Length }
          let r1 := ({ r with packet := pkt } : PacketReader).consume r.packet.Length
          if !pkt.VerifyChecksum then (r1, [], .fail (.checksum pkt))
          else
            let (r2, out, exit) := drainBuffer fuel { r1 with inBody := false }
            (r2, pkt :: out, exit)
      else
        if buf.length < 24 then (r, [], .returnNil)
        else
          let header := buf.take 24
          let r1 := r.consume 24
          let pkt := decodeHeader header
          let r2 : PacketReader := { r1 with packet := pkt }
          if !pkt.VerifyMagic then (r2, [], .fail (.magic pkt))
          else if pkt.Length = 0 then
            let (r3, out, exit) := drainBuffer fuel r2
            (r3, pkt :: out, exit)
          else drainBuffer fuel { r2 with inBody := true }

/-- How `tryRead` is left: `return nil`, an error, or no fuel in the model. -/
inductive TryReadExit where
  | nil
  | err (e : ReadError)
  | outOfFuel
deriving DecidableEq, Repr

/-- What a call of `tryRead` leaves behind: the unread part of the stream, the
reader, the packets emitted during the call and the way it returned. -/
structure TryReadResult where
  stream : List (List Byte)
  reader : PacketReader
  emitted : List Packet
  exit : TryReadExit
deriving DecidableEq, Repr

/-- The method `tryRead`. The stream is the list of byte chunks that the
successive `Read` calls return; when it is exhausted `Read` returns `io.EOF`.
Every inner loop gets `2 * len(buffer) + 2` iterations, enough to finish. -/
def PacketReader.tryRead : List (List Byte) → PacketReader → TryReadResult
  | [], r => ⟨[], r, [], .err .eof⟩
  | chunk :: rest, r =>
    let r1 := r.appendChunk chunk
    match r1.drainBuffer (2 * r1.bufLen + 2) with
    | (r2, out, .returnNil) => ⟨rest, r2, out, .nil⟩
    | (r2, out, .fail e) => ⟨rest, r2, out, .err e⟩
    | (r2, out, .outOfFuel) => ⟨rest, r2, out, .outOfFuel⟩
    | (r2, out, .bufferNil) =>
      let res := tryRead rest r2
      { res with emitted := out ++ res.emitted }

/-- What `readLoop` emits last: `end`, or `error` with the error of the
failing `tryRead`; `outOfFuel` is the model giving up. -/
inductive Terminal where
  | ended
  | error (e : ReadError)
  | outOfFuel
deriving DecidableEq, Repr

/-- The method `readLoop`: `tryRead` is called again until it returns an
error. The result lists the emitted packets and the terminal event. -/
def PacketReader.readLoop : Nat → List (List Byte) → PacketReader → List Packet × Terminal
  | 0, _, _ => ([], .outOfFuel)
  | fuel + 1, stream, r =>
    let res := r.tryRead stream
    match res.exit with
    | .nil =>
      let (out, t) := readLoop fuel res.stream res.reader
      (res.emitted ++ out, t)
    | .err .eof => (res.emitted, .ended)
    | .err e => (res.emitted, .error e)
    | .outOfFuel => (res.emitted, .outOfFuel)

/-- Bit `k` of the byte `b` inverted. -/
def flipBit (b : Byte) (k : Fin 8) : Byte :=
  ⟨(b.val ^^^ 2 ^ k.val) % 256, Nat.mod_lt _ (by decide)⟩

/-- The byte string `bytes` with bit `k` of the byte at index `i` inverted. -/
def flipAt : List Byte → Nat → Fin 8 → List Byte
  | [], _, _ => []
  | b :: t, 0, k => flipBit b k :: t
  | b :: t, i + 1, k => b :: flipAt t i k

/-- The buffer field holding the pending bytes `acc`: nil when there are none. -/
def bufOf (acc : List Byte) : Option (List Byte) :=
  if acc = [] then none else some acc

/-- The reads of a stream that holds `bytes`, each one filling the 16384-byte
buffer of `appendChunk` as long as that many bytes are left. -/
def fullReads : Nat → List Byte → List (List Byte)
  | 0, bytes => [bytes]
  | fuel + 1, bytes =>
    if bytes.length ≤ 16384 then [bytes]
    else bytes.take 16384 :: fullReads fuel (bytes.drop 16384)

/-- An `A_WRTE` packet with `2 ^ 32` zero payload bytes, bit 0 of its first
payload byte inverted. -/
def oversizeCorrupted : List Byte :=
  flipAt (Assemble A_WRTE 1 2 (List.replicate 4294967296 0)) 24 0

/-- The reads that deliver `oversizeCorrupted`: the 24 header bytes first, the
rest in buffer-sized pieces. -/
def oversizeReads : List (List Byte) :=
  oversizeCorrupted.take 24 :: fullReads 4294967296 (oversizeCorrupted.drop 24)

/-! ## Go library functions used by `pkg/adb/protocol.go` -/

/-- The error kinds of `strconv.NumError`: `ErrSyntax` and `ErrRange`. -/
inductive NumError where
  | syntaxErr
  | rangeErr
deriving DecidableEq, Repr

/-- The digit value `strconv.ParseUint` gives to the byte `c`: `c - '0'` for
a decimal digit, `lower(c) - 'a' + 10` for a letter, where `lower(c)` is
`c | ('x' - 'X')`. -/
def digitVal (c : Byte) : Option Nat :=
  if 48 ≤ c.val ∧ c.val ≤ 57 then some (c.val - 48)
  else if 97 ≤ (c.val ||| 32) ∧ (c.val ||| 32) ≤ 122 then some ((c.val ||| 32) - 97 + 10)
  else none

/-- The digit loop of `strconv.ParseUint(s, base, bitSize)` with
`cutoff = maxUint64 / base + 1` and `maxVal = 2 ^ bitSize - 1`; on a range
error Go returns `maxVal` together with the error. -/
def parseUintLoop (base cutoff maxVal : Nat) : List Byte → Nat → Nat × Option NumError
  | [], n => (n, none)
  | c :: rest, n =>
    match digitVal c with
    | none => (0, some .syntaxErr)
    | some d =>
      if d ≥ base then (0, some .syntaxErr)
      else if n ≥ cutoff then (maxVal, some .rangeErr)
      else if n * base + d > maxVal then (maxVal, some .rangeErr)
      else parseUintLoop base cutoff maxVal rest (n * base + d)

/-- The call `strconv.ParseUint(s, 16, 32)`. -/
def ParseUint16_32 (s : List Byte) : Nat × Option NumError :=
  if s = [] then (0, some .syntaxErr)
  else parseUintLoop 16 (2 ^ 64 / 16) (2 ^ 32 - 1) s 0

/-- The call `strconv.ParseInt(s, 16, 32)`: an optional sign, then
`ParseUint`, then the range check against `cutoff = 2 ^ 31`. -/
def ParseInt16_32 (s : List Byte) : Int × Option NumError :=
  match s with
  | [] => (0, some .syntaxErr)
  | c :: rest =>
    let neg := c.val = 45
    let digits := if c.val = 43 ∨ c.val = 45 then rest else c :: rest
    match ParseUint16_32 digits with
    | (_, some .syntaxErr) => (0, some .syntaxErr)
    | (un, _) =>
      if ¬ neg ∧ un ≥ 2 ^ 31 then (2 ^ 31 - 1, some .rangeErr)
      else if neg ∧ un > 2 ^ 31 then (-(2 ^ 31), some .rangeErr)
      else (if neg then -(un : Int) else (un : Int), none)

/-- The upper-case hexadecimal digit of `d < 16` (`"0123456789ABCDEF"[d]`). -/
def hexDigitUpper (d : Nat) : Byte :=
  if d < 10 then ⟨(48 + d) % 256, Nat.mod_lt _ (by decide)⟩
  else ⟨(55 + d) % 256, Nat.mod_lt _ (by decide)⟩

/-- The digit loop of `fmt` for base 16: the digits of `n`, most significant
first, at least one; a 64-bit value has at most 16 of them. -/
def hexDigitsAux : Nat → Nat → List Byte → List Byte
  | 0, _, acc => acc
  | fuel + 1, n, acc =>
    if n / 16 = 0 then hexDigitUpper (n % 16) :: acc
    else hexDigitsAux fuel (n / 16) (hexDigitUpper (n % 16) :: acc)

/-- The text `fmt.Sprintf("%04X", n)`: upper-case hexadecimal, padded with
zeros to four characters, a minus sign counting as one of them. -/
def sprintf04X (n : Int) : List Byte :=
  if n < 0 then
    let ds := hexDigitsAux 16 n.natAbs []
    (45 : Byte) :: (List.replicate (3 - ds.length) (48 : Byte) ++ ds)
  else
    let ds := hexDigitsAux 16 n.toNat []
    List.replicate (4 - ds.length) (48 : Byte) ++ ds

/-! ## `pkg/adb/protocol.go` -/

/-- The errors of the `adb` package that the model tells apart:
`pathNotExist` is `os.PathError` with `os.ErrNotExist`, `unexpectedReply` is
`fmt.Errorf("unexpected reply: %s", reply)`, `panic` is a Go run-time panic
(slice bounds out of range, negative `make` length). -/
inductive AdbError where
  | decodeLength (e : NumError)
  | tooShort
  | incomplete
  | prematureEOF (missingBytes : Int)
  | fail (message : List Byte)
  | unexpected (got : List Byte) (expected : List Byte)
  | pathNotExist (op path : List Byte)
  | unexpectedReply (reply : List Byte)
  | panic
deriving DecidableEq, Repr

/-- The method `Protocol.DecodeLength`. -/
def DecodeLength (length : List Byte) : Except AdbError Int :=
  match ParseInt16_32 length with
  | (val, none) => .ok val
  | (_, some e) => .error (.decodeLength e)

/-- The method `Protocol.EncodeLength`. -/
def EncodeLength (length : Int) : List Byte :=
  sprintf04X length

/-- The method `Protocol.EncodeData`. -/
def EncodeData (data : List Byte) : List Byte :=
  EncodeLength data.length ++ data

/-- The method `Protocol.DecodeData`; the slice expression `data[4 : 4+length]`
panics when `4 + length` is below 4. -/
def DecodeData (data : List Byte) : Except AdbError (List Byte) :=
  if data.length < 4 then .error .tooShort
  else
    match DecodeLength (slice data 0 4) with
    | .error e => .error e
    | .ok length =>
      if (data.length : Int) < 4 + length then .error .incomplete
      else if 4 + length < 4 then .error .panic
      else .ok (slice data 4 (4 + length).toNat)

/-- An upper-case hexadecimal digit character: `0`-`9` or `A`-`F`. -/
def isUpperHex (c : Byte) : Bool :=
  (48 ≤ c.val && c.val ≤ 57) || (65 ≤ c.val && c.val ≤ 70)

/-- The lower-case hexadecimal digit of `d < 16` (`"0123456789abcdef"[d]`). -/
def hexDigitLower (d : Nat) : Byte :=
  if d < 10 then ⟨(48 + d) % 256, Nat.mod_lt _ (by decide)⟩
  else ⟨(87 + d) % 256, Nat.mod_lt _ (by decide)⟩

/-- The digit loop of `fmt` for base 16 with lower-case digits. -/
def hexDigitsLowerAux : Nat → Nat → List Byte → List Byte
  | 0, _, acc => acc
  | fuel + 1, n, acc =>
    if n / 16 = 0 then hexDigitLower (n % 16) :: acc
    else hexDigitsLowerAux fuel (n / 16) (hexDigitLower (n % 16) :: acc)

/-- The text `fmt.Sprintf("%04x", n)`: lower-case hexadecimal, padded with
zeros to four characters, a minus sign counting as one of them. -/
def sprintf04x (n : Int) : List Byte :=
  if n < 0 then
    let ds := hexDigitsLowerAux 16 n.natAbs []
    (45 : Byte) :: (List.replicate (3 - ds.length) (48 : Byte) ++ ds)
  else
    let ds := hexDigitsLowerAux 16 n.toNat []
    List.replicate (4 - ds.length) (48 : Byte) ++ ds

/-- The statement `copy(dst, src)`: the first `min(len(dst), len(src))` bytes
of `dst` are replaced by those of `src`. -/
def copyInto (dst src : List Byte) : List Byte :=
  src.take dst.length ++ dst.drop src.length

/-- The method `Protocol.FormatSync`: the command is copied into the first
four bytes of an 8-byte buffer, the text `Sprintf("%04x", length)` into the
last four. -/
def FormatSync (cmd : List Byte) (length : Int) : List Byte :=
  copyInto (List.replicate 4 0) cmd ++ copyInto (List.replicate 4 0) (sprintf04x length)

/-- The method `Protocol.FormatSyncRequest`. -/
def FormatSyncRequest (cmd path : List Byte) : List Byte :=
  FormatSync cmd path.length ++ path

/-- A hexadecimal digit character in either letter case: `0`-`9`, `a`-`f`,
`A`-`F`. -/
def isHexDigit (c : Byte) : Bool :=
  match digitVal c with
  | some d => decide (d < 16)
  | none => false

/-- The value of a hexadecimal digit character (`0` for any other byte). -/
def hexVal (c : Byte) : Nat :=
  (digitVal c).getD 0

/-! ## `pkg/adb/parser.go` -/

/-- The two errors with which the Go `io` helpers report the end of a stream. -/
inductive IoError where
  | EOF
  | ErrUnexpectedEOF
deriving DecidableEq, Repr

/-- The call `io.ReadFull(stream, buffer)` with `len(buffer) = n`, on a source
that delivers the bytes `stream` and then reports `io.EOF`: the bytes read, the
bytes left in the source and the error. -/
def ReadFull (stream : List Byte) (n : Nat) : List Byte × List Byte × Option IoError :=
  if n ≤ stream.length then (stream.take n, stream.drop n, none)
  else if stream.length = 0 then ([], [], some .EOF)
  else (stream, [], some .ErrUnexpectedEOF)

/-- The call `io.CopyN(dst, stream, n)` on such a source: the bytes handed to
`dst.Write`, the bytes left in the source and the error. For `n ≤ 0` nothing is
read and the error is nil. -/
def CopyN (stream : List Byte) (n : Int) : List Byte × List Byte × Option IoError :=
  if n ≤ 0 then ([], stream, none)
  else if n.toNat ≤ stream.length then (stream.take n.toNat, stream.drop n.toNat, none)
  else (stream, [], some .EOF)

/-- The struct `Parser`: `stream` holds the bytes the source still delivers
before its end. -/
structure Parser where
  stream : List Byte
  ended : Bool
deriving DecidableEq, Repr

/-- The function `NewParser`. -/
def NewParser (stream : List Byte) : Parser :=
  { stream := stream, ended := false }

/-- The method `Parser.ReadBytes`; `make([]byte, length)` panics for a
negative length. -/
def Parser.ReadBytes (p : Parser) (length : Int) : Except AdbError (List Byte) × Parser :=
  if length = 0 then (.ok [], p)
  else if length < 0 then (.error .panic, p)
  else
    match ReadFull p.stream length.toNat with
    | (buffer, rest, none) => (.ok buffer, { p with stream := rest })
    | (buffer, rest, some _) =>
      (.error (.prematureEOF (length - buffer.length)), { p with stream := rest })

/-- The method `Parser.ReadAscii`. -/
def Parser.ReadAscii (p : Parser) (length : Int) : Except AdbError (List Byte) × Parser :=
  p.ReadBytes length

/-- The method `Parser.ReadValue`. -/
def Parser.ReadValue (p : Parser) : Except AdbError (List Byte) × Parser :=
  match p.ReadAscii 4 with
  | (.error e, p1) => (.error e, p1)
  | (.ok lenBytes, p1) =>
    match DecodeLength lenBytes with
    | .error e => (.error e, p1)
    | .ok length => p1.ReadBytes length

/-- The method `Parser.ReadError`: the error it returns. -/
def Parser.ReadError (p : Parser) : AdbError × Parser :=
  match p.ReadValue with
  | (.error e, p1) => (e, p1)
  | (.ok value, p1) => (.fail value, p1)

/-! ## `pkg/adb/sync/pulltransfer.go` -/

/-- The events a transfer reports when it finishes. Progress notifications
are not recorded: they carry the running byte count, which is a field. -/
inductive TransferEvent where
  | error (e : AdbError)
  | ended
deriving DecidableEq, Repr

/-- The struct `PullTransfer`. `writer` is the content received by the
configured `io.Writer` (`none` while it is nil); `written` collects the
arguments of all `Write` calls, in order. -/
structure PullTransfer where
  bytesTransferred : Nat
  writer : Option (List Byte)
  written : List Byte
  events : List TransferEvent
deriving DecidableEq, Repr

/-- The function `NewPullTransfer`. -/
def NewPullTransfer : PullTransfer :=
  { bytesTransferred := 0, writer := none, written := [], events := [] }

/-- The method `PullTransfer.Write`, for a writer that accepts every byte. -/
def PullTransfer.Write (t : PullTransfer) (p : List Byte) : PullTransfer :=
  { t with
    bytesTransferred := t.bytesTransferred + p.length
    writer := t.writer.map (· ++ p)
    written := t.written ++ p }

/-- Modelled from the spec: `PullTransfer.End` is called by `sync.go` but is
not among the sources; the transfer reports `end`. -/
def PullTransfer.End (t : PullTransfer) : PullTransfer :=
  { t with events := t.events ++ [.ended] }

/-- Modelled from the spec: `PullTransfer.EmitError` is called by `sync.go`
but is not among the sources; the transfer reports an `error` event
immediately followed by `end`. -/
def PullTransfer.EmitError (t : PullTransfer) (e : AdbError) : PullTransfer :=
  { t with events := t.events ++ [.error e, .ended] }

/-- The method `Parser.ReadByteFlow` with a `PullTransfer` as target. The
pieces `io.CopyN` passes to `Write` add up to the bytes copied. -/
def Parser.ReadByteFlow (p : Parser) (length : Int) (target : PullTransfer) :
    Option AdbError × Parser × PullTransfer :=
  if length = 0 then (none, p, target)
  else
    match CopyN p.stream length with
    | (copied, rest, none) => (none, { p with stream := rest }, target.Write copied)
    | (copied, rest, some _) =>
      (some (.prematureEOF (length - copied.length)), { p with stream := rest },
        target.Write copied)

/-! ## `pkg/adb/sync.go` -/

/-- The constant `DATA`. -/
def DATA : List Byte := [68, 65, 84, 65]
/-- The constant `DONE`. -/
def DONE : List Byte := [68, 79, 78, 69]
/-- The constant `FAIL`. -/
def FAIL : List Byte := [70, 65, 73, 76]
/-- The constant `OKAY`. -/
def OKAY : List Byte := [79, 75, 65, 89]

/-- The text `DATA, DONE or FAIL`. -/
def expectedPull : List Byte :=
  [68, 65, 84, 65, 44, 32, 68, 79, 78, 69, 32, 111, 114, 32, 70, 65, 73, 76]

/-- The method `Sync.readData` on the parser of the connection; every turn of
its loop takes one unit of fuel, and `none` is the model running out of it. -/
def readData : Nat → Parser → PullTransfer → Option (Parser × PullTransfer)
  | 0, _, _ => none
  | fuel + 1, p, transfer =>
    match p.ReadAscii 4 with
    | (.error e, p1) => some (p1, transfer.EmitError e)
    | (.ok cmd, p1) =>
      if cmd = DATA then
        match p1.ReadBytes 4 with
        | (.error e, p2) => some (p2, transfer.EmitError e)
        | (.ok lenData, p2) =>
          match p2.ReadByteFlow (getUint32 lenData : Nat) transfer with
          | (some e, p3, t3) => some (p3, t3.EmitError e)
          | (none, p3, t3) => readData fuel p3 t3
      else if cmd = DONE then
        match p1.ReadBytes 4 with
        | (.error e, p2) => some (p2, transfer.EmitError e)
        | (.ok _, p2) => some (p2, transfer.End)
      else if cmd = FAIL then
        some (p1.ReadError.2, transfer.EmitError p1.ReadError.1)
      else some (p1, transfer.EmitError (.unexpected cmd expectedPull))

/-- The reply of the device to `RECV`: one `DATA` frame per payload, then the
`DONE` frame with the four timestamp bytes `ts`, then the bytes `rest`. -/
def pullStream (payloads : List (List Byte)) (ts rest : List Byte) : List Byte :=
  (payloads.map fun p => DATA ++ putUint32 p.length ++ p).flatten ++ DONE ++ ts ++ rest

/-! ## `pkg/adb/tcpusb/rollingcounter.go` -/

/-- A Go `int` result: the 64-bit two's complement value of `x`. -/
def wrapInt (x : Int) : Int :=
  (x + 2 ^ 63) % 2 ^ 64 - 2 ^ 63

/-- The struct `RollingCounter`; its fields are Go `int`s. -/
structure RollingCounter where
  max : Int
  min : Int
  now : Int
deriving DecidableEq, Repr

/-- The function `NewRollingCounter`: a `min` of `0` is replaced by `1`. -/
def NewRollingCounter (max min : Int) : RollingCounter :=
  let min := if min = 0 then 1 else min
  { max := max, min := min, now := min }

/-- The method `RollingCounter.Next`: the value returned and the new state. -/
def RollingCounter.Next (c : RollingCounter) : Int × RollingCounter :=
  let now := if c.now ≥ c.max then c.min else c.now
  (wrapInt (now + 1), { c with now := wrapInt (now + 1) })

/-- The counter after `k` calls of `Next`. -/
def RollingCounter.afterCalls (c : RollingCounter) (k : Nat) : RollingCounter :=
  (fun s : RollingCounter => s.Next.2)^[k] c

/-! ## `pkg/adb/tcpusb/service.go`

A `sync.Mutex` is not reentrant: a goroutine that locks a mutex it already
holds waits forever, still holding it. The field `locked` is true while the
mutex is held; a call that finds it true is `blocked`, and when the holder is
the blocked call itself the mutex stays locked for good. A call that waits,
with the mutex held, for a read or a write on the pipe of the transport is
`blocked` in the same way: the other end of the pipe needs the mutex. Every
method body runs under the mutex, so the calls of different goroutines are
atomic steps. -/

/-- How a call ends: it returns (with an error or nil), or it blocks forever. -/
inductive CallResult (ε : Type) where
  | returned (err : Option ε)
  | blocked
deriving DecidableEq, Repr

/-- The errors `Service.Handle` returns. -/
inductive ServiceError where
  | emptyServiceName
  | prematureOKAY
  | prematureWRTE
  | prematureCLSE
  | unexpectedPacket (command : Nat)
deriving DecidableEq, Repr

/-- The events a `Service` emits. -/
inductive ServiceEvent where
  | ended
  | error
deriving DecidableEq, Repr

/-- The backing transport made by `establishTransport`, an `io.Pipe`: the
bytes that went through it and whether it was closed. -/
structure Transport where
  received : List Byte
  closed : Bool
deriving DecidableEq, Repr

/-- The struct `Service`. `socketWrites` lists the byte strings passed to
`s.socket.Write`, `events` the emitted events, `readLoops` the `readLoop`
goroutines that were started and have not returned. -/
structure Service where
  localId : Nat
  remoteId : Nat
  opened : Bool
  ended : Bool
  needAck : Bool
  transport : Option Transport
  locked : Bool
  readLoops : Nat
  socketWrites : List (List Byte)
  events : List ServiceEvent
deriving DecidableEq, Repr

/-- The function `NewService`. -/
def NewService (localId remoteId : Nat) : Service :=
  { localId := localId, remoteId := remoteId, opened := false, ended := false,
    needAck := false, transport := none, locked := false, readLoops := 0,
    socketWrites := [], events := [] }

/-- The method `Service.emit`: it locks the mutex to read the handlers. -/
def Service.emit (s : Service) (event : ServiceEvent) : Service × CallResult ServiceError :=
  if s.locked then (s, .blocked)
  else ({ s with events := s.events ++ [event] }, .returned none)

/-- The method `Service.End`: it locks the mutex, and emits `end` after
unlocking it. -/
def Service.End (s : Service) : Service × CallResult ServiceError :=
  if s.locked then (s, .blocked)
  else if s.ended then (s, .returned none)
  else
    let localId := if s.opened then s.localId else 0
    ({ s with
        transport := s.transport.map fun t => { t with closed := true }
        ended := true
        socketWrites := s.socketWrites ++ [Assemble A_CLSE localId s.remoteId []]
      } : Service).emit .ended

/-- The method `Service.establishTransport`. -/
def Service.establishTransport (data : List Byte) : Except ServiceError Transport :=
  if data.length < 1 then .error .emptyServiceName
  else .ok { received := [], closed := false }

/-- The method `Service.handleOpenPacket`, called with the mutex held. -/
def Service.handleOpenPacket (s : Service) (packet : Packet) :
    Service × CallResult ServiceError :=
  match Service.establishTransport packet.Data with
  | .error e => (s, .returned (some e))
  | .ok transport =>
    ({ s with
        transport := some transport
        socketWrites := s.socketWrites ++ [Assemble A_OKAY s.localId s.remoteId []]
        opened := true
        readLoops := s.readLoops + 1 }, .returned none)

/-- The method `Service.tryPush`: it does nothing. -/
def Service.tryPush (s : Service) : Service := s

/-- The method `Service.handleOkayPacket`, called with the mutex held. -/
def Service.handleOkayPacket (s : Service) (_packet : Packet) :
    Service × CallResult ServiceError :=
  if !s.opened || s.transport.isNone then (s, .returned (some .prematureOKAY))
  else (({ s with needAck := false } : Service).tryPush, .returned none)

/-- The method `Service.handleWritePacket`, called with the mutex held. The
transport is the `io.Pipe` of `establishTransport`, whose `Write` returns only
when a reader has taken the bytes or the pipe is closed. The only reader is
`readLoop`, which needs the mutex, and the pipe is closed only by `End`, which
sets `ended`: the write of a payload does not return. A packet without payload
has a nil `Data`, and nothing is written to the transport. -/
def Service.handleWritePacket (s : Service) (packet : Packet) :
    Service × CallResult ServiceError :=
  if !s.opened || s.transport.isNone then (s, .returned (some .prematureWRTE))
  else if packet.Data ≠ [] then (s, .blocked)
  else
    ({ s with socketWrites := s.socketWrites ++ [Assemble A_OKAY s.localId s.remoteId []] },
      .returned none)

/-- The method `Service.handleClosePacket`, called with the mutex held: it
calls `End`, which locks the mutex again. -/
def Service.handleClosePacket (s : Service) (_packet : Packet) :
    Service × CallResult ServiceError :=
  if !s.opened || s.transport.isNone then (s, .returned (some .prematureCLSE))
  else s.End

/-- The method `Service.Handle`: the mutex is locked on entry and unlocked
when the body returns. -/
def Service.Handle (s : Service) (packet : Packet) : Service × CallResult ServiceError :=
  if s.locked then (s, .blocked)
  else
    let s1 := { s with locked := true }
    let (s2, res) :=
      if s1.ended then (s1, CallResult.returned none)
      else if packet.Command = A_OPEN then s1.handleOpenPacket packet
      else if packet.Command = A_OKAY then s1.handleOkayPacket packet
      else if packet.Command = A_WRTE then s1.handleWritePacket packet
      else if packet.Command = A_CLSE then s1.handleClosePacket packet
      else (s1, .returned (some (.unexpectedPacket packet.Command)))
    match res with
    | .blocked => (s2, .blocked)
    | .returned e => ({ s2 with locked := false }, .returned e)

/-- What `r.Read(buffer)` on the transport does in one turn of `readLoop`.
The transport of `establishTransport` is an `io.Pipe`, whose `Read` returns
only when a `Write` is under way or the pipe is closed; the only `Write` is in
`handleWritePacket` and the only `Close` in `End`, both of which need the mutex
that `readLoop` holds while it reads. On this transport the read is `pending`:
it does not return. The results `data`, `eof` and `failed` are those of a
transport whose `Read` returns. -/
inductive ReadResult where
  | data (bytes : List Byte)
  | eof
  | failed
  | pending
deriving DecidableEq, Repr

/-- One turn of the loop of `Service.readLoop`, for a transport read that
does `r`. The second component tells whether the loop goes on, returned, or
is blocked: the mutex is held during the read, and `emit` and `End` are called
with the mutex held. -/
def Service.readLoopTurn (s : Service) (r : ReadResult) : Service × CallResult Unit :=
  if s.locked then (s, .blocked)
  else if s.ended then ({ s with readLoops := s.readLoops - 1 }, .returned (some ()))
  else if s.needAck then (s, .returned none)
  else
    match s.transport with
    | none => (s, .returned none)
    | some _ =>
      match r with
      | .pending => ({ s with locked := true }, .blocked)
      | .failed => ({ s with locked := true }, .blocked)
      | .eof => ({ s with locked := true }, .blocked)
      | .data bytes =>
        if bytes.length > 0 then
          ({ s with
              socketWrites := s.socketWrites ++ [Assemble A_WRTE s.localId s.remoteId bytes]
              needAck := true }, .returned none)
        else (s, .returned none)

/-- What can happen to a `Service`: a packet is handled, `End` is called from
outside, or a running `readLoop` takes a turn. -/
inductive ServiceAction where
  | handle (packet : Packet)
  | endCall
  | loopTurn (r : ReadResult)
deriving DecidableEq, Repr

/-- The state after one action. -/
def Service.step (s : Service) : ServiceAction → Service
  | .handle packet => (s.Handle packet).1
  | .endCall => s.End.1
  | .loopTurn r => if s.readLoops = 0 then s else (s.readLoopTurn r).1

/-- The state after a list of actions. -/
def Service.run (s : Service) (actions : List ServiceAction) : Service :=
  actions.foldl Service.step s

/-- The command field of an assembled packet. -/
def wireCommand (bytes : List Byte) : Nat :=
  getUint32 (slice bytes 0 4)

/-- What the peer of a stream observes: an `A_WRTE` sent to it, or an
`A_OKAY` of its own that the service accepted. -/
inductive CreditEvent where
  | wrte
  | okay
deriving DecidableEq, Repr

/-- The credit events of one action taken in state `s`. -/
def Service.stepEvents (s : Service) (a : ServiceAction) : List CreditEvent :=
  (match a with
    | .handle packet =>
      if packet.Command = A_OKAY ∧ (s.Handle packet).2 = .returned none ∧ ¬ s.ended
      then [CreditEvent.okay] else []
    | _ => [])
  ++ (((s.step a).socketWrites.drop s.socketWrites.length).filter
        fun w => wireCommand w = A_WRTE).map fun _ => CreditEvent.wrte

/-- The credit events of a list of actions, in order. -/
def Service.trace : Service → List ServiceAction → List CreditEvent
  | _, [] => []
  | s, a :: rest => s.stepEvents a ++ (s.step a).trace rest

/-- The number of `A_WRTE` packets not yet acknowledged after the events
`evs`, starting from `n`. -/
def outstanding (n : Nat) : List CreditEvent → Nat
  | [] => n
  | .wrte :: rest => outstanding (n + 1) rest
  | .okay :: rest => outstanding 0 rest

/-- Whether no `A_WRTE` of `evs` is sent while another one is unacknowledged,
`n` being the number unacknowledged at the start. -/
def creditOfOne (n : Nat) : List CreditEvent → Bool
  | [] => true
  | .wrte :: rest => n = 0 && creditOfOne 1 rest
  | .okay :: rest => creditOfOne 0 rest

/-! ## `pkg/adb/tcpusb/servicemap.go` -/

/-- The struct `ServiceMap`: the Go map `remotes` as an association list with
distinct keys, and the counter `count`. -/
structure ServiceMap where
  remotes : List (Nat × Service)
  count : Int
deriving DecidableEq, Repr

/-- The function `NewServiceMap`. -/
def NewServiceMap : ServiceMap :=
  { remotes := [], count := 0 }

/-- The method `ServiceMap.Get`: `none` is the nil service. -/
def ServiceMap.Get (m : ServiceMap) (remoteId : Nat) : Option Service :=
  m.remotes.lookup remoteId

/-- The method `ServiceMap.Insert`: `none` is the error for a key in use,
which is returned before the map is written. -/
def ServiceMap.Insert (m : ServiceMap) (remoteId : Nat) (socket : Service) :
    Option ServiceMap :=
  match m.remotes.lookup remoteId with
  | some _ => none
  | none =>
    some { remotes := m.remotes ++ [(remoteId, socket)], count := wrapInt (m.count + 1) }

/-- The map a call of `Insert` leaves behind. -/
def ServiceMap.afterInsert (m : ServiceMap) (remoteId : Nat) (socket : Service) : ServiceMap :=
  (m.Insert remoteId socket).getD m

/-- The method `ServiceMap.Remove`: the map afterwards. -/
def ServiceMap.Remove (m : ServiceMap) (remoteId : Nat) : ServiceMap :=
  match m.remotes.lookup remoteId with
  | some _ =>
    { remotes := m.remotes.filter (fun e => e.1 ≠ remoteId), count := wrapInt (m.count - 1) }
  | none => m

/-- The method `ServiceMap.Count`. -/
def ServiceMap.Count (m : ServiceMap) : Int :=
  m.count

/-- The map with the service stored under `remoteId` replaced by `service`
(the map holds pointers: a service changed by a call is changed in the map). -/
def ServiceMap.store (m : ServiceMap) (remoteId : Nat) (service : Service) : ServiceMap :=
  { m with remotes := m.remotes.map fun e => if e.1 = remoteId then (e.1, service) else e }

/-- The method `ServiceMap.End`, for services created by
`Socket.handleOpenPacket`: the map mutex is held while every service is ended,
and the `end` handler of a service calls `Remove`, which locks that mutex
again. The call returns only if every service is already ended; `true` in the
second component says that it blocks. -/
def ServiceMap.End (m : ServiceMap) : ServiceMap × Bool :=
  if m.remotes.all (fun e => e.2.ended && !e.2.locked) then (NewServiceMap, false)
  else (m, true)

/-! ## `pkg/adb/tcpusb/socket.go` -/

def UINT32_MAX : Int := 0xFFFFFFFF
def UINT16_MAX : Int := 0xFFFF
def AUTH_TOKEN : Nat := 1
def AUTH_SIGNATURE : Nat := 2
def AUTH_RSAPUBLICKEY : Nat := 3
def TOKEN_LENGTH : Nat := 20

/-- The function `Swap32`. -/
def Swap32 (n : Nat) : Nat :=
  ((n &&& 0xFF) <<< 24 % 2 ^ 32) ||| ((n &&& 0xFF00) <<< 8 % 2 ^ 32)
    ||| ((n &&& 0xFF0000) >>> 8) ||| ((n &&& 0xFF000000) >>> 24)

/-- The errors that arise while a `Socket` handles a packet. -/
inductive SocketError where
  | unauthorized
  | emptyServiceName
  | insertFailed
  | nonExistentService
  | service (e : ServiceError)
  | unknownCommand (command : Nat)
  | tokenFailed
  | publicKeyBeforeSignature
  | unknownAuthMethod (method : Nat)
  | connectionEnded
deriving DecidableEq, Repr

/-- The events a `Socket` emits. -/
inductive SocketEvent where
  | userActivity (packet : Packet)
  | error (e : SocketError)
  | ended
deriving DecidableEq, Repr

/-- The struct `Socket`. `connWrites` lists the byte strings written to the
connection, `connClosed` tells whether `conn.Close` was called, `events` lists
the emitted events. -/
structure Socket where
  ended : Bool
  version : Int
  maxPayload : Int
  authorized : Bool
  syncToken : RollingCounter
  remoteId : RollingCounter
  services : ServiceMap
  token : Option (List Byte)
  signature : Option (List Byte)
  connWrites : List (List Byte)
  connClosed : Bool
  events : List SocketEvent
deriving DecidableEq, Repr

/-- The function `NewSocket`. -/
def NewSocket : Socket :=
  { ended := false, version := 1, maxPayload := 4096, authorized := false,
    syncToken := NewRollingCounter UINT32_MAX 0, remoteId := NewRollingCounter UINT32_MAX 0,
    services := NewServiceMap, token := none, signature := none, connWrites := [],
    connClosed := false, events := [] }

/-- The method `Socket.IsAuthorized`. -/
def Socket.IsAuthorized (s : Socket) : Bool :=
  s.authorized

/-- The method `Socket.emit`. -/
def Socket.emit (s : Socket) (event : SocketEvent) : Socket :=
  { s with events := s.events ++ [event] }

/-- The method `Socket.write`; its callers drop the error. -/
def Socket.write (s : Socket) (data : List Byte) : Socket × Option SocketError :=
  if s.ended then (s, some .connectionEnded)
  else ({ s with connWrites := s.connWrites ++ [data] }, none)

/-- The method `Socket.End`; `true` in the second component says that the call
blocks inside `ServiceMap.End`. -/
def Socket.End (s : Socket) : Socket × Bool :=
  if s.ended then (s, false)
  else
    let s1 := { s with ended := true }
    match s1.services.End with
    | (m, true) => ({ s1 with services := m }, true)
    | (m, false) => (({ s1 with services := m, connClosed := true } : Socket).emit .ended, false)

/-- The method `Socket.emitError`. -/
def Socket.emitError (s : Socket) (err : SocketError) : Socket × Bool :=
  (s.emit (.error err)).End

/-- The method `Socket.handleSyncPacket`. -/
def Socket.handleSyncPacket (s : Socket) (_packet : Packet) : Socket :=
  let (token, counter) := s.syncToken.Next
  (({ s with syncToken := counter } : Socket).write
    (Assemble A_SYNC 1 (token % 2 ^ 32).toNat [])).1

/-- The method `Socket.handleConnectionPacket`. The result of `createToken`
is the parameter `random`: twenty random bytes, or `none` when `rand.Read`
fails. -/
def Socket.handleConnectionPacket (s : Socket) (packet : Packet)
    (random : Option (List Byte)) : Socket × Bool :=
  let maxPayload : Int := packet.Arg1
  let s1 := { s with
    version := (Swap32 packet.Arg0 : Nat)
    maxPayload := if maxPayload > UINT16_MAX then UINT16_MAX else maxPayload }
  match random with
  | none => s1.emitError .tokenFailed
  | some token =>
    ((({ s1 with token := some token } : Socket).write
      (Assemble A_AUTH AUTH_TOKEN 0 token)).1, false)

/-- The method `Socket.handleAuthPacket`. In the `AUTH_RSAPUBLICKEY` case the
source has only a comment where the signature should be verified. A packet
without payload has a nil `Data`, so storing it leaves `s.signature` nil. -/
def Socket.handleAuthPacket (s : Socket) (packet : Packet) : Socket × Bool :=
  if packet.Arg0 = AUTH_SIGNATURE then
    let s1 :=
      if s.signature.isNone then
        { s with signature := if packet.Data = [] then none else some packet.Data }
      else s
    ((s1.write (Assemble A_AUTH AUTH_TOKEN 0 (s1.token.getD []))).1, false)
  else if packet.Arg0 = AUTH_RSAPUBLICKEY then
    if s.signature.isNone then s.emitError .publicKeyBeforeSignature
    else (s, false)
  else s.emitError (.unknownAuthMethod packet.Arg0)

/-- The service after its `end` handler ran: `Socket.handleOpenPacket`
registers a handler that removes it from the map. -/
def Socket.afterServiceCall (s : Socket) (localId : Nat) (before after : Service) : Socket :=
  let s1 := { s with services := s.services.store localId after }
  if after.events.length > before.events.length ∧ after.events.getLast? = some .ended then
    { s1 with services := s1.services.Remove localId }
  else s1

/-- The method `Socket.handleOpenPacket`: the socket, the returned error and
whether the call blocks. -/
def Socket.handleOpenPacket (s : Socket) (packet : Packet) :
    Socket × CallResult SocketError :=
  if !s.authorized then (s, .returned (some .unauthorized))
  else
    let (localId, counter) := s.remoteId.Next
    let s1 := { s with remoteId := counter }
    if packet.Data.length < 2 then (s1, .returned (some .emptyServiceName))
    else
      let id := (localId % 2 ^ 32).toNat
      let service := NewService id packet.Arg0
      match s1.services.Insert id service with
      | none => (s1, .returned (some .insertFailed))
      | some m =>
        let s2 := { s1 with services := m }
        match service.Handle packet with
        | (service1, .blocked) =>
          ({ s2 with services := s2.services.store id service1 }, .blocked)
        | (service1, .returned none) =>
          ({ s2 with services := s2.services.store id service1 }, .returned none)
        | (service1, .returned (some e)) =>
          let s3 := { s2 with services := s2.services.Remove id }
          match service1.End with
          | (_, .blocked) => (s3, .blocked)
          | (_, .returned _) => (s3, .returned (some (.service e)))

/-- The method `Socket.forwardServicePacket`. -/
def Socket.forwardServicePacket (s : Socket) (packet : Packet) :
    Socket × CallResult SocketError :=
  if !s.authorized then (s, .returned (some .unauthorized))
  else
    match s.services.Get packet.Arg1 with
    | none => (s, .returned (some .nonExistentService))
    | some service =>
      match service.Handle packet with
      | (service1, .blocked) =>
        ({ s with services := s.services.store packet.Arg1 service1 }, .blocked)
      | (service1, .returned e) =>
        (s.afterServiceCall packet.Arg1 service service1, .returned (e.map .service))

/-- The method `Socket.handlePacket`; the errors returned by
`handleOpenPacket` and `forwardServicePacket` are dropped. `true` in the
second component says that the call blocks. -/
def Socket.handlePacket (s : Socket) (packet : Packet) (random : Option (List Byte)) :
    Socket × Bool :=
  if s.ended then (s, false)
  else
    let s1 := s.emit (.userActivity packet)
    if packet.Command = A_SYNC then (s1.handleSyncPacket packet, false)
    else if packet.Command = A_CNXN then s1.handleConnectionPacket packet random
    else if packet.Command = A_OPEN then
      match s1.handleOpenPacket packet with
      | (s2, .blocked) => (s2, true)
      | (s2, .returned _) => (s2, false)
    else if packet.Command = A_OKAY ∨ packet.Command = A_WRTE ∨ packet.Command = A_CLSE then
      match s1.forwardServicePacket packet with
      | (s2, .blocked) => (s2, true)
      | (s2, .returned _) => (s2, false)
    else if packet.Command = A_AUTH then s1.handleAuthPacket packet
    else s1.emitError (.unknownCommand packet.Command)

/-- A socket handling packets one after the other; `random` is used by every
`createToken`. A blocked call leaves the later packets unhandled. -/
def Socket.handleAll (s : Socket) (random : Option (List Byte)) : List Packet → Socket × Bool
  | [] => (s, false)
  | packet :: rest =>
    match s.handlePacket packet random with
    | (s1, true) => (s1, true)
    | (s1, false) => s1.handleAll random rest

/-- The text `host::`. -/
def hostBanner : List Byte := [104, 111, 115, 116, 58, 58]

/-- The text `device::`. -/
def deviceBanner : List Byte := [100, 101, 118, 105, 99, 101, 58, 58]

/-- The handshake of the peer: `A_CNXN` with version `0x01000000`, maximum
payload `0x1000` and payload `host::`, then `A_AUTH` with a signature, then
`A_AUTH` with a public key. -/
def handshake (signature publicKey : List Byte) : List Packet :=
  [NewPacket A_CNXN 0x01000000 0x1000 hostBanner,
   NewPacket A_AUTH AUTH_SIGNATURE 0 signature,
   NewPacket A_AUTH AUTH_RSAPUBLICKEY 0 publicKey]

/-- The ids of the streams that `A_OPEN` packets open on an authorized socket
whose id counter stands at `n`: every packet draws the next id, `n + 1` for the
first one, and it opens a stream under that id when its payload, the service
name, has at least two bytes. -/
def streamIds (n : Nat) : List Packet → List Nat
  | [] => []
  | p :: rest => (if p.Data.length < 2 then [] else [n + 1]) ++ streamIds (n + 1) rest

/-- An `A_OPEN` packet for the service `shell:` with remote id `7`. -/
def openShell : Packet :=
  NewPacket A_OPEN 7 0 [115, 104, 101, 108, 108, 58, 0]

/-- A service with local id `1` and remote id `7` after it handled an
`A_OPEN` packet. -/
def openedService : Service :=
  ((NewService 1 7).Handle openShell).1

/-! ## `pkg/adb/tracker.go`

The tracker guards its fields with a `sync.RWMutex`. `RLock` waits as long
as the write lock is held, also when the holder is the calling goroutine. -/

/-- The struct `Device`. -/
structure Device where
  ID : String
  State : String
  Props : List (String × String)
deriving DecidableEq, Repr

/-- The function `NewDevice`. -/
def NewDevice (id state : String) : Device :=
  { ID := id, State := state, Props := [] }

/-- The struct `ChangeSet`. -/
structure ChangeSet where
  Removed : List Device
  Changed : List Device
  Added : List Device
deriving DecidableEq, Repr

/-- The events of a `Tracker`, with their data. -/
inductive TrackerEvent where
  | add (device : Device)
  | remove (device : Device)
  | change (device : Device)
  | changeSet (changes : ChangeSet)
  | ended
deriving DecidableEq, Repr

/-- The struct `Tracker`: the map `deviceMap` is an association list,
`writeLocked` tells whether `mu` is write-locked, `emitted` lists the events
handed to the listeners. -/
structure Tracker where
  deviceList : List Device
  deviceMap : List (String × Device)
  writeLocked : Bool
  emitted : List TrackerEvent
deriving DecidableEq, Repr

/-- The tracker made by `NewTracker`. -/
def NewTracker : Tracker :=
  { deviceList := [], deviceMap := [], writeLocked := false, emitted := [] }

/-- The statement `m[key] = device` on a Go map. -/
def mapSet (m : List (String × Device)) (key : String) (device : Device) :
    List (String × Device) :=
  (key, device) :: m.filter fun e => e.1 ≠ key

/-- The method `Tracker.emit`: it takes the read lock before it copies the
handlers, so it never gets further while the write lock is held. `true` in the
second component says that the call blocks. -/
def Tracker.emit (t : Tracker) (event : TrackerEvent) : Tracker × Bool :=
  if t.writeLocked then (t, true)
  else ({ t with emitted := t.emitted ++ [event] }, false)

/-- The first loop of `Tracker.update`, over the new list: the tracker, the
change set, the new map, and whether an `emit` blocked. -/
def Tracker.updateAdded :
    List Device → Tracker → ChangeSet → List (String × Device) →
      Tracker × ChangeSet × List (String × Device) × Bool
  | [], t, changes, newMap => (t, changes, newMap, false)
  | device :: rest, t, changes, newMap =>
    let newMap1 := mapSet newMap device.ID device
    match t.deviceMap.lookup device.ID with
    | some oldDevice =>
      if oldDevice.State ≠ device.State then
        let changes1 := { changes with Changed := changes.Changed ++ [device] }
        match t.emit (.change device) with
        | (t1, true) => (t1, changes1, newMap1, true)
        | (t1, false) => updateAdded rest t1 changes1 newMap1
      else updateAdded rest t changes newMap1
    | none =>
      let changes1 := { changes with Added := changes.Added ++ [device] }
      match t.emit (.add device) with
      | (t1, true) => (t1, changes1, newMap1, true)
      | (t1, false) => updateAdded rest t1 changes1 newMap1

/-- The second loop of `Tracker.update`, over the old list. -/
def Tracker.updateRemoved (newMap : List (String × Device)) :
    List Device → Tracker → ChangeSet → Tracker × ChangeSet × Bool
  | [], t, changes => (t, changes, false)
  | device :: rest, t, changes =>
    match newMap.lookup device.ID with
    | some _ => updateRemoved newMap rest t changes
    | none =>
      let changes1 := { changes with Removed := changes.Removed ++ [device] }
      match t.emit (.remove device) with
      | (t1, true) => (t1, changes1, true)
      | (t1, false) => updateRemoved newMap rest t1 changes1

/-- The method `Tracker.update`: the write lock is taken on entry and released
when the body returns. `true` in the second component says that the call
blocks, and then the lock stays held. -/
def Tracker.update (t : Tracker) (newList : List Device) : Tracker × Bool :=
  if t.writeLocked then (t, true)
  else
    let t0 := { t with writeLocked := true }
    match Tracker.updateAdded newList t0 ⟨[], [], []⟩ [] with
    | (t1, _, _, true) => (t1, true)
    | (t1, changes1, newMap, false) =>
      match Tracker.updateRemoved newMap t1.deviceList t1 changes1 with
      | (t2, _, true) => (t2, true)
      | (t2, changes, false) =>
        let t3 := { t2 with deviceList := newList, deviceMap := newMap }
        if changes.Added.length > 0 ∨ changes.Changed.length > 0 ∨ changes.Removed.length > 0
        then
          match t3.emit (.changeSet changes) with
          | (t4, true) => (t4, true)
          | (t4, false) => ({ t4 with writeLocked := false }, false)
        else ({ t3 with writeLocked := false }, false)

/-! ## `pkg/adb/sync.go`: `Stat` and the end of a push -/

/-- The constant `STAT`. -/
def STAT : List Byte := [83, 84, 65, 84]

/-- The text `STAT or FAIL`. -/
def expectedStat : List Byte := [83, 84, 65, 84, 32, 111, 114, 32, 70, 65, 73, 76]

/-- The text `stat`. -/
def opStat : List Byte := [115, 116, 97, 116]

/-- Modelled from the spec: the `Stats` value that `NewStats(mode, size, mtime)`
of package `adb` builds from three `uint32`s; only `sync.NewStats`, with other
parameter types, is among the sources. -/
structure Stats where
  mode : Nat
  size : Nat
  mtime : Nat
deriving DecidableEq, Repr

/-- The struct `Sync`: the byte strings written to the connection and the
parser of the connection. Writes to the connection succeed. -/
structure Sync where
  connWrites : List (List Byte)
  parser : Parser
deriving DecidableEq, Repr

/-- The method `Sync.sendCommandWithLength`. -/
def Sync.sendCommandWithLength (s : Sync) (cmd : List Byte) (length : Int) : Sync :=
  { s with connWrites := s.connWrites ++ [FormatSync cmd length] }

/-- The method `Sync.sendCommandWithArg`. -/
def Sync.sendCommandWithArg (s : Sync) (cmd arg : List Byte) : Sync :=
  { s with connWrites := s.connWrites ++ [FormatSyncRequest cmd arg] }

/-- The method `Sync.enoent`. -/
def Sync.enoent (path : List Byte) : AdbError :=
  .pathNotExist opStat path

/-- The method `Sync.Stat`. -/
def Sync.Stat (s : Sync) (path : List Byte) : Except AdbError Stats × Sync :=
  let s1 := s.sendCommandWithArg STAT path
  match s1.parser.ReadAscii 4 with
  | (.error e, p1) => (.error e, { s1 with parser := p1 })
  | (.ok reply, p1) =>
    if reply = STAT then
      match p1.ReadBytes 12 with
      | (.error e, p2) => (.error e, { s1 with parser := p2 })
      | (.ok statData, p2) =>
        let mode := getUint32 (slice statData 0 4)
        let size := getUint32 (slice statData 4 8)
        let mtime := getUint32 (slice statData 8 12)
        if mode = 0 then (.error (Sync.enoent path), { s1 with parser := p2 })
        else (.ok { mode := mode, size := size, mtime := mtime }, { s1 with parser := p2 })
    else if reply = FAIL then
      (.error p1.ReadError.1, { s1 with parser := p1.ReadError.2 })
    else (.error (.unexpected reply expectedStat), { s1 with parser := p1 })

/-- Modelled from the spec: the transfer object of a push. `Push`, `End` and
`EmitError` are called by `sync.go` but are not among the sources: `Push(n)`
adds `n` to the bytes transferred, `End` reports `end`, `EmitError` reports an
`error` event immediately followed by `end`. -/
structure PushTransfer where
  bytesTransferred : Nat
  events : List TransferEvent
deriving DecidableEq, Repr

/-- The function `NewPushTransfer`. -/
def NewPushTransfer : PushTransfer :=
  { bytesTransferred := 0, events := [] }

/-- Modelled from the spec: `PushTransfer.Push`. -/
def PushTransfer.Push (t : PushTransfer) (n : Nat) : PushTransfer :=
  { t with bytesTransferred := t.bytesTransferred + n }

/-- Modelled from the spec: `PushTransfer.End`. -/
def PushTransfer.End (t : PushTransfer) : PushTransfer :=
  { t with events := t.events ++ [.ended] }

/-- Modelled from the spec: `PushTransfer.EmitError`. -/
def PushTransfer.EmitError (t : PushTransfer) (e : AdbError) : PushTransfer :=
  { t with events := t.events ++ [.error e, .ended] }

/-- The loop of `Sync.writeData`: `reads` lists the non-empty chunks that the
successive `stream.Read` calls return before `io.EOF`. -/
def Sync.writeChunks : List (List Byte) → Sync → PushTransfer → Sync × PushTransfer
  | [], s, transfer => (s, transfer)
  | chunk :: rest, s, transfer =>
    if chunk.length > 0 then
      let s1 := s.sendCommandWithLength DATA chunk.length
      let s2 := { s1 with connWrites := s1.connWrites ++ [chunk] }
      writeChunks rest s2 (transfer.Push chunk.length)
    else writeChunks rest s transfer

/-- The method `Sync.writeData`. -/
def Sync.writeData (s : Sync) (reads : List (List Byte)) (timestamp : Int)
    (transfer : PushTransfer) : Sync × PushTransfer :=
  let (s1, t1) := Sync.writeChunks reads s transfer
  let s2 := s1.sendCommandWithLength DONE (wrapInt timestamp)
  match s2.parser.ReadAscii 4 with
  | (.error e, p1) => ({ s2 with parser := p1 }, t1.EmitError e)
  | (.ok reply, p1) =>
    if reply ≠ OKAY then ({ s2 with parser := p1 }, t1.EmitError (.unexpectedReply reply))
    else ({ s2 with parser := p1 }, t1.End)

/-! ## Go library functions used by `pkg/adb/command/host/devices.go` -/

/-- The call `strconv.ParseUint(s, 16, 64)`. -/
def ParseUint16_64 (s : List Byte) : Nat × Option NumError :=
  if s = [] then (0, some .syntaxErr)
  else parseUintLoop 16 (2 ^ 64 / 16) (2 ^ 64 - 1) s 0

/-- The call `strconv.ParseInt(s, 16, 64)`: an optional sign, then
`ParseUint`, then the range check against `cutoff = 2 ^ 63`. -/
def ParseInt16_64 (s : List Byte) : Int × Option NumError :=
  match s with
  | [] => (0, some .syntaxErr)
  | c :: rest =>
    let neg := c.val = 45
    let digits := if c.val = 43 ∨ c.val = 45 then rest else c :: rest
    match ParseUint16_64 digits with
    | (_, some .syntaxErr) => (0, some .syntaxErr)
    | (un, _) =>
      if ¬ neg ∧ un ≥ 2 ^ 63 then (2 ^ 63 - 1, some .rangeErr)
      else if neg ∧ un > 2 ^ 63 then (-(2 ^ 63), some .rangeErr)
      else (if neg then -(un : Int) else (un : Int), none)

/-- The width in bytes of the white-space rune (`unicode.IsSpace`) that the
byte values `s` start with, `0` when they start with none: the ASCII
characters tab, line feed, vertical tab, form feed, carriage return and space,
and the UTF-8 encodings of U+0085, U+00A0, U+1680, U+2000 to U+200A, U+2028,
U+2029, U+202F, U+205F and U+3000. -/
def spaceRuneLen (s : List Nat) : Nat :=
  match s with
  | [] => 0
  | c :: rest =>
    if c = 9 ∨ c = 10 ∨ c = 11 ∨ c = 12 ∨ c = 13 ∨ c = 32 then 1
    else
      match rest with
      | [] => 0
      | d :: rest2 =>
        if c = 0xC2 ∧ (d = 0x85 ∨ d = 0xA0) then 2
        else
          match rest2 with
          | [] => 0
          | e :: _ =>
            if c = 0xE1 ∧ d = 0x9A ∧ e = 0x80 then 3
            else if c = 0xE2 ∧ d = 0x80
                ∧ ((0x80 ≤ e ∧ e ≤ 0x8A) ∨ e = 0xA8 ∨ e = 0xA9 ∨ e = 0xAF) then 3
            else if c = 0xE2 ∧ d = 0x81 ∧ e = 0x9F then 3
            else if c = 0xE3 ∧ d = 0x80 ∧ e = 0x80 then 3
            else 0

/-- The width in bytes of the white-space rune that the string ends with,
given its byte values last byte first; `0` when it ends with none. -/
def spaceRuneLenLast (r : List Nat) : Nat :=
  match r with
  | [] => 0
  | e :: rest =>
    if spaceRuneLen [e] = 1 then 1
    else
      match rest with
      | [] => 0
      | d :: rest2 =>
        if spaceRuneLen [d, e] = 2 then 2
        else
          match rest2 with
          | [] => 0
          | c :: _ => if spaceRuneLen [c, d, e] = 3 then 3 else 0

/-- The loop of `strings.TrimLeftFunc(s, unicode.IsSpace)`. -/
def trimLeftSpace : Nat → List Byte → List Byte
  | 0, s => s
  | fuel + 1, s =>
    if spaceRuneLen (s.map Fin.val) = 0 then s
    else trimLeftSpace fuel (s.drop (spaceRuneLen (s.map Fin.val)))

/-- The loop of `strings.TrimRightFunc(s, unicode.IsSpace)`, on the string
with its last byte first. -/
def trimRightSpace : Nat → List Byte → List Byte
  | 0, r => r
  | fuel + 1, r =>
    if spaceRuneLenLast (r.map Fin.val) = 0 then r
    else trimRightSpace fuel (r.drop (spaceRuneLenLast (r.map Fin.val)))

/-- The function `strings.TrimSpace`: the string without its leading and
trailing white-space runes. -/
def TrimSpace (s : List Byte) : List Byte :=
  (trimRightSpace s.length (trimLeftSpace s.length s).reverse).reverse

/-- The function `strings.Split(s, sep)` for a separator of one byte. -/
def splitByte (sep : Byte) : List Byte → List (List Byte)
  | [] => [[]]
  | c :: rest =>
    if c = sep then [] :: splitByte sep rest
    else
      match splitByte sep rest with
      | [] => [[c]]
      | h :: t => (c :: h) :: t

/-- The loop of `strings.Fields`: `cur` is the field being read, `acc` holds
the fields that are complete. -/
def fieldsAux : Nat → List Byte → List Byte → List (List Byte) → List (List Byte)
  | 0, _, cur, acc => if cur = [] then acc else acc ++ [cur]
  | fuel + 1, s, cur, acc =>
    match s with
    | [] => if cur = [] then acc else acc ++ [cur]
    | c :: rest =>
      if spaceRuneLen (s.map Fin.val) = 0 then fieldsAux fuel rest (cur ++ [c]) acc
      else fieldsAux fuel (s.drop (spaceRuneLen (s.map Fin.val))) []
        (if cur = [] then acc else acc ++ [cur])

/-- The function `strings.Fields`. -/
def Fields (s : List Byte) : List (List Byte) :=
  fieldsAux (s.length + 1) s [] []

/-- Whether `sub` occurs in `s`. -/
def containsBytes (sub : List Byte) : List Byte → Bool
  | [] => sub.isPrefixOf []
  | c :: rest => sub.isPrefixOf (c :: rest) || containsBytes sub rest

/-! ## `pkg/adb/command/host/devices.go` -/

/-- The struct `Device` of package `host`; `Type_` is its field `Type`. -/
structure host.Device where
  ID : List Byte
  Type_ : List Byte
  Path : List Byte
deriving DecidableEq, Repr

/-- The struct `BaseCommand`. `sender` gives the error text that the callback
returns for a command, `none` for `nil`. `reader k n` gives what the callback
returns when it is called with `n` after `k` earlier calls: the error text or
the string read. -/
structure BaseCommand where
  sender : List Byte → Option (List Byte)
  reader : Nat → Nat → Except (List Byte) (List Byte)

/-- The errors built with `fmt.Errorf` that wrap the error of a callback, by
what failed. -/
inductive HostStep where
  | send
  | reply
  | detail
  | errMsg
  | deviceList
  | versionValue
deriving DecidableEq, Repr

/-- The errors the `Execute` methods return. `failText` is
`fmt.Errorf(errMsg)` for the text read after `OKAY` or `FAIL`,
`unexpectedResponse` is
`fmt.Errorf("unexpected response: %s, expected OKAY or FAIL", reply)`,
`invalidDevice` is the error for a device line of the wrong shape, `num` is
the `*strconv.NumError` of `strconv.ParseInt`. -/
inductive HostError where
  | wrapped (step : HostStep) (err : List Byte)
  | failText (message : List Byte)
  | unexpectedResponse (reply : List Byte)
  | invalidDevice (line : List Byte)
  | num (e : NumError)
deriving DecidableEq, Repr

/-- The `interface{}` results of the `Execute` methods: `nil`, a `[]Device`
(`none` for the nil slice), a `bool`, an `int64`, a `*deviceTracker`. -/
inductive HostValue where
  | nil
  | devices (ds : Option (List host.Device))
  | bool (b : Bool)
  | version (v : Int)
  | tracker
deriving DecidableEq, Repr

/-- The text `host:connect:`. -/
def hostConnect : List Byte := [104, 111, 115, 116, 58, 99, 111, 110, 110, 101, 99, 116, 58]

/-- The text `host:devices`. -/
def hostDevices : List Byte := [104, 111, 115, 116, 58, 100, 101, 118, 105, 99, 101, 115]

/-- The text `host:devices-l`. -/
def hostDevicesL : List Byte := [104, 111, 115, 116, 58, 100, 101, 118, 105, 99, 101, 115, 45, 108]

/-- The text `host:kill`. -/
def hostKill : List Byte := [104, 111, 115, 116, 58, 107, 105, 108, 108]

/-- The text `host:version`. -/
def hostVersion : List Byte := [104, 111, 115, 116, 58, 118, 101, 114, 115, 105, 111, 110]

/-- The text `host:transport:`. -/
def hostTransport : List Byte := [104, 111, 115, 116, 58, 116, 114, 97, 110, 115, 112, 111, 114, 116, 58]

/-- The text `host:track-devices`. -/
def hostTrackDevices : List Byte := [104, 111, 115, 116, 58, 116, 114, 97, 99, 107, 45, 100, 101, 118, 105, 99, 101, 115]

/-- The regular expression `reOK`, `connected to|already connected`, applied
with `MatchString`. -/
def reOK (value : List Byte) : Bool :=
  containsBytes [99, 111, 110, 110, 101, 99, 116, 101, 100, 32, 116, 111] value || containsBytes [97, 108, 114, 101, 97, 100, 121, 32, 99, 111, 110, 110, 101, 99, 116, 101, 100] value

/-- The `FAIL` case shared by the `Execute` methods: the error message is read
with `reader(0)`, the second call of the reader. -/
def BaseCommand.readFail (c : BaseCommand) : Option HostError :=
  match c.reader 1 0 with
  | .error err => some (.wrapped .errMsg err)
  | .ok errMsg => some (.failText errMsg)

/-- The method `BaseCommand.Execute` (`host:connect`). -/
def BaseCommand.Execute (c : BaseCommand) (host port : List Byte) :
    List Byte × Option HostError :=
  match c.sender (hostConnect ++ host ++ [58] ++ port) with
  | some err => ([], some (.wrapped .send err))
  | none =>
    match c.reader 0 4 with
    | .error err => ([], some (.wrapped .reply err))
    | .ok reply =>
      if reply = OKAY then
        match c.reader 1 0 with
        | .error err => ([], some (.wrapped .detail err))
        | .ok value =>
          if reOK value then (host ++ [58] ++ port, none)
          else ([], some (.failText value))
      else if reply = FAIL then ([], c.readFail)
      else ([], some (.unexpectedResponse reply))

/-- The loop of `DevicesCommand.parseDevices` over the lines. -/
def DevicesCommand.parseLines :
    List (List Byte) → List host.Device → Option (List host.Device) × Option HostError
  | [], devices => (some devices, none)
  | line :: rest, devices =>
    if TrimSpace line = [] then parseLines rest devices
    else
      match splitByte 9 (TrimSpace line) with
      | [id, type] => parseLines rest (devices ++ [{ ID := id, Type_ := type, Path := [] }])
      | _ => (none, some (.invalidDevice (TrimSpace line)))

/-- The method `DevicesCommand.parseDevices`. -/
def DevicesCommand.parseDevices (value : List Byte) :
    Option (List host.Device) × Option HostError :=
  if value = [] then (some [], none)
  else DevicesCommand.parseLines (splitByte 10 value) []

/-- The method `DevicesCommand.readDevices`, as the second call of the
reader. -/
def DevicesCommand.readDevices (c : BaseCommand) :
    Option (List host.Device) × Option HostError :=
  match c.reader 1 0 with
  | .error err => (none, some (.wrapped .deviceList err))
  | .ok value => DevicesCommand.parseDevices value

/-- The method `DevicesCommand.Execute`. -/
def DevicesCommand.Execute (c : BaseCommand) : HostValue × Option HostError :=
  match c.sender hostDevices with
  | some err => (.nil, some (.wrapped .send err))
  | none =>
    match c.reader 0 4 with
    | .error err => (.nil, some (.wrapped .reply err))
    | .ok reply =>
      if reply = OKAY then
        (.devices (DevicesCommand.readDevices c).1, (DevicesCommand.readDevices c).2)
      else if reply = FAIL then (.nil, c.readFail)
      else (.nil, some (.unexpectedResponse reply))

/-- The loop of `DevicesWithPathsCommand.parseDevices` over the lines. -/
def DevicesWithPathsCommand.parseLines :
    List (List Byte) → List host.Device → Option (List host.Device) × Option HostError
  | [], devices => (some devices, none)
  | line :: rest, devices =>
    if TrimSpace line = [] then parseLines rest devices
    else
      match Fields (TrimSpace line) with
      | id :: type :: path :: _ =>
        parseLines rest (devices ++ [{ ID := id, Type_ := type, Path := path }])
      | _ => (none, some (.invalidDevice (TrimSpace line)))

/-- The method `DevicesWithPathsCommand.parseDevices`. -/
def DevicesWithPathsCommand.parseDevices (value : List Byte) :
    Option (List host.Device) × Option HostError :=
  if value = [] then (some [], none)
  else DevicesWithPathsCommand.parseLines (splitByte 10 value) []

/-- The method `DevicesWithPathsCommand.readDevices`, as the second call of
the reader. -/
def DevicesWithPathsCommand.readDevices (c : BaseCommand) :
    Option (List host.Device) × Option HostError :=
  match c.reader 1 0 with
  | .error err => (none, some (.wrapped .deviceList err))
  | .ok value => DevicesWithPathsCommand.parseDevices value

/-- The method `DevicesWithPathsCommand.Execute`. -/
def DevicesWithPathsCommand.Execute (c : BaseCommand) : HostValue × Option HostError :=
  match c.sender hostDevicesL with
  | some err => (.nil, some (.wrapped .send err))
  | none =>
    match c.reader 0 4 with
    | .error err => (.nil, some (.wrapped .reply err))
    | .ok reply =>
      if reply = OKAY then
        (.devices (DevicesWithPathsCommand.readDevices c).1,
          (DevicesWithPathsCommand.readDevices c).2)
      else if reply = FAIL then (.nil, c.readFail)
      else (.nil, some (.unexpectedResponse reply))

/-- The method `KillCommand.Execute`. -/
def KillCommand.Execute (c : BaseCommand) : HostValue × Option HostError :=
  match c.sender hostKill with
  | some err => (.nil, some (.wrapped .send err))
  | none =>
    match c.reader 0 4 with
    | .error err => (.nil, some (.wrapped .reply err))
    | .ok reply =>
      if reply = OKAY then (.bool true, none)
      else if reply = FAIL then
        match c.reader 1 0 with
        | .error err => (.nil, some (.wrapped .errMsg err))
        | .ok errMsg => (.bool false, some (.failText errMsg))
      else (.bool false, some (.unexpectedResponse reply))

/-- The method `VersionCommand.parseVersion`. -/
def VersionCommand.parseVersion (version : List Byte) : Int × Option NumError :=
  ParseInt16_64 (TrimSpace version)

/-- The method `VersionCommand.Execute`. A reply that is neither `OKAY` nor
`FAIL` is parsed as the version (the source notes that some versions of ADB
return the version number directly). -/
def VersionCommand.Execute (c : BaseCommand) : HostValue × Option HostError :=
  match c.sender hostVersion with
  | some err => (.nil, some (.wrapped .send err))
  | none =>
    match c.reader 0 4 with
    | .error err => (.nil, some (.wrapped .reply err))
    | .ok reply =>
      if reply = OKAY then
        match c.reader 1 0 with
        | .error err => (.nil, some (.wrapped .versionValue err))
        | .ok value =>
          (.version (VersionCommand.parseVersion value).1,
            (VersionCommand.parseVersion value).2.map .num)
      else if reply = FAIL then (.nil, c.readFail)
      else
        (.version (VersionCommand.parseVersion reply).1,
          (VersionCommand.parseVersion reply).2.map .num)

/-- The method `TransportCommand.Execute`. -/
def TransportCommand.Execute (c : BaseCommand) (serial : List Byte) :
    HostValue × Option HostError :=
  match c.sender (hostTransport ++ serial) with
  | some err => (.nil, some (.wrapped .send err))
  | none =>
    match c.reader 0 4 with
    | .error err => (.nil, some (.wrapped .reply err))
    | .ok reply =>
      if reply = OKAY then (.bool true, none)
      else if reply = FAIL then
        match c.reader 1 0 with
        | .error err => (.nil, some (.wrapped .errMsg err))
        | .ok errMsg => (.bool false, some (.failText errMsg))
      else (.bool false, some (.unexpectedResponse reply))

/-- The method `TrackDevicesCommand.Execute`. -/
def TrackDevicesCommand.Execute (c : BaseCommand) : HostValue × Option HostError :=
  match c.sender hostTrackDevices with
  | some err => (.nil, some (.wrapped .send err))
  | none =>
    match c.reader 0 4 with
    | .error err => (.nil, some (.wrapped .reply err))
    | .ok reply =>
      if reply = OKAY then (.tracker, none)
      else if reply = FAIL then (.nil, c.readFail)
      else (.nil, some (.unexpectedResponse reply))

/-- A field of a device line as the specification writes it: not empty, free
of tabs and line feeds, and without white space at either end. -/
def plainField (f : List Byte) : Prop :=
  f ≠ [] ∧ (9 : Byte) ∉ f ∧ (10 : Byte) ∉ f ∧ TrimSpace f = f

instance (f : List Byte) : Decidable (plainField f) := by
  unfold plainField
  infer_instance

/-- The value of `host:devices` for a list of devices `(id, state)`: one line
`id TAB state LF` per device. -/
def deviceText (devices : List (List Byte × List Byte)) : List Byte :=
  (devices.map fun d => d.1 ++ 9 :: d.2 ++ [10]).flatten

/-! ## Go library functions used by `pkg/adb/auth.go` and `pkg/adb/fingerprint.go` -/

/-- The call `binary.LittleEndian.Uint32(b)`, which panics (`none`) when `b`
has fewer than four bytes. -/
def leUint32 (b : List Byte) : Option Nat :=
  if b.length < 4 then none else some (getUint32 b)

/-- The value of a character in the alphabet of `base64.StdEncoding`. -/
def b64Val (c : Byte) : Option Nat :=
  if 65 ≤ c.val ∧ c.val ≤ 90 then some (c.val - 65)
  else if 97 ≤ c.val ∧ c.val ≤ 122 then some (c.val - 97 + 26)
  else if 48 ≤ c.val ∧ c.val ≤ 57 then some (c.val - 48 + 52)
  else if c.val = 43 then some 62
  else if c.val = 47 then some 63
  else none

/-- The byte `n % 256`. -/
def byteOf (n : Nat) : Byte :=
  ⟨n % 256, Nat.mod_lt _ (by decide)⟩

/-- The quanta of `base64.StdEncoding.DecodeString`, on the input without its
carriage returns and line feeds: four characters give three bytes; the last
quantum may end in `=` (two bytes) or `==` (one byte); anything else is a
`CorruptInputError` (`none`). -/
def decodeQuanta : List Byte → Option (List Byte)
  | [] => some []
  | a :: b :: c :: d :: rest =>
    match b64Val a, b64Val b with
    | some va, some vb =>
      if c.val = 61 ∧ d.val = 61 ∧ rest = [] then some [byteOf ((va * 64 + vb) / 16)]
      else
        match b64Val c with
        | none => none
        | some vc =>
          if d.val = 61 ∧ rest = [] then
            some [byteOf (((va * 64 + vb) * 64 + vc) / 1024),
              byteOf (((va * 64 + vb) * 64 + vc) / 4)]
          else
            match b64Val d, decodeQuanta rest with
            | some vd, some out =>
              some (byteOf ((((va * 64 + vb) * 64 + vc) * 64 + vd) / 65536)
                :: byteOf ((((va * 64 + vb) * 64 + vc) * 64 + vd) / 256)
                :: byteOf ((((va * 64 + vb) * 64 + vc) * 64 + vd)) :: out)
            | _, _ => none
    | _, _ => none
  | _ => none

/-- The call `base64.StdEncoding.DecodeString(s)`; `none` is its error. The
decoder skips carriage returns and line feeds. -/
def DecodeString (s : List Byte) : Option (List Byte) :=
  decodeQuanta (s.filter fun c => c.val ≠ 13 ∧ c.val ≠ 10)

/-- The function `hex.EncodeToString`: two lower-case digits per byte. -/
def hexEncode : List Byte → List Byte
  | [] => []
  | b :: rest => hexDigitLower (b.val / 16) :: hexDigitLower (b.val % 16) :: hexEncode rest

/-- The method `(*big.Int).SetBytes`: the value of big-endian bytes. -/
def SetBytes (b : List Byte) : Nat :=
  b.foldl (fun acc x => acc * 256 + x.val) 0

/-- The sine table of MD5 (RFC 1321). -/
def md5K : List Nat :=
  [0xd76aa478, 0xe8c7b756, 0x242070db, 0xc1bdceee, 0xf57c0faf, 0x4787c62a, 0xa8304613,
   0xfd469501, 0x698098d8, 0x8b44f7af, 0xffff5bb1, 0x895cd7be, 0x6b901122, 0xfd987193,
   0xa679438e, 0x49b40821, 0xf61e2562, 0xc040b340, 0x265e5a51, 0xe9b6c7aa, 0xd62f105d,
   0x02441453, 0xd8a1e681, 0xe7d3fbc8, 0x21e1cde6, 0xc33707d6, 0xf4d50d87, 0x455a14ed,
   0xa9e3e905, 0xfcefa3f8, 0x676f02d9, 0x8d2a4c8a, 0xfffa3942, 0x8771f681, 0x6d9d6122,
   0xfde5380c, 0xa4beea44, 0x4bdecfa9, 0xf6bb4b60, 0xbebfbc70, 0x289b7ec6, 0xeaa127fa,
   0xd4ef3085, 0x04881d05, 0xd9d4d039, 0xe6db99e5, 0x1fa27cf8, 0xc4ac5665, 0xf4292244,
   0x432aff97, 0xab9423a7, 0xfc93a039, 0x655b59c3, 0x8f0ccc92, 0xffeff47d, 0x85845dd1,
   0x6fa87e4f, 0xfe2ce6e0, 0xa3014314, 0x4e0811a1, 0xf7537e82, 0xbd3af235, 0x2ad7d2bb,
   0xeb86d391]

/-- The rotation amounts of MD5. -/
def md5S : List Nat :=
  [7, 12, 17, 22, 7, 12, 17, 22, 7, 12, 17, 22, 7, 12, 17, 22,
   5, 9, 14, 20, 5, 9, 14, 20, 5, 9, 14, 20, 5, 9, 14, 20,
   4, 11, 16, 23, 4, 11, 16, 23, 4, 11, 16, 23, 4, 11, 16, 23,
   6, 10, 15, 21, 6, 10, 15, 21, 6, 10, 15, 21, 6, 10, 15, 21]

/-- The 32-bit complement. -/
def not32 (x : Nat) : Nat :=
  x ^^^ 0xFFFFFFFF

/-- The 32-bit rotation to the left. -/
def rotl32 (x s : Nat) : Nat :=
  ((x <<< s) % 2 ^ 32) ||| (x >>> (32 - s))

/-- The state of MD5: four 32-bit words. -/
structure Md5State where
  a : Nat
  b : Nat
  c : Nat
  d : Nat
deriving DecidableEq, Repr

/-- One of the 64 steps of MD5 on the words `m` of a block. -/
def md5Step (m : List Nat) (st : Md5State) (i : Nat) : Md5State :=
  let f :=
    if i < 16 then (st.b &&& st.c) ||| (not32 st.b &&& st.d)
    else if i < 32 then (st.d &&& st.b) ||| (not32 st.d &&& st.c)
    else if i < 48 then st.b ^^^ st.c ^^^ st.d
    else st.c ^^^ (st.b ||| not32 st.d)
  let g :=
    if i < 16 then i
    else if i < 32 then (5 * i + 1) % 16
    else if i < 48 then (3 * i + 5) % 16
    else (7 * i) % 16
  let f1 := (f + st.a + md5K.getD i 0 + m.getD g 0) % 2 ^ 32
  { a := st.d, d := st.c, c := st.b, b := (st.b + rotl32 f1 (md5S.getD i 0)) % 2 ^ 32 }

/-- The MD5 compression of one block of 64 bytes. -/
def md5Block (st : Md5State) (block : List Byte) : Md5State :=
  let m := (List.range 16).map fun j => getUint32 (block.drop (4 * j))
  let r := (List.range 64).foldl (md5Step m) st
  { a := (st.a + r.a) % 2 ^ 32, b := (st.b + r.b) % 2 ^ 32, c := (st.c + r.c) % 2 ^ 32,
    d := (st.d + r.d) % 2 ^ 32 }

/-- The MD5 compression of the blocks of a padded message. -/
def md5Blocks : Nat → Md5State → List Byte → Md5State
  | 0, st, _ => st
  | fuel + 1, st, msg =>
    if msg = [] then st else md5Blocks fuel (md5Block st (msg.take 64)) (msg.drop 64)

/-- The padding of MD5: the byte `0x80`, zeros up to 56 modulo 64, and the
length in bits as 64 bits, least significant byte first. -/
def md5Pad (msg : List Byte) : List Byte :=
  msg ++ [128] ++ List.replicate ((119 - msg.length % 64) % 64) 0
    ++ putUint32 (8 * msg.length % 2 ^ 32) ++ putUint32 (8 * msg.length / 2 ^ 32 % 2 ^ 32)

/-- The digest `md5.New()`, `Write(data)`, `Sum(nil)`: sixteen bytes. -/
def md5Sum (data : List Byte) : List Byte :=
  let st := md5Blocks (data.length / 64 + 2)
    { a := 0x67452301, b := 0xefcdab89, c := 0x98badcfe, d := 0x10325476 } (md5Pad data)
  putUint32 st.a ++ putUint32 st.b ++ putUint32 st.c ++ putUint32 st.d

/-! ## `pkg/adb/fingerprint.go` -/

/-- The struct `KeyInfo`. -/
structure KeyInfo where
  Fingerprint : List Byte
  Comment : List Byte
deriving DecidableEq, Repr

/-- The variable `globalKeyMap`: a Go map as an association list with
distinct keys. -/
abbrev KeyMap := List (List Byte × KeyInfo)

/-- The assignment `m[key] = info` of a Go map. -/
def keyMapSet (m : KeyMap) (key : List Byte) (info : KeyInfo) : KeyMap :=
  match m.lookup key with
  | some _ => m.map fun e => if e.1 = key then (key, info) else e
  | none => m ++ [(key, info)]

/-- The function `AddKeyInfo(md5hash, comment)`: the map afterwards. -/
def AddKeyInfo (m : KeyMap) (md5hash : List Byte) (comment : List Byte) : KeyMap :=
  let fingerprint := hexEncode md5hash
  keyMapSet m fingerprint { Fingerprint := fingerprint, Comment := comment }

/-- The function `GetKeyInfo`: `none` when the key does not exist. -/
def GetKeyInfo (m : KeyMap) (fingerprint : List Byte) : Option KeyInfo :=
  m.lookup fingerprint

/-! ## `pkg/adb/auth.go` -/

/-- The errors of `ParsePublicKey`; `panic` is a Go run-time panic (index or
slice bounds out of range). -/
inductive AuthError where
  | emptyData
  | base64
  | invalidKey
  | invalidLength
  | invalidExponent (e : Nat)
  | panic
deriving DecidableEq, Repr

/-- The fields `N` and `E` of `rsa.PublicKey`. -/
structure PublicKey where
  N : Nat
  E : Int
deriving DecidableEq, Repr

/-- The loop of `reverseBytes`: `b[i]` and `b[len(b) - i - 1]` are swapped
while `i < len(b) / 2`. -/
def reverseBytesLoop : Nat → Nat → List Byte → List Byte
  | 0, _, b => b
  | fuel + 1, i, b =>
    if i < b.length / 2 then
      reverseBytesLoop fuel (i + 1)
        ((b.set i (b.getD (b.length - i - 1) 0)).set (b.length - i - 1) (b.getD i 0))
    else b

/-- The function `reverseBytes`. -/
def reverseBytes (b : List Byte) : List Byte :=
  reverseBytesLoop b.length 0 b

/-- The function `parsePublicKeyFromStruct`, with the key map before the call:
the result and the key map afterwards. The slice `data` has no capacity beyond
its length (it comes from `DecodeString`), so a slice expression that ends
after `len(data)` panics. `lens`, `lens * 4` and `expectedLen` are `uint32`
values; `offset` is an `int`. -/
def parsePublicKeyFromStruct (keys : KeyMap) (data comment : List Byte) :
    Except AuthError PublicKey × KeyMap :=
  if data.length = 0 then (.error .invalidKey, keys)
  else
    match leUint32 data with
    | none => (.error .panic, keys)
    | some lens =>
      let expectedLen := (4 + 4 + lens * 4 + lens * 4 + 4) % 2 ^ 32
      if data.length ≠ expectedLen then (.error .invalidLength, keys)
      else
        let n4 := lens * 4 % 2 ^ 32
        if 8 + n4 > data.length then (.error .panic, keys)
        else
          let nBytes := reverseBytes (slice data 8 (8 + n4))
          let offset := 8 + n4 + n4
          if offset > data.length then (.error .panic, keys)
          else
            match leUint32 (data.drop offset) with
            | none => (.error .panic, keys)
            | some e =>
              if e ≠ 3 ∧ e ≠ 65537 then (.error (.invalidExponent e), keys)
              else
                let fingerprint := hexEncode (md5Sum data)
                (.ok { N := SetBytes nBytes, E := e }, AddKeyInfo keys comment fingerprint)

/-- The function `ParsePublicKey`, with the key map before the call. -/
def ParsePublicKey (keys : KeyMap) (data : List Byte) : Except AuthError PublicKey × KeyMap :=
  if data.length = 0 then (.error .emptyData, keys)
  else
    match splitByte 0 data with
    | [] => (.error .invalidKey, keys)
    | part0 :: parts =>
      match DecodeString part0 with
      | none => (.error .base64, keys)
      | some keyData =>
        let comment :=
          match parts with
          | [] => []
          | part1 :: _ => TrimSpace part1
        parsePublicKeyFromStruct keys keyData comment

/-- The base64 text of the struct with `len = 1`, `n0inv = 0x11223344`,
`n = [0xC0FFEE01]`, `rr = [5]` and `e = 65537`. -/
def sampleKeyText : List Byte :=
  [65, 81, 65, 65, 65, 69, 81, 122, 73, 104, 69, 66, 55, 118, 47, 65, 66, 81, 65, 65, 65, 65,
   69, 65, 65, 81, 65, 61]

/-- The struct that `sampleKeyText` encodes. -/
def sampleKeyStruct : List Byte :=
  [1, 0, 0, 0, 68, 51, 34, 17, 1, 238, 255, 192, 5, 0, 0, 0, 1, 0, 1, 0]

/-- The comment ` user@host`, with a leading space and a final line feed. -/
def sampleComment : List Byte :=
  [32, 117, 115, 101, 114, 64, 104, 111, 115, 116, 10]

/-! ## `pkg/adb/linetransform.go` -/

/-- The struct `LineTransform`. `savedR` is `none` for the nil slice;
`skipBytes` is never negative. The slice kept in `savedR` shares its memory
with the chunk it was cut from: the model takes a chunk not to be overwritten
after it was passed to `Transform`. -/
structure LineTransform where
  savedR : Option (List Byte)
  autoDetect : Bool
  transformNeeded : Bool
  skipBytes : Nat
deriving DecidableEq, Repr

/-- The function `NewLineTransform`; `autoDetect` is the entry of that name in
`options` when it is a `bool`. -/
def NewLineTransform (autoDetect : Option Bool) : LineTransform :=
  { savedR := none, autoDetect := autoDetect.getD false, transformNeeded := true,
    skipBytes := 0 }

/-- The loop `for hi <= last` of `LineTransform.Transform` on a non-empty
chunk: the buffer `result`, the indices `lo` and `hi` and the slice saved,
when the loop is left. -/
def transformLoop (chunk : List Byte) :
    Nat → Nat → Nat → List Byte → List Byte × Nat × Nat × Option (List Byte)
  | 0, lo, hi, result => (result, lo, hi, none)
  | fuel + 1, lo, hi, result =>
    if hi ≤ chunk.length - 1 then
      if chunk.getD hi 0 = 0x0d then
        if hi = chunk.length - 1 then (result, lo, hi, some (chunk.drop (chunk.length - 1)))
        else if chunk.getD (hi + 1) 0 = 0x0a then
          transformLoop chunk fuel (hi + 1) (hi + 1) (result ++ slice chunk lo hi)
        else transformLoop chunk fuel lo (hi + 1) result
      else transformLoop chunk fuel lo (hi + 1) result
    else (result, lo, hi, none)

/-- The method `LineTransform.Transform`: the bytes returned and the
transform afterwards. -/
def LineTransform.Transform (lt : LineTransform) (chunk : List Byte) :
    List Byte × LineTransform :=
  if chunk.length = 0 then (chunk, lt)
  else
    let lt1 : LineTransform :=
      if lt.autoDetect then
        if chunk.getD 0 0 = 0x0a then
          { lt with transformNeeded := false, skipBytes := 1, autoDetect := false }
        else { lt with skipBytes := 2, autoDetect := false }
      else lt
    let skip := if lt1.skipBytes > 0 then min chunk.length lt1.skipBytes else 0
    let chunk1 := chunk.drop skip
    let lt2 := { lt1 with skipBytes := lt1.skipBytes - skip }
    if chunk1.length = 0 then (chunk1, lt2)
    else if !lt2.transformNeeded then (chunk1, lt2)
    else
      let result0 :=
        match lt2.savedR with
        | some saved => if chunk1.getD 0 0 ≠ 0x0a then saved else []
        | none => []
      match transformLoop chunk1 (chunk1.length + 1) 0 0 result0 with
      | (result, lo, hi, saved) =>
        (if hi > lo then result ++ slice chunk1 lo hi else result, { lt2 with savedR := saved })

/-- The method `LineTransform.Flush`. -/
def LineTransform.Flush (lt : LineTransform) : List Byte × LineTransform :=
  match lt.savedR with
  | some saved => (saved, { lt with savedR := none })
  | none => ([], lt)

/-- The outputs of `Transform` for the chunks of a stream, concatenated, and
the transform afterwards. -/
def LineTransform.feed (lt : LineTransform) : List (List Byte) → List Byte × LineTransform
  | [] => ([], lt)
  | chunk :: rest =>
    ((lt.Transform chunk).1 ++ ((lt.Transform chunk).2.feed rest).1,
      ((lt.Transform chunk).2.feed rest).2)

/-- The whole output for a stream that arrives in `chunks`: the outputs of
`Transform` followed by the output of `Flush`. -/
def LineTransform.total (lt : LineTransform) (chunks : List (List Byte)) : List Byte :=
  (lt.feed chunks).1 ++ (lt.feed chunks).2.Flush.1

/-- The conversion the specification describes: scanning from the left, every
byte pair `0x0D 0x0A` is replaced by `0x0A`. -/
def crlfToLf : List Byte → List Byte
  | [] => []
  | [c] => [c]
  | c :: d :: rest =>
    if c = 0x0d ∧ d = 0x0a then 0x0a :: crlfToLf rest else c :: crlfToLf (d :: rest)

/-- The output and the saved slice of one pass over a chunk, by recursion on
the chunk: a carriage return before a line feed is left out, a carriage return
at the end is saved. -/
def scanChunk : List Byte → List Byte × Option (List Byte)
  | [] => ([], none)
  | [c] => if c = 0x0d then ([], some [c]) else ([c], none)
  | c :: d :: rest =>
    if c = 0x0d ∧ d = 0x0a then scanChunk (d :: rest)
    else (c :: (scanChunk (d :: rest)).1, (scanChunk (d :: rest)).2)

/-! ## `pkg/adb/command.go` -/

/-- The dynamic types of an argument of `Command.escape` that the model tells
apart: a Go `int`, an `int64` (an integer that is not an `int`) and a
`string`. -/
inductive Arg where
  | int (v : Int)
  | int64 (v : Int)
  | str (s : List Byte)
deriving DecidableEq, Repr

/-- The decimal digit of `d < 10`. -/
def decDigit (d : Nat) : Byte :=
  ⟨(48 + d % 10) % 256, Nat.mod_lt _ (by decide)⟩

/-- The digit loop of `strconv` for base 10: the digits of `n`, most
significant first, at least one; a 64-bit value has at most 20 of them. -/
def decDigitsAux : Nat → Nat → List Byte → List Byte
  | 0, _, acc => acc
  | fuel + 1, n, acc =>
    if n / 10 = 0 then decDigit n :: acc
    else decDigitsAux fuel (n / 10) (decDigit n :: acc)

/-- The function `strconv.Itoa`, which is also the text `fmt.Sprintf("%v", v)`
of an integer. -/
def Itoa (v : Int) : List Byte :=
  if v < 0 then 45 :: decDigitsAux 20 v.natAbs [] else decDigitsAux 20 v.toNat []

/-- The call `strings.ReplaceAll(str, "'", "'\"'\"'")`: every single quote
becomes the five characters `'"'"'`. -/
def replaceQuotes : List Byte → List Byte
  | [] => []
  | c :: rest =>
    if c = 39 then 39 :: 34 :: 39 :: 34 :: 39 :: replaceQuotes rest
    else c :: replaceQuotes rest

/-- The method `Command.escape`. -/
def Command.escape : Arg → List Byte
  | .int v => Itoa v
  | .int64 v => [39] ++ replaceQuotes (Itoa v) ++ [39]
  | .str s => [39] ++ replaceQuotes s ++ [39]

/-- Where a reader of shell text is: outside quotes, inside single quotes or
inside double quotes. -/
inductive ShellQuote where
  | outside
  | single
  | double
deriving DecidableEq, Repr

/-- A character that stands for itself outside quotes: a letter, a digit or
one of `-`, `_`, `.`, `/`. -/
def plainShellChar (c : Byte) : Bool :=
  (48 ≤ c.val && c.val ≤ 57) || (65 ≤ c.val && c.val ≤ 90) || (97 ≤ c.val && c.val ≤ 122)
    || c.val = 45 || c.val = 95 || c.val = 46 || c.val = 47

/-- The reading of one word under the POSIX shell quoting rules the
specification names: text in single quotes is literal, a single quote in
double quotes is literal, quoted pieces that touch form one word. `none` when
the text is not one word that these rules cover (an open quote, white space or
an operator outside quotes, an expansion or escape in double quotes). -/
def shellWord : ShellQuote → List Byte → Option (List Byte)
  | .outside, [] => some []
  | .single, [] => none
  | .double, [] => none
  | .outside, c :: rest =>
    if c = 39 then shellWord .single rest
    else if c = 34 then shellWord .double rest
    else if plainShellChar c then (shellWord .outside rest).map (c :: ·)
    else none
  | .single, c :: rest =>
    if c = 39 then shellWord .outside rest
    else (shellWord .single rest).map (c :: ·)
  | .double, c :: rest =>
    if c = 34 then shellWord .outside rest
    else if c = 92 ∨ c = 36 ∨ c = 96 then none
    else (shellWord .double rest).map (c :: ·)

/-! ## `pkg/adb/sync/stats.go` -/

def S_IFMT : Nat := 0o170000
def S_IFSOCK : Nat := 0o140000
def S_IFLNK : Nat := 0o120000
def S_IFREG : Nat := 0o100000
def S_IFDIR : Nat := 0o040000

/-- The struct `Stats` of package `sync`: `mode` is a `uint32`, `size` an
`int64`, `mtime` a time given in seconds. -/
structure sync.Stats where
  mode : Nat
  size : Int
  mtime : Int
deriving DecidableEq, Repr

/-- The method `Stats.IsSocket`. -/
def sync.Stats.IsSocket (s : sync.Stats) : Bool :=
  (s.mode &&& S_IFMT) == S_IFSOCK

/-- The method `Stats.IsSymlink`. -/
def sync.Stats.IsSymlink (s : sync.Stats) : Bool :=
  (s.mode &&& S_IFMT) == S_IFLNK

/-- The method `Stats.IsRegular`. -/
def sync.Stats.IsRegular (s : sync.Stats) : Bool :=
  (s.mode &&& S_IFMT) == S_IFREG

/-- The method `Stats.IsDir`. -/
def sync.Stats.IsDir (s : sync.Stats) : Bool :=
  (s.mode &&& S_IFMT) == S_IFDIR

/-- The method `Stats.IsFile`: `s.mode&0x8000 != 0`. -/
def sync.Stats.IsFile (s : sync.Stats) : Bool :=
  (s.mode &&& 0x8000) != 0

/-! ## `pkg/adb/command/host-transport`: `startactivity.go`, `startservice.go`,
`uninstall.go`

The struct `BaseCommand` of this package has the two callbacks `sender` and
`reader` of the struct of that name in package `host`; the same model serves
both. -/

/-- The errors the `Execute` methods of package `hosttransport` return:
`wrapped` is the error of a callback wrapped with `fmt.Errorf`, `failed` is
the error built from the text read after `FAIL`, or from the trimmed output of
`am startservice`, `unexpectedOutput` is
`fmt.Errorf("unexpected uninstall output: %s", output)`. -/
inductive TransportError where
  | wrapped (step : HostStep) (err : List Byte)
  | failed (message : List Byte)
  | unexpectedResponse (reply : List Byte)
  | unexpectedOutput (output : List Byte)
deriving DecidableEq, Repr

/-- The call `strings.ReplaceAll(s, c, "\\" + c)` for a character `c`. -/
def escapeByte (c : Byte) : List Byte → List Byte
  | [] => []
  | x :: rest => if x = c then 92 :: c :: escapeByte c rest else x :: escapeByte c rest

/-- The characters that `StartActivityCommand.escape` replaces, in the order
of its statements: space, `(`, `)`, `[`, `]`, `&`, `|`, `;`, `<`, `>`, `$`,
the backtick, `"` and `'`. -/
def escapedChars : List Byte :=
  [32, 40, 41, 91, 93, 38, 124, 59, 60, 62, 36, 96, 34, 39]

/-- The method `StartActivityCommand.escape`. -/
def StartActivityCommand.escape (input : List Byte) : List Byte :=
  escapedChars.foldl (fun escaped c => escapeByte c escaped) input

/-- The dynamic types of the value of an extra that the model tells apart: a
`string`, a `bool`, an `int`, an `int64` (an integer type the switch has no
case for), a `float64` given by the text `%f` prints for it, and `nil`. -/
inductive ExtraValue where
  | str (s : List Byte)
  | bool (b : Bool)
  | int (v : Int)
  | int64 (v : Int)
  | float64 (text : List Byte)
  | nil
deriving DecidableEq, Repr

/-- The text `%t` prints for a `bool`. -/
def boolText (b : Bool) : List Byte :=
  if b then [116, 114, 117, 101] else [102, 97, 108, 115, 101]

/-- The method `StartActivityCommand.formatExtras`; `extras` lists the entries
of the map in the order the `range` loop visits them. -/
def StartActivityCommand.formatExtras : List (List Byte × ExtraValue) → List (List Byte)
  | [] => []
  | (key, value) :: rest =>
    (match value with
      | .str v =>
        [[45, 45, 101, 115, 32] ++ StartActivityCommand.escape key ++ [32] ++ StartActivityCommand.escape v]
      | .bool v => [[45, 45, 101, 122, 32] ++ StartActivityCommand.escape key ++ [32] ++ boolText v]
      | .int v => [[45, 45, 101, 105, 32] ++ StartActivityCommand.escape key ++ [32] ++ Itoa v]
      | .float64 text => [[45, 45, 101, 102, 32] ++ StartActivityCommand.escape key ++ [32] ++ text]
      | .nil => [[45, 45, 101, 115, 110, 32] ++ StartActivityCommand.escape key]
      | .int64 _ => [])
      ++ StartActivityCommand.formatExtras rest

/-- The `options` map of `Execute`: every field is the entry of that name when
it has the dynamic type the code asserts, and `none` otherwise. -/
structure IntentOptions where
  extras : Option (List (List Byte × ExtraValue))
  action : Option (List Byte)
  data : Option (List Byte)
  mimeType : Option (List Byte)
  category : Option (List (List Byte))
  component : Option (List Byte)
  flags : Option (List Byte)
  debug : Option Bool
  wait : Option Bool
  user : Option Int
deriving DecidableEq, Repr

/-- An option with the flag and the escaped value, when it is present. -/
def flagArg (flag : List Byte) (value : Option (List Byte)) : List (List Byte) :=
  match value with
  | some v => [flag, StartActivityCommand.escape v]
  | none => []

/-- The method `StartActivityCommand.intentArgs`. -/
def StartActivityCommand.intentArgs (options : IntentOptions) : List (List Byte) :=
  (match options.extras with
    | some extras => StartActivityCommand.formatExtras extras
    | none => [])
    ++ flagArg [45, 97] options.action
    ++ flagArg [45, 100] options.data
    ++ flagArg [45, 116] options.mimeType
    ++ (match options.category with
      | some category => (category.map fun cat => [[45, 99], StartActivityCommand.escape cat]).flatten
      | none => [])
    ++ flagArg [45, 110] options.component
    ++ flagArg [45, 102] options.flags
    ++ (if options.debug = some true then [[45, 68]] else [])
    ++ (if options.wait = some true then [[45, 87]] else [])
    ++ (match options.user with
      | some user => [[45, 45, 117, 115, 101, 114], Itoa user]
      | none => [])

/-- The call `strings.Join(args, " ")`. -/
def joinSpace : List (List Byte) → List Byte
  | [] => []
  | [a] => a
  | a :: b :: rest => a ++ [32] ++ joinSpace (b :: rest)

/-- The text `Error:`. -/
def errorMark : List Byte := [69, 114, 114, 111, 114, 58]

/-- The service string `StartActivityCommand.Execute` sends. -/
def StartActivityCommand.command (options : IntentOptions) : List Byte :=
  [115, 104, 101, 108, 108, 58, 97, 109, 32, 115, 116, 97, 114, 116, 32] ++ joinSpace (StartActivityCommand.intentArgs options)

/-- The method `StartActivityCommand.Execute`: the error returned, `none` for
nil. After `OKAY` the rest is read and dropped. -/
def StartActivityCommand.Execute (c : BaseCommand) (options : IntentOptions) :
    Option TransportError :=
  match c.sender (StartActivityCommand.command options) with
  | some err => some (.wrapped .send err)
  | none =>
    match c.reader 0 4 with
    | .error err => some (.wrapped .reply err)
    | .ok reply =>
      if reply = OKAY then
        match c.reader 1 0 with
        | .error err => some (.wrapped .detail err)
        | .ok _ => none
      else if reply = FAIL then
        match c.reader 1 0 with
        | .error err => some (.wrapped .errMsg err)
        | .ok errMsg => some (.failed errMsg)
      else some (.unexpectedResponse reply)

/-- The arguments `StartServiceCommand.Execute` joins: those of `intentArgs`,
followed by `--user` and the user when `options["user"]` is an `int`. -/
def StartServiceCommand.args (options : IntentOptions) : List (List Byte) :=
  StartActivityCommand.intentArgs options
    ++ (match options.user with
      | some user => [[45, 45, 117, 115, 101, 114], Itoa user]
      | none => [])

/-- The service string `StartServiceCommand.Execute` sends. -/
def StartServiceCommand.command (options : IntentOptions) : List Byte :=
  [115, 104, 101, 108, 108, 58, 97, 109, 32, 115, 116, 97, 114, 116, 115, 101, 114, 118, 105, 99, 101, 32] ++ joinSpace (StartServiceCommand.args options)

/-- The method `StartServiceCommand.Execute`: the error returned, `none` for
nil. -/
def StartServiceCommand.Execute (c : BaseCommand) (options : IntentOptions) :
    Option TransportError :=
  match c.sender (StartServiceCommand.command options) with
  | some err => some (.wrapped .send err)
  | none =>
    match c.reader 0 4 with
    | .error err => some (.wrapped .reply err)
    | .ok reply =>
      if reply = OKAY then
        match c.reader 1 0 with
        | .error err => some (.wrapped .detail err)
        | .ok output =>
          if containsBytes errorMark output then some (.failed (TrimSpace output))
          else none
      else if reply = FAIL then
        match c.reader 1 0 with
        | .error err => some (.wrapped .errMsg err)
        | .ok errMsg => some (.failed errMsg)
      else some (.unexpectedResponse reply)

/-- The text `Success`. -/
def successText : List Byte := [83, 117, 99, 99, 101, 115, 115]

/-- The text `Failure`. -/
def failureText : List Byte := [70, 97, 105, 108, 117, 114, 101]

/-- The text `Unknown package`. -/
def unknownPackageText : List Byte := [85, 110, 107, 110, 111, 119, 110, 32, 112, 97, 99, 107, 97, 103, 101]

/-- What `UninstallCommand.Execute` and `ExecuteWithOptions` do once the
command is built: the error returned, `none` for nil. -/
def UninstallCommand.run (c : BaseCommand) (cmd : List Byte) : Option TransportError :=
  match c.sender cmd with
  | some err => some (.wrapped .send err)
  | none =>
    match c.reader 0 4 with
    | .error err => some (.wrapped .reply err)
    | .ok reply =>
      if reply = OKAY then
        match c.reader 1 0 with
        | .error err => some (.wrapped .detail err)
        | .ok output =>
          if TrimSpace output = successText ∨ containsBytes failureText (TrimSpace output)
              ∨ containsBytes unknownPackageText (TrimSpace output) then none
          else some (.unexpectedOutput (TrimSpace output))
      else if reply = FAIL then
        match c.reader 1 0 with
        | .error err => some (.wrapped .errMsg err)
        | .ok errMsg => some (.failed errMsg)
      else some (.unexpectedResponse reply)

/-- The method `UninstallCommand.Execute`. -/
def UninstallCommand.Execute (c : BaseCommand) (pkg : List Byte) : Option TransportError :=
  UninstallCommand.run c ([115, 104, 101, 108, 108, 58, 112, 109, 32, 117, 110, 105, 110, 115, 116, 97, 108, 108] ++ [32] ++ pkg)

/-- The method `UninstallCommand.ExecuteWithOptions`. -/
def UninstallCommand.ExecuteWithOptions (c : BaseCommand) (pkg : List Byte) (keepData : Bool)
    (user : Int) : Option TransportError :=
  UninstallCommand.run c
    ([115, 104, 101, 108, 108, 58, 112, 109, 32, 117, 110, 105, 110, 115, 116, 97, 108, 108] ++ (if keepData then [32, 45, 107] else [])
      ++ (if user ≥ 0 then [32, 45, 45, 117, 115, 101, 114, 32] ++ Itoa user else []) ++ [32] ++ pkg)

/-- A connection whose `sender` succeeds and whose `reader` returns `OKAY`
first and `output` afterwards. -/
def okayThen (output : List Byte) : BaseCommand :=
  { sender := fun _ => none, reader := fun k _ => if k = 0 then .ok OKAY else .ok output }

/-! ## `pkg/adb/linetransform.go`: `TransformReader` -/

/-- The error a `Read` of the wrapped reader returns besides nil: `io.EOF` or
another error. -/
inductive StreamError where
  | eof
  | other (message : List Byte)
deriving DecidableEq, Repr

/-- The struct `TransformReader` without its reader. `transform.savedR`, when
it is not nil, is a slice of `buffer` (it was cut from the chunk
`tr.buffer[:n]`); `savedAt` is the index in `buffer` at which it starts. -/
structure TransformReader where
  transform : LineTransform
  buffer : List Byte
  savedAt : Nat
deriving DecidableEq, Repr

/-- The function `NewTransformReader`. -/
def NewTransformReader (autoDetect : Option Bool) : TransformReader :=
  { transform := NewLineTransform autoDetect, buffer := List.replicate 4096 0, savedAt := 0 }

/-- Whether `Transform` gets past its early returns for `chunk`, to the point
where `savedR` is reset and the chunk is scanned. -/
def LineTransform.scans (lt : LineTransform) (chunk : List Byte) : Bool :=
  if chunk.length = 0 then false
  else
    let lt1 : LineTransform :=
      if lt.autoDetect then
        if chunk.getD 0 0 = 0x0a then
          { lt with transformNeeded := false, skipBytes := 1, autoDetect := false }
        else { lt with skipBytes := 2, autoDetect := false }
      else lt
    let skip := if lt1.skipBytes > 0 then min chunk.length lt1.skipBytes else 0
    if (chunk.drop skip).length = 0 then false
    else lt1.transformNeeded

/-- What `TransformReader.Read` returns and leaves behind: the count `n`, the
error (`none` for nil), the destination `p` and the reader. -/
structure ReadOutcome where
  n : Nat
  err : Option StreamError
  p : List Byte
  reader : TransformReader
deriving DecidableEq, Repr

/-- The method `TransformReader.Read` for the destination `p`, when the call
`tr.reader.Read(tr.buffer)` stores the bytes `raw` (at most 4096) and returns
`len(raw)` and `rerr`. The statement `transformed, err := ...` assigns the
result `err` anew, so the test `err == io.EOF` that follows it sees the nil
error of `Transform`. -/
def TransformReader.Read (tr : TransformReader) (raw : List Byte) (rerr : Option StreamError)
    (p : List Byte) : ReadOutcome :=
  let buffer := raw ++ tr.buffer.drop raw.length
  let lt : LineTransform :=
    { tr.transform with
      savedR := tr.transform.savedR.map fun saved =>
        slice buffer tr.savedAt (tr.savedAt + saved.length) }
  match rerr with
  | some (.other message) =>
    ⟨0, some (.other message), p, { transform := lt, buffer := buffer, savedAt := tr.savedAt }⟩
  | _ =>
    let chunk := buffer.take raw.length
    let transformed := (lt.Transform chunk).1
    let savedAt := if lt.scans chunk then raw.length - 1 else tr.savedAt
    ⟨transformed.length, none, copyInto p transformed,
      { transform := (lt.Transform chunk).2, buffer := buffer, savedAt := savedAt }⟩

/-! ## The public-key struct read by `parsePublicKeyFromStruct` -/

/-- The bytes of a public-key struct: the fields `len` and `n0inv`, the limbs
of `n`, the limbs of `rr` and the field `e`, each one a little-endian
`uint32`. -/
def keyStruct (len n0inv : Nat) (n rr : List Nat) (e : Nat) : List Byte :=
  putUint32 len ++ putUint32 n0inv ++ (n.map putUint32).flatten ++ (rr.map putUint32).flatten
    ++ putUint32 e

/-- The number with the limbs `n`, least significant limb first: the sum over
`i` of `n[i] * 2 ^ (32 * i)`. -/
def limbSum (n : List Nat) : Nat :=
  ((List.range n.length).map fun i => n.getD i 0 * 2 ^ (32 * i)).sum

/-- The value of little-endian bytes. -/
def leValue : List Byte → Nat
  | [] => 0
  | b :: rest => b.val + 256 * leValue rest

/-! ## `pkg/adb/framebuffer/rgbtransform.go` -/

/-- The struct `Meta`; its fields are of type `int`. -/
structure Meta where
  Bpp : Int
  RedOffset : Int
  GreenOffset : Int
  BlueOffset : Int
  AlphaOffset : Int
deriving DecidableEq, Repr

/-- The struct `RgbTransform`. -/
structure RgbTransform where
  meta : Meta
  buffer : List Byte
  rPos : Int
  gPos : Int
  bPos : Int
  aPos : Int
  pixelBytes : Int
deriving DecidableEq, Repr

/-- The function `NewRgbTransform`; `none` is the error for a `Bpp` other than
24 and 32. The division of `int` values truncates toward zero. -/
def NewRgbTransform (meta : Meta) : Option RgbTransform :=
  if meta.Bpp ≠ 24 ∧ meta.Bpp ≠ 32 then none
  else
    some
      { meta := meta, buffer := [], rPos := Int.tdiv meta.RedOffset 8,
        gPos := Int.tdiv meta.GreenOffset 8, bPos := Int.tdiv meta.BlueOffset 8,
        aPos := Int.tdiv meta.AlphaOffset 8, pixelBytes := Int.tdiv meta.Bpp 8 }

/-- The index expression `b[i]` for an `int` index: `none` when it panics. -/
def indexAt (b : List Byte) (i : Int) : Option Byte :=
  if 0 ≤ i then b[i.toNat]? else none

/-- The assignment `b[i] = v` for an `int` index: `none` when it panics. -/
def storeAt (b : List Byte) (i : Int) (v : Byte) : Option (List Byte) :=
  if 0 ≤ i ∧ i < (b.length : Int) then some (b.set i.toNat v) else none

/-- How the pixel loop of `Transform` ends: it is left with the two cursors and
the target, an index is out of range, or the model has no fuel left. -/
inductive PixelLoopResult where
  | done (sourceCursor targetCursor : Int) (target : List Byte)
  | panic
  | outOfFuel
deriving DecidableEq, Repr

/-- The loop `for len(t.buffer)-sourceCursor >= t.pixelBytes` of `Transform`. -/
def RgbTransform.pixelLoop (t : RgbTransform) : Nat → Int → Int → List Byte → PixelLoopResult
  | 0, _, _, _ => .outOfFuel
  | fuel + 1, sourceCursor, targetCursor, target =>
    if (t.buffer.length : Int) - sourceCursor ≥ t.pixelBytes then
      match indexAt t.buffer (sourceCursor + t.rPos), indexAt t.buffer (sourceCursor + t.gPos),
        indexAt t.buffer (sourceCursor + t.bPos) with
      | some r, some g, some b =>
        match storeAt target (targetCursor + 0) r with
        | none => .panic
        | some target1 =>
          match storeAt target1 (targetCursor + 1) g with
          | none => .panic
          | some target2 =>
            match storeAt target2 (targetCursor + 2) b with
            | none => .panic
            | some target3 =>
              pixelLoop t fuel (sourceCursor + t.pixelBytes) (targetCursor + 3) target3
      | _, _, _ => .panic
    else .done sourceCursor targetCursor target

/-- What a call of `Transform` does: it returns bytes and leaves a transform
behind, or it panics, or the model has no fuel left. -/
inductive TransformOutcome where
  | ok (output : List Byte) (t : RgbTransform)
  | panic
  | outOfFuel
deriving DecidableEq, Repr

/-- The method `RgbTransform.Transform`. The division panics for a zero
`pixelBytes`, `make` for a negative size, and the two final slice expressions
for a cursor out of range. The loop gets `len(t.buffer) + 1` iterations. -/
def RgbTransform.Transform (t : RgbTransform) (input : List Byte) : TransformOutcome :=
  let t1 : RgbTransform := { t with buffer := t.buffer ++ input }
  if t1.pixelBytes = 0 then .panic
  else
    let targetSize := Int.tdiv (t1.buffer.length : Int) t1.pixelBytes * 3
    if targetSize < 0 then .panic
    else
      match t1.pixelLoop (t1.buffer.length + 1) 0 0 (List.replicate targetSize.toNat 0) with
      | .done sourceCursor targetCursor target =>
        if sourceCursor < 0 ∨ (t1.buffer.length : Int) < sourceCursor then .panic
        else if targetCursor < 0 ∨ (target.length : Int) < targetCursor then .panic
        else
          .ok (target.take targetCursor.toNat)
            { t1 with buffer := t1.buffer.drop sourceCursor.toNat }
      | .panic => .panic
      | .outOfFuel => .outOfFuel

/-- The outputs of `Transform` for the chunks of an input, concatenated, and
the transform afterwards; `none` when a call does not return. -/
def RgbTransform.feed (t : RgbTransform) : List (List Byte) → Option (List Byte × RgbTransform)
  | [] => some ([], t)
  | chunk :: rest =>
    match t.Transform chunk with
    | .ok output t1 =>
      match feed t1 rest with
      | some (outputs, t2) => some (output ++ outputs, t2)
      | none => none
    | _ => none

/-- The bytes red, green, blue of the pixels `0` to `count - 1` of `x`: for the
pixel `i` the bytes `x[i*pixelBytes + rPos]`, `x[i*pixelBytes + gPos]` and
`x[i*pixelBytes + bPos]`. -/
def pixelRows (pixelBytes rPos gPos bPos : Nat) (x : List Byte) (count : Nat) : List Byte :=
  ((List.range count).map fun i =>
    [x.getD (i * pixelBytes + rPos) 0, x.getD (i * pixelBytes + gPos) 0,
      x.getD (i * pixelBytes + bPos) 0]).flatten

/-- The output the specification gives for the input `x`: the bytes red,
green, blue of every complete pixel `i < |x| / pixelBytes`. -/
def pixels (pixelBytes rPos gPos bPos : Nat) (x : List Byte) : List Byte :=
  pixelRows pixelBytes rPos gPos bPos x (x.length / pixelBytes)

/-! ## A stream of assembled packets -/

/-- The arguments of one call of `Assemble`. -/
structure PacketArgs where
  command : Nat
  arg0 : Nat
  arg1 : Nat
  data : List Byte
deriving DecidableEq, Repr

/-- The bytes `Assemble` produces for the arguments. -/
def PacketArgs.wire (a : PacketArgs) : List Byte :=
  Assemble a.command a.arg0 a.arg1 a.data

/-- The packet with the fields and the payload of the arguments. -/
def PacketArgs.packet (a : PacketArgs) : Packet :=
  { Command := a.command, Arg0 := a.arg0, Arg1 := a.arg1, Length := a.data.length,
    Check := checksum a.data, Magic := magic a.command, Data := a.data }

/-- The arguments are 32-bit values and the payload has fewer than `2 ^ 32`
bytes. -/
def PacketArgs.fits (a : PacketArgs) : Prop :=
  a.command < 2 ^ 32 ∧ a.arg0 < 2 ^ 32 ∧ a.arg1 < 2 ^ 32 ∧ a.data.length < 2 ^ 32

/-- The concatenation of the assembled packets. -/
def wireOf (ps : List PacketArgs) : List Byte :=
  (ps.map PacketArgs.wire).flatten

/-- The reader `r` waits for bytes: with the bytes `tail` that are still to
come, its buffer makes up the packets `ps`. Either it is before a header with
fewer than 24 bytes in its buffer, or it is in the body of the first packet of
`ps`, with the header decoded and less than the payload in its buffer. -/
def Awaiting (r : PacketReader) (tail : List Byte) (ps : List PacketArgs) : Prop :=
  (∃ acc p, r = ⟨false, bufOf acc, p⟩ ∧ acc.length < 24 ∧ acc ++ tail = wireOf ps)
  ∨ (∃ a rest acc, ps = a :: rest
      ∧ r = ⟨true, bufOf acc, { a.packet with Data := [] }⟩
      ∧ acc.length < a.data.length ∧ acc ++ tail = a.data ++ wireOf rest)

/-- The result `res` of the inner loop of `tryRead`, for a reader whose buffer
makes up the packets `ps` with the bytes `tail` still to come: the loop emitted
the first packets of `ps`, waits for the others, and was left because the
buffer was nil or by `return nil`. -/
def Drained (res : PacketReader × List Packet × LoopExit) (tail : List Byte)
    (ps : List PacketArgs) : Prop :=
  ∃ front rest, ps = front ++ rest ∧ res.2.1 = front.map PacketArgs.packet
    ∧ Awaiting res.1 tail rest ∧ (res.2.2 = .bufferNil ∨ res.2.2 = .returnNil)

/-- An `A_WRTE` packet with a payload of `2 ^ 32` zero bytes. -/
def oversizeArgs : PacketArgs :=
  ⟨A_WRTE, 1, 2, List.replicate 4294967296 0⟩

/-- The reads that deliver `oversizeArgs`: the 24 header bytes first, the rest
in buffer-sized pieces. -/
def oversizeStream : List (List Byte) :=
  oversizeArgs.wire.take 24 :: fullReads 4294967296 (oversizeArgs.wire.drop 24)
/-! ## Theorems -/

theorem getUint32_putUint32 (v : Nat) : getUint32 (putUint32 v) = v % 2 ^ 32 := by
  simp only [getUint32, putUint32, List.getD_cons_zero, List.getD_cons_succ]
  omega

theorem putUint32_length (v : Nat) : (putUint32 v).length = 4 := rfl

theorem checksum_lt (data : List Byte) : checksum data < 2 ^ 32 := by
  unfold checksum
  induction data using List.reverseRecOn with
  | nil => simp
  | append_singleton l a _ =>
    rw [List.foldl_append]
    exact Nat.mod_lt _ (by decide)

theorem magic_lt (c : Nat) : magic c < 2 ^ 32 :=
  Nat.xor_lt_two_pow (Nat.mod_lt _ (by decide)) (by decide)


theorem decodeHeader_Assemble (c a0 a1 : Nat) (d : List Byte) :
    decodeHeader (Assemble c a0 a1 d) =
      { Command := c % 2 ^ 32, Arg0 := a0 % 2 ^ 32, Arg1 := a1 % 2 ^ 32,
        Length := d.length % 2 ^ 32, Check := checksum d, Magic := magic c,
        Data := [] } := by
  have hk := checksum_lt d
  have hm := magic_lt c
  simp only [decodeHeader, Assemble, putUint32, slice, List.cons_append, List.nil_append,
    List.drop_succ_cons, List.drop_zero, List.take_succ_cons, List.take_zero, Nat.sub_zero,
    Nat.reduceSub, getUint32, List.getD_cons_zero, List.getD_cons_succ, Packet.mk.injEq, and_true]
  refine ⟨?_, ?_, ?_, ?_, ?_, ?_⟩ <;> omega


theorem Assemble_length (c a0 a1 : Nat) (d : List Byte) :
    (Assemble c a0 a1 d).length = 24 + d.length := by
  simp only [Assemble, List.length_append, putUint32_length]

theorem drop24_Assemble (c a0 a1 : Nat) (d : List Byte) :
    (Assemble c a0 a1 d).drop 24 = d := by
  simp only [Assemble, putUint32, List.cons_append, List.nil_append, List.drop_succ_cons,
    List.drop_zero]

theorem checksum_foldl (d : List Byte) (acc : Nat) :
    d.foldl (fun sum b => (sum + b.val) % 2 ^ 32) (acc % 2 ^ 32)
      = (acc + (d.map Fin.val).sum) % 2 ^ 32 := by
  induction d generalizing acc with
  | nil => simp
  | cons b t ih =>
    simp only [List.foldl_cons, List.map_cons, List.sum_cons]
    rw [ih]
    omega

theorem checksum_eq_sum (d : List Byte) : checksum d = (d.map Fin.val).sum % 2 ^ 32 := by
  have h := checksum_foldl d 0
  simpa [checksum] using h

theorem Parse_Assemble_raw (c a0 a1 : Nat) (d : List Byte) :
    Parse (Assemble c a0 a1 d) = .ok
      { Command := c % 2 ^ 32, Arg0 := a0 % 2 ^ 32, Arg1 := a1 % 2 ^ 32,
        Length := d.length % 2 ^ 32, Check := checksum d, Magic := magic c,
        Data := d.take (d.length % 2 ^ 32) } := by
  have hle : d.length % 2 ^ 32 ≤ d.length := Nat.mod_le _ _
  unfold Parse
  rw [if_neg (by rw [Assemble_length]; omega)]
  simp only [decodeHeader_Assemble, Assemble_length, slice, drop24_Assemble]
  by_cases h0 : d.length % 2 ^ 32 > 0
  · rw [if_pos h0, if_neg (by omega)]
    simp
  · rw [if_neg h0]
    have : d.length % 2 ^ 32 = 0 := by omega
    rw [this, List.take_zero]


theorem sum_replicate_zero (n : Nat) :
    ((List.replicate n (0 : Byte)).map Fin.val).sum = 0 := by
  induction n with
  | zero => rfl
  | succ k ih =>
    rw [List.replicate_succ, List.map_cons, List.sum_cons, ih]
    rfl

theorem bufOf_nil : bufOf [] = none := rfl

theorem bufOf_of_ne {acc : List Byte} (h : acc ≠ []) : bufOf acc = some acc := by
  simp [bufOf, h]

theorem bufLen_bufOf (ib : Bool) (acc : List Byte) (p : Packet) :
    (PacketReader.mk ib (bufOf acc) p).bufLen = acc.length := by
  by_cases h : acc = []
  · subst h; rfl
  · simp [PacketReader.bufLen, bufOf_of_ne h]

theorem appendChunk_bufOf (ib : Bool) (acc c : List Byte) (p : Packet) :
    (PacketReader.mk ib (bufOf acc) p).appendChunk c = ⟨ib, bufOf (acc ++ c), p⟩ := by
  by_cases hc : c = []
  · subst hc; simp [PacketReader.appendChunk]
  · have hlen : c.length > 0 := List.length_pos.mpr hc
    by_cases h : acc = []
    · subst h
      simp [PacketReader.appendChunk, hlen, bufOf_nil, bufOf_of_ne hc]
    · have h2 : acc ++ c ≠ [] := by simp [h]
      simp [PacketReader.appendChunk, hlen, bufOf_of_ne h, bufOf_of_ne h2]

theorem consume_some (ib : Bool) (b : List Byte) (p : Packet) (n : Nat) (hn : n ≤ b.length) :
    (PacketReader.mk ib (some b) p).consume n = ⟨ib, bufOf (b.drop n), p⟩ := by
  by_cases h : n = b.length
  · subst h; simp [PacketReader.consume, bufOf]
  · have : b.drop n ≠ [] := by
      intro hd
      have := congrArg List.length hd
      simp at this
      omega
    simp [PacketReader.consume, h, bufOf_of_ne this]

theorem drainBuffer_nil (fuel : Nat) (ib : Bool) (p : Packet) :
    (PacketReader.mk ib (bufOf []) p).drainBuffer (fuel + 1)
      = (⟨ib, bufOf [], p⟩, [], .bufferNil) := by
  simp [PacketReader.drainBuffer, bufOf_nil]

theorem drainBuffer_header_short (fuel : Nat) (acc : List Byte) (p : Packet)
    (hne : acc ≠ []) (hlt : acc.length < 24) :
    (PacketReader.mk false (bufOf acc) p).drainBuffer (fuel + 1)
      = (⟨false, bufOf acc, p⟩, [], .returnNil) := by
  simp [PacketReader.drainBuffer, bufOf_of_ne hne, hlt]

theorem drainBuffer_header_bad (fuel : Nat) (acc : List Byte) (p : Packet)
    (hge : 24 ≤ acc.length) (hbad : (decodeHeader (acc.take 24)).VerifyMagic = false) :
    (PacketReader.mk false (bufOf acc) p).drainBuffer (fuel + 1)
      = (⟨false, bufOf (acc.drop 24), decodeHeader (acc.take 24)⟩, [],
          .fail (.magic (decodeHeader (acc.take 24)))) := by
  have hne : acc ≠ [] := by intro h; subst h; simp at hge
  have hnlt : ¬ acc.length < 24 := by omega
  simp [PacketReader.drainBuffer, bufOf_of_ne hne, hnlt, hbad, consume_some _ _ _ _ hge]

theorem drainBuffer_header_body (fuel : Nat) (acc : List Byte) (p : Packet)
    (hge : 24 ≤ acc.length) (hok : (decodeHeader (acc.take 24)).VerifyMagic = true)
    (hlen : (decodeHeader (acc.take 24)).Length ≠ 0) :
    (PacketReader.mk false (bufOf acc) p).drainBuffer (fuel + 1)
      = (PacketReader.mk true (bufOf (acc.drop 24)) (decodeHeader (acc.take 24))).drainBuffer
          fuel := by
  have hne : acc ≠ [] := by intro h; subst h; simp at hge
  have hnlt : ¬ acc.length < 24 := by omega
  simp [PacketReader.drainBuffer, bufOf_of_ne hne, hnlt, hok, hlen, consume_some _ _ _ _ hge]

theorem drainBuffer_header_empty (fuel : Nat) (acc : List Byte) (p : Packet)
    (hge : 24 ≤ acc.length) (hok : (decodeHeader (acc.take 24)).VerifyMagic = true)
    (hlen : (decodeHeader (acc.take 24)).Length = 0) :
    (PacketReader.mk false (bufOf acc) p).drainBuffer (fuel + 1)
      = (((PacketReader.mk false (bufOf (acc.drop 24)) (decodeHeader (acc.take 24))).drainBuffer
            fuel).1,
          decodeHeader (acc.take 24) ::
            ((PacketReader.mk false (bufOf (acc.drop 24))
              (decodeHeader (acc.take 24))).drainBuffer fuel).2.1,
          ((PacketReader.mk false (bufOf (acc.drop 24)) (decodeHeader (acc.take 24))).drainBuffer
            fuel).2.2) := by
  have hne : acc ≠ [] := by intro h; subst h; simp at hge
  have hnlt : ¬ acc.length < 24 := by omega
  simp [PacketReader.drainBuffer, bufOf_of_ne hne, hnlt, hok, hlen, consume_some _ _ _ _ hge]

theorem drainBuffer_body_short (fuel : Nat) (acc : List Byte) (p : Packet)
    (hne : acc ≠ []) (hlt : acc.length < p.Length) :
    (PacketReader.mk true (bufOf acc) p).drainBuffer (fuel + 1)
      = (⟨true, bufOf acc, p⟩, [], .returnNil) := by
  simp [PacketReader.drainBuffer, bufOf_of_ne hne, hlt]

theorem drainBuffer_body_bad (fuel : Nat) (acc : List Byte) (p : Packet)
    (hne : acc ≠ []) (hge : p.Length ≤ acc.length)
    (hbad : ({ p with Data := acc.take p.Length } : Packet).VerifyChecksum = false) :
    (PacketReader.mk true (bufOf acc) p).drainBuffer (fuel + 1)
      = (⟨true, bufOf (acc.drop p.Length), { p with Data := acc.take p.Length }⟩, [],
          .fail (.checksum { p with Data := acc.take p.Length })) := by
  have hnlt : ¬ acc.length < p.Length := by omega
  simp [PacketReader.drainBuffer, bufOf_of_ne hne, hnlt, hbad, consume_some _ _ _ _ hge]

theorem tryRead_cons (ib : Bool) (acc c : List Byte) (p : Packet) (rest : List (List Byte)) :
    (PacketReader.mk ib (bufOf acc) p).tryRead (c :: rest) =
      match (PacketReader.mk ib (bufOf (acc ++ c)) p).drainBuffer
          ((2 * (acc ++ c).length + 1) + 1) with
      | (r2, out, .returnNil) => ⟨rest, r2, out, .nil⟩
      | (r2, out, .fail e) => ⟨rest, r2, out, .err e⟩
      | (r2, out, .outOfFuel) => ⟨rest, r2, out, .outOfFuel⟩
      | (r2, out, .bufferNil) =>
        { r2.tryRead rest with emitted := out ++ (r2.tryRead rest).emitted } := by
  rw [PacketReader.tryRead]
  simp only [appendChunk_bufOf, bufLen_bufOf]

theorem take_append_le (acc rest : List Byte) (n : Nat) (h : n ≤ acc.length) :
    (acc ++ rest).take n = acc.take n := by
  rw [List.take_append_of_le_length h]

theorem tryRead_bad_magic (bytes : List Byte) (h24 : 24 ≤ bytes.length)
    (hbad : (decodeHeader (bytes.take 24)).VerifyMagic = false)
    (chunks : List (List Byte)) :
    ∀ (acc : List Byte) (p : Packet), acc.length < 24 → acc ++ chunks.flatten = bytes →
      ((PacketReader.mk false (bufOf acc) p).tryRead chunks).emitted = [] ∧
      (((PacketReader.mk false (bufOf acc) p).tryRead chunks).exit
          = .err (.magic (decodeHeader (bytes.take 24)))
        ∨ (((PacketReader.mk false (bufOf acc) p).tryRead chunks).exit = .nil
          ∧ ((PacketReader.mk false (bufOf acc) p).tryRead chunks).stream.length < chunks.length
          ∧ ∃ acc2 p2,
              ((PacketReader.mk false (bufOf acc) p).tryRead chunks).reader
                = ⟨false, bufOf acc2, p2⟩
              ∧ acc2.length < 24
              ∧ acc2 ++ ((PacketReader.mk false (bufOf acc) p).tryRead chunks).stream.flatten
                  = bytes)) := by
  induction chunks with
  | nil =>
    intro acc p hacc hjoin
    simp at hjoin
    subst hjoin
    omega
  | cons c rest ih =>
    intro acc p hacc hjoin
    rw [List.flatten_cons, ← List.append_assoc] at hjoin
    rw [tryRead_cons]
    by_cases hnil : acc ++ c = []
    · rw [hnil] at hjoin ⊢
      rw [drainBuffer_nil]
      obtain ⟨h1, h2⟩ := ih [] p (by simp) hjoin
      refine ⟨by simpa using h1, ?_⟩
      rcases h2 with h2 | ⟨h2, h3, h4⟩
      · exact Or.inl h2
      · exact Or.inr ⟨h2, by simp only [List.length_cons]; omega, h4⟩
    · by_cases hlt : (acc ++ c).length < 24
      · rw [drainBuffer_header_short _ _ _ hnil hlt]
        exact ⟨rfl, Or.inr ⟨rfl, by simp, acc ++ c, p, rfl, hlt, hjoin⟩⟩
      · have hge : 24 ≤ (acc ++ c).length := by omega
        have htake : (acc ++ c).take 24 = bytes.take 24 := by
          rw [← hjoin, take_append_le _ _ _ hge]
        rw [drainBuffer_header_bad _ _ _ hge (by rw [htake]; exact hbad), htake]
        exact ⟨rfl, Or.inl rfl⟩

theorem readLoop_bad_magic (bytes : List Byte) (h24 : 24 ≤ bytes.length)
    (hbad : (decodeHeader (bytes.take 24)).VerifyMagic = false) (fuel : Nat) :
    ∀ (chunks : List (List Byte)) (acc : List Byte) (p : Packet),
      acc.length < 24 → acc ++ chunks.flatten = bytes → chunks.length < fuel →
      (PacketReader.mk false (bufOf acc) p).readLoop fuel chunks
        = ([], .error (.magic (decodeHeader (bytes.take 24)))) := by
  induction fuel with
  | zero => intro chunks acc p _ _ hf; omega
  | succ fuel ih =>
    intro chunks acc p hacc hjoin hf
    obtain ⟨hem, hex⟩ := tryRead_bad_magic bytes h24 hbad chunks acc p hacc hjoin
    rw [PacketReader.readLoop]
    rcases hex with hex | ⟨hex, hlen, acc2, p2, hr, hacc2, hjoin2⟩
    · simp only [hex, hem]
    · simp only [hex, hem, hr]
      rw [hr] at *
      rw [ih _ acc2 p2 hacc2 hjoin2 (by omega)]
      rfl

theorem tryRead_bad_body (H : Packet) (body : List Byte) (hlen : body.length = H.Length)
    (hbad : ({ H with Data := body } : Packet).VerifyChecksum = false)
    (chunks : List (List Byte)) :
    ∀ (acc : List Byte), acc.length < H.Length → acc ++ chunks.flatten = body →
      ((PacketReader.mk true (bufOf acc) H).tryRead chunks).emitted = [] ∧
      (((PacketReader.mk true (bufOf acc) H).tryRead chunks).exit
          = .err (.checksum { H with Data := body })
        ∨ (((PacketReader.mk true (bufOf acc) H).tryRead chunks).exit = .nil
          ∧ ((PacketReader.mk true (bufOf acc) H).tryRead chunks).stream.length < chunks.length
          ∧ ∃ acc2,
              ((PacketReader.mk true (bufOf acc) H).tryRead chunks).reader
                = ⟨true, bufOf acc2, H⟩
              ∧ acc2.length < H.Length
              ∧ acc2 ++ ((PacketReader.mk true (bufOf acc) H).tryRead chunks).stream.flatten
                  = body)) := by
  induction chunks with
  | nil =>
    intro acc hacc hjoin
    simp at hjoin
    subst hjoin
    omega
  | cons c rest ih =>
    intro acc hacc hjoin
    rw [List.flatten_cons, ← List.append_assoc] at hjoin
    rw [tryRead_cons]
    by_cases hnil : acc ++ c = []
    · rw [hnil] at hjoin ⊢
      rw [drainBuffer_nil]
      obtain ⟨h1, h2⟩ := ih [] (by simp; omega) hjoin
      refine ⟨by simpa using h1, ?_⟩
      rcases h2 with h2 | ⟨h2, h3, h4⟩
      · exact Or.inl h2
      · exact Or.inr ⟨h2, by simp only [List.length_cons]; omega, h4⟩
    · by_cases hlt : (acc ++ c).length < H.Length
      · rw [drainBuffer_body_short _ _ _ hnil hlt]
        exact ⟨rfl, Or.inr ⟨rfl, by simp, acc ++ c, rfl, hlt, hjoin⟩⟩
      · have hge : H.Length ≤ (acc ++ c).length := by omega
        have htake : (acc ++ c).take H.Length = body := by
          rw [← take_append_le _ rest.flatten _ hge, hjoin, ← hlen, List.take_length]
        rw [drainBuffer_body_bad _ _ _ hnil hge (by rw [htake]; exact hbad), htake]
        exact ⟨rfl, Or.inl rfl⟩

theorem readLoop_bad_body (H : Packet) (body : List Byte) (hlen : body.length = H.Length)
    (hbad : ({ H with Data := body } : Packet).VerifyChecksum = false) (fuel : Nat) :
    ∀ (chunks : List (List Byte)) (acc : List Byte),
      acc.length < H.Length → acc ++ chunks.flatten = body → chunks.length < fuel →
      (PacketReader.mk true (bufOf acc) H).readLoop fuel chunks
        = ([], .error (.checksum { H with Data := body })) := by
  induction fuel with
  | zero => intro chunks acc _ _ hf; omega
  | succ fuel ih =>
    intro chunks acc hacc hjoin hf
    obtain ⟨hem, hex⟩ := tryRead_bad_body H body hlen hbad chunks acc hacc hjoin
    rw [PacketReader.readLoop]
    rcases hex with hex | ⟨hex, hlen2, acc2, hr, hacc2, hjoin2⟩
    · simp only [hex, hem]
    · simp only [hex, hem, hr]
      rw [hr] at *
      rw [ih _ acc2 hacc2 hjoin2 (by omega)]
      rfl

theorem tryRead_good_header (hdr body : List Byte) (hhdr : hdr.length = 24)
    (hok : (decodeHeader hdr).VerifyMagic = true) (hpos : (decodeHeader hdr).Length ≠ 0)
    (hlen : body.length = (decodeHeader hdr).Length)
    (hbad : ({ decodeHeader hdr with Data := body } : Packet).VerifyChecksum = false)
    (chunks : List (List Byte)) :
    ∀ (acc : List Byte) (p : Packet), acc.length < 24 → acc ++ chunks.flatten = hdr ++ body →
      ((PacketReader.mk false (bufOf acc) p).tryRead chunks).emitted = [] ∧
      (((PacketReader.mk false (bufOf acc) p).tryRead chunks).exit
          = .err (.checksum { decodeHeader hdr with Data := body })
        ∨ (((PacketReader.mk false (bufOf acc) p).tryRead chunks).exit = .nil
          ∧ ((PacketReader.mk false (bufOf acc) p).tryRead chunks).stream.length < chunks.length
          ∧ ((∃ acc2 p2,
              ((PacketReader.mk false (bufOf acc) p).tryRead chunks).reader
                = ⟨false, bufOf acc2, p2⟩
              ∧ acc2.length < 24
              ∧ acc2 ++ ((PacketReader.mk false (bufOf acc) p).tryRead chunks).stream.flatten
                  = hdr ++ body)
            ∨ (∃ acc2,
              ((PacketReader.mk false (bufOf acc) p).tryRead chunks).reader
                = ⟨true, bufOf acc2, decodeHeader hdr⟩
              ∧ acc2.length < (decodeHeader hdr).Length
              ∧ acc2 ++ ((PacketReader.mk false (bufOf acc) p).tryRead chunks).stream.flatten
                  = body)))) := by
  induction chunks with
  | nil =>
    intro acc p hacc hjoin
    simp at hjoin
    have := congrArg List.length hjoin
    simp at this
    omega
  | cons c rest ih =>
    intro acc p hacc hjoin
    rw [List.flatten_cons, ← List.append_assoc] at hjoin
    rw [tryRead_cons]
    by_cases hnil : acc ++ c = []
    · rw [hnil] at hjoin ⊢
      rw [drainBuffer_nil]
      obtain ⟨h1, h2⟩ := ih [] p (by simp) hjoin
      refine ⟨by simpa using h1, ?_⟩
      rcases h2 with h2 | ⟨h2, h3, h4⟩
      · exact Or.inl h2
      · exact Or.inr ⟨h2, by simp only [List.length_cons]; omega, h4⟩
    · by_cases hlt : (acc ++ c).length < 24
      · rw [drainBuffer_header_short _ _ _ hnil hlt]
        exact ⟨rfl, Or.inr ⟨rfl, by simp, Or.inl ⟨acc ++ c, p, rfl, hlt, hjoin⟩⟩⟩
      · have hge : 24 ≤ (acc ++ c).length := by omega
        have htake : (acc ++ c).take 24 = hdr := by
          have hb : List.take 24 (hdr ++ body) = hdr := by rw [← hhdr, List.take_left]
          rw [← take_append_le _ rest.flatten _ hge, hjoin, hb]
        have hdrop : (acc ++ c).drop 24 ++ rest.flatten = body := by
          have hb : List.drop 24 (hdr ++ body) = body := by rw [← hhdr, List.drop_left]
          have := congrArg (List.drop 24) hjoin
          rw [List.drop_append_of_le_length hge, hb] at this
          exact this
        rw [drainBuffer_header_body _ _ _ hge (by rw [htake]; exact hok)
          (by rw [htake]; exact hpos), htake]
        by_cases hnil2 : (acc ++ c).drop 24 = []
        · rw [hnil2] at hdrop ⊢
          rw [drainBuffer_nil]
          obtain ⟨h1, h2⟩ := tryRead_bad_body _ body hlen hbad rest []
            (by simp; omega) hdrop
          refine ⟨by simpa using h1, ?_⟩
          rcases h2 with h2 | ⟨h2, h3, h4⟩
          · exact Or.inl h2
          · exact Or.inr ⟨h2, by simp only [List.length_cons]; omega, Or.inr h4⟩
        · by_cases hlt2 : ((acc ++ c).drop 24).length < (decodeHeader hdr).Length
          · rw [drainBuffer_body_short _ _ _ hnil2 hlt2]
            exact ⟨rfl, Or.inr ⟨rfl, by simp, Or.inr ⟨_, rfl, hlt2, hdrop⟩⟩⟩
          · have hge2 : (decodeHeader hdr).Length ≤ ((acc ++ c).drop 24).length := by omega
            have htake2 : ((acc ++ c).drop 24).take (decodeHeader hdr).Length = body := by
              rw [← take_append_le _ rest.flatten _ hge2, hdrop, ← hlen, List.take_length]
            rw [drainBuffer_body_bad _ _ _ hnil2 hge2 (by rw [htake2]; exact hbad), htake2]
            exact ⟨rfl, Or.inl rfl⟩

theorem readLoop_good_header (hdr body : List Byte) (hhdr : hdr.length = 24)
    (hok : (decodeHeader hdr).VerifyMagic = true) (hpos : (decodeHeader hdr).Length ≠ 0)
    (hlen : body.length = (decodeHeader hdr).Length)
    (hbad : ({ decodeHeader hdr with Data := body } : Packet).VerifyChecksum = false)
    (fuel : Nat) :
    ∀ (chunks : List (List Byte)) (acc : List Byte) (p : Packet),
      acc.length < 24 → acc ++ chunks.flatten = hdr ++ body → chunks.length < fuel →
      (PacketReader.mk false (bufOf acc) p).readLoop fuel chunks
        = ([], .error (.checksum { decodeHeader hdr with Data := body })) := by
  induction fuel with
  | zero => intro chunks acc p _ _ hf; omega
  | succ fuel ih =>
    intro chunks acc p hacc hjoin hf
    obtain ⟨hem, hex⟩ :=
      tryRead_good_header hdr body hhdr hok hpos hlen hbad chunks acc p hacc hjoin
    rw [PacketReader.readLoop]
    rcases hex with hex | ⟨hex, hlen2, ⟨acc2, p2, hr, hacc2, hjoin2⟩ | ⟨acc2, hr, hacc2, hjoin2⟩⟩
    · simp only [hex, hem]
    · simp only [hex, hem, hr]
      rw [hr] at *
      rw [ih _ acc2 p2 hacc2 hjoin2 (by omega)]
      rfl
    · simp only [hex, hem, hr]
      rw [hr] at *
      rw [readLoop_bad_body _ body hlen hbad fuel _ acc2 hacc2 hjoin2 (by omega)]
      rfl

/-! ### Single-bit corruption -/

theorem flipBit_val_ne (b : Byte) (k : Fin 8) : (flipBit b k).val ≠ b.val := by
  have hb : b.val < 2 ^ 8 := b.isLt
  have hk : 2 ^ k.val < 2 ^ 8 := Nat.pow_lt_pow_right (by decide) k.isLt
  have hx : b.val ^^^ 2 ^ k.val < 256 := Nat.xor_lt_two_pow hb hk
  show (b.val ^^^ 2 ^ k.val) % 256 ≠ b.val
  rw [Nat.mod_eq_of_lt hx]
  intro h
  have h0 : b.val ^^^ 2 ^ k.val = b.val ^^^ 0 := by rw [h, Nat.xor_zero]
  have := Nat.xor_right_injective h0
  exact absurd this (Nat.pos_iff_ne_zero.mp (Nat.pow_pos (by decide)))

theorem flipAt_length (l : List Byte) (i : Nat) (k : Fin 8) :
    (flipAt l i k).length = l.length := by
  induction l generalizing i with
  | nil => rfl
  | cons b t ih =>
    cases i with
    | zero => rfl
    | succ i => simp [flipAt, ih]

theorem flipAt_append_right (a b : List Byte) (i : Nat) (k : Fin 8) :
    flipAt (a ++ b) (a.length + i) k = a ++ flipAt b i k := by
  induction a with
  | nil => simp
  | cons x t ih =>
    have : (x :: t).length + i = (t.length + i) + 1 := by simp; omega
    rw [this, List.cons_append, flipAt, ih, List.cons_append]

theorem flipAt_sum (d : List Byte) (k : Fin 8) :
    ∀ i, i < d.length → ∃ b c : Nat, b < 256 ∧ c < 256 ∧ b ≠ c ∧
      ((flipAt d i k).map Fin.val).sum + b = (d.map Fin.val).sum + c := by
  induction d with
  | nil => intro i hi; simp at hi
  | cons x t ih =>
    intro i hi
    cases i with
    | zero =>
      refine ⟨x.val, (flipBit x k).val, x.isLt, (flipBit x k).isLt,
        (flipBit_val_ne x k).symm, ?_⟩
      simp only [flipAt, List.map_cons, List.sum_cons]
      omega
    | succ i =>
      obtain ⟨b, c, hb, hc, hne, hs⟩ := ih i (by simpa using hi)
      refine ⟨b, c, hb, hc, hne, ?_⟩
      simp only [flipAt, List.map_cons, List.sum_cons]
      omega

theorem checksum_flipAt_ne (d : List Byte) (i : Nat) (k : Fin 8) (hi : i < d.length) :
    checksum (flipAt d i k) ≠ checksum d := by
  obtain ⟨b, c, hb, hc, hne, hs⟩ := flipAt_sum d k i hi
  rw [checksum_eq_sum, checksum_eq_sum]
  norm_num
  omega

theorem getUint32_flipAt_ne (m : Nat) (hm : m < 2 ^ 32) (j : Nat) (hj : j < 4) (k : Fin 8) :
    getUint32 (flipAt (putUint32 m) j k) ≠ m := by
  have e0 := flipBit_val_ne ⟨m % 256, Nat.mod_lt _ (by decide)⟩ k
  have e1 := flipBit_val_ne ⟨m / 256 % 256, Nat.mod_lt _ (by decide)⟩ k
  have e2 := flipBit_val_ne ⟨m / 65536 % 256, Nat.mod_lt _ (by decide)⟩ k
  have e3 := flipBit_val_ne ⟨m / 16777216 % 256, Nat.mod_lt _ (by decide)⟩ k
  have l0 := (flipBit ⟨m % 256, Nat.mod_lt _ (by decide)⟩ k).isLt
  have l1 := (flipBit ⟨m / 256 % 256, Nat.mod_lt _ (by decide)⟩ k).isLt
  have l2 := (flipBit ⟨m / 65536 % 256, Nat.mod_lt _ (by decide)⟩ k).isLt
  have l3 := (flipBit ⟨m / 16777216 % 256, Nat.mod_lt _ (by decide)⟩ k).isLt
  interval_cases j <;>
    simp only [putUint32, flipAt, getUint32, List.getD_cons_zero, List.getD_cons_succ] at * <;>
    omega

theorem flipAt_append_left (a b : List Byte) (i : Nat) (k : Fin 8) (hi : i < a.length) :
    flipAt (a ++ b) i k = flipAt a i k ++ b := by
  induction a generalizing i with
  | nil => simp at hi
  | cons x t ih =>
    cases i with
    | zero => rfl
    | succ i =>
      rw [List.cons_append, flipAt, flipAt, ih i (by simpa using hi), List.cons_append]

theorem list_length_four (l : List Byte) (h : l.length = 4) :
    ∃ a b c d, l = [a, b, c, d] := by
  match l, h with
  | [a, b, c, d], _ => exact ⟨a, b, c, d, rfl⟩

theorem decodeHeader_append6 (p1 p2 p3 p4 p5 p6 rest : List Byte)
    (h1 : p1.length = 4) (h2 : p2.length = 4) (h3 : p3.length = 4) (h4 : p4.length = 4)
    (h5 : p5.length = 4) (h6 : p6.length = 4) :
    decodeHeader ((p1 ++ p2 ++ p3 ++ p4 ++ p5 ++ p6 ++ rest).take 24) =
      { Command := getUint32 p1, Arg0 := getUint32 p2, Arg1 := getUint32 p3,
        Length := getUint32 p4, Check := getUint32 p5, Magic := getUint32 p6, Data := [] } := by
  obtain ⟨a1, b1, c1, d1, rfl⟩ := list_length_four p1 h1
  obtain ⟨a2, b2, c2, d2, rfl⟩ := list_length_four p2 h2
  obtain ⟨a3, b3, c3, d3, rfl⟩ := list_length_four p3 h3
  obtain ⟨a4, b4, c4, d4, rfl⟩ := list_length_four p4 h4
  obtain ⟨a5, b5, c5, d5, rfl⟩ := list_length_four p5 h5
  obtain ⟨a6, b6, c6, d6, rfl⟩ := list_length_four p6 h6
  simp only [decodeHeader, slice, List.cons_append, List.nil_append,
    List.drop_succ_cons, List.drop_zero, List.take_succ_cons, List.take_zero, Nat.sub_zero,
    Nat.reduceSub, getUint32, List.getD_cons_zero, List.getD_cons_succ]

theorem flipAt_Assemble_magic (c a0 a1 : Nat) (d : List Byte) (j : Nat) (hj : j < 4)
    (k : Fin 8) :
    flipAt (Assemble c a0 a1 d) (20 + j) k =
      putUint32 c ++ putUint32 a0 ++ putUint32 a1 ++ putUint32 (d.length % 2 ^ 32)
        ++ putUint32 (checksum d) ++ flipAt (putUint32 (magic c)) j k ++ d := by
  have h20 : (putUint32 c ++ putUint32 a0 ++ putUint32 a1 ++ putUint32 (d.length % 2 ^ 32)
      ++ putUint32 (checksum d)).length = 20 := by
    simp only [List.length_append, putUint32_length]
  unfold Assemble
  rw [List.append_assoc _ (putUint32 (magic c)) d, List.append_assoc _ (flipAt _ j k) d,
    ← h20, flipAt_append_right, flipAt_append_left _ _ _ _ (by rw [putUint32_length]; exact hj)]

theorem decodeHeader_flip_magic (c a0 a1 : Nat) (d : List Byte) (j : Nat) (hj : j < 4)
    (k : Fin 8) :
    decodeHeader ((flipAt (Assemble c a0 a1 d) (20 + j) k).take 24) =
      { Command := c % 2 ^ 32, Arg0 := a0 % 2 ^ 32, Arg1 := a1 % 2 ^ 32,
        Length := d.length % 2 ^ 32, Check := checksum d,
        Magic := getUint32 (flipAt (putUint32 (magic c)) j k), Data := [] } := by
  rw [flipAt_Assemble_magic c a0 a1 d j hj k,
    decodeHeader_append6 _ _ _ _ _ _ _ (putUint32_length _) (putUint32_length _)
      (putUint32_length _) (putUint32_length _) (putUint32_length _)
      (by rw [flipAt_length, putUint32_length])]
  simp only [getUint32_putUint32, Nat.mod_mod, Nat.mod_eq_of_lt (checksum_lt d)]

theorem decodeHeader_take_Assemble (c a0 a1 : Nat) (d : List Byte) :
    decodeHeader ((Assemble c a0 a1 d).take 24) =
      { Command := c % 2 ^ 32, Arg0 := a0 % 2 ^ 32, Arg1 := a1 % 2 ^ 32,
        Length := d.length % 2 ^ 32, Check := checksum d, Magic := magic c, Data := [] } := by
  unfold Assemble
  rw [decodeHeader_append6 _ _ _ _ _ _ _ (putUint32_length _) (putUint32_length _)
      (putUint32_length _) (putUint32_length _) (putUint32_length _) (putUint32_length _)]
  simp only [getUint32_putUint32, Nat.mod_mod, Nat.mod_eq_of_lt (checksum_lt d),
    Nat.mod_eq_of_lt (magic_lt c)]

theorem Assemble_eq_header_append (c a0 a1 : Nat) (d : List Byte) :
    Assemble c a0 a1 d = (Assemble c a0 a1 d).take 24 ++ d := by
  conv_lhs => rw [← List.take_append_drop 24 (Assemble c a0 a1 d), drop24_Assemble]

theorem take24_Assemble_length (c a0 a1 : Nat) (d : List Byte) :
    ((Assemble c a0 a1 d).take 24).length = 24 := by
  rw [List.length_take, Assemble_length]
  omega

theorem magic_mod (c : Nat) : magic (c % 2 ^ 32) = magic c := by
  unfold magic
  rw [Nat.mod_mod]

/-- C2 (amended): let `c`, `a0`, `a1` be 32-bit and `d` a payload shorter than
`2 ^ 32` bytes. However the bytes of `Assemble c a0 a1 d` with one bit inverted
are cut into reads, the `PacketReader` emits no packet and stops with an error:
for a bit of the magic field (bytes 20..23) `VerifyMagic` is false on the
decoded header and the error is `MagicError`; for a bit of a payload byte (the
header checksum left as it was) `VerifyChecksum` is false on the packet and the
error is `ChecksumError`. -/
theorem corrupted_packet_rejected (c a0 a1 : Nat) (d : List Byte) (k : Fin 8)
    (chunks : List (List Byte)) (fuel : Nat)
    (hc : c < 2 ^ 32) (h0 : a0 < 2 ^ 32) (h1 : a1 < 2 ^ 32) (hd : d.length < 2 ^ 32)
    (hfuel : chunks.length < fuel) :
    (∀ j, j < 4 → chunks.flatten = flipAt (Assemble c a0 a1 d) (20 + j) k →
      (Packet.mk c a0 a1 d.length (checksum d)
          (getUint32 (flipAt (putUint32 (magic c)) j k)) []).VerifyMagic = false
      ∧ NewPacketReader.readLoop fuel chunks =
          ([], .error (.magic (Packet.mk c a0 a1 d.length (checksum d)
            (getUint32 (flipAt (putUint32 (magic c)) j k)) []))))
    ∧ (∀ i, i < d.length → chunks.flatten = flipAt (Assemble c a0 a1 d) (24 + i) k →
      (Packet.mk c a0 a1 d.length (checksum d) (magic c) (flipAt d i k)).VerifyChecksum = false
      ∧ NewPacketReader.readLoop fuel chunks =
          ([], .error (.checksum
            (Packet.mk c a0 a1 d.length (checksum d) (magic c) (flipAt d i k))))) := by
  constructor
  · intro j hj hjoin
    have hbad : (Packet.mk c a0 a1 d.length (checksum d)
        (getUint32 (flipAt (putUint32 (magic c)) j k)) []).VerifyMagic = false := by
      simp only [Packet.VerifyMagic, beq_eq_false_iff_ne, ne_eq]
      exact getUint32_flipAt_ne (magic c) (magic_lt c) j hj k
    refine ⟨hbad, ?_⟩
    have hdec := decodeHeader_flip_magic c a0 a1 d j hj k
    rw [Nat.mod_eq_of_lt hc, Nat.mod_eq_of_lt h0, Nat.mod_eq_of_lt h1, Nat.mod_eq_of_lt hd]
      at hdec
    have h24 : 24 ≤ (flipAt (Assemble c a0 a1 d) (20 + j) k).length := by
      rw [flipAt_length, Assemble_length]; omega
    have := readLoop_bad_magic (flipAt (Assemble c a0 a1 d) (20 + j) k) h24
      (by rw [hdec]; exact hbad) fuel chunks [] ⟨0, 0, 0, 0, 0, 0, []⟩ (by simp)
      (by simpa using hjoin) hfuel
    rw [hdec] at this
    exact this
  · intro i hi hjoin
    have hbad : (Packet.mk c a0 a1 d.length (checksum d) (magic c)
        (flipAt d i k)).VerifyChecksum = false := by
      simp only [Packet.VerifyChecksum, beq_eq_false_iff_ne, ne_eq]
      exact fun h => checksum_flipAt_ne d i k hi h.symm
    refine ⟨hbad, ?_⟩
    have hdec := decodeHeader_take_Assemble c a0 a1 d
    rw [Nat.mod_eq_of_lt hc, Nat.mod_eq_of_lt h0, Nat.mod_eq_of_lt h1, Nat.mod_eq_of_lt hd]
      at hdec
    have hsplit : flipAt (Assemble c a0 a1 d) (24 + i) k
        = (Assemble c a0 a1 d).take 24 ++ flipAt d i k := by
      have h := flipAt_append_right ((Assemble c a0 a1 d).take 24) d i k
      rw [take24_Assemble_length, ← Assemble_eq_header_append] at h
      exact h
    have hpos : d.length ≠ 0 := by omega
    have := readLoop_good_header ((Assemble c a0 a1 d).take 24) (flipAt d i k)
      (take24_Assemble_length c a0 a1 d)
      (by rw [hdec]; simp [Packet.VerifyMagic])
      (by rw [hdec]; exact hpos)
      (by rw [hdec, flipAt_length])
      (by rw [hdec]; exact hbad)
      fuel chunks [] ⟨0, 0, 0, 0, 0, 0, []⟩ (by simp)
      (by rw [List.nil_append, hjoin, hsplit]) hfuel
    rw [hdec] at this
    exact this

/-- Witness for `corrupted_packet_rejected`: bit 3 of magic byte 22, delivered
in three reads, and bit 3 of payload byte 1, delivered in one read. -/
theorem corrupted_packet_rejected_witness :
    NewPacketReader.readLoop 4
        [(flipAt (Assemble A_WRTE 1 2 [7, 8, 9]) 22 3).take 10, [],
          (flipAt (Assemble A_WRTE 1 2 [7, 8, 9]) 22 3).drop 10]
      = ([], .error (.magic ⟨A_WRTE, 1, 2, 3, 24, 3131289000, []⟩))
    ∧ NewPacketReader.readLoop 2 [flipAt (Assemble A_WRTE 1 2 [7, 8, 9]) 25 3]
      = ([], .error (.checksum ⟨A_WRTE, 1, 2, 3, 24, 3131813288, [7, 0, 9]⟩)) :=
  ⟨((corrupted_packet_rejected A_WRTE 1 2 [7, 8, 9] 3
        [(flipAt (Assemble A_WRTE 1 2 [7, 8, 9]) 22 3).take 10, [],
          (flipAt (Assemble A_WRTE 1 2 [7, 8, 9]) 22 3).drop 10] 4
        (by decide) (by decide) (by decide) (by decide) (by decide)).1 2 (by decide)
        (by decide)).2,
    ((corrupted_packet_rejected A_WRTE 1 2 [7, 8, 9] 3
        [flipAt (Assemble A_WRTE 1 2 [7, 8, 9]) 25 3] 2
        (by decide) (by decide) (by decide) (by decide) (by decide)).2 1 (by decide)
        (by decide)).2⟩

theorem fullReads_flatten (fuel : Nat) :
    ∀ bytes : List Byte, (fullReads fuel bytes).flatten = bytes := by
  induction fuel with
  | zero => intro bytes; simp [fullReads]
  | succ n ih =>
    intro bytes
    unfold fullReads
    split
    · simp
    · rw [List.flatten_cons, ih, List.take_append_drop]

theorem readLoop_emitted_append (fuel : Nat) (stream : List (List Byte)) (r : PacketReader) :
    ∃ out, (r.readLoop (fuel + 1) stream).1 = (r.tryRead stream).emitted ++ out := by
  rw [PacketReader.readLoop]
  rcases h : (r.tryRead stream).exit with _ | e | _
  · exact ⟨_, rfl⟩
  · cases e <;> exact ⟨[], by simp⟩
  · exact ⟨[], by simp⟩

theorem tryRead_empty_header (hdr : List Byte) (rest : List (List Byte)) (p : Packet)
    (hhdr : hdr.length = 24) (hok : (decodeHeader hdr).VerifyMagic = true)
    (hlen : (decodeHeader hdr).Length = 0) :
    ((PacketReader.mk false (bufOf []) p).tryRead (hdr :: rest)).emitted
      = decodeHeader hdr ::
          ((PacketReader.mk false (bufOf []) (decodeHeader hdr)).tryRead rest).emitted := by
  have htake : hdr.take 24 = hdr := by rw [← hhdr, List.take_length]
  have hdrop : hdr.drop 24 = [] := by rw [← hhdr, List.drop_length]
  rw [tryRead_cons, List.nil_append,
    drainBuffer_header_empty _ _ _ (by omega) (by rw [htake]; exact hok)
      (by rw [htake]; exact hlen), htake, hdrop, drainBuffer_nil]
  rfl


theorem take24_flipAt_payload (c a0 a1 : Nat) (d : List Byte) (i : Nat) (k : Fin 8) :
    (flipAt (Assemble c a0 a1 d) (24 + i) k).take 24 = (Assemble c a0 a1 d).take 24 := by
  have h := flipAt_append_right ((Assemble c a0 a1 d).take 24) d i k
  rw [take24_Assemble_length, ← Assemble_eq_header_append] at h
  rw [h, List.take_append_of_le_length (by rw [take24_Assemble_length]),
    List.take_take, Nat.min_self]

theorem wrapped_length_emitted (c a0 a1 : Nat) (d : List Byte) (i : Nat) (k : Fin 8)
    (hd : d.length % 2 ^ 32 = 0) (rest : List (List Byte)) (fuel : Nat) :
    (NewPacketReader.readLoop (fuel + 1)
        ((flipAt (Assemble c a0 a1 d) (24 + i) k).take 24 :: rest)).1.head?
      = some ⟨c % 2 ^ 32, a0 % 2 ^ 32, a1 % 2 ^ 32, 0, checksum d, magic c, []⟩ := by
  have hdec : decodeHeader ((flipAt (Assemble c a0 a1 d) (24 + i) k).take 24)
      = ⟨c % 2 ^ 32, a0 % 2 ^ 32, a1 % 2 ^ 32, 0, checksum d, magic c, []⟩ := by
    rw [take24_flipAt_payload, decodeHeader_take_Assemble, hd]
  obtain ⟨out, hout⟩ := readLoop_emitted_append fuel
    ((flipAt (Assemble c a0 a1 d) (24 + i) k).take 24 :: rest) NewPacketReader
  rw [hout]
  have hem := tryRead_empty_header ((flipAt (Assemble c a0 a1 d) (24 + i) k).take 24)
    rest ⟨0, 0, 0, 0, 0, 0, []⟩
    (by rw [take24_flipAt_payload, take24_Assemble_length])
    (by rw [hdec]; simp only [Packet.VerifyMagic, magic_mod, beq_self_eq_true])
    (by rw [hdec])
  have hnew : NewPacketReader = PacketReader.mk false (bufOf []) ⟨0, 0, 0, 0, 0, 0, []⟩ := rfl
  rw [hnew, hem, hdec]
  rfl

/-- C2 as stated fails for a payload of `2 ^ 32` bytes: the length field wraps
to `0`, so the reader emits the header as a packet without looking at the
checksum, although a payload bit was inverted. -/
theorem oversize_payload_flip_emitted :
    oversizeReads.flatten = oversizeCorrupted
      ∧ (NewPacketReader.readLoop (oversizeReads.length + 1) oversizeReads).1.head?
          = some ⟨A_WRTE, 1, 2, 0, 0, magic A_WRTE, []⟩ := by
  have hk : checksum (List.replicate 4294967296 (0 : Byte)) = 0 := by
    rw [checksum_eq_sum, sum_replicate_zero, Nat.zero_mod]
  constructor
  · unfold oversizeReads
    rw [List.flatten_cons, fullReads_flatten, List.take_append_drop]
  · have h := wrapped_length_emitted A_WRTE 1 2 (List.replicate 4294967296 0) 0 0
      (by rw [List.length_replicate]; rfl)
      (fullReads 4294967296 (oversizeCorrupted.drop 24)) oversizeReads.length
    rw [hk] at h
    exact h

/-! ### The length codec -/

theorem hexDigitsAux_lt_65536 (n : Nat) (hn : n < 65536) :
    List.replicate (4 - (hexDigitsAux 16 n []).length) (48 : Byte) ++ hexDigitsAux 16 n []
      = [hexDigitUpper (n / 4096), hexDigitUpper (n / 256 % 16),
          hexDigitUpper (n / 16 % 16), hexDigitUpper (n % 16)] := by
  have z : hexDigitUpper 0 = 48 := by decide
  by_cases h1 : n / 16 = 0
  · have a : n / 4096 = 0 := by omega
    have b : n / 256 % 16 = 0 := by omega
    have c : n / 16 % 16 = 0 := by omega
    simp [hexDigitsAux, h1, a, b, c, z, List.replicate]
  · by_cases h2 : n / 16 / 16 = 0
    · have a : n / 4096 = 0 := by omega
      have b : n / 256 % 16 = 0 := by omega
      have c : n / 16 % 16 = n / 16 := by omega
      simp [hexDigitsAux, h1, h2, a, b, c, z, List.replicate]
    · by_cases h3 : n / 16 / 16 / 16 = 0
      · have a : n / 4096 = 0 := by omega
        have b : n / 256 % 16 = n / 16 / 16 := by omega
        have c : n / 16 / 16 % 16 = n / 16 / 16 := by omega
        simp [hexDigitsAux, h1, h2, h3, a, b, c, z, List.replicate]
      · have h4 : n / 16 / 16 / 16 / 16 = 0 := by omega
        have a : n / 16 / 16 / 16 % 16 = n / 4096 := by omega
        have b : n / 16 / 16 % 16 = n / 256 % 16 := by omega
        simp [hexDigitsAux, h1, h2, h3, h4, a, b, List.replicate]

theorem EncodeLength_lt_65536 (n : Nat) (hn : n < 65536) :
    EncodeLength (n : Int)
      = [hexDigitUpper (n / 4096), hexDigitUpper (n / 256 % 16),
          hexDigitUpper (n / 16 % 16), hexDigitUpper (n % 16)] := by
  unfold EncodeLength sprintf04X
  rw [if_neg (by omega)]
  simp only [Int.toNat_ofNat]
  exact hexDigitsAux_lt_65536 n hn

theorem digitVal_hexDigitUpper : ∀ d : Fin 16, digitVal (hexDigitUpper d.val) = some d.val := by
  decide

theorem isUpperHex_hexDigitUpper : ∀ d : Fin 16, isUpperHex (hexDigitUpper d.val) = true := by
  decide

theorem hexDigitUpper_not_sign : ∀ d : Fin 16,
    (hexDigitUpper d.val).val ≠ 43 ∧ (hexDigitUpper d.val).val ≠ 45 := by
  decide

theorem DecodeLength_four_digits (a b c d : Nat) (ha : a < 16) (hb : b < 16) (hc : c < 16)
    (hd : d < 16) :
    DecodeLength [hexDigitUpper a, hexDigitUpper b, hexDigitUpper c, hexDigitUpper d]
      = .ok (((a * 16 + b) * 16 + c) * 16 + d : Nat) := by
  have va := digitVal_hexDigitUpper ⟨a, ha⟩
  have vb := digitVal_hexDigitUpper ⟨b, hb⟩
  have vc := digitVal_hexDigitUpper ⟨c, hc⟩
  have vd := digitVal_hexDigitUpper ⟨d, hd⟩
  have sa := hexDigitUpper_not_sign ⟨a, ha⟩
  simp only at va vb vc vd sa
  have hu : ParseUint16_32 [hexDigitUpper a, hexDigitUpper b, hexDigitUpper c, hexDigitUpper d]
      = (((a * 16 + b) * 16 + c) * 16 + d, none) := by
    unfold ParseUint16_32
    rw [if_neg (by simp)]
    simp only [parseUintLoop, va, vb, vc, vd]
    rw [if_neg (by omega), if_neg (by norm_num), if_neg (by omega)]
    rw [if_neg (by omega), if_neg (by omega), if_neg (by omega)]
    rw [if_neg (by omega), if_neg (by omega), if_neg (by omega)]
    rw [if_neg (by omega), if_neg (by omega), if_neg (by omega)]
    simp
  unfold DecodeLength ParseInt16_32
  simp only [sa.1, sa.2, or_self, if_false, hu]
  rw [if_neg (by omega), if_neg (by simp)]

theorem DecodeLength_of_EncodeLength (m : Nat) (hm : m < 65536) :
    DecodeLength (EncodeLength (m : Int)) = .ok (m : Int) := by
  have h4 : m / 4096 < 16 := by omega
  have h3 : m / 256 % 16 < 16 := by omega
  have h2 : m / 16 % 16 < 16 := by omega
  have h1 : m % 16 < 16 := by omega
  rw [EncodeLength_lt_65536 m hm, DecodeLength_four_digits _ _ _ _ h4 h3 h2 h1]
  congr 2
  omega

/-- C3: for every integer `n` with `0 ≤ n ≤ 0xFFFF`, `EncodeLength n` has
exactly four characters, each of them `0`-`9` or `A`-`F`, and
`DecodeLength (EncodeLength n)` returns `n` without error. -/
theorem DecodeLength_EncodeLength (n : Int) (h0 : 0 ≤ n) (h1 : n ≤ 0xFFFF) :
    (EncodeLength n).length = 4
      ∧ (∀ c ∈ EncodeLength n, isUpperHex c = true)
      ∧ DecodeLength (EncodeLength n) = .ok n := by
  obtain ⟨m, rfl⟩ := Int.eq_ofNat_of_zero_le h0
  have hm : m < 65536 := by omega
  have h4 : m / 4096 < 16 := by omega
  have h3 : m / 256 % 16 < 16 := by omega
  have h2 : m / 16 % 16 < 16 := by omega
  have h1 : m % 16 < 16 := by omega
  rw [EncodeLength_lt_65536 m hm]
  refine ⟨rfl, ?_, ?_⟩
  · intro c hc
    simp only [List.mem_cons, List.mem_singleton, List.not_mem_nil, or_false] at hc
    rcases hc with rfl | rfl | rfl | rfl
    · exact isUpperHex_hexDigitUpper ⟨_, h4⟩
    · exact isUpperHex_hexDigitUpper ⟨_, h3⟩
    · exact isUpperHex_hexDigitUpper ⟨_, h2⟩
    · exact isUpperHex_hexDigitUpper ⟨_, h1⟩
  · rw [← EncodeLength_lt_65536 m hm]
    exact DecodeLength_of_EncodeLength m hm

/-- Witness for `DecodeLength_EncodeLength` at `n = 42`, encoded as `002A`. -/
theorem DecodeLength_EncodeLength_witness :
    (0 : Int) ≤ 42 ∧ (42 : Int) ≤ 0xFFFF ∧ EncodeLength 42 = [48, 48, 50, 65]
      ∧ DecodeLength (EncodeLength 42) = .ok 42 :=
  ⟨by decide, by decide, by decide,
    (DecodeLength_EncodeLength 42 (by decide) (by decide)).2.2⟩

theorem DecodeData_prefixed (a b c d : Byte) (rest : List Byte) (length : Nat)
    (hdec : DecodeLength [a, b, c, d] = .ok (length : Int)) (hlen : length ≤ rest.length) :
    DecodeData (a :: b :: c :: d :: rest) = .ok (rest.take length) := by
  unfold DecodeData
  rw [if_neg (by simp)]
  have hs : slice (a :: b :: c :: d :: rest) 0 4 = [a, b, c, d] := by
    simp [slice]
  rw [hs, hdec]
  simp only
  rw [if_neg (by simp only [List.length_cons]; omega), if_neg (by omega)]
  have h4 : (4 + (length : Int)).toNat = 4 + length := by omega
  rw [h4]
  simp [slice]

/-- C4 (amended): for every byte sequence `p` of at most `0xFFFF` bytes
(the empty one included), `DecodeData (EncodeData p)` returns exactly `p`
without error, and the encoded frame is `4 + |p|` bytes long, so that no byte
of it is left after the payload `data[4 : 4+|p|]`. -/
theorem DecodeData_EncodeData (p : List Byte) (hp : p.length ≤ 0xFFFF) :
    DecodeData (EncodeData p) = .ok p
      ∧ (EncodeData p).length = 4 + p.length
      ∧ (EncodeData p).drop (4 + p.length) = [] := by
  have hm : p.length < 65536 := by omega
  have henc := EncodeLength_lt_65536 p.length hm
  have hdec := DecodeLength_of_EncodeLength p.length (by omega)
  rw [henc] at hdec
  have hE : EncodeData p = hexDigitUpper (p.length / 4096) :: hexDigitUpper (p.length / 256 % 16)
      :: hexDigitUpper (p.length / 16 % 16) :: hexDigitUpper (p.length % 16) :: p := by
    unfold EncodeData
    rw [henc]
    rfl
  have hlen : (EncodeData p).length = 4 + p.length := by
    rw [hE]; simp only [List.length_cons]; omega
  refine ⟨?_, hlen, ?_⟩
  · rw [hE, DecodeData_prefixed _ _ _ _ p p.length hdec (le_refl _), List.take_length]
  · rw [List.drop_eq_nil_iff, hlen]

/-- Witness for `DecodeData_EncodeData`: the frame `0003` + three bytes. -/
theorem DecodeData_EncodeData_witness :
    ([104, 105, 33] : List Byte).length ≤ 0xFFFF
      ∧ EncodeData [104, 105, 33] = [48, 48, 48, 51, 104, 105, 33]
      ∧ DecodeData (EncodeData [104, 105, 33]) = .ok [104, 105, 33] :=
  ⟨by decide, by decide, (DecodeData_EncodeData [104, 105, 33] (by decide)).1⟩

theorem DecodeData_EncodeData_65536 (p : List Byte) (hp : p.length = 65536) :
    DecodeData (EncodeData p) = .ok ((48 :: p).take 4096) := by
  have hE : EncodeData p = 49 :: 48 :: 48 :: 48 :: (48 :: p) := by
    unfold EncodeData
    rw [hp]
    rfl
  rw [hE]
  exact DecodeData_prefixed 49 48 48 48 (48 :: p) 4096 (by decide)
    (by simp only [List.length_cons]; omega)

theorem DecodeData_EncodeData_65536_ne (p : List Byte) (hp : p.length = 65536) :
    DecodeData (EncodeData p) ≠ .ok p := by
  rw [DecodeData_EncodeData_65536 p hp]
  intro heq
  injection heq with h
  have hl := congrArg List.length h
  rw [List.length_take, List.length_cons, hp] at hl
  omega

/-- C4 as stated fails for a payload of `0x10000` bytes: the length prefix is
the five characters `10000`, `DecodeData` reads `1000` and returns 4096 bytes,
the first of them the character `0` of the prefix. -/
theorem DecodeData_EncodeData_oversize :
    DecodeData (EncodeData (List.replicate 65536 0))
        = .ok ((48 :: List.replicate 65536 0).take 4096)
      ∧ DecodeData (EncodeData (List.replicate 65536 0)) ≠ .ok (List.replicate 65536 0) :=
  ⟨DecodeData_EncodeData_65536 (List.replicate 65536 0) (List.length_replicate _ _),
    DecodeData_EncodeData_65536_ne (List.replicate 65536 0) (List.length_replicate _ _)⟩

/-! ### The parser -/

theorem ReadBytes_four (a tail : List Byte) (e : Bool) (ha : a.length = 4) :
    (Parser.mk (a ++ tail) e).ReadBytes 4 = (.ok a, ⟨tail, e⟩) := by
  unfold Parser.ReadBytes ReadFull
  have h4 : (4 : Int).toNat = 4 := rfl
  rw [if_neg (by decide), if_neg (by decide), h4, if_pos (by simp [ha])]
  simp only [← ha, List.take_left, List.drop_left]

theorem Write_nil (t : PullTransfer) : t.Write [] = t := by
  cases t with
  | mk b w wr ev =>
    cases w <;> simp [PullTransfer.Write]

theorem Write_append (t : PullTransfer) (a b : List Byte) :
    (t.Write a).Write b = t.Write (a ++ b) := by
  cases t with
  | mk n w wr ev =>
    cases w <;> simp [PullTransfer.Write, Nat.add_assoc]

theorem ReadByteFlow_all (p tail : List Byte) (e : Bool) (t : PullTransfer) :
    (Parser.mk (p ++ tail) e).ReadByteFlow (p.length : Nat) t = (none, ⟨tail, e⟩, t.Write p) := by
  unfold Parser.ReadByteFlow
  by_cases h0 : p = []
  · subst h0
    simp [Write_nil]
  · have hpos : 0 < p.length := List.length_pos.mpr h0
    rw [if_neg (by omega)]
    unfold CopyN
    rw [if_neg (by omega), if_pos (by simp)]
    simp

theorem readData_DATA (fuel : Nat) (p tail : List Byte) (e : Bool) (t : PullTransfer)
    (hp : p.length < 2 ^ 32) :
    readData (fuel + 1) ⟨DATA ++ putUint32 p.length ++ p ++ tail, e⟩ t
      = readData fuel ⟨tail, e⟩ (t.Write p) := by
  rw [readData]
  unfold Parser.ReadAscii
  rw [List.append_assoc, List.append_assoc, ReadBytes_four DATA _ e rfl]
  simp only [if_true]
  rw [ReadBytes_four (putUint32 p.length) _ e rfl]
  simp only [getUint32_putUint32, Nat.mod_eq_of_lt hp, ReadByteFlow_all]

theorem readData_DONE (fuel : Nat) (ts tail : List Byte) (e : Bool) (t : PullTransfer)
    (hts : ts.length = 4) :
    readData (fuel + 1) ⟨DONE ++ ts ++ tail, e⟩ t = some (⟨tail, e⟩, t.End) := by
  rw [readData]
  unfold Parser.ReadAscii
  rw [List.append_assoc, ReadBytes_four DONE _ e rfl]
  have hne : ¬ DONE = DATA := by decide
  simp only [hne, if_false, if_true]
  rw [ReadBytes_four ts _ e hts]

theorem readData_pull (payloads : List (List Byte)) (ts rest : List Byte) (e : Bool)
    (hts : ts.length = 4) (hp : ∀ p ∈ payloads, p.length < 2 ^ 32) :
    ∀ (fuel : Nat) (t : PullTransfer), payloads.length < fuel →
      readData fuel ⟨pullStream payloads ts rest, e⟩ t
        = some (⟨rest, e⟩, (t.Write payloads.flatten).End) := by
  induction payloads with
  | nil =>
    intro fuel t hf
    obtain ⟨f, rfl⟩ : ∃ f, fuel = f + 1 := ⟨fuel - 1, by simp at hf; omega⟩
    have : pullStream [] ts rest = DONE ++ ts ++ rest := by simp [pullStream]
    rw [this, readData_DONE f ts rest e t hts]
    simp [Write_nil]
  | cons p ps ih =>
    intro fuel t hf
    obtain ⟨f, rfl⟩ : ∃ f, fuel = f + 1 := ⟨fuel - 1, by simp at hf; omega⟩
    have hs : pullStream (p :: ps) ts rest
        = DATA ++ putUint32 p.length ++ p ++ pullStream ps ts rest := by
      simp [pullStream, List.append_assoc]
    rw [hs, readData_DATA f p _ e t (hp p (List.mem_cons_self _ _)),
      ih (fun q hq => hp q (List.mem_cons_of_mem _ hq)) f _ (by simpa using hf),
      Write_append, List.flatten_cons]

/-- C6: when the device stream after `RECV` is one `DATA` frame per payload
(length as four little-endian bytes, so each payload is shorter than
`2 ^ 32`), then `DONE` with four timestamp bytes, then arbitrary bytes `rest`,
`readData` returns, its `Write` calls carry exactly the payloads in order, the
transfer reports `end` and no error, and the stream is left at `rest`. -/
theorem readData_pull_session (payloads : List (List Byte)) (ts rest : List Byte)
    (fuel : Nat) (hts : ts.length = 4) (hp : ∀ p ∈ payloads, p.length < 2 ^ 32)
    (hfuel : payloads.length < fuel) :
    readData fuel (NewParser (pullStream payloads ts rest)) NewPullTransfer
      = some (NewParser rest,
          { bytesTransferred := payloads.flatten.length, writer := none,
            written := payloads.flatten, events := [.ended] }) := by
  unfold NewParser
  rw [readData_pull payloads ts rest false hts hp fuel NewPullTransfer hfuel]
  simp [NewPullTransfer, PullTransfer.Write, PullTransfer.End]

/-- Witness for `readData_pull_session`: payloads of three, zero and one byte,
followed by two further bytes on the stream. -/
theorem readData_pull_session_witness :
    ([0, 0, 0, 1] : List Byte).length = 4
      ∧ (∀ p ∈ ([[1, 2, 3], [], [9]] : List (List Byte)), p.length < 2 ^ 32)
      ∧ ([[1, 2, 3], [], [9]] : List (List Byte)).length < 4
      ∧ readData 4 (NewParser (pullStream [[1, 2, 3], [], [9]] [0, 0, 0, 1] [7, 7]))
            NewPullTransfer
          = some (NewParser [7, 7],
              { bytesTransferred := 4, writer := none, written := [1, 2, 3, 9],
                events := [.ended] }) :=
  ⟨by decide, by decide, by decide,
    readData_pull_session [[1, 2, 3], [], [9]] [0, 0, 0, 1] [7, 7] 4 (by decide) (by decide)
      (by decide)⟩

/-! ### The rolling counter -/

theorem wrapInt_of_range (x : Int) (h0 : -2 ^ 63 ≤ x) (h1 : x < 2 ^ 63) : wrapInt x = x := by
  unfold wrapInt
  omega

theorem afterCalls_climb (k : Nat) :
    ∀ c : RollingCounter, -2 ^ 63 ≤ c.now → c.max < 2 ^ 63 → c.now + k = c.max →
      c.afterCalls k = { c with now := c.max } := by
  induction k with
  | zero =>
    intro c _ _ h
    simp at h
    cases c with
    | mk mx mn nw =>
      simp only at h
      subst h
      rfl
  | succ k ih =>
    intro c hlo hhi h
    have hlt : ¬ c.now ≥ c.max := by push_cast at h; omega
    have hstep : c.afterCalls (k + 1) = (c.Next.2).afterCalls k := by
      simp [RollingCounter.afterCalls, Function.iterate_succ]
    rw [hstep]
    have hw : wrapInt (c.now + 1) = c.now + 1 :=
      wrapInt_of_range _ (by omega) (by push_cast at h; omega)
    have hn : c.Next.2 = { c with now := c.now + 1 } := by
      simp [RollingCounter.Next, hlt, hw]
    rw [hn]
    exact ih { c with now := c.now + 1 } (by show -2 ^ 63 ≤ c.now + 1; omega) hhi
      (by show c.now + 1 + (k : Int) = c.max; push_cast at h; omega)

/-- C10: for every `RollingCounter` that `NewRollingCounter` creates from Go
`int`s (so `now = min` initially) and whose bounds satisfy `min < max`, after
exactly `max - min` calls of `Next` the following call returns `min + 1`. -/
theorem Next_wraps (max min : Int) (hmin : -2 ^ 63 ≤ min) (hmax : max < 2 ^ 63)
    (h : (NewRollingCounter max min).min < (NewRollingCounter max min).max) :
    (NewRollingCounter max min).now = (NewRollingCounter max min).min
      ∧ (((NewRollingCounter max min).afterCalls
            ((NewRollingCounter max min).max - (NewRollingCounter max min).min).toNat).Next).1
          = (NewRollingCounter max min).min + 1 := by
  refine ⟨rfl, ?_⟩
  have hlo : -2 ^ 63 ≤ (NewRollingCounter max min).min := by
    unfold NewRollingCounter
    simp only
    split <;> omega
  have hm : (NewRollingCounter max min).max = max := rfl
  generalize hc : NewRollingCounter max min = c at h hlo hm
  have hnow : c.now = c.min := by rw [← hc]; rfl
  rw [afterCalls_climb _ c (by rw [hnow]; exact hlo) (by rw [hm]; exact hmax)
    (by rw [hnow]; omega)]
  have hw : wrapInt (c.min + 1) = c.min + 1 := wrapInt_of_range _ (by omega) (by omega)
  simp [RollingCounter.Next, hw]

/-- Witness for `Next_wraps`: the counter with `min = 3` and `max = 6` returns
4, 5, 6 and then 4 again. -/
theorem Next_wraps_witness :
    (-2 ^ 63 : Int) ≤ 3 ∧ (6 : Int) < 2 ^ 63
      ∧ (NewRollingCounter 6 3).min < (NewRollingCounter 6 3).max
      ∧ (((NewRollingCounter 6 3).afterCalls 3).Next).1 = 4 :=
  ⟨by decide, by decide, by decide, (Next_wraps 6 3 (by decide) (by decide) (by decide)).2⟩

/-- C11 (amended): for every `RollingCounter` state whose fields are Go
`int`s, `Next` returns `now + 1` and stores it when `now < max`; when
`now >= max` it restarts from `min`: it returns `min + 1` and leaves
`now = min + 1` (provided `min` is not the largest `int`). -/
theorem Next_cases (c : RollingCounter) (hnow : -2 ^ 63 ≤ c.now) (hmax : c.max < 2 ^ 63)
    (hmin : -2 ^ 63 ≤ c.min) :
    (c.now < c.max → c.Next = (c.now + 1, { c with now := c.now + 1 }))
      ∧ (c.now ≥ c.max → c.min < 2 ^ 63 - 1 →
          c.Next = (c.min + 1, { c with now := c.min + 1 })) := by
  constructor
  · intro h
    have hw : wrapInt (c.now + 1) = c.now + 1 := wrapInt_of_range _ (by omega) (by omega)
    have hge : ¬ c.now ≥ c.max := by omega
    simp [RollingCounter.Next, hge, hw]
  · intro h hm
    have hw : wrapInt (c.min + 1) = c.min + 1 := wrapInt_of_range _ (by omega) (by omega)
    simp [RollingCounter.Next, h, hw]

/-- Witness for `Next_cases`: from `{min = 1, max = 3}`, `now = 2` gives 3 and
`now = 3` gives 2. -/
theorem Next_cases_witness :
    (RollingCounter.mk 3 1 2).Next = (3, ⟨3, 1, 3⟩)
      ∧ (RollingCounter.mk 3 1 3).Next = (2, ⟨3, 1, 2⟩) :=
  ⟨(Next_cases ⟨3, 1, 2⟩ (by decide) (by decide) (by decide)).1 (by decide),
    (Next_cases ⟨3, 1, 3⟩ (by decide) (by decide) (by decide)).2 (by decide) (by decide)⟩

/-- C11 as stated fails in the wrapping case: with `min = 1`, `max = 3` and
`now = 3`, `Next` returns `2` and leaves `now = 2`, not `min = 1`. -/
theorem Next_wrap_returns_min_plus_one :
    (RollingCounter.mk 3 1 3).Next.1 = 2 ∧ (RollingCounter.mk 3 1 3).Next.2.now = 2
      ∧ (RollingCounter.mk 3 1 3).Next.1 ≠ (RollingCounter.mk 3 1 3).min := by
  decide

/-! ### Credit-of-one flow control in `Service` -/

theorem wireCommand_Assemble (c a0 a1 : Nat) (d : List Byte) :
    wireCommand (Assemble c a0 a1 d) = c % 2 ^ 32 := by
  have h := decodeHeader_Assemble c a0 a1 d
  have h2 := congrArg Packet.Command h
  simpa [decodeHeader, wireCommand] using h2

theorem drop_length_append (l m : List (List Byte)) : (l ++ m).drop l.length = m := by
  simp

theorem Handle_effect (s : Service) (p : Packet) :
    (∀ w ∈ (s.Handle p).1.socketWrites.drop s.socketWrites.length, wireCommand w ≠ A_WRTE)
      ∧ ((s.Handle p).1.needAck = s.needAck
        ∨ (p.Command = A_OKAY ∧ (s.Handle p).2 = .returned none ∧ s.ended = false
          ∧ (s.Handle p).1.needAck = false))
      ∧ (p.Command = A_OKAY → (s.Handle p).2 = .returned none → s.ended = false →
          (s.Handle p).1.needAck = false) := by
  have hOKAY : wireCommand (Assemble A_OKAY s.localId s.remoteId []) ≠ A_WRTE := by
    rw [wireCommand_Assemble]; decide
  have hCLSE : ∀ l, wireCommand (Assemble A_CLSE l s.remoteId []) ≠ A_WRTE := by
    intro l; rw [wireCommand_Assemble]; decide
  have hne1 : A_OKAY ≠ A_OPEN := by decide
  unfold Service.Handle
  by_cases hl : s.locked = true
  · simp [hl]
  · simp only [hl, Bool.false_eq_true, if_false]
    by_cases he : s.ended = true
    · simp [he]
    · simp only [he, Bool.false_eq_true, if_false]
      by_cases h1 : p.Command = A_OPEN
      · simp only [h1, if_true, Service.handleOpenPacket]
        cases hT : Service.establishTransport p.Data with
        | error e => simp [hne1.symm]
        | ok t => simp [hOKAY, hne1.symm]
      · simp only [h1, if_false]
        by_cases h2 : p.Command = A_OKAY
        · simp only [h2, if_true, Service.handleOkayPacket, Service.tryPush]
          by_cases hprem : (!s.opened || s.transport.isNone) = true
          · simp [hprem]
          · simp [hprem, he]
        · simp only [h2, if_false]
          by_cases h3 : p.Command = A_WRTE
          · simp only [h3, if_true, Service.handleWritePacket]
            by_cases hprem : (!s.opened || s.transport.isNone) = true
            · simp [hprem]
            · by_cases hdata : p.Data = []
              · simp [hprem, hOKAY, h2, hdata]
              · simp [hprem, h2, hdata]
          · simp only [h3, if_false]
            by_cases h4 : p.Command = A_CLSE
            · simp only [h4, if_true, Service.handleClosePacket]
              by_cases hprem : (!s.opened || s.transport.isNone) = true
              · simp [hprem]
              · simp [hprem, Service.End]
            · simp [h4]

theorem End_effect (s : Service) :
    (∀ w ∈ s.End.1.socketWrites.drop s.socketWrites.length, wireCommand w ≠ A_WRTE)
      ∧ s.End.1.needAck = s.needAck := by
  have hCLSE : ∀ l, wireCommand (Assemble A_CLSE l s.remoteId []) ≠ A_WRTE := by
    intro l; rw [wireCommand_Assemble]; decide
  unfold Service.End
  by_cases hl : s.locked = true
  · simp [hl]
  · by_cases he : s.ended = true
    · simp [hl, he]
    · simp [hl, he, Service.emit, hCLSE]

theorem readLoopTurn_effect (s : Service) (r : ReadResult) :
    ((s.readLoopTurn r).1.socketWrites = s.socketWrites
        ∧ (s.readLoopTurn r).1.needAck = s.needAck)
      ∨ (s.needAck = false ∧ (s.readLoopTurn r).1.needAck = true
        ∧ ∃ bytes, (s.readLoopTurn r).1.socketWrites
            = s.socketWrites ++ [Assemble A_WRTE s.localId s.remoteId bytes]) := by
  unfold Service.readLoopTurn
  by_cases hl : s.locked = true
  · simp [hl]
  · by_cases he : s.ended = true
    · simp [hl, he]
    · by_cases hn : s.needAck = true
      · simp [hl, he, hn]
      · have hn2 : s.needAck = false := by simpa using hn
        cases ht : s.transport with
        | none => simp [hl, he, hn2]
        | some t =>
          cases r with
          | pending => simp [hl, he, hn2]
          | failed => simp [hl, he, hn2]
          | eof => simp [hl, he, hn2]
          | data bytes =>
            by_cases hb : bytes.length > 0
            · right
              simp [hl, he, hn2, hb]
            · simp [hl, he, hn2, hb]

theorem filter_wrte_nil (l : List (List Byte)) (h : ∀ w ∈ l, wireCommand w ≠ A_WRTE) :
    (l.filter fun w => wireCommand w = A_WRTE) = [] := by
  rw [List.filter_eq_nil_iff]
  intro w hw
  simpa using h w hw

theorem step_writes (s : Service) (a : ServiceAction) :
    (∀ w ∈ (s.step a).socketWrites.drop s.socketWrites.length, wireCommand w ≠ A_WRTE)
      ∨ (s.needAck = false ∧ (s.step a).needAck = true
        ∧ ∃ bytes, (s.step a).socketWrites
            = s.socketWrites ++ [Assemble A_WRTE s.localId s.remoteId bytes]) := by
  cases a with
  | handle p => exact Or.inl (Handle_effect s p).1
  | endCall => exact Or.inl (End_effect s).1
  | loopTurn r =>
    unfold Service.step
    by_cases h0 : s.readLoops = 0
    · left; simp [h0]
    · simp only [h0, if_false]
      rcases readLoopTurn_effect s r with ⟨hw, _⟩ | h
      · left; rw [hw]; simp
      · exact Or.inr h

theorem step_needAck (s : Service) (a : ServiceAction) :
    (s.step a).needAck = s.needAck
      ∨ (s.needAck = false ∧ (s.step a).needAck = true)
      ∨ (∃ p, a = .handle p ∧ p.Command = A_OKAY ∧ (s.Handle p).2 = .returned none
          ∧ s.ended = false ∧ (s.step a).needAck = false) := by
  cases a with
  | handle p =>
    rcases (Handle_effect s p).2.1 with h | h
    · exact Or.inl h
    · exact Or.inr (Or.inr ⟨p, rfl, h⟩)
  | endCall => exact Or.inl (End_effect s).2
  | loopTurn r =>
    unfold Service.step
    by_cases h0 : s.readLoops = 0
    · left; simp [h0]
    · simp only [h0, if_false]
      rcases readLoopTurn_effect s r with ⟨_, hn⟩ | ⟨h1, h2, _⟩
      · exact Or.inl hn
      · exact Or.inr (Or.inl ⟨h1, h2⟩)


theorem stepEvents_handle (s : Service) (p : Packet)
    (hf : (((s.step (.handle p)).socketWrites.drop s.socketWrites.length).filter
        fun w => wireCommand w = A_WRTE) = []) :
    s.stepEvents (.handle p)
      = if p.Command = A_OKAY ∧ (s.Handle p).2 = .returned none ∧ ¬ s.ended
        then [CreditEvent.okay] else [] := by
  unfold Service.stepEvents
  rw [hf, List.map_nil, List.append_nil]

theorem stepEvents_endCall (s : Service)
    (hf : (((s.step .endCall).socketWrites.drop s.socketWrites.length).filter
        fun w => wireCommand w = A_WRTE) = []) :
    s.stepEvents .endCall = [] := by
  unfold Service.stepEvents
  rw [hf, List.map_nil, List.append_nil]

theorem stepEvents_loopTurn (s : Service) (r : ReadResult) :
    s.stepEvents (.loopTurn r)
      = (((s.step (.loopTurn r)).socketWrites.drop s.socketWrites.length).filter
          fun w => wireCommand w = A_WRTE).map fun _ => CreditEvent.wrte := by
  unfold Service.stepEvents
  rw [List.nil_append]

theorem step_cases (s : Service) (a : ServiceAction) :
    ((∀ w ∈ (s.step a).socketWrites.drop s.socketWrites.length, wireCommand w ≠ A_WRTE)
        ∧ ((s.step a).needAck = s.needAck
          ∨ ∃ p, a = .handle p ∧ p.Command = A_OKAY ∧ (s.Handle p).2 = .returned none
              ∧ s.ended = false ∧ (s.step a).needAck = false))
      ∨ (s.needAck = false ∧ (s.step a).needAck = true
        ∧ ∃ r bytes, a = .loopTurn r ∧ (s.step a).socketWrites
            = s.socketWrites ++ [Assemble A_WRTE s.localId s.remoteId bytes]) := by
  cases a with
  | handle p =>
    left
    refine ⟨(Handle_effect s p).1, ?_⟩
    rcases (Handle_effect s p).2.1 with h | h
    · exact Or.inl h
    · exact Or.inr ⟨p, rfl, h⟩
  | endCall => exact Or.inl ⟨(End_effect s).1, Or.inl (End_effect s).2⟩
  | loopTurn r =>
    by_cases h0 : s.readLoops = 0
    · left
      have hs : s.step (.loopTurn r) = s := by
        show (if s.readLoops = 0 then s else (s.readLoopTurn r).1) = s
        rw [if_pos h0]
      rw [hs, List.drop_length]
      exact ⟨fun w hw => absurd hw (List.not_mem_nil w), Or.inl rfl⟩
    · have hs : s.step (.loopTurn r) = (s.readLoopTurn r).1 := by
        show (if s.readLoops = 0 then s else (s.readLoopTurn r).1) = (s.readLoopTurn r).1
        rw [if_neg h0]
      rw [hs]
      rcases readLoopTurn_effect s r with ⟨hw, hn⟩ | ⟨h1, h2, bytes, hb⟩
      · left
        rw [hw, List.drop_length]
        exact ⟨fun w hw => absurd hw (List.not_mem_nil w), Or.inl hn⟩
      · exact Or.inr ⟨h1, h2, r, bytes, rfl, hb⟩

theorem stepEvents_cases (s : Service) (a : ServiceAction) :
    (s.stepEvents a = [] ∧ (s.step a).needAck = s.needAck)
      ∨ (s.stepEvents a = [.okay] ∧ (s.step a).needAck = false)
      ∨ (s.stepEvents a = [.wrte] ∧ s.needAck = false ∧ (s.step a).needAck = true) := by
  rcases step_cases s a with ⟨hw, hk⟩ | ⟨h1, h2, r, bytes, ha, hb⟩
  · have hf := filter_wrte_nil _ hw
    cases a with
    | handle p =>
      rw [stepEvents_handle s p hf]
      by_cases hc : p.Command = A_OKAY ∧ (s.Handle p).2 = .returned none ∧ ¬ s.ended = true
      · right; left
        rw [if_pos hc]
        refine ⟨rfl, ?_⟩
        have he : s.ended = false := by
          cases hx : s.ended
          · rfl
          · exact absurd hx hc.2.2
        exact (Handle_effect s p).2.2 hc.1 hc.2.1 he
      · left
        rw [if_neg hc]
        refine ⟨rfl, ?_⟩
        rcases hk with h | ⟨q, hq, h1, h2, h3, _⟩
        · exact h
        · cases hq
          exact absurd ⟨h1, h2, by rw [h3]; exact Bool.false_ne_true⟩ hc
    | endCall =>
      left
      refine ⟨stepEvents_endCall s hf, ?_⟩
      rcases hk with h | ⟨q, hq, _⟩
      · exact h
      · cases hq
    | loopTurn r =>
      left
      rw [stepEvents_loopTurn, hf]
      refine ⟨rfl, ?_⟩
      rcases hk with h | ⟨q, hq, _⟩
      · exact h
      · cases hq
  · right; right
    refine ⟨?_, h1, h2⟩
    subst ha
    have hW : wireCommand (Assemble A_WRTE s.localId s.remoteId bytes) = A_WRTE := by
      rw [wireCommand_Assemble]; decide
    rw [stepEvents_loopTurn, hb, drop_length_append]
    have hfil : List.filter (fun w => decide (wireCommand w = A_WRTE))
        [Assemble A_WRTE s.localId s.remoteId bytes]
        = [Assemble A_WRTE s.localId s.remoteId bytes] := by
      rw [List.filter_cons_of_pos]
      · rw [List.filter_nil]
      · rw [hW]; exact decide_eq_true rfl
    rw [hfil, List.map_cons, List.map_nil]

theorem trace_credit (actions : List ServiceAction) :
    ∀ (s : Service) (n : Nat), (n = 0 ∨ (n = 1 ∧ s.needAck = true)) →
      creditOfOne n (s.trace actions) = true ∧ outstanding n (s.trace actions) ≤ 1 := by
  induction actions with
  | nil =>
    intro s n hn
    have hle : n ≤ 1 := by
      rcases hn with h | ⟨h, _⟩ <;> omega
    exact ⟨rfl, hle⟩
  | cons a rest ih =>
    intro s n hn
    simp only [Service.trace]
    rcases stepEvents_cases s a with ⟨he, hk⟩ | ⟨he, hk⟩ | ⟨he, h1, h2⟩
    · rw [he, List.nil_append]
      exact ih (s.step a) n (by rw [hk]; exact hn)
    · rw [he]
      simp only [List.cons_append, List.nil_append, creditOfOne, outstanding]
      exact ih (s.step a) 0 (Or.inl rfl)
    · rw [he]
      have hn0 : n = 0 := by
        rcases hn with h | ⟨_, h⟩
        · exact h
        · rw [h1] at h; exact absurd h (by decide)
      subst hn0
      simp only [List.cons_append, List.nil_append, creditOfOne, outstanding, decide_True,
        Bool.true_and]
      exact ih (s.step a) 1 (Or.inr ⟨rfl, h2⟩)

/-- C7: at most one `A_WRTE` is unacknowledged in a bridge `Service`. A step
writes an `A_WRTE` to the peer only from a state where `needAck` is false, and
leaves `needAck` true; `needAck` goes from true to false only when an `A_OKAY`
packet is handled; hence in every run from `NewService` the `A_WRTE` packets
alternate with handled `A_OKAY` packets and never more than one is
outstanding. -/
theorem Service_credit_of_one :
    (∀ (s : Service) (a : ServiceAction) (w : List Byte),
        w ∈ (s.step a).socketWrites.drop s.socketWrites.length → wireCommand w = A_WRTE →
        s.needAck = false ∧ (s.step a).needAck = true)
      ∧ (∀ (s : Service) (a : ServiceAction), s.needAck = true → (s.step a).needAck = false →
        ∃ p, a = .handle p ∧ p.Command = A_OKAY)
      ∧ (∀ (localId remoteId : Nat) (actions : List ServiceAction),
        creditOfOne 0 ((NewService localId remoteId).trace actions) = true
          ∧ outstanding 0 ((NewService localId remoteId).trace actions) ≤ 1) := by
  refine ⟨?_, ?_, ?_⟩
  · intro s a w hw hc
    rcases step_cases s a with ⟨h, _⟩ | ⟨h1, h2, _⟩
    · exact absurd hc (h w hw)
    · exact ⟨h1, h2⟩
  · intro s a h1 h2
    rcases step_cases s a with ⟨_, h | ⟨p, hp, hc, _⟩⟩ | ⟨h, _⟩
    · rw [h, h1] at h2; exact absurd h2 (by decide)
    · exact ⟨p, hp, hc⟩
    · rw [h1] at h; exact absurd h (by decide)
  · intro localId remoteId actions
    exact trace_credit actions (NewService localId remoteId) 0 (Or.inl rfl)

/-! ### The bridge handshake -/

theorem handlePacket_CNXN (s : Socket) (p : Packet) (token : List Byte)
    (he : s.ended = false) (hc : p.Command = A_CNXN) :
    s.handlePacket p (some token)
      = ({ s with
            events := s.events ++ [.userActivity p]
            version := (Swap32 p.Arg0 : Nat)
            maxPayload := if (p.Arg1 : Int) > UINT16_MAX then UINT16_MAX else (p.Arg1 : Int)
            token := some token
            connWrites := s.connWrites ++ [Assemble A_AUTH AUTH_TOKEN 0 token] }, false) := by
  have c1 : ¬ A_CNXN = A_SYNC := by decide
  unfold Socket.handlePacket
  rw [he, hc, if_neg Bool.false_ne_true]
  simp only [c1, if_false, if_true]
  unfold Socket.handleConnectionPacket Socket.write Socket.emit
  simp only [he, Bool.false_eq_true, if_false]

theorem handlePacket_AUTH_signature (s : Socket) (p : Packet) (random : Option (List Byte))
    (he : s.ended = false) (hc : p.Command = A_AUTH) (ha : p.Arg0 = AUTH_SIGNATURE)
    (hs : s.signature = none) :
    s.handlePacket p random
      = ({ s with
            events := s.events ++ [.userActivity p]
            signature := if p.Data = [] then none else some p.Data
            connWrites := s.connWrites ++ [Assemble A_AUTH AUTH_TOKEN 0 (s.token.getD [])] },
          false) := by
  have c2 : ¬ A_AUTH = A_SYNC := by decide
  have c3 : ¬ A_AUTH = A_CNXN := by decide
  have c4 : ¬ A_AUTH = A_OPEN := by decide
  have c5 : ¬ (A_AUTH = A_OKAY ∨ A_AUTH = A_WRTE ∨ A_AUTH = A_CLSE) := by decide
  unfold Socket.handlePacket
  rw [he, hc, if_neg Bool.false_ne_true]
  simp only [c2, c3, c4, c5, if_false, if_true]
  unfold Socket.handleAuthPacket Socket.write Socket.emit
  simp only [ha, hs, he, Bool.false_eq_true, if_false, if_true, Option.isNone_none]

theorem handlePacket_AUTH_publicKey (s : Socket) (p : Packet) (random : Option (List Byte))
    (sig : List Byte) (he : s.ended = false) (hc : p.Command = A_AUTH)
    (ha : p.Arg0 = AUTH_RSAPUBLICKEY) (hs : s.signature = some sig) :
    s.handlePacket p random = ({ s with events := s.events ++ [.userActivity p] }, false) := by
  have c2 : ¬ A_AUTH = A_SYNC := by decide
  have c3 : ¬ A_AUTH = A_CNXN := by decide
  have c4 : ¬ A_AUTH = A_OPEN := by decide
  have c5 : ¬ (A_AUTH = A_OKAY ∨ A_AUTH = A_WRTE ∨ A_AUTH = A_CLSE) := by decide
  have c6 : ¬ AUTH_RSAPUBLICKEY = AUTH_SIGNATURE := by decide
  unfold Socket.handlePacket
  rw [he, hc, if_neg Bool.false_ne_true]
  simp only [c2, c3, c4, c5, if_false, if_true]
  unfold Socket.handleAuthPacket Socket.emit
  simp only [ha, hs, c6, if_false, if_true, Option.isNone_some, Bool.false_eq_true]
  rw [he]

theorem handlePacket_AUTH_publicKey_first (s : Socket) (p : Packet)
    (random : Option (List Byte)) (he : s.ended = false) (hc : p.Command = A_AUTH)
    (ha : p.Arg0 = AUTH_RSAPUBLICKEY) (hs : s.signature = none)
    (hm : s.services = NewServiceMap) :
    s.handlePacket p random
      = ({ s with
            events := s.events
              ++ [.userActivity p, .error .publicKeyBeforeSignature, .ended]
            ended := true
            connClosed := true }, false) := by
  have c2 : ¬ A_AUTH = A_SYNC := by decide
  have c3 : ¬ A_AUTH = A_CNXN := by decide
  have c4 : ¬ A_AUTH = A_OPEN := by decide
  have c5 : ¬ (A_AUTH = A_OKAY ∨ A_AUTH = A_WRTE ∨ A_AUTH = A_CLSE) := by decide
  have c6 : ¬ AUTH_RSAPUBLICKEY = AUTH_SIGNATURE := by decide
  unfold Socket.handlePacket
  rw [he, hc, if_neg Bool.false_ne_true]
  simp only [c2, c3, c4, c5, if_false, if_true]
  unfold Socket.handleAuthPacket Socket.emitError Socket.End Socket.emit
  simp only [ha, hs, c6, he, hm, if_false, if_true, Option.isNone_none, Bool.false_eq_true]
  cases s
  simp only at hm
  subst hm
  simp [ServiceMap.End, NewServiceMap]

theorem handleAll_handshake (token signature publicKey : List Byte) (hsig : signature ≠ []) :
    NewSocket.handleAll (some token) (handshake signature publicKey)
      = ({ NewSocket with
            version := 1
            maxPayload := 4096
            token := some token
            signature := some signature
            connWrites := [Assemble A_AUTH AUTH_TOKEN 0 token, Assemble A_AUTH AUTH_TOKEN 0 token]
            events := [.userActivity (NewPacket A_CNXN 0x01000000 0x1000 hostBanner),
              .userActivity (NewPacket A_AUTH AUTH_SIGNATURE 0 signature),
              .userActivity (NewPacket A_AUTH AUTH_RSAPUBLICKEY 0 publicKey)] }, false) := by
  have hd : (NewPacket A_AUTH AUTH_SIGNATURE 0 signature).Data ≠ [] := hsig
  unfold handshake
  rw [Socket.handleAll, handlePacket_CNXN NewSocket _ token rfl rfl]
  simp only
  rw [Socket.handleAll, handlePacket_AUTH_signature _ _ _ rfl rfl rfl rfl, if_neg hd]
  simp only
  rw [Socket.handleAll, handlePacket_AUTH_publicKey _ _ _ signature rfl rfl rfl rfl]
  simp only
  rw [Socket.handleAll]
  rfl

theorem handleAll_handshake_unsigned (token publicKey : List Byte) :
    NewSocket.handleAll (some token) (handshake [] publicKey)
      = ({ NewSocket with
            version := 1
            maxPayload := 4096
            token := some token
            ended := true
            connClosed := true
            connWrites := [Assemble A_AUTH AUTH_TOKEN 0 token, Assemble A_AUTH AUTH_TOKEN 0 token]
            events := [.userActivity (NewPacket A_CNXN 0x01000000 0x1000 hostBanner),
              .userActivity (NewPacket A_AUTH AUTH_SIGNATURE 0 []),
              .userActivity (NewPacket A_AUTH AUTH_RSAPUBLICKEY 0 publicKey),
              .error .publicKeyBeforeSignature, .ended] }, false) := by
  have hd : (NewPacket A_AUTH AUTH_SIGNATURE 0 []).Data = [] := rfl
  unfold handshake
  rw [Socket.handleAll, handlePacket_CNXN NewSocket _ token rfl rfl]
  simp only
  rw [Socket.handleAll, handlePacket_AUTH_signature _ _ _ rfl rfl rfl rfl, if_pos hd]
  simp only
  rw [Socket.handleAll, handlePacket_AUTH_publicKey_first _ _ _ rfl rfl rfl rfl rfl]
  simp only
  rw [Socket.handleAll]
  rfl

/-- C8 (the code at the claimed input): after the handshake `A_CNXN`,
`A_AUTH` with a signature, `A_AUTH` with a public key, whatever the token,
the signature and the key are, the socket is not authorized and has written
two `A_AUTH` token packets and no `A_CNXN` packet: `handleAuthPacket` never
verifies the signature and nothing sets `authorized`. -/
theorem handshake_never_authorizes (token signature publicKey : List Byte) :
    (NewSocket.handleAll (some token) (handshake signature publicKey)).1.IsAuthorized = false
      ∧ (NewSocket.handleAll (some token) (handshake signature publicKey)).1.connWrites
          = [Assemble A_AUTH AUTH_TOKEN 0 token, Assemble A_AUTH AUTH_TOKEN 0 token]
      ∧ ∀ w ∈ (NewSocket.handleAll (some token) (handshake signature publicKey)).1.connWrites,
          wireCommand w ≠ A_CNXN := by
  have hfinal : (NewSocket.handleAll (some token) (handshake signature publicKey)).1.IsAuthorized
        = false
      ∧ (NewSocket.handleAll (some token) (handshake signature publicKey)).1.connWrites
        = [Assemble A_AUTH AUTH_TOKEN 0 token, Assemble A_AUTH AUTH_TOKEN 0 token] := by
    by_cases hsig : signature = []
    · subst hsig
      rw [handleAll_handshake_unsigned]
      exact ⟨rfl, rfl⟩
    · rw [handleAll_handshake token signature publicKey hsig]
      exact ⟨rfl, rfl⟩
  refine ⟨hfinal.1, hfinal.2, ?_⟩
  rw [hfinal.2]
  intro w hw
  have hw2 : w = Assemble A_AUTH AUTH_TOKEN 0 token := by
    rcases List.mem_cons.mp hw with h | h
    · exact h
    · exact List.mem_singleton.mp h
  rw [hw2, wireCommand_Assemble]
  decide

/-! ### Local ids -/

theorem handleOpenPacket_counter (s : Socket) (p : Packet) :
    (s.handleOpenPacket p).1.authorized = s.authorized
      ∧ (s.handleOpenPacket p).1.remoteId
          = if s.authorized then s.remoteId.Next.2 else s.remoteId := by
  unfold Socket.handleOpenPacket
  by_cases ha : s.authorized = true
  · simp only [ha, Bool.not_true, Bool.false_eq_true, if_false, if_true]
    split
    · exact ⟨rfl, rfl⟩
    · split
      · exact ⟨rfl, rfl⟩
      · split
        · exact ⟨rfl, rfl⟩
        · exact ⟨rfl, rfl⟩
        · split <;> exact ⟨rfl, rfl⟩
  · simp [ha]

theorem Next_below_max (n : Nat) (h1 : 1 ≤ n) (h2 : n < 4294967295) :
    (RollingCounter.mk UINT32_MAX 1 (n : Int)).Next
      = (((n + 1 : Nat) : Int), RollingCounter.mk UINT32_MAX 1 ((n + 1 : Nat) : Int)) := by
  have hge : ¬ ((n : Int) ≥ UINT32_MAX) := by unfold UINT32_MAX; omega
  have hw : wrapInt ((n : Int) + 1) = ((n + 1 : Nat) : Int) := by
    rw [wrapInt_of_range _ (by omega) (by omega)]; push_cast; rfl
  simp only [RollingCounter.Next, hge, if_false, hw]
theorem Handle_OPEN_new (localId remoteId : Nat) (p : Packet) (hcmd : p.Command = A_OPEN)
    (hd : ¬ p.Data.length < 2) :
    (NewService localId remoteId).Handle p
      = ({ NewService localId remoteId with
            transport := some { received := [], closed := false }
            socketWrites := [Assemble A_OKAY localId remoteId []]
            opened := true
            readLoops := 1 }, .returned none) := by
  have h1 : ¬ p.Data.length < 1 := by omega
  unfold Service.Handle
  simp only [NewService, Bool.false_eq_true, if_false, hcmd, if_true]
  unfold Service.handleOpenPacket Service.establishTransport
  simp only [h1, if_false, List.nil_append, Nat.zero_add]

theorem store_append_new (m : ServiceMap) (id : Nat) (old new : Service)
    (hkeys : ∀ e ∈ m.remotes, e.1 ≠ id) :
    (ServiceMap.mk (m.remotes ++ [(id, old)]) (wrapInt (m.count + 1))).store id new
      = ServiceMap.mk (m.remotes ++ [(id, new)]) (wrapInt (m.count + 1)) := by
  unfold ServiceMap.store
  simp only [List.map_append, List.map_cons, List.map_nil, if_true]
  congr 2
  conv_rhs => rw [← List.map_id m.remotes]
  apply List.map_congr_left
  intro e he
  rw [if_neg (hkeys e he)]
  rfl

theorem lookup_none_of_keys (l : List (Nat × Service)) (id : Nat) (h : ∀ e ∈ l, e.1 ≠ id) :
    l.lookup id = none := by
  induction l with
  | nil => rfl
  | cons e rest ih =>
    obtain ⟨k, v⟩ := e
    have hk : (id == k) = false := by
      have := h (k, v) (List.mem_cons_self _ _)
      simpa using fun hh : id = k => this hh.symm
    rw [List.lookup_cons, hk]
    exact ih (fun e he => h e (List.mem_cons_of_mem _ he))

theorem handlePacket_OPEN_authorized (s : Socket) (p : Packet) (random : Option (List Byte))
    (n : Nat) (ha : s.authorized = true) (he : s.ended = false)
    (hc : s.remoteId = ⟨UINT32_MAX, 1, (n : Int)⟩) (h1 : 1 ≤ n) (h2 : n < 4294967295)
    (hcmd : p.Command = A_OPEN) (hkeys : ∀ e ∈ s.services.remotes, e.1 ≤ n) :
    s.handlePacket p random
      = if p.Data.length < 2 then
          ({ s with
              events := s.events ++ [.userActivity p]
              remoteId := ⟨UINT32_MAX, 1, ((n + 1 : Nat) : Int)⟩ }, false)
        else
          ({ s with
              events := s.events ++ [.userActivity p]
              remoteId := ⟨UINT32_MAX, 1, ((n + 1 : Nat) : Int)⟩
              services :=
                { remotes := s.services.remotes
                    ++ [(n + 1, { NewService (n + 1) p.Arg0 with
                          transport := some { received := [], closed := false }
                          socketWrites := [Assemble A_OKAY (n + 1) p.Arg0 []]
                          opened := true
                          readLoops := 1 })]
                  count := wrapInt (s.services.count + 1) } }, false) := by
  have hN := Next_below_max n h1 h2
  have hid : (((n + 1 : Nat) : Int) % 2 ^ 32).toNat = n + 1 := by omega
  obtain ⟨ended, version, maxPayload, authorized, syncToken, remoteId, services, token,
    signature, connWrites, connClosed, events⟩ := s
  simp only at ha he hc hkeys
  subst ha he hc
  have hlk : services.remotes.lookup (n + 1) = none :=
    lookup_none_of_keys _ _ (fun e he => by have := hkeys e he; omega)
  unfold Socket.handlePacket
  rw [hcmd, if_neg Bool.false_ne_true]
  simp only
  rw [if_neg (by decide), if_neg (by decide), if_pos trivial]
  unfold Socket.handleOpenPacket Socket.emit
  simp only [Bool.not_true, Bool.false_eq_true, if_false, hN, hid]
  by_cases hd : p.Data.length < 2
  · rw [if_pos hd, if_pos hd]
  · rw [if_neg hd, if_neg hd]
    unfold ServiceMap.Insert
    simp only [hlk]
    rw [Handle_OPEN_new _ _ p hcmd hd]
    simp only
    rw [store_append_new services (n + 1) _ _ (fun e he => by have := hkeys e he; omega)]
theorem streamIds_bounds (packets : List Packet) :
    ∀ (n id : Nat), id ∈ streamIds n packets → n < id ∧ id ≤ n + packets.length := by
  induction packets with
  | nil => intro n id h; exact absurd h (List.not_mem_nil id)
  | cons p rest ih =>
    intro n id h
    rw [streamIds, List.mem_append] at h
    rw [List.length_cons]
    rcases h with h | h
    · by_cases hd : p.Data.length < 2
      · rw [if_pos hd] at h
        exact absurd h (List.not_mem_nil id)
      · rw [if_neg hd, List.mem_singleton] at h
        omega
    · have := ih (n + 1) id h
      omega

theorem streamIds_increasing (packets : List Packet) :
    ∀ n : Nat, (streamIds n packets).Pairwise (· < ·) := by
  induction packets with
  | nil => intro n; exact List.Pairwise.nil
  | cons p rest ih =>
    intro n
    rw [streamIds, List.pairwise_append]
    refine ⟨?_, ih (n + 1), ?_⟩
    · by_cases hd : p.Data.length < 2
      · rw [if_pos hd]
        exact List.Pairwise.nil
      · rw [if_neg hd]
        exact List.pairwise_singleton _ _
    · intro a ha b hb
      have hb2 := streamIds_bounds rest (n + 1) b hb
      by_cases hd : p.Data.length < 2
      · rw [if_pos hd] at ha
        exact absurd ha (List.not_mem_nil a)
      · rw [if_neg hd, List.mem_singleton] at ha
        omega

theorem streamIds_all (packets : List Packet) :
    ∀ n : Nat, (∀ p ∈ packets, 2 ≤ p.Data.length) →
      streamIds n packets = List.range' (n + 1) packets.length := by
  induction packets with
  | nil => intro n _; rfl
  | cons p rest ih =>
    intro n h
    have hd : ¬ p.Data.length < 2 := by
      have := h p (List.mem_cons_self p rest)
      omega
    rw [streamIds, if_neg hd, ih (n + 1) (fun q hq => h q (List.mem_cons_of_mem p hq)),
      List.length_cons, List.range'_succ]
    rfl

theorem handleAll_open (random : Option (List Byte)) (packets : List Packet) :
    ∀ (s : Socket) (n : Nat), s.authorized = true → s.ended = false →
      s.remoteId = ⟨UINT32_MAX, 1, (n : Int)⟩ → 1 ≤ n → n + packets.length ≤ 4294967295 →
      (∀ p ∈ packets, p.Command = A_OPEN) → (∀ e ∈ s.services.remotes, e.1 ≤ n) →
      (s.handleAll random packets).2 = false
        ∧ (s.handleAll random packets).1.services.remotes.map (fun e => e.1)
            = s.services.remotes.map (fun e => e.1) ++ streamIds n packets
        ∧ ∀ e ∈ (s.handleAll random packets).1.services.remotes,
            e ∈ s.services.remotes ∨ (e.2.localId = e.1 ∧ e.2.opened = true) := by
  induction packets with
  | nil =>
    intro s n _ _ _ _ _ _ _
    rw [Socket.handleAll, streamIds, List.append_nil]
    exact ⟨rfl, rfl, fun e he => Or.inl he⟩
  | cons p rest ih =>
    intro s n ha he hc h1 hk hcmd hkeys
    rw [List.length_cons] at hk
    have hstep := handlePacket_OPEN_authorized s p random n ha he hc h1 (by omega)
      (hcmd p (List.mem_cons_self p rest)) hkeys
    have hcmd2 : ∀ q ∈ rest, q.Command = A_OPEN := fun q hq => hcmd q (List.mem_cons_of_mem p hq)
    rw [Socket.handleAll, hstep, streamIds]
    by_cases hd : p.Data.length < 2
    · rw [if_pos hd, if_pos hd, List.nil_append]
      simp only
      exact ih _ (n + 1) ha he rfl (by omega) (by omega) hcmd2
        (fun e h => by have := hkeys e h; omega)
    · rw [if_neg hd, if_neg hd]
      simp only
      obtain ⟨hb, hids, hsv⟩ := ih
        ({ s with
            events := s.events ++ [.userActivity p]
            remoteId := ⟨UINT32_MAX, 1, ((n + 1 : Nat) : Int)⟩
            services :=
              { remotes := s.services.remotes
                  ++ [(n + 1, { NewService (n + 1) p.Arg0 with
                        transport := some { received := [], closed := false }
                        socketWrites := [Assemble A_OKAY (n + 1) p.Arg0 []]
                        opened := true
                        readLoops := 1 })]
                count := wrapInt (s.services.count + 1) } } : Socket)
        (n + 1) ha he rfl (by omega) (by omega) hcmd2
        (fun e h => by
          simp only [List.mem_append, List.mem_singleton] at h
          rcases h with h | h
          · have := hkeys e h; omega
          · rw [h])
      refine ⟨hb, ?_, ?_⟩
      · rw [hids]
        simp only [List.map_append, List.map_cons, List.map_nil, List.append_assoc]
      · intro e hmem
        rcases hsv e hmem with h | h
        · simp only [List.mem_append, List.mem_singleton] at h
          rcases h with h | h
          · exact Or.inl h
          · right
            rw [h]
            exact ⟨rfl, rfl⟩
        · exact Or.inr h

/-- C12: on an authorized socket with the fresh id counter
`RollingCounter(max = 0xFFFFFFFF, min defaulted to 1)` and an empty service
map, after `k < 2 ^ 32 - 2` packets with the command `A_OPEN` were handled the
services in the map are those of the packets that carry a service name: the
packet number `i` (from 0) is registered under the local id `i + 2`, which is
also the `localId` of its service. These ids are non-zero, lie in
`[min + 1, max]`, increase strictly and are pairwise distinct. -/
theorem local_ids_distinct (s : Socket) (random : Option (List Byte)) (packets : List Packet)
    (ha : s.authorized = true) (he : s.ended = false)
    (hc : s.remoteId = NewRollingCounter UINT32_MAX 0) (hm : s.services = NewServiceMap)
    (hcmd : ∀ p ∈ packets, p.Command = A_OPEN) (hk : packets.length < 2 ^ 32 - 2) :
    (s.handleAll random packets).2 = false
      ∧ (s.handleAll random packets).1.services.remotes.map (fun e => e.1)
          = streamIds 1 packets
      ∧ (∀ e ∈ (s.handleAll random packets).1.services.remotes,
          e.2.localId = e.1 ∧ e.2.opened = true)
      ∧ (∀ id : Nat, id ∈ (s.handleAll random packets).1.services.remotes.map (fun e => e.1) →
          id ≠ 0 ∧ s.remoteId.min + 1 ≤ (id : Int) ∧ (id : Int) ≤ s.remoteId.max)
      ∧ ((s.handleAll random packets).1.services.remotes.map fun e => e.1).Pairwise (· < ·)
      ∧ ((s.handleAll random packets).1.services.remotes.map fun e => e.1).Nodup
      ∧ ((∀ p ∈ packets, 2 ≤ p.Data.length) →
          (s.handleAll random packets).1.services.remotes.map (fun e => e.1)
            = List.range' 2 packets.length) := by
  have hfresh : NewRollingCounter UINT32_MAX 0 = RollingCounter.mk UINT32_MAX 1 ((1 : Nat) : Int) :=
    rfl
  obtain ⟨hb, hids, hsv⟩ := handleAll_open random packets s 1 ha he (by rw [hc, hfresh])
    (le_refl 1) (by omega) hcmd (by rw [hm]; intro e h; exact absurd h (List.not_mem_nil e))
  have hnil : s.services.remotes = [] := by rw [hm]; rfl
  rw [hnil, List.map_nil, List.nil_append] at hids
  have hpw := streamIds_increasing packets 1
  refine ⟨hb, hids, ?_, ?_, ?_, ?_, ?_⟩
  · intro e hmem
    rcases hsv e hmem with h | h
    · rw [hnil] at h
      exact absurd h (List.not_mem_nil e)
    · exact h
  · intro id hid
    rw [hids] at hid
    have hbd := streamIds_bounds packets 1 id hid
    have h1 : (NewRollingCounter UINT32_MAX 0).min = 1 := rfl
    have h2 : (NewRollingCounter UINT32_MAX 0).max = 4294967295 := rfl
    rw [hc, h1, h2]
    omega
  · rw [hids]
    exact hpw
  · rw [hids]
    exact hpw.imp (fun h => Nat.ne_of_lt h)
  · intro hall
    rw [hids]
    exact streamIds_all packets 1 hall

/-- Witness for `local_ids_distinct`: of three `A_OPEN` packets on an
authorized socket the second has no service name; the first and the third are
registered under the ids 2 and 4. -/
theorem local_ids_distinct_witness :
    ((({ NewSocket with authorized := true } : Socket).handleAll none
        [NewPacket A_OPEN 7 0 [115, 58, 0], NewPacket A_OPEN 8 0 [],
          NewPacket A_OPEN 9 0 [115, 58, 0]]).1.services.remotes.map fun e => e.1)
      = [2, 4] :=
  (local_ids_distinct { NewSocket with authorized := true } none
    [NewPacket A_OPEN 7 0 [115, 58, 0], NewPacket A_OPEN 8 0 [], NewPacket A_OPEN 9 0 [115, 58, 0]]
    rfl rfl rfl rfl
    (by
      intro p hp
      simp only [List.mem_cons, List.mem_singleton, List.not_mem_nil, or_false] at hp
      rcases hp with rfl | rfl | rfl <;> rfl)
    (by decide)).2.1

/-! ### The device tracker -/

theorem emit_writeLocked (t : Tracker) (event : TrackerEvent) (h : t.writeLocked = true) :
    t.emit event = (t, true) := by
  unfold Tracker.emit
  rw [if_pos h]

theorem updateAdded_writeLocked (newList : List Device) :
    ∀ (t : Tracker) (changes : ChangeSet) (newMap : List (String × Device)),
      t.writeLocked = true → (Tracker.updateAdded newList t changes newMap).1 = t := by
  induction newList with
  | nil => intro t changes newMap _; rfl
  | cons d rest ih =>
    intro t changes newMap h
    unfold Tracker.updateAdded
    simp only [emit_writeLocked t _ h]
    split
    · split
      · rfl
      · exact ih t _ _ h
    · rfl

theorem updateRemoved_writeLocked (newMap : List (String × Device)) (oldList : List Device) :
    ∀ (t : Tracker) (changes : ChangeSet),
      t.writeLocked = true → (Tracker.updateRemoved newMap oldList t changes).1 = t := by
  induction oldList with
  | nil => intro t changes _; rfl
  | cons d rest ih =>
    intro t changes h
    unfold Tracker.updateRemoved
    simp only [emit_writeLocked t _ h]
    split
    · exact ih t _ h
    · rfl

theorem update_emits_nothing (t : Tracker) (newList : List Device) :
    (t.update newList).1.emitted = t.emitted := by
  unfold Tracker.update
  by_cases hl : t.writeLocked = true
  · rw [if_pos hl]
  · rw [if_neg hl]
    have h1 := updateAdded_writeLocked newList { t with writeLocked := true } ⟨[], [], []⟩ [] rfl
    rcases hA : Tracker.updateAdded newList { t with writeLocked := true } ⟨[], [], []⟩ []
      with ⟨t1, c1, m1, b1⟩
    rw [hA] at h1
    simp only at h1
    subst h1
    simp only [hA]
    cases b1 with
    | true => rfl
    | false =>
      simp only
      have h2 := updateRemoved_writeLocked m1 t.deviceList { t with writeLocked := true } c1 rfl
      rcases hR : Tracker.updateRemoved m1 t.deviceList { t with writeLocked := true } c1
        with ⟨t2, c2, b2⟩
      rw [hR] at h2
      simp only at h2
      subst h2
      cases b2 with
      | true => rfl
      | false =>
        simp only
        split
        · rw [emit_writeLocked _ _ rfl]
        · rfl

/-- C9 (the code at a failing input): from the empty snapshot, `update` with
one new device blocks at `emit("add", ...)`, which waits for the read lock
while `update` itself holds the write lock: no event reaches a listener and
the snapshot is still empty. For every input, `update` hands no event to the
listeners. -/
theorem update_blocks_on_first_event :
    NewTracker.update [NewDevice "emulator-5554" "device"]
        = ({ NewTracker with writeLocked := true }, true)
      ∧ (NewTracker.update [NewDevice "emulator-5554" "device"]).1.deviceList = []
      ∧ ∀ (t : Tracker) (newList : List Device), (t.update newList).1.emitted = t.emitted :=
  ⟨by decide, by decide, update_emits_nothing⟩

/-! ### `FormatSync` and `DecodeLength` -/

theorem copyInto_length (src : List Byte) : (copyInto (List.replicate 4 0) src).length = 4 := by
  simp only [copyInto, List.length_append, List.length_take, List.length_drop,
    List.length_replicate]
  omega

theorem FormatSync_length (cmd : List Byte) (length : Int) : (FormatSync cmd length).length = 8 := by
  simp only [FormatSync, List.length_append, copyInto_length]

/-- C13 (the code at failing inputs): `FormatSync` is 8 bytes long, but its
last four bytes are the first four characters of `Sprintf("%04x", n)`, not
the little-endian bytes of `n`: `FormatSync("DATA", 3)` is `DATA0003`, and the
`DONE` frame for the timestamp 1700000000 (`0x6553f100`) is `DONE6553`. -/
theorem FormatSync_is_hex_text :
    FormatSync DATA 3 = DATA ++ [48, 48, 48, 51]
      ∧ FormatSync DATA 3 ≠ DATA ++ putUint32 3
      ∧ FormatSync DONE 1700000000 = DONE ++ [54, 53, 53, 51]
      ∧ FormatSync DONE 1700000000 ≠ DONE ++ putUint32 1700000000
      ∧ ∀ (cmd : List Byte) (n : Int), (FormatSync cmd n).length = 8 :=
  ⟨by decide, by decide, by decide, by decide, FormatSync_length⟩

theorem isHexDigit_not_sign (c : Byte) (h : isHexDigit c = true) :
    c.val ≠ 43 ∧ c.val ≠ 45 := by
  constructor
  · intro h43
    have hc : c = 43 := Fin.ext h43
    subst hc
    exact absurd h (by decide)
  · intro h45
    have hc : c = 45 := Fin.ext h45
    subst hc
    exact absurd h (by decide)

theorem isHexDigit_digitVal (c : Byte) (h : isHexDigit c = true) :
    digitVal c = some (hexVal c) ∧ hexVal c < 16 := by
  unfold isHexDigit at h
  unfold hexVal
  cases hd : digitVal c with
  | none => rw [hd] at h; exact absurd h (by decide)
  | some d =>
    rw [hd] at h
    exact ⟨rfl, by simpa using h⟩

theorem DecodeLength_four_hex (a b c d : Byte) (ha : isHexDigit a = true)
    (hb : isHexDigit b = true) (hc : isHexDigit c = true) (hd : isHexDigit d = true) :
    DecodeLength [a, b, c, d]
      = .ok (((hexVal a * 16 + hexVal b) * 16 + hexVal c) * 16 + hexVal d : Nat) := by
  obtain ⟨va, la⟩ := isHexDigit_digitVal a ha
  obtain ⟨vb, lb⟩ := isHexDigit_digitVal b hb
  obtain ⟨vc, lc⟩ := isHexDigit_digitVal c hc
  obtain ⟨vd, ld⟩ := isHexDigit_digitVal d hd
  have sa := isHexDigit_not_sign a ha
  have hu : ParseUint16_32 [a, b, c, d]
      = (((hexVal a * 16 + hexVal b) * 16 + hexVal c) * 16 + hexVal d, none) := by
    unfold ParseUint16_32
    rw [if_neg (by simp)]
    simp only [parseUintLoop, va, vb, vc, vd]
    rw [if_neg (by omega), if_neg (by norm_num), if_neg (by omega)]
    rw [if_neg (by omega), if_neg (by omega), if_neg (by omega)]
    rw [if_neg (by omega), if_neg (by omega), if_neg (by omega)]
    rw [if_neg (by omega), if_neg (by omega), if_neg (by omega)]
    simp
  unfold DecodeLength ParseInt16_32
  simp only [sa.1, sa.2, or_self, if_false, hu]
  rw [if_neg (by omega), if_neg (by simp)]

theorem parseUintLoop_range_value (s : List Byte) :
    ∀ n, (parseUintLoop 16 (2 ^ 64 / 16) (2 ^ 32 - 1) s n).2 = some .rangeErr →
      (parseUintLoop 16 (2 ^ 64 / 16) (2 ^ 32 - 1) s n).1 = 2 ^ 32 - 1 := by
  induction s with
  | nil => intro n h; simp [parseUintLoop] at h
  | cons c rest ih =>
    intro n
    unfold parseUintLoop
    cases digitVal c with
    | none => intro h; simp at h
    | some d =>
      simp only
      split
      · intro h; simp at h
      · split
        · intro _; rfl
        · split
          · intro _; rfl
          · exact ih _

theorem parseUintLoop_bad_char (s : List Byte) :
    ∀ n, (∃ c ∈ s, isHexDigit c = false) →
      (parseUintLoop 16 (2 ^ 64 / 16) (2 ^ 32 - 1) s n).2 ≠ none := by
  induction s with
  | nil => intro n ⟨c, hc, _⟩; exact absurd hc (List.not_mem_nil c)
  | cons c rest ih =>
    intro n ⟨x, hx, hbad⟩
    unfold parseUintLoop
    cases hd : digitVal c with
    | none => simp
    | some d =>
      simp only
      split
      · simp
      · split
        · simp
        · split
          · simp
          · apply ih
            rcases List.mem_cons.mp hx with rfl | hmem
            · exfalso
              unfold isHexDigit at hbad
              rw [hd] at hbad
              simp at hbad
              omega
            · exact ⟨x, hmem, hbad⟩

theorem ParseUint_range_value (l : List Byte) (un : Nat)
    (h : ParseUint16_32 l = (un, some .rangeErr)) : un = 2 ^ 32 - 1 := by
  unfold ParseUint16_32 at h
  by_cases hl : l = []
  · rw [if_pos hl] at h
    simp at h
  · rw [if_neg hl] at h
    have h1 := parseUintLoop_range_value l 0 (by rw [h])
    rw [h] at h1
    exact h1

theorem ParseInt_of_ParseUint_error (c : Byte) (rest : List Byte)
    (h : (ParseUint16_32 (if c.val = 43 ∨ c.val = 45 then rest else c :: rest)).2 ≠ none) :
    (ParseInt16_32 (c :: rest)).2 ≠ none := by
  unfold ParseInt16_32
  simp only
  rcases hp : ParseUint16_32 (if c.val = 43 ∨ c.val = 45 then rest else c :: rest) with ⟨un, e⟩
  rw [hp] at h
  cases e with
  | none => exact absurd rfl h
  | some k =>
    cases k with
    | syntaxErr => simp
    | rangeErr =>
      have hv : un = 2 ^ 32 - 1 := ParseUint_range_value _ un hp
      subst hv
      simp only
      by_cases hn : c.val = 45
      · simp [hn]
      · simp [hn]

theorem DecodeLength_error_of_bad_char (s : List Byte)
    (h : s = [] ∨ (∃ c ∈ s.tail, isHexDigit c = false)
      ∨ ∃ c, s.head? = some c ∧ isHexDigit c = false ∧ c.val ≠ 43 ∧ c.val ≠ 45) :
    ∃ e, DecodeLength s = .error (.decodeLength e) := by
  have key : (ParseInt16_32 s).2 ≠ none := by
    cases s with
    | nil => simp [ParseInt16_32]
    | cons c rest =>
      apply ParseInt_of_ParseUint_error
      have hne : ∀ l : List Byte, (∃ x ∈ l, isHexDigit x = false) →
          (ParseUint16_32 l).2 ≠ none := by
        intro l hl
        unfold ParseUint16_32
        split
        · simp
        · exact parseUintLoop_bad_char l 0 hl
      apply hne
      rcases h with h | ⟨x, hx, hbad⟩ | ⟨x, hx, hbad, h43, h45⟩
      · exact absurd h (List.cons_ne_nil _ _)
      · simp only [List.tail_cons] at hx
        split
        · exact ⟨x, hx, hbad⟩
        · exact ⟨x, List.mem_cons_of_mem _ hx, hbad⟩
      · simp only [List.head?_cons, Option.some.injEq] at hx
        subst hx
        rw [if_neg (by simp [h43, h45])]
        exact ⟨c, List.mem_cons_self _ _, hbad⟩
  unfold DecodeLength
  rcases hp : ParseInt16_32 s with ⟨v, e⟩
  rw [hp] at key
  cases e with
  | none => exact absurd rfl key
  | some k => exact ⟨k, rfl⟩

/-- C14: `DecodeLength` does not insist on four hexadecimal digits. It is
`strconv.ParseInt(s, 16, 32)` and nothing more: the signed strings `-001` and
`+01F` decode to `-1` and `31` without an error, and so do the one-digit
string `1` and the five-digit string `12345`. What holds of the claim: every
string of exactly four hexadecimal digits, in either letter case, decodes to
its value, and the empty string and every string that has a character other
than a hexadecimal digit anywhere but in a leading sign give an error. -/
theorem DecodeLength_lenient :
    DecodeLength [45, 48, 48, 49] = .ok (-1)
      ∧ DecodeLength [43, 48, 49, 70] = .ok 31
      ∧ DecodeLength [49] = .ok 1
      ∧ DecodeLength [49, 50, 51, 52, 53] = .ok 74565
      ∧ (∀ a b c d : Byte, isHexDigit a = true → isHexDigit b = true → isHexDigit c = true →
        isHexDigit d = true →
        DecodeLength [a, b, c, d]
          = .ok (((hexVal a * 16 + hexVal b) * 16 + hexVal c) * 16 + hexVal d : Nat))
      ∧ (∀ s : List Byte,
        (s = [] ∨ (∃ c ∈ s.tail, isHexDigit c = false)
          ∨ ∃ c, s.head? = some c ∧ isHexDigit c = false ∧ c.val ≠ 43 ∧ c.val ≠ 45) →
        ∃ e, DecodeLength s = .error (.decodeLength e)) :=
  ⟨by decide, by decide, by decide, by decide, DecodeLength_four_hex,
    DecodeLength_error_of_bad_char⟩

/-- Witness for `DecodeLength_lenient`: `00ff` and `00FF` decode to 255, and
`00g1` is refused. -/
theorem DecodeLength_lenient_witness :
    DecodeLength [48, 48, 102, 102] = .ok 255 ∧ DecodeLength [48, 48, 70, 70] = .ok 255
      ∧ ∃ e, DecodeLength [48, 48, 103, 49] = .error (.decodeLength e) :=
  ⟨DecodeLength_lenient.2.2.2.2.1 48 48 102 102 (by decide) (by decide) (by decide) (by decide),
    DecodeLength_lenient.2.2.2.2.1 48 48 70 70 (by decide) (by decide) (by decide) (by decide),
    DecodeLength_lenient.2.2.2.2.2 [48, 48, 103, 49]
      (Or.inr (Or.inl ⟨103, by decide, by decide⟩))⟩

/-! ### `Sync.Stat` and the end of a push -/

theorem ReadBytes_append (a tail : List Byte) (e : Bool) (n : Nat) (hn : a.length = n)
    (hpos : 0 < n) :
    (Parser.mk (a ++ tail) e).ReadBytes (n : Int) = (.ok a, ⟨tail, e⟩) := by
  unfold Parser.ReadBytes ReadFull
  rw [if_neg (by omega), if_neg (by omega)]
  simp only [Int.toNat_ofNat]
  rw [if_pos (by simp [hn])]
  simp only [← hn, List.take_left, List.drop_left]

theorem ReadValue_frame (m rest : List Byte) (e : Bool) (hm : m.length ≤ 0xFFFF) :
    (Parser.mk (EncodeData m ++ rest) e).ReadValue = (.ok m, ⟨rest, e⟩) := by
  have hlt : m.length < 65536 := by omega
  have henc := EncodeLength_lt_65536 m.length hlt
  have hdec := DecodeLength_of_EncodeLength m.length (by omega)
  unfold Parser.ReadValue Parser.ReadAscii
  have h4 : (EncodeLength (m.length : Int)).length = 4 := by rw [henc]; rfl
  have hs : EncodeData m ++ rest = EncodeLength (m.length : Int) ++ (m ++ rest) := by
    unfold EncodeData
    rw [List.append_assoc]
  rw [hs, ReadBytes_four _ _ e h4]
  simp only [hdec]
  by_cases h0 : m = []
  · subst h0
    simp [Parser.ReadBytes]
  · exact ReadBytes_append m rest e m.length rfl (List.length_pos.mpr h0)

theorem ReadError_frame (m rest : List Byte) (e : Bool) (hm : m.length ≤ 0xFFFF) :
    (Parser.mk (EncodeData m ++ rest) e).ReadError = (.fail m, ⟨rest, e⟩) := by
  unfold Parser.ReadError
  rw [ReadValue_frame m rest e hm]

/-- C15: `Sync.Stat` on the reply `STAT` + three little-endian `u32` values
fails with the not-found error naming `path` when the mode is `0` and returns
the three values otherwise; on `FAIL` + the frame of a message it fails with
`FailError` carrying that message; on any other four bytes it fails with
`UnexpectedDataError`. -/
theorem Stat_reply (s : Sync) (path rest : List Byte) :
    (∀ mode size mtime : Nat, mode < 2 ^ 32 → size < 2 ^ 32 → mtime < 2 ^ 32 →
        s.parser.stream = STAT ++ putUint32 mode ++ putUint32 size ++ putUint32 mtime ++ rest →
        (s.Stat path).1 =
          if mode = 0 then .error (.pathNotExist opStat path)
          else .ok { mode := mode, size := size, mtime := mtime })
      ∧ (∀ m : List Byte, m.length ≤ 0xFFFF → s.parser.stream = FAIL ++ EncodeData m ++ rest →
        (s.Stat path).1 = .error (.fail m))
      ∧ (∀ reply : List Byte, reply.length = 4 → reply ≠ STAT → reply ≠ FAIL →
        s.parser.stream = reply ++ rest →
        (s.Stat path).1 = .error (.unexpected reply expectedStat)) := by
  obtain ⟨w, ⟨stream, e⟩⟩ := s
  refine ⟨?_, ?_, ?_⟩
  · intro mode size mtime hmode hsize hmtime hstream
    simp only at hstream
    subst hstream
    unfold Sync.Stat Sync.sendCommandWithArg Parser.ReadAscii
    simp only
    rw [List.append_assoc, List.append_assoc, List.append_assoc, ReadBytes_four STAT _ e rfl]
    simp only [if_true]
    have h12 : (putUint32 mode ++ (putUint32 size ++ (putUint32 mtime ++ rest)))
        = (putUint32 mode ++ putUint32 size ++ putUint32 mtime) ++ rest := by
      simp only [List.append_assoc]
    have hrd := ReadBytes_append (putUint32 mode ++ putUint32 size ++ putUint32 mtime) rest e 12
      rfl (by decide)
    simp only [Nat.cast_ofNat] at hrd
    rw [h12, hrd]
    have g0 : getUint32 (slice (putUint32 mode ++ putUint32 size ++ putUint32 mtime) 0 4)
        = mode := by
      simp only [putUint32, slice, List.cons_append, List.nil_append, List.drop_zero,
        List.take_succ_cons, List.take_zero, Nat.sub_zero, getUint32, List.getD_cons_zero,
        List.getD_cons_succ]
      omega
    have g1 : getUint32 (slice (putUint32 mode ++ putUint32 size ++ putUint32 mtime) 4 8)
        = size := by
      simp only [putUint32, slice, List.cons_append, List.nil_append, List.drop_succ_cons,
        List.drop_zero, List.take_succ_cons, List.take_zero, Nat.reduceSub, getUint32,
        List.getD_cons_zero, List.getD_cons_succ]
      omega
    have g2 : getUint32 (slice (putUint32 mode ++ putUint32 size ++ putUint32 mtime) 8 12)
        = mtime := by
      simp only [putUint32, slice, List.cons_append, List.nil_append, List.drop_succ_cons,
        List.drop_zero, List.take_succ_cons, List.take_zero, Nat.reduceSub, getUint32,
        List.getD_cons_zero, List.getD_cons_succ]
      omega
    simp only [g0, g1, g2]
    split <;> rfl
  · intro m hm hstream
    simp only at hstream
    subst hstream
    unfold Sync.Stat Sync.sendCommandWithArg Parser.ReadAscii
    simp only
    rw [List.append_assoc, ReadBytes_four FAIL _ e rfl]
    have hne : ¬ FAIL = STAT := by decide
    simp only [hne, if_false, if_true, ReadError_frame m rest e hm]
  · intro reply hlen hs hf hstream
    simp only at hstream
    subst hstream
    unfold Sync.Stat Sync.sendCommandWithArg Parser.ReadAscii
    simp only
    rw [ReadBytes_four reply _ e hlen]
    simp only [hs, hf, if_false]

/-- Witness for `Stat_reply`: the reply `STAT` + twelve zero bytes for the
path `/foo`, a regular file of five bytes, a `FAIL` frame and the reply
`OKAY`. -/
theorem Stat_reply_witness :
    ((Sync.mk [] (NewParser (STAT ++ putUint32 0 ++ putUint32 0 ++ putUint32 0 ++ []))).Stat
        [47, 102, 111, 111]).1 = .error (.pathNotExist opStat [47, 102, 111, 111])
      ∧ ((Sync.mk [] (NewParser
            (STAT ++ putUint32 33188 ++ putUint32 5 ++ putUint32 99 ++ []))).Stat
          [47, 102, 111, 111]).1 = .ok { mode := 33188, size := 5, mtime := 99 }
      ∧ ((Sync.mk [] (NewParser (FAIL ++ EncodeData [111, 111, 112, 115] ++ []))).Stat
          [47, 102, 111, 111]).1 = .error (.fail [111, 111, 112, 115])
      ∧ ((Sync.mk [] (NewParser (OKAY ++ []))).Stat [47, 102, 111, 111]).1
          = .error (.unexpected OKAY expectedStat) :=
  ⟨(Stat_reply _ [47, 102, 111, 111] []).1 0 0 0 (by decide) (by decide) (by decide) rfl,
    (Stat_reply _ [47, 102, 111, 111] []).1 33188 5 99 (by decide) (by decide) (by decide) rfl,
    (Stat_reply _ [47, 102, 111, 111] []).2.1 [111, 111, 112, 115] (by decide) rfl,
    (Stat_reply _ [47, 102, 111, 111] []).2.2 OKAY rfl (by decide) (by decide) rfl⟩

theorem writeChunks_keeps_stream (reads : List (List Byte)) (s : Sync) (t : PushTransfer) :
    (Sync.writeChunks reads s t).1.parser = s.parser
      ∧ (Sync.writeChunks reads s t).2.events = t.events := by
  induction reads generalizing s t with
  | nil => exact ⟨rfl, rfl⟩
  | cons chunk rest ih =>
    unfold Sync.writeChunks
    by_cases h : chunk.length > 0
    · rw [if_pos h]
      exact ih _ _
    · rw [if_neg h]
      exact ih _ _

theorem writeData_reply (s : Sync) (reads : List (List Byte)) (timestamp : Int)
    (t : PushTransfer) (reply tail : List Byte) (e : Bool) (hlen : reply.length = 4)
    (hs : s.parser = ⟨reply ++ tail, e⟩) :
    (s.writeData reads timestamp t).1.parser = ⟨tail, e⟩
      ∧ (s.writeData reads timestamp t).2.events
          = if reply ≠ OKAY then t.events ++ [.error (.unexpectedReply reply), .ended]
            else t.events ++ [.ended] := by
  have hp := writeChunks_keeps_stream reads s t
  unfold Sync.writeData
  rcases hw : Sync.writeChunks reads s t with ⟨s1, t1⟩
  rw [hw] at hp
  simp only at hp
  simp only [Sync.sendCommandWithLength, Parser.ReadAscii]
  rw [hp.1, hs, ReadBytes_four reply tail e hlen]
  simp only
  by_cases hr : reply = OKAY
  · simp only [hr, ne_eq, not_true_eq_false, if_false, PushTransfer.End, hp.2, and_self]
  · simp only [hr, ne_eq, not_false_eq_true, if_true, PushTransfer.EmitError, hp.2, and_self]

/-- C16: at the end of a push, after `DONE`, the reply `OKAY` ends the
transfer, but the reply `FAIL` followed by the frame of a message `m` is not
turned into `FailError` with `m`: `Sync.writeData` leaves the frame unread and
reports the generic error `unexpected reply: FAIL`. -/
theorem writeData_FAIL_not_FailError (w reads : List (List Byte)) (timestamp : Int)
    (t : PushTransfer) (m tail : List Byte) (e : Bool) :
    ((Sync.mk w ⟨OKAY ++ tail, e⟩).writeData reads timestamp t).2.events
        = t.events ++ [.ended]
      ∧ ((Sync.mk w ⟨FAIL ++ (EncodeData m ++ tail), e⟩).writeData reads timestamp t).2.events
        = t.events ++ [.error (.unexpectedReply FAIL), .ended]
      ∧ ((Sync.mk w ⟨FAIL ++ (EncodeData m ++ tail), e⟩).writeData reads timestamp t).2.events
        ≠ t.events ++ [.error (.fail m), .ended]
      ∧ ((Sync.mk w ⟨FAIL ++ (EncodeData m ++ tail), e⟩).writeData reads timestamp t).1.parser
        = ⟨EncodeData m ++ tail, e⟩ := by
  have hO := writeData_reply (Sync.mk w ⟨OKAY ++ tail, e⟩) reads timestamp t OKAY tail e rfl rfl
  have hF := writeData_reply (Sync.mk w ⟨FAIL ++ (EncodeData m ++ tail), e⟩) reads timestamp t
    FAIL (EncodeData m ++ tail) e rfl rfl
  have hne : FAIL ≠ OKAY := by decide
  rw [if_pos hne] at hF
  rw [if_neg (by simp)] at hO
  refine ⟨hO.2, hF.2, ?_, hF.1⟩
  rw [hF.2]
  intro h
  have h2 := List.append_cancel_left h
  simp at h2

/-! ### Errors of packet handling on a `Socket` -/

theorem handleOpenPacket_frame (s : Socket) (p : Packet) :
    (s.handleOpenPacket p).1.ended = s.ended
      ∧ (s.handleOpenPacket p).1.connClosed = s.connClosed
      ∧ (s.handleOpenPacket p).1.events = s.events := by
  unfold Socket.handleOpenPacket
  by_cases ha : s.authorized = true
  · rw [ha]
    simp only [Bool.not_true, Bool.false_eq_true, if_false]
    split
    · exact ⟨rfl, rfl, rfl⟩
    · split
      · exact ⟨rfl, rfl, rfl⟩
      · split
        · exact ⟨rfl, rfl, rfl⟩
        · exact ⟨rfl, rfl, rfl⟩
        · split <;> exact ⟨rfl, rfl, rfl⟩
  · have hf : s.authorized = false := by simpa using ha
    rw [hf]
    exact ⟨rfl, rfl, rfl⟩

theorem forwardServicePacket_frame (s : Socket) (p : Packet) :
    (s.forwardServicePacket p).1.ended = s.ended
      ∧ (s.forwardServicePacket p).1.connClosed = s.connClosed
      ∧ (s.forwardServicePacket p).1.events = s.events := by
  unfold Socket.forwardServicePacket
  by_cases ha : s.authorized = true
  · rw [ha]
    simp only [Bool.not_true, Bool.false_eq_true, if_false]
    split
    · exact ⟨rfl, rfl, rfl⟩
    · split
      · exact ⟨rfl, rfl, rfl⟩
      · unfold Socket.afterServiceCall
        simp only
        split <;> exact ⟨rfl, rfl, rfl⟩
  · have hf : s.authorized = false := by simpa using ha
    rw [hf]
    exact ⟨rfl, rfl, rfl⟩

theorem handlePacket_OPEN (s : Socket) (p : Packet) (random : Option (List Byte))
    (hne : s.ended = false) (hc : p.Command = A_OPEN) :
    (s.handlePacket p random).1 = ((s.emit (.userActivity p)).handleOpenPacket p).1 := by
  unfold Socket.handlePacket
  rw [hne, hc]
  simp only [Bool.false_eq_true, if_false]
  rw [if_neg (by decide), if_neg (by decide), if_pos trivial]
  split <;> simp only [*]

theorem handlePacket_forward (s : Socket) (p : Packet) (random : Option (List Byte))
    (hne : s.ended = false)
    (hc : p.Command = A_OKAY ∨ p.Command = A_WRTE ∨ p.Command = A_CLSE) :
    (s.handlePacket p random).1 = ((s.emit (.userActivity p)).forwardServicePacket p).1 := by
  have h1 : p.Command ≠ A_SYNC := by
    rcases hc with h | h | h <;> rw [h] <;> decide
  have h2 : p.Command ≠ A_CNXN := by
    rcases hc with h | h | h <;> rw [h] <;> decide
  have h3 : p.Command ≠ A_OPEN := by
    rcases hc with h | h | h <;> rw [h] <;> decide
  unfold Socket.handlePacket
  rw [hne]
  simp only [Bool.false_eq_true, if_false]
  rw [if_neg h1, if_neg h2, if_neg h3, if_pos hc]
  split <;> simp only [*]

/-- C18: an error returned by `handleOpenPacket` or `forwardServicePacket`
does not end the `Socket`: `handlePacket` drops the value these methods
return, so after an `A_OPEN`, `A_OKAY`, `A_WRTE` or `A_CLSE` packet the socket
is still not ended, the connection is not closed by the call, and no `error`
or `end` event was emitted, whatever error the handler returned. -/
theorem handlePacket_drops_errors (s : Socket) (p : Packet) (random : Option (List Byte))
    (hne : s.ended = false)
    (hc : p.Command = A_OPEN ∨ p.Command = A_OKAY ∨ p.Command = A_WRTE ∨ p.Command = A_CLSE) :
    (s.handlePacket p random).1.ended = false
      ∧ (s.handlePacket p random).1.connClosed = s.connClosed
      ∧ (s.handlePacket p random).1.events = s.events ++ [.userActivity p] := by
  rcases hc with h | h
  · rw [handlePacket_OPEN s p random hne h]
    have hf := handleOpenPacket_frame (s.emit (.userActivity p)) p
    exact ⟨hf.1.trans hne, hf.2.1, hf.2.2⟩
  · rw [handlePacket_forward s p random hne h]
    have hf := forwardServicePacket_frame (s.emit (.userActivity p)) p
    exact ⟨hf.1.trans hne, hf.2.1, hf.2.2⟩

/-- Witness for `handlePacket_drops_errors`: a new socket, which is not
authorized, handles an `A_OPEN` packet; `handleOpenPacket` returns
`UnauthorizedError`. -/
theorem handlePacket_drops_errors_witness :
    ((NewSocket.emit (.userActivity openShell)).handleOpenPacket openShell).2
        = .returned (some .unauthorized)
      ∧ (NewSocket.handlePacket openShell none).1.ended = false
      ∧ (NewSocket.handlePacket openShell none).1.connClosed = NewSocket.connClosed
      ∧ (NewSocket.handlePacket openShell none).1.events
          = NewSocket.events ++ [.userActivity openShell] :=
  ⟨rfl, handlePacket_drops_errors NewSocket openShell none rfl (Or.inl rfl)⟩

/-- C19: a `Socket` that is not authorized answers every packet passed to
`handleOpenPacket` or `forwardServicePacket` with `UnauthorizedError` and is
left as it was: the counter, the service map and the bytes written to the peer
are unchanged. -/
theorem unauthorized_rejected (s : Socket) (p : Packet) (h : s.authorized = false) :
    s.handleOpenPacket p = (s, .returned (some .unauthorized))
      ∧ s.forwardServicePacket p = (s, .returned (some .unauthorized)) := by
  unfold Socket.handleOpenPacket Socket.forwardServicePacket
  rw [h]
  exact ⟨rfl, rfl⟩

/-- Witness for `unauthorized_rejected`: a new socket and an `A_OPEN` packet. -/
theorem unauthorized_rejected_witness :
    NewSocket.authorized = false
      ∧ NewSocket.handleOpenPacket openShell = (NewSocket, .returned (some .unauthorized))
      ∧ NewSocket.forwardServicePacket openShell
          = (NewSocket, .returned (some .unauthorized)) :=
  ⟨rfl, unauthorized_rejected NewSocket openShell rfl⟩

/-! ### `A_CLSE` on an open `Service` -/

/-- C20: `Handle` of an `A_CLSE` packet on an open service does not return:
`Handle` holds the mutex when `handleClosePacket` calls `End`, which locks it
again. The call blocks with the mutex held, the transport not closed and the
service not ended. -/
theorem Handle_CLSE_blocks (s : Service) (t : Transport) (p : Packet)
    (hl : s.locked = false) (he : s.ended = false) (ho : s.opened = true)
    (ht : s.transport = some t) (hc : p.Command = A_CLSE) :
    s.Handle p = ({ s with locked := true }, .blocked)
      ∧ (s.Handle p).1.ended = false
      ∧ (s.Handle p).1.transport = some t := by
  have h : s.Handle p = ({ s with locked := true }, .blocked) := by
    unfold Service.Handle
    rw [hl, hc]
    simp only [Bool.false_eq_true, if_false, he]
    rw [if_neg (by decide), if_neg (by decide), if_neg (by decide), if_pos trivial]
    unfold Service.handleClosePacket Service.End
    simp only [ho, ht, Bool.not_true, Option.isNone_some, Bool.or_self, Bool.false_eq_true,
      if_false, if_true]
  rw [h]
  exact ⟨rfl, he, ht⟩

/-- Witness for `Handle_CLSE_blocks`: a service that handled `A_OPEN`, whose
transport is open, receives `A_CLSE`. -/
theorem Handle_CLSE_blocks_witness :
    openedService.Handle (NewPacket A_CLSE 7 1 [])
        = ({ openedService with locked := true }, .blocked)
      ∧ (openedService.Handle (NewPacket A_CLSE 7 1 [])).1.ended = false
      ∧ (openedService.Handle (NewPacket A_CLSE 7 1 [])).1.transport
          = some { received := [], closed := false } :=
  Handle_CLSE_blocks openedService { received := [], closed := false }
    (NewPacket A_CLSE 7 1 []) rfl rfl rfl rfl rfl

/-! ### Replies other than `OKAY` and `FAIL` to the host commands -/

/-- What holds of `End` while the mutex is free: the first `End` writes exactly
one `A_CLSE` packet (`arg0` the local id if the service was opened, else `0`;
`arg1` the remote id; no payload), marks the service ended and emits one `end`
event, returning nil; the service is then ended with its mutex free, and in
every such state `End` returns nil and changes nothing, and `Handle` of any
packet returns nil and changes nothing. -/
theorem End_with_free_mutex (s : Service) (hl : s.locked = false) :
    (s.ended = false →
        s.End = ({ s with
            transport := s.transport.map fun t => { t with closed := true }
            ended := true
            socketWrites := s.socketWrites
              ++ [Assemble A_CLSE (if s.opened then s.localId else 0) s.remoteId []]
            events := s.events ++ [.ended] }, .returned none))
      ∧ s.End.1.ended = true ∧ s.End.1.locked = false
      ∧ (∀ t : Service, t.ended = true → t.locked = false →
          t.End = (t, .returned none) ∧ ∀ p, t.Handle p = (t, .returned none)) := by
  refine ⟨?_, ?_, ?_, ?_⟩
  · intro he
    unfold Service.End Service.emit
    simp only [hl, he, Bool.false_eq_true, if_false]
  · unfold Service.End Service.emit
    by_cases he : s.ended = true
    · simp only [hl, he, Bool.false_eq_true, if_false, if_true]
    · simp only [hl, he, Bool.false_eq_true, if_false]
  · unfold Service.End Service.emit
    by_cases he : s.ended = true
    · simp only [hl, he, Bool.false_eq_true, if_false, if_true]
    · simp only [hl, he, Bool.false_eq_true, if_false]
  · intro t hte htl
    constructor
    · unfold Service.End
      simp only [htl, hte, Bool.false_eq_true, if_false, if_true]
    · intro p
      unfold Service.Handle
      simp only [htl, hte, Bool.false_eq_true, if_false, if_true]
      cases t
      simp only at htl hte
      simp only [htl, hte]

theorem step_locked (s : Service) (hl : s.locked = true) (a : ServiceAction) :
    s.step a = s := by
  cases a with
  | handle p =>
    show (s.Handle p).1 = s
    unfold Service.Handle
    rw [if_pos hl]
  | endCall =>
    show s.End.1 = s
    unfold Service.End
    rw [if_pos hl]
  | loopTurn r =>
    show (if s.readLoops = 0 then s else (s.readLoopTurn r).1) = s
    unfold Service.readLoopTurn
    rw [if_pos hl]
    split <;> rfl

theorem run_locked (actions : List ServiceAction) :
    ∀ s : Service, s.locked = true → s.run actions = s := by
  induction actions with
  | nil => intro s _; rfl
  | cons a rest ih =>
    intro s hl
    unfold Service.run
    rw [List.foldl_cons, step_locked s hl a]
    exact ih s hl

/-- C21: `End` does not return on an opened service once its `readLoop` runs.
For a service that is not ended, with a transport, `needAck` false and a
`readLoop` started, the first turn of `readLoop` waits in `r.Read` on the pipe
with the mutex held. From then on `End` blocks: it writes no `A_CLSE`, does not
mark the service ended and emits no event; `Handle` blocks as well, and no
later call or turn changes the state. -/
theorem End_blocks_after_readLoop (s : Service) (t : Transport) (hl : s.locked = false)
    (he : s.ended = false) (hn : s.needAck = false) (ht : s.transport = some t)
    (hr : s.readLoops ≠ 0) :
    s.step (.loopTurn .pending) = { s with locked := true }
      ∧ ({ s with locked := true } : Service).End = ({ s with locked := true }, .blocked)
      ∧ ({ s with locked := true } : Service).End.1.ended = false
      ∧ ({ s with locked := true } : Service).End.1.socketWrites = s.socketWrites
      ∧ ({ s with locked := true } : Service).End.1.events = s.events
      ∧ (∀ p, ({ s with locked := true } : Service).Handle p
          = ({ s with locked := true }, .blocked))
      ∧ (∀ actions, ({ s with locked := true } : Service).run actions
          = { s with locked := true }) := by
  have hEnd : ({ s with locked := true } : Service).End = ({ s with locked := true }, .blocked) := by
    unfold Service.End
    rw [if_pos rfl]
  refine ⟨?_, hEnd, ?_, ?_, ?_, ?_, ?_⟩
  · show (if s.readLoops = 0 then s else (s.readLoopTurn .pending).1) = _
    unfold Service.readLoopTurn
    rw [if_neg hr, hl, he, hn, ht]
    rfl
  · rw [hEnd]
    exact he
  · rw [hEnd]
  · rw [hEnd]
  · intro p
    unfold Service.Handle
    rw [if_pos rfl]
  · intro actions
    exact run_locked actions _ rfl

/-- Witness for `End_blocks_after_readLoop`: the service that handled `A_OPEN`
lets its `readLoop` take the first turn; `End` then blocks and nothing was
written after the `A_OKAY` of the open. -/
theorem End_blocks_after_readLoop_witness :
    openedService.step (.loopTurn .pending) = { openedService with locked := true }
      ∧ (openedService.step (.loopTurn .pending)).End
          = ({ openedService with locked := true }, .blocked)
      ∧ (openedService.step (.loopTurn .pending)).End.1.ended = false
      ∧ (openedService.step (.loopTurn .pending)).End.1.socketWrites
          = [Assemble A_OKAY 1 7 []]
      ∧ (openedService.step (.loopTurn .pending)).End.1.events = [] :=
  ⟨(End_blocks_after_readLoop openedService ⟨[], false⟩ rfl rfl rfl rfl (by decide)).1,
    (End_blocks_after_readLoop openedService ⟨[], false⟩ rfl rfl rfl rfl (by decide)).2.1,
    (End_blocks_after_readLoop openedService ⟨[], false⟩ rfl rfl rfl rfl (by decide)).2.2.1,
    (End_blocks_after_readLoop openedService ⟨[], false⟩ rfl rfl rfl rfl (by decide)).2.2.2.1,
    (End_blocks_after_readLoop openedService ⟨[], false⟩ rfl rfl rfl rfl (by decide)).2.2.2.2.1⟩

/-! ### Keys of the `ServiceMap` -/

/-- C22: `Insert` under a key that is present returns the error and leaves
the map as it was, the stored service included; under an absent key it
succeeds, `Get` of the key then returns the inserted service, `Count` has
grown by one (it is a Go `int` below its maximum) and every other key keeps
what `Get` returned for it. -/
theorem Insert_keys_unique (m : ServiceMap) (id : Nat) (s : Service)
    (hlo : -2 ^ 63 ≤ m.Count) (hhi : m.Count < 2 ^ 63 - 1) :
    (∀ old, m.Get id = some old →
        m.Insert id s = none ∧ m.afterInsert id s = m ∧ (m.afterInsert id s).Get id = some old)
      ∧ (m.Get id = none →
        m.Insert id s = some (m.afterInsert id s)
          ∧ (m.afterInsert id s).Get id = some s
          ∧ (m.afterInsert id s).Count = m.Count + 1
          ∧ ∀ other, other ≠ id → (m.afterInsert id s).Get other = m.Get other) := by
  unfold ServiceMap.Count at hlo hhi
  constructor
  · intro old hold
    unfold ServiceMap.Get at hold
    have hi : m.Insert id s = none := by
      unfold ServiceMap.Insert
      rw [hold]
    have ha : m.afterInsert id s = m := by
      unfold ServiceMap.afterInsert
      rw [hi]
      rfl
    refine ⟨hi, ha, ?_⟩
    rw [ha]
    exact hold
  · intro hnone
    unfold ServiceMap.Get at hnone
    have hw : wrapInt (m.count + 1) = m.count + 1 := wrapInt_of_range _ (by omega) (by omega)
    have hi : m.Insert id s
        = some { remotes := m.remotes ++ [(id, s)], count := m.count + 1 } := by
      unfold ServiceMap.Insert
      rw [hnone, hw]
    have ha : m.afterInsert id s = { remotes := m.remotes ++ [(id, s)], count := m.count + 1 } := by
      unfold ServiceMap.afterInsert
      rw [hi]
      rfl
    rw [ha]
    refine ⟨hi, ?_, rfl, ?_⟩
    · unfold ServiceMap.Get
      simp only [List.lookup_append, hnone, Option.none_or, List.lookup_cons, beq_self_eq_true]
    · intro other hne
      unfold ServiceMap.Get
      have hb : (other == id) = false := by simpa using hne
      simp only [List.lookup_append, List.lookup_cons, hb, List.lookup_nil, Option.or_none]

/-- Witness for `Insert_keys_unique`: the key `7` is inserted into the empty
map, and a second insertion under `7` is refused. -/
theorem Insert_keys_unique_witness :
    (NewServiceMap.afterInsert 7 (NewService 1 7)).Get 7 = some (NewService 1 7)
      ∧ (NewServiceMap.afterInsert 7 (NewService 1 7)).Count = 1
      ∧ (NewServiceMap.afterInsert 7 (NewService 1 7)).Insert 7 (NewService 2 7) = none :=
  ⟨((Insert_keys_unique NewServiceMap 7 (NewService 1 7) (by decide) (by decide)).2 rfl).2.1,
    ((Insert_keys_unique NewServiceMap 7 (NewService 1 7) (by decide) (by decide)).2 rfl).2.2.1,
    ((Insert_keys_unique (NewServiceMap.afterInsert 7 (NewService 1 7)) 7 (NewService 2 7)
      (by decide) (by decide)).1 (NewService 1 7) (by decide)).1⟩

/-! ### `A_CNXN`: version and maximum payload -/

theorem and_byte_mask (n k : Nat) : n &&& (255 * 2 ^ k) = (n / 2 ^ k % 256) * 2 ^ k := by
  apply Nat.eq_of_testBit_eq
  intro i
  have h255 : (255 : Nat) = 2 ^ 8 - 1 := by norm_num
  have h256 : (256 : Nat) = 2 ^ 8 := by norm_num
  rw [Nat.testBit_and, Nat.mul_comm 255, Nat.mul_comm _ (2 ^ k), Nat.testBit_mul_pow_two,
    Nat.testBit_mul_pow_two, h255, h256, Nat.testBit_two_pow_sub_one, Nat.testBit_mod_two_pow,
    ← Nat.shiftRight_eq_div_pow, Nat.testBit_shiftRight]
  by_cases hik : i ≥ k
  · have : k + (i - k) = i := by omega
    rw [this]
    cases n.testBit i <;> simp [hik]
  · simp [hik]

theorem Swap32_bytes (n : Nat) :
    Swap32 n = getUint32 (putUint32 n).reverse := by
  have m0 : n &&& 0xFF = n % 256 := by
    have := and_byte_mask n 0
    simpa using this
  have m1 : n &&& 0xFF00 = (n / 256 % 256) * 256 := by
    have := and_byte_mask n 8
    simpa using this
  have m2 : n &&& 0xFF0000 = (n / 65536 % 256) * 65536 := by
    have := and_byte_mask n 16
    simpa using this
  have m3 : n &&& 0xFF000000 = (n / 16777216 % 256) * 16777216 := by
    have := and_byte_mask n 24
    simpa using this
  unfold Swap32
  rw [m0, m1, m2, m3]
  simp only [Nat.shiftLeft_eq, Nat.shiftRight_eq_div_pow]
  have t0 : n % 256 * 2 ^ 24 % 2 ^ 32 = 2 ^ 24 * (n % 256) := by omega
  have t1 : n / 256 % 256 * 256 * 2 ^ 8 % 2 ^ 32 = n / 256 % 256 * 65536 := by omega
  have t2 : n / 65536 % 256 * 65536 / 2 ^ 8 = n / 65536 % 256 * 256 := by omega
  have t3 : n / 16777216 % 256 * 16777216 / 2 ^ 24 = n / 16777216 % 256 := by omega
  rw [t0, t1, t2, t3]
  rw [← Nat.mul_add_lt_is_or (show n / 256 % 256 * 65536 < 2 ^ 24 by omega) (n % 256)]
  have e1 : 2 ^ 24 * (n % 256) + n / 256 % 256 * 65536
      = 2 ^ 16 * ((n % 256) * 256 + n / 256 % 256) := by omega
  rw [e1, ← Nat.mul_add_lt_is_or (show n / 65536 % 256 * 256 < 2 ^ 16 by omega) _]
  have e2 : 2 ^ 16 * ((n % 256) * 256 + n / 256 % 256) + n / 65536 % 256 * 256
      = 2 ^ 8 * (((n % 256) * 256 + n / 256 % 256) * 256 + n / 65536 % 256) := by omega
  rw [e2, ← Nat.mul_add_lt_is_or (show n / 16777216 % 256 < 2 ^ 8 by omega) _]
  simp only [putUint32, List.reverse_cons, List.reverse_nil, List.nil_append, List.cons_append,
    getUint32, List.getD_cons_zero, List.getD_cons_succ]
  omega

/-- C23: when a socket that is not ended handles an `A_CNXN` packet with
32-bit arguments and `createToken` delivers its 20 bytes, the version becomes
`Swap32(arg0)`, which is the value of the four bytes of `arg0` in reverse
order, `maxPayload` becomes `min(arg1, 0xFFFF)`, the one packet written is
`A_AUTH` with `arg0 = 1`, `arg1 = 0` and the token as payload, and
`authorized` is left as it was. -/
theorem handleConnectionPacket_effect (s : Socket) (p : Packet) (token : List Byte)
    (hne : s.ended = false) (h1 : p.Arg1 < 2 ^ 32)
    (ht : token.length = TOKEN_LENGTH) :
    (s.handleConnectionPacket p (some token)).1.version = (Swap32 p.Arg0 : Nat)
      ∧ Swap32 p.Arg0 = getUint32 (putUint32 p.Arg0).reverse
      ∧ (s.handleConnectionPacket p (some token)).1.maxPayload = min (p.Arg1 : Int) 0xFFFF
      ∧ (s.handleConnectionPacket p (some token)).1.connWrites
          = s.connWrites ++ [Assemble A_AUTH AUTH_TOKEN 0 token]
      ∧ Parse (Assemble A_AUTH AUTH_TOKEN 0 token)
          = .ok { Command := A_AUTH, Arg0 := 1, Arg1 := 0, Length := 20,
                  Check := checksum token, Magic := magic A_AUTH, Data := token }
      ∧ (s.handleConnectionPacket p (some token)).1.authorized = s.authorized
      ∧ (s.handleConnectionPacket p (some token)).1.ended = false := by
  have hw : (s.handleConnectionPacket p (some token)).1
      = { s with
          version := (Swap32 p.Arg0 : Nat)
          maxPayload := if (p.Arg1 : Int) > UINT16_MAX then UINT16_MAX else (p.Arg1 : Int)
          token := some token
          connWrites := s.connWrites ++ [Assemble A_AUTH AUTH_TOKEN 0 token] } := by
    unfold Socket.handleConnectionPacket Socket.write
    simp only [hne, Bool.false_eq_true, if_false]
  rw [hw]
  refine ⟨rfl, Swap32_bytes p.Arg0, ?_, rfl, ?_, rfl, hne⟩
  · show (if (p.Arg1 : Int) > UINT16_MAX then UINT16_MAX else (p.Arg1 : Int)) = _
    unfold UINT16_MAX
    split
    · rw [min_eq_right (by omega)]
    · rw [min_eq_left (by omega)]
  · have hlen : token.length = 20 := ht
    rw [Parse_Assemble_raw, hlen]
    simp only [Nat.reducePow, Nat.reduceMod, AUTH_TOKEN]
    rw [Nat.mod_eq_of_lt (show A_AUTH < 4294967296 by decide), ← hlen, List.take_length]

/-- Witness for `handleConnectionPacket_effect`: a new socket handles
`A_CNXN` with version `0x01000000` and maximum payload `0x40000`. -/
theorem handleConnectionPacket_effect_witness :
    (NewSocket.handleConnectionPacket (NewPacket A_CNXN 0x01000000 0x40000 hostBanner)
        (some (List.replicate 20 7))).1.version = 1
      ∧ (NewSocket.handleConnectionPacket (NewPacket A_CNXN 0x01000000 0x40000 hostBanner)
        (some (List.replicate 20 7))).1.maxPayload = 0xFFFF
      ∧ (NewSocket.handleConnectionPacket (NewPacket A_CNXN 0x01000000 0x40000 hostBanner)
        (some (List.replicate 20 7))).1.connWrites
          = [Assemble A_AUTH AUTH_TOKEN 0 (List.replicate 20 7)]
      ∧ (NewSocket.handleConnectionPacket (NewPacket A_CNXN 0x01000000 0x40000 hostBanner)
        (some (List.replicate 20 7))).1.authorized = false :=
  ⟨(handleConnectionPacket_effect NewSocket (NewPacket A_CNXN 0x01000000 0x40000 hostBanner)
      (List.replicate 20 7) rfl (by decide) rfl).1.trans (by decide),
    (handleConnectionPacket_effect NewSocket (NewPacket A_CNXN 0x01000000 0x40000 hostBanner)
      (List.replicate 20 7) rfl (by decide) rfl).2.2.1.trans (by decide),
    (handleConnectionPacket_effect NewSocket (NewPacket A_CNXN 0x01000000 0x40000 hostBanner)
      (List.replicate 20 7) rfl (by decide) rfl).2.2.2.1,
    (handleConnectionPacket_effect NewSocket (NewPacket A_CNXN 0x01000000 0x40000 hostBanner)
      (List.replicate 20 7) rfl (by decide) rfl).2.2.2.2.2.1⟩

/-! ### The public-key struct -/

theorem leUint32_len_wraps_to_zero (b4 b5 b6 b7 b8 b9 b10 b11 : Byte) :
    leUint32 [0, 0, 0, 0x20, b4, b5, b6, b7, b8, b9, b10, b11] = some 0x20000000 := by
  simp [leUint32, getUint32]
  decide

theorem leUint32_len_wraps_twice (b4 b5 b6 b7 : Byte) :
    leUint32 [0, 0, 0, 0x40, b4, b5, b6, b7, 3, 0, 0, 0] = some 0x40000000 := by
  simp [leUint32, getUint32]
  decide

/-- C24: `parsePublicKeyFromStruct` does not return an error for every
malformed struct. An input of one, two or three bytes panics in
`binary.LittleEndian.Uint32`. A 12-byte input with `len = 0x20000000` passes
the length check, because `4 + 4 + 4*len + 4*len + 4` wraps to 12 in `uint32`,
and panics in the slice expression `data[8 : 8 + 0x80000000]`. A 12-byte
input with `len = 0x40000000` and exponent 3 passes the same check and is
accepted, with modulus 0. -/
theorem parsePublicKeyFromStruct_malformed (keys : KeyMap) (comment : List Byte) :
    (∀ a : Byte, (parsePublicKeyFromStruct keys [a] comment).1 = .error .panic)
      ∧ (∀ a b : Byte, (parsePublicKeyFromStruct keys [a, b] comment).1 = .error .panic)
      ∧ (∀ a b c : Byte, (parsePublicKeyFromStruct keys [a, b, c] comment).1 = .error .panic)
      ∧ (∀ b4 b5 b6 b7 b8 b9 b10 b11 : Byte,
          (parsePublicKeyFromStruct keys [0, 0, 0, 0x20, b4, b5, b6, b7, b8, b9, b10, b11]
            comment).1 = .error .panic)
      ∧ (∀ b4 b5 b6 b7 : Byte,
          (parsePublicKeyFromStruct keys [0, 0, 0, 0x40, b4, b5, b6, b7, 3, 0, 0, 0]
            comment).1 = .ok { N := 0, E := 3 }) := by
  refine ⟨fun _ => rfl, fun _ _ => rfl, fun _ _ _ => rfl, ?_, ?_⟩
  · intro b4 b5 b6 b7 b8 b9 b10 b11
    unfold parsePublicKeyFromStruct
    rw [leUint32_len_wraps_to_zero]
    simp only [List.length_cons, List.length_nil]
    norm_num
  · intro b4 b5 b6 b7
    have he : leUint32 [3, 0, 0, 0] = some 3 := by
      simp [leUint32, getUint32]
      decide
    unfold parsePublicKeyFromStruct
    rw [leUint32_len_wraps_twice]
    simp only [List.length_cons, List.length_nil]
    norm_num
    rw [he]
    simp [slice, reverseBytes, reverseBytesLoop, SetBytes]

/-! ### The key map after `ParsePublicKey` -/

theorem hexEncode_length (b : List Byte) : (hexEncode b).length = 2 * b.length := by
  induction b with
  | nil => rfl
  | cons x rest ih =>
    unfold hexEncode
    rw [List.length_cons, List.length_cons, ih, List.length_cons]
    omega

theorem md5Sum_length (data : List Byte) : (md5Sum data).length = 16 := by
  unfold md5Sum
  simp only [List.length_append, putUint32_length]

theorem lookup_map_replace (m : KeyMap) (key : List Byte) (info : KeyInfo) (other : List Byte) :
    (m.map fun e => if e.1 = key then (key, info) else e).lookup other
      = if other = key then (m.lookup key).map (fun _ => info) else m.lookup other := by
  induction m with
  | nil =>
    simp
  | cons e rest ih =>
    obtain ⟨ek, ev⟩ := e
    rw [List.map_cons]
    by_cases hek : ek = key
    · subst hek
      by_cases hok : other = ek
      · subst hok
        simp [List.lookup_cons]
      · have hb : (other == ek) = false := by simpa using hok
        simp only [if_true, List.lookup_cons, hb, ih, if_neg hok]
    · simp only [if_neg hek]
      by_cases hok : other = key
      · subst hok
        have hb : (other == ek) = false := by
          simpa using fun h => hek h.symm
        simp only [List.lookup_cons, hb, ih, if_true]
      · simp only [List.lookup_cons, ih, if_neg hok]

theorem keyMapSet_lookup (m : KeyMap) (key : List Byte) (info : KeyInfo) (other : List Byte) :
    (keyMapSet m key info).lookup other = if other = key then some info else m.lookup other := by
  unfold keyMapSet
  cases h : m.lookup key with
  | some old =>
    simp only
    rw [lookup_map_replace, h]
    rfl
  | none =>
    simp only
    rw [List.lookup_append]
    by_cases hok : other = key
    · subst hok
      rw [h, if_pos rfl]
      simp
    · have hb : (other == key) = false := by simpa using hok
      rw [if_neg hok]
      simp [List.lookup_cons, hb]

theorem splitByte_no_sep (sep : Byte) (s : List Byte) (h : sep ∉ s) : splitByte sep s = [s] := by
  induction s with
  | nil => rfl
  | cons c rest ih =>
    have hc : c ≠ sep := fun e => h (by rw [e]; exact List.mem_cons_self _ _)
    have hr : sep ∉ rest := fun e => h (List.mem_cons_of_mem _ e)
    unfold splitByte
    rw [if_neg hc, ih hr]

theorem splitByte_append_sep (sep : Byte) (s t : List Byte) (h : sep ∉ s) :
    splitByte sep (s ++ sep :: t) = s :: splitByte sep t := by
  induction s with
  | nil =>
    rw [List.nil_append]
    conv_lhs => unfold splitByte
    rw [if_pos rfl]
  | cons c rest ih =>
    have hc : c ≠ sep := fun e => h (by rw [e]; exact List.mem_cons_self _ _)
    have hr : sep ∉ rest := fun e => h (List.mem_cons_of_mem _ e)
    rw [List.cons_append]
    conv_lhs => unfold splitByte
    rw [if_neg hc, ih hr]

theorem parsePublicKeyFromStruct_ok (keys : KeyMap) (data comment : List Byte) (key : PublicKey)
    (h : (parsePublicKeyFromStruct keys data comment).1 = .ok key) :
    (parsePublicKeyFromStruct keys data comment).2
      = AddKeyInfo keys comment (hexEncode (md5Sum data)) := by
  unfold parsePublicKeyFromStruct at h ⊢
  by_cases h0 : data.length = 0
  · rw [if_pos h0] at h
    exact absurd h (by simp)
  · rw [if_neg h0] at h ⊢
    cases hl : leUint32 data with
    | none =>
      simp only [hl] at h
      exact absurd h (by simp)
    | some lens =>
      simp only [hl] at h ⊢
      by_cases h1 : data.length ≠ (4 + 4 + lens * 4 + lens * 4 + 4) % 2 ^ 32
      · rw [if_pos h1] at h
        exact absurd h (by simp)
      · rw [if_neg h1] at h ⊢
        by_cases h2 : 8 + lens * 4 % 2 ^ 32 > data.length
        · rw [if_pos h2] at h
          exact absurd h (by simp)
        · rw [if_neg h2] at h ⊢
          by_cases h3 : 8 + lens * 4 % 2 ^ 32 + lens * 4 % 2 ^ 32 > data.length
          · rw [if_pos h3] at h
            exact absurd h (by simp)
          · rw [if_neg h3] at h ⊢
            cases he : leUint32 (List.drop (8 + lens * 4 % 2 ^ 32 + lens * 4 % 2 ^ 32) data) with
            | none =>
              simp only [he] at h
              exact absurd h (by simp)
            | some e =>
              simp only [he] at h ⊢
              by_cases h4 : e ≠ 3 ∧ e ≠ 65537
              · rw [if_pos h4] at h
                exact absurd h (by simp)
              · rw [if_neg h4]

/-- C25: after `ParsePublicKey` succeeded on base64 text, a NUL byte and a
comment `c`, the key map has no new entry under the hex MD5 digest of the
struct: `parsePublicKeyFromStruct` calls `AddKeyInfo([]byte(comment),
fingerprint)` with the two arguments exchanged, so the entry is stored under
the hex text of the trimmed comment, with that text as `Fingerprint` and the
digest as `Comment`. (The comment is not 16 bytes long, so that its hex text
differs from every digest.) -/
theorem ParsePublicKey_key_info_swapped (keys : KeyMap) (b64 c keyData : List Byte)
    (key : PublicKey) (hb : (0 : Byte) ∉ b64) (hc : (0 : Byte) ∉ c)
    (hd : DecodeString b64 = some keyData)
    (hok : (ParsePublicKey keys (b64 ++ 0 :: c)).1 = .ok key)
    (hlen : (TrimSpace c).length ≠ 16) :
    GetKeyInfo (ParsePublicKey keys (b64 ++ 0 :: c)).2 (hexEncode (md5Sum keyData))
        = GetKeyInfo keys (hexEncode (md5Sum keyData))
      ∧ GetKeyInfo (ParsePublicKey keys (b64 ++ 0 :: c)).2 (hexEncode (TrimSpace c))
        = some { Fingerprint := hexEncode (TrimSpace c),
                 Comment := hexEncode (md5Sum keyData) } := by
  have hsplit : splitByte 0 (b64 ++ 0 :: c) = [b64, c] := by
    rw [splitByte_append_sep 0 b64 c hb, splitByte_no_sep 0 c hc]
  have hne : ¬ (b64 ++ 0 :: c).length = 0 := by
    rw [List.length_append, List.length_cons]
    omega
  have hP : ParsePublicKey keys (b64 ++ 0 :: c)
      = parsePublicKeyFromStruct keys keyData (TrimSpace c) := by
    unfold ParsePublicKey
    rw [if_neg hne, hsplit]
    simp only [hd]
  rw [hP] at hok ⊢
  rw [parsePublicKeyFromStruct_ok keys keyData (TrimSpace c) key hok]
  unfold GetKeyInfo AddKeyInfo
  simp only [keyMapSet_lookup, if_true]
  have hdiff : hexEncode (md5Sum keyData) ≠ hexEncode (TrimSpace c) := by
    intro h
    have := congrArg List.length h
    rw [hexEncode_length, hexEncode_length, md5Sum_length] at this
    omega
  rw [if_neg hdiff]
  exact ⟨rfl, trivial⟩

/-- Witness for `ParsePublicKey_key_info_swapped`: the sample key is parsed
into an empty key map; its fingerprint is not found afterwards. -/
theorem ParsePublicKey_key_info_swapped_witness :
    (ParsePublicKey [] (sampleKeyText ++ 0 :: sampleComment)).1
        = .ok { N := 0xC0FFEE01, E := 65537 }
      ∧ GetKeyInfo (ParsePublicKey [] (sampleKeyText ++ 0 :: sampleComment)).2
          (hexEncode (md5Sum sampleKeyStruct)) = none
      ∧ GetKeyInfo (ParsePublicKey [] (sampleKeyText ++ 0 :: sampleComment)).2
          (hexEncode (TrimSpace sampleComment))
        = some { Fingerprint := hexEncode (TrimSpace sampleComment),
                 Comment := hexEncode (md5Sum sampleKeyStruct) } :=
  ⟨by decide,
    ParsePublicKey_key_info_swapped [] sampleKeyText sampleComment sampleKeyStruct
      { N := 0xC0FFEE01, E := 65537 } (by decide) (by decide) (by decide) (by decide)
      (by decide)⟩

/-! ### `LineTransform`: CR LF to LF -/

theorem scanChunk_cons_ne (c : Byte) (rest : List Byte) (h : c ≠ 0x0d) :
    scanChunk (c :: rest) = (c :: (scanChunk rest).1, (scanChunk rest).2) := by
  cases rest with
  | nil =>
    unfold scanChunk
    rw [if_neg h]
  | cons d r =>
    conv_lhs => unfold scanChunk
    rw [if_neg (fun hh => h hh.1)]

theorem scanChunk_cr_lf (rest : List Byte) :
    scanChunk (0x0d :: 0x0a :: rest) = scanChunk (0x0a :: rest) := by
  conv_lhs => unfold scanChunk
  rw [if_pos ⟨rfl, rfl⟩]

theorem scanChunk_cr_other (d : Byte) (rest : List Byte) (h : d ≠ 0x0a) :
    scanChunk (0x0d :: d :: rest)
      = (0x0d :: (scanChunk (d :: rest)).1, (scanChunk (d :: rest)).2) := by
  conv_lhs => unfold scanChunk
  rw [if_neg (fun hh => h hh.2)]

theorem drop_eq_getD_cons (chunk : List Byte) (i : Nat) (h : i < chunk.length) :
    chunk.drop i = chunk.getD i 0 :: chunk.drop (i + 1) := by
  rw [List.getD_eq_getElem _ _ h]
  exact List.drop_eq_getElem_cons h

theorem slice_succ (chunk : List Byte) (lo hi : Nat) (hlo : lo ≤ hi) (h : hi < chunk.length) :
    slice chunk lo (hi + 1) = slice chunk lo hi ++ [chunk.getD hi 0] := by
  unfold slice
  have e : hi + 1 - lo = (hi - lo) + 1 := by omega
  rw [e, List.take_succ, List.getElem?_drop]
  have e2 : lo + (hi - lo) = hi := by omega
  rw [e2, List.getElem?_eq_getElem h, List.getD_eq_getElem _ _ h]
  rfl

theorem slice_self (chunk : List Byte) (lo : Nat) : slice chunk lo lo = [] := by
  unfold slice
  rw [Nat.sub_self, List.take_zero]

theorem transformLoop_scan (chunk : List Byte) (hne : chunk ≠ []) :
    ∀ (fuel lo hi : Nat) (result : List Byte), lo ≤ hi → hi ≤ chunk.length →
      chunk.length - hi < fuel →
      (if (transformLoop chunk fuel lo hi result).2.2.1
            > (transformLoop chunk fuel lo hi result).2.1
        then (transformLoop chunk fuel lo hi result).1
          ++ slice chunk (transformLoop chunk fuel lo hi result).2.1
              (transformLoop chunk fuel lo hi result).2.2.1
        else (transformLoop chunk fuel lo hi result).1)
        = result ++ slice chunk lo hi ++ (scanChunk (chunk.drop hi)).1
      ∧ (transformLoop chunk fuel lo hi result).2.2.2 = (scanChunk (chunk.drop hi)).2 := by
  have hpos : 0 < chunk.length := List.length_pos.mpr hne
  intro fuel
  induction fuel with
  | zero =>
    intro lo hi result _ _ hf
    omega
  | succ fuel ih =>
    intro lo hi result hlo hhi hf
    unfold transformLoop
    by_cases hin : hi ≤ chunk.length - 1
    · have hlt : hi < chunk.length := by omega
      rw [if_pos hin]
      have hdrop := drop_eq_getD_cons chunk hi hlt
      by_cases hcr : chunk.getD hi 0 = 0x0d
      · rw [if_pos hcr]
        by_cases hlast : hi = chunk.length - 1
        · rw [if_pos hlast]
          have hnil : chunk.drop (hi + 1) = [] := by
            rw [List.drop_eq_nil_iff]
            omega
          rw [hdrop, hnil, hcr]
          simp only
          have hs : scanChunk [(0x0d : Byte)] = ([], some [0x0d]) := rfl
          rw [hs]
          simp only [List.append_nil]
          constructor
          · by_cases hgt : hi > lo
            · rw [if_pos hgt]
            · rw [if_neg hgt]
              have : lo = hi := by omega
              rw [this, slice_self, List.append_nil]
          · rw [← hlast, hdrop, hnil, hcr]
        · rw [if_neg hlast]
          have hlt2 : hi + 1 < chunk.length := by omega
          have hdrop2 := drop_eq_getD_cons chunk (hi + 1) hlt2
          by_cases hlf : chunk.getD (hi + 1) 0 = 0x0a
          · rw [if_pos hlf]
            have := ih (hi + 1) (hi + 1) (result ++ slice chunk lo hi) (le_refl _) (by omega)
              (by omega)
            rw [slice_self, List.append_nil] at this
            rw [hdrop, hcr, hdrop2, hlf, scanChunk_cr_lf, ← hlf, ← hdrop2]
            exact this
          · rw [if_neg hlf]
            have := ih lo (hi + 1) result (by omega) (by omega) (by omega)
            rw [slice_succ chunk lo hi hlo hlt, hcr] at this
            rw [hdrop, hcr, hdrop2, scanChunk_cr_other _ _ hlf, ← hdrop2]
            simp only
            rw [this.1, this.2]
            simp
      · rw [if_neg hcr]
        have := ih lo (hi + 1) result (by omega) (by omega) (by omega)
        rw [slice_succ chunk lo hi hlo hlt] at this
        rw [hdrop, scanChunk_cons_ne _ _ hcr]
        simp only
        rw [this.1, this.2]
        simp
    · rw [if_neg hin]
      have hlen : hi = chunk.length := by omega
      have hnil : chunk.drop hi = [] := by
        rw [List.drop_eq_nil_iff]
        omega
      rw [hnil]
      simp only
      have hs : scanChunk [] = ([], none) := rfl
      rw [hs]
      simp only [List.append_nil, and_true]
      by_cases hgt : hi > lo
      · rw [if_pos hgt]
      · rw [if_neg hgt]
        have : lo = hi := by omega
        rw [this, slice_self, List.append_nil]

theorem crlfToLf_cons_ne (c : Byte) (l : List Byte) (h : c ≠ 0x0d) :
    crlfToLf (c :: l) = c :: crlfToLf l := by
  cases l with
  | nil => rfl
  | cons d r =>
    conv_lhs => unfold crlfToLf
    rw [if_neg (fun hh => h hh.1)]

theorem crlfToLf_cr_lf (l : List Byte) : crlfToLf (0x0d :: 0x0a :: l) = 0x0a :: crlfToLf l := by
  conv_lhs => unfold crlfToLf
  rw [if_pos ⟨rfl, rfl⟩]

theorem crlfToLf_cr_other (d : Byte) (l : List Byte) (h : d ≠ 0x0a) :
    crlfToLf (0x0d :: d :: l) = 0x0d :: crlfToLf (d :: l) := by
  conv_lhs => unfold crlfToLf
  rw [if_neg (fun hh => h hh.2)]

theorem crlfToLf_scanChunk (chunk y : List Byte) :
    crlfToLf (chunk ++ y)
      = (scanChunk chunk).1 ++ crlfToLf ((scanChunk chunk).2.getD [] ++ y) := by
  induction chunk with
  | nil => rfl
  | cons c rest ih =>
    by_cases hc : c = 0x0d
    · subst hc
      cases rest with
      | nil => rfl
      | cons d r =>
        by_cases hd : d = 0x0a
        · subst hd
          rw [scanChunk_cr_lf, List.cons_append, List.cons_append, crlfToLf_cr_lf, ← ih,
            List.cons_append, crlfToLf_cons_ne _ _ (by decide)]
        · rw [scanChunk_cr_other _ _ hd, List.cons_append, List.cons_append,
            crlfToLf_cr_other _ _ hd]
          simp only [List.cons_append]
          rw [← ih, List.cons_append]
    · rw [scanChunk_cons_ne _ _ hc, List.cons_append, crlfToLf_cons_ne _ _ hc, ih]
      rfl

theorem scanChunk_saved (chunk : List Byte) :
    (scanChunk chunk).2 = none ∨ (scanChunk chunk).2 = some [0x0d] := by
  induction chunk with
  | nil => exact Or.inl rfl
  | cons c rest ih =>
    by_cases hc : c = 0x0d
    · subst hc
      cases rest with
      | nil => exact Or.inr rfl
      | cons d r =>
        by_cases hd : d = 0x0a
        · subst hd
          rw [scanChunk_cr_lf]
          exact ih
        · rw [scanChunk_cr_other _ _ hd]
          exact ih
    · rw [scanChunk_cons_ne _ _ hc]
      exact ih

theorem Transform_nil (lt : LineTransform) : lt.Transform [] = ([], lt) := rfl

theorem total_cons (lt : LineTransform) (chunk : List Byte) (rest : List (List Byte)) :
    lt.total (chunk :: rest) = (lt.Transform chunk).1 ++ (lt.Transform chunk).2.total rest := by
  unfold LineTransform.total
  conv_lhs => unfold LineTransform.feed
  simp only [List.append_assoc]

theorem Transform_crlf (lt : LineTransform) (chunk : List Byte) (hne : chunk ≠ [])
    (ha : lt.autoDetect = false) (hs : lt.skipBytes = 0) (ht : lt.transformNeeded = true) :
    lt.Transform chunk
      = ((match lt.savedR with
            | some saved => if chunk.getD 0 0 ≠ 0x0a then saved else []
            | none => []) ++ (scanChunk chunk).1,
          { lt with savedR := (scanChunk chunk).2 }) := by
  have hlen : ¬ chunk.length = 0 := fun h => hne (List.length_eq_zero.mp h)
  have hloop := transformLoop_scan chunk hne (chunk.length + 1) 0 0
    (match lt.savedR with
      | some saved => if chunk.getD 0 0 ≠ 0x0a then saved else []
      | none => []) (le_refl 0) (Nat.zero_le _) (by omega)
  rw [slice_self, List.append_nil, List.drop_zero] at hloop
  unfold LineTransform.Transform
  rw [if_neg hlen]
  simp only [ha, hs, Bool.false_eq_true, if_false, Nat.lt_irrefl, List.drop_zero, Nat.sub_zero,
    ht, Bool.not_true]
  rw [if_neg hlen]
  rcases hT : transformLoop chunk (chunk.length + 1) 0 0
    (match lt.savedR with
      | some saved => if chunk.getD 0 0 ≠ 0x0a then saved else []
      | none => []) with ⟨result, lo, hi, saved⟩
  rw [hT] at hloop
  simp only at hloop ⊢
  rw [hloop.1, hloop.2]

theorem Transform_skip_all (lt : LineTransform) (chunk : List Byte) (hne : chunk ≠ [])
    (ha : lt.autoDetect = false) (hk : chunk.length ≤ lt.skipBytes) :
    lt.Transform chunk = ([], { lt with skipBytes := lt.skipBytes - chunk.length }) := by
  have hlen : ¬ chunk.length = 0 := fun h => hne (List.length_eq_zero.mp h)
  have hpos : lt.skipBytes > 0 := by omega
  unfold LineTransform.Transform
  rw [if_neg hlen]
  simp only [ha, Bool.false_eq_true, if_false, if_pos hpos, min_eq_left hk]
  rw [if_pos (by rw [List.length_drop]; omega)]
  rw [List.drop_eq_nil_iff.mpr (le_refl _)]

theorem Transform_skip_some (lt : LineTransform) (chunk : List Byte)
    (ha : lt.autoDetect = false) (hk : lt.skipBytes < chunk.length) :
    lt.Transform chunk
      = ({ lt with skipBytes := 0 } : LineTransform).Transform (chunk.drop lt.skipBytes) := by
  have hlen : ¬ chunk.length = 0 := by omega
  have hlen2 : ¬ (chunk.drop lt.skipBytes).length = 0 := by
    rw [List.length_drop]
    omega
  by_cases hpos : lt.skipBytes > 0
  · unfold LineTransform.Transform
    rw [if_neg hlen, if_neg hlen2]
    simp only [ha, Bool.false_eq_true, if_false, if_pos hpos, min_eq_right (le_of_lt hk),
      Nat.lt_irrefl, List.drop_zero, Nat.sub_self, Nat.sub_zero]
  · have h0 : lt.skipBytes = 0 := by omega
    rw [h0, List.drop_zero]
    cases lt
    simp only at h0
    subst h0
    rfl

theorem Transform_lf (lt : LineTransform) (chunk : List Byte) (hne : chunk ≠ [])
    (ha : lt.autoDetect = false) (hs : lt.skipBytes = 0) (ht : lt.transformNeeded = false) :
    lt.Transform chunk = (chunk, lt) := by
  have hlen : ¬ chunk.length = 0 := fun h => hne (List.length_eq_zero.mp h)
  unfold LineTransform.Transform
  rw [if_neg hlen]
  simp only [ha, hs, Bool.false_eq_true, if_false, Nat.lt_irrefl, List.drop_zero, Nat.sub_zero,
    ht, Bool.not_false, if_true]
  rw [if_neg hlen]
  cases lt
  simp only at hs ha ht
  subst hs ha ht
  rfl

theorem Transform_autoDetect (lt : LineTransform) (chunk : List Byte) (hne : chunk ≠ [])
    (ha : lt.autoDetect = true) :
    lt.Transform chunk
      = (if chunk.getD 0 0 = 0x0a then
          ({ lt with transformNeeded := false, skipBytes := 1, autoDetect := false }
            : LineTransform)
        else { lt with skipBytes := 2, autoDetect := false }).Transform chunk := by
  have hlen : ¬ chunk.length = 0 := fun h => hne (List.length_eq_zero.mp h)
  cases lt
  simp only at ha
  subst ha
  by_cases hc : chunk.getD 0 0 = 0x0a
  · rw [if_pos hc]
    unfold LineTransform.Transform
    rw [if_neg hlen]
    simp only [hc, if_true, Bool.false_eq_true, if_false]
    rw [if_neg hlen]
  · rw [if_neg hc]
    unfold LineTransform.Transform
    rw [if_neg hlen]
    simp only [hc, if_true, Bool.false_eq_true, if_false]
    rw [if_neg hlen]

theorem total_nil (lt : LineTransform) : lt.total [] = lt.savedR.getD [] := by
  unfold LineTransform.total LineTransform.feed LineTransform.Flush
  cases h : lt.savedR with
  | none => rfl
  | some saved => rfl

theorem total_crlf_mode (chunks : List (List Byte)) :
    ∀ (saved : Option (List Byte)) (skip : Nat),
      (saved = none ∨ (saved = some [0x0d] ∧ skip = 0)) →
      (LineTransform.mk saved false true skip).total chunks
        = crlfToLf (saved.getD [] ++ chunks.flatten.drop skip) := by
  induction chunks with
  | nil =>
    intro saved skip hs
    rw [total_nil, List.flatten_nil, List.drop_nil, List.append_nil]
    rcases hs with h | ⟨h, _⟩
    · rw [h]
      rfl
    · rw [h]
      rfl
  | cons chunk rest ih =>
    intro saved skip hs
    rw [total_cons]
    by_cases hne : chunk = []
    · subst hne
      rw [Transform_nil, List.flatten_cons, List.nil_append]
      exact ih saved skip hs
    · rw [List.flatten_cons]
      by_cases hk : skip = 0
      · subst hk
        rw [Transform_crlf ⟨saved, false, true, 0⟩ chunk hne rfl rfl rfl, List.drop_zero]
        simp only
        rw [ih (scanChunk chunk).2 0 ((scanChunk_saved chunk).imp id fun h => ⟨h, rfl⟩)]
        rw [List.drop_zero, List.append_assoc, ← crlfToLf_scanChunk chunk rest.flatten]
        rcases hs with h | ⟨h, _⟩
        · rw [h]
          rfl
        · rw [h]
          obtain ⟨c, t, rfl⟩ := List.exists_cons_of_ne_nil hne
          simp only [List.getD_cons_zero, Option.getD_some, List.cons_append, List.nil_append]
          by_cases hc : c = 0x0a
          · subst hc
            rw [if_neg (by simp), List.nil_append, crlfToLf_cr_lf,
              crlfToLf_cons_ne _ _ (by decide)]
          · rw [if_pos hc, crlfToLf_cr_other _ _ hc]
            rfl
      · have hsn : saved = none := by
          rcases hs with h | ⟨_, h⟩
          · exact h
          · exact absurd h hk
        subst hsn
        by_cases hle : chunk.length ≤ skip
        · rw [Transform_skip_all ⟨none, false, true, skip⟩ chunk hne rfl hle]
          simp only [List.nil_append]
          rw [ih none (skip - chunk.length) (Or.inl rfl)]
          rw [List.drop_append_eq_append_drop, List.drop_eq_nil_iff.mpr hle, List.nil_append]
        · have hlt : skip < chunk.length := by omega
          have hne2 : chunk.drop skip ≠ [] := by
            intro h
            rw [List.drop_eq_nil_iff] at h
            omega
          rw [Transform_skip_some ⟨none, false, true, skip⟩ chunk rfl hlt]
          simp only
          rw [Transform_crlf ⟨none, false, true, 0⟩ (chunk.drop skip) hne2 rfl rfl rfl]
          simp only [List.nil_append]
          rw [ih (scanChunk (chunk.drop skip)).2 0
            ((scanChunk_saved (chunk.drop skip)).imp id fun h => ⟨h, rfl⟩)]
          rw [List.drop_zero, ← crlfToLf_scanChunk, List.drop_append_eq_append_drop,
            Nat.sub_eq_zero_of_le (le_of_lt hlt), List.drop_zero]
          rfl

theorem total_lf_mode (chunks : List (List Byte)) :
    ∀ skip : Nat, (LineTransform.mk none false false skip).total chunks
      = chunks.flatten.drop skip := by
  induction chunks with
  | nil =>
    intro skip
    rw [total_nil, List.flatten_nil, List.drop_nil]
    rfl
  | cons chunk rest ih =>
    intro skip
    rw [total_cons, List.flatten_cons]
    by_cases hne : chunk = []
    · subst hne
      rw [Transform_nil, List.nil_append]
      exact ih skip
    · by_cases hle : chunk.length ≤ skip
      · rw [Transform_skip_all ⟨none, false, false, skip⟩ chunk hne rfl hle]
        simp only [List.nil_append]
        rw [ih (skip - chunk.length)]
        rw [List.drop_append_eq_append_drop, List.drop_eq_nil_iff.mpr hle, List.nil_append]
      · have hlt : skip < chunk.length := by omega
        have hne2 : chunk.drop skip ≠ [] := by
          intro h
          rw [List.drop_eq_nil_iff] at h
          omega
        rw [Transform_skip_some ⟨none, false, false, skip⟩ chunk rfl hlt]
        simp only
        rw [Transform_lf ⟨none, false, false, 0⟩ (chunk.drop skip) hne2 rfl rfl rfl]
        simp only
        rw [ih 0, List.drop_zero, List.drop_append_eq_append_drop,
          Nat.sub_eq_zero_of_le (le_of_lt hlt), List.drop_zero]

theorem scanChunk_trailing_cr (a : List Byte) :
    (scanChunk (a ++ [0x0d])).2 = some [0x0d] := by
  induction a with
  | nil => rfl
  | cons c rest ih =>
    by_cases hc : c = 0x0d
    · subst hc
      cases rest with
      | nil => rfl
      | cons d r =>
        by_cases hd : d = 0x0a
        · subst hd
          rw [List.cons_append, List.cons_append, scanChunk_cr_lf]
          exact ih
        · rw [List.cons_append, List.cons_append, scanChunk_cr_other _ _ hd]
          exact ih
    · rw [List.cons_append, scanChunk_cons_ne _ _ hc]
      exact ih

/-- C26: a `LineTransform` made without auto-detect turns a stream that
arrives in any chunks, empty ones included, into the stream with every pair
`0x0D 0x0A` replaced by `0x0A`: the outputs of `Transform` followed by the
output of `Flush` are `crlfToLf` of the concatenated chunks. A `0x0D` that
ends a chunk is withheld (the output lacks it and it is saved), and with a
saved `0x0D` the next non-empty chunk gives the same output as without,
preceded by `0x0D` unless the chunk starts with `0x0A`. -/
theorem LineTransform_crlf (chunks : List (List Byte)) :
    (NewLineTransform none).total chunks = crlfToLf chunks.flatten
      ∧ (NewLineTransform (some false)).total chunks = crlfToLf chunks.flatten
      ∧ (∀ a : List Byte,
          ((NewLineTransform none).Transform (a ++ [0x0d])).2.savedR = some [0x0d]
            ∧ ((NewLineTransform none).Transform (a ++ [0x0d])).1 ++ [0x0d]
                = crlfToLf (a ++ [0x0d]))
      ∧ (∀ (c : Byte) (t : List Byte),
          (({ NewLineTransform none with savedR := some [0x0d] } : LineTransform).Transform
              (c :: t)).1
            = (if c = 0x0a then [] else [0x0d])
                ++ ((NewLineTransform none).Transform (c :: t)).1) := by
  have hnew : NewLineTransform none = ⟨none, false, true, 0⟩ := rfl
  have hnew2 : NewLineTransform (some false) = ⟨none, false, true, 0⟩ := rfl
  have htot := total_crlf_mode chunks none 0 (Or.inl rfl)
  rw [List.drop_zero] at htot
  refine ⟨by rw [hnew]; exact htot, by rw [hnew2]; exact htot, ?_, ?_⟩
  · intro a
    have hne : a ++ [0x0d] ≠ [] := by simp
    rw [hnew, Transform_crlf ⟨none, false, true, 0⟩ (a ++ [0x0d]) hne rfl rfl rfl]
    simp only [List.nil_append]
    refine ⟨scanChunk_trailing_cr a, ?_⟩
    have h := crlfToLf_scanChunk (a ++ [0x0d]) []
    rw [List.append_nil, scanChunk_trailing_cr] at h
    rw [h]
    rfl
  · intro c t
    rw [hnew, Transform_crlf ⟨none, false, true, 0⟩ (c :: t) (by simp) rfl rfl rfl]
    have h := Transform_crlf ⟨some [0x0d], false, true, 0⟩ (c :: t) (by simp) rfl rfl rfl
    simp only at h ⊢
    rw [h]
    simp only [List.getD_cons_zero, List.nil_append]
    by_cases hc : c = 0x0a
    · simp [hc]
    · simp [hc]

theorem total_autoDetect (chunks : List (List Byte)) (hne : chunks.flatten ≠ []) :
    (LineTransform.mk none true true 0).total chunks
      = (if chunks.flatten.getD 0 0 = 0x0a then LineTransform.mk none false false 1
          else LineTransform.mk none false true 2).total chunks := by
  induction chunks with
  | nil => exact absurd rfl hne
  | cons chunk rest ih =>
    by_cases hc : chunk = []
    · subst hc
      rw [List.flatten_cons, List.nil_append] at hne ⊢
      rw [total_cons, total_cons, Transform_nil, Transform_nil]
      exact ih hne
    · obtain ⟨c, t, rfl⟩ := List.exists_cons_of_ne_nil hc
      rw [total_cons, total_cons, Transform_autoDetect ⟨none, true, true, 0⟩ (c :: t) hc rfl]
      simp only [List.flatten_cons, List.cons_append, List.getD_cons_zero]

/-- C27: a `LineTransform` made with auto-detect, fed a non-empty stream in
any chunks: when the first byte is `0x0A` the whole output is the stream
without its first byte, unconverted; otherwise the whole output, `Flush`
included, is the CR LF to LF conversion of the stream without its first two
bytes. -/
theorem LineTransform_autoDetect (chunks : List (List Byte)) (hne : chunks.flatten ≠ []) :
    (chunks.flatten.head? = some 0x0a →
        (NewLineTransform (some true)).total chunks = chunks.flatten.drop 1)
      ∧ (chunks.flatten.head? ≠ some 0x0a →
        (NewLineTransform (some true)).total chunks = crlfToLf (chunks.flatten.drop 2)) := by
  have hnew : NewLineTransform (some true) = ⟨none, true, true, 0⟩ := rfl
  rw [hnew, total_autoDetect chunks hne]
  obtain ⟨c, t, hx⟩ := List.exists_cons_of_ne_nil hne
  rw [hx]
  simp only [List.getD_cons_zero, List.head?_cons, Option.some.injEq]
  constructor
  · intro h
    rw [if_pos h, ← hx]
    exact total_lf_mode chunks 1
  · intro h
    have hc : ¬ c = 0x0a := fun e => h (by rw [e])
    rw [if_neg hc, ← hx]
    exact total_crlf_mode chunks none 2 (Or.inl rfl)

/-- Witness for `LineTransform_autoDetect`: the stream `LF CR LF B` in two
chunks is passed on without its first byte, and the stream `A CR`, `LF B CR`,
`LF C` loses its first two bytes and has its CR LF pair converted. -/
theorem LineTransform_autoDetect_witness :
    (NewLineTransform (some true)).total [[10, 13], [10, 66]] = [13, 10, 66]
      ∧ (NewLineTransform (some true)).total [[65], [13, 10, 66, 13], [10, 67]]
          = [10, 66, 10, 67] :=
  ⟨(LineTransform_autoDetect [[10, 13], [10, 66]] (by decide)).1 rfl,
    (LineTransform_autoDetect [[65], [13, 10, 66, 13], [10, 67]] (by decide)).2 (by decide)⟩

/-! ### `Parser.ReadValue` -/

theorem ReadBytes_short (tail : List Byte) (e : Bool) (n : Nat) (hn : tail.length < n) :
    (Parser.mk tail e).ReadBytes (n : Int)
      = (.error (.prematureEOF ((n : Int) - tail.length)), ⟨[], e⟩) := by
  unfold Parser.ReadBytes ReadFull
  rw [if_neg (by omega), if_neg (by omega)]
  simp only [Int.toNat_ofNat]
  rw [if_neg (by omega)]
  by_cases h0 : tail.length = 0
  · rw [if_pos h0]
    simp only [List.length_nil, h0]
  · rw [if_neg h0]

/-- C28: `Parser.ReadValue` returns the payload of a frame of at most `0xFFFF`
bytes and leaves what follows it unread; it fails with the decode error when
one of the four length characters is no hexadecimal digit (a leading sign
apart), and with `PrematureEOFError` when fewer bytes follow than declared.
But the length `-001` is decoded to `-1`, and `ReadBytes(-1)` panics in
`make([]byte, -1)` instead of returning an error; the length `+001` is
accepted as `1`. -/
theorem ReadValue_cases (e : Bool) :
    (∀ p tail : List Byte, p.length ≤ 0xFFFF →
        (Parser.mk (EncodeData p ++ tail) e).ReadValue = (.ok p, ⟨tail, e⟩))
      ∧ (∀ len tail : List Byte, len.length = 4 →
          ((∃ c ∈ len.tail, isHexDigit c = false)
            ∨ ∃ c, len.head? = some c ∧ isHexDigit c = false ∧ c.val ≠ 43 ∧ c.val ≠ 45) →
          ∃ err, (Parser.mk (len ++ tail) e).ReadValue = (.error (.decodeLength err), ⟨tail, e⟩))
      ∧ (∀ (n : Nat) (tail : List Byte), n ≤ 0xFFFF → tail.length < n →
          (Parser.mk (EncodeLength (n : Int) ++ tail) e).ReadValue
            = (.error (.prematureEOF ((n : Int) - tail.length)), ⟨[], e⟩))
      ∧ (∀ tail : List Byte,
          (Parser.mk ([45, 48, 48, 49] ++ tail) e).ReadValue = (.error .panic, ⟨tail, e⟩))
      ∧ (∀ (x : Byte) (tail : List Byte),
          (Parser.mk ([43, 48, 48, 49] ++ x :: tail) e).ReadValue = (.ok [x], ⟨tail, e⟩)) := by
  refine ⟨fun p tail hp => ReadValue_frame p tail e hp, ?_, ?_, ?_, ?_⟩
  · intro len tail hlen hbad
    obtain ⟨err, herr⟩ := DecodeLength_error_of_bad_char len (Or.inr hbad)
    refine ⟨err, ?_⟩
    unfold Parser.ReadValue Parser.ReadAscii
    rw [ReadBytes_four len tail e hlen]
    simp only [herr]
  · intro n tail hn ht
    have h4 : (EncodeLength (n : Int)).length = 4 := by
      rw [EncodeLength_lt_65536 n (by omega)]
      rfl
    unfold Parser.ReadValue Parser.ReadAscii
    rw [ReadBytes_four _ tail e h4]
    simp only [DecodeLength_of_EncodeLength n (by omega)]
    exact ReadBytes_short tail e n ht
  · intro tail
    have hd : DecodeLength [45, 48, 48, 49] = .ok (-1) := by decide
    unfold Parser.ReadValue Parser.ReadAscii
    rw [ReadBytes_four [45, 48, 48, 49] tail e rfl]
    simp only [hd]
    rfl
  · intro x tail
    have hd : DecodeLength [43, 48, 48, 49] = .ok 1 := by decide
    unfold Parser.ReadValue Parser.ReadAscii
    rw [ReadBytes_four [43, 48, 48, 49] (x :: tail) e rfl]
    simp only [hd]
    exact ReadBytes_append [x] tail e 1 rfl (by decide)

/-- Witness for `ReadValue_cases`: the stream `0004002A` gives `002A`, the
length `00g1` is refused, and `0004ab` ends two bytes early. -/
theorem ReadValue_cases_witness :
    (NewParser [48, 48, 48, 52, 48, 48, 50, 65]).ReadValue
        = (.ok [48, 48, 50, 65], NewParser [])
      ∧ (∃ err, (NewParser [48, 48, 103, 49]).ReadValue
          = (.error (.decodeLength err), NewParser []))
      ∧ (NewParser [48, 48, 48, 52, 97, 98]).ReadValue
          = (.error (.prematureEOF 2), NewParser []) :=
  ⟨(ReadValue_cases false).1 [48, 48, 50, 65] [] (by decide),
    (ReadValue_cases false).2.1 [48, 48, 103, 49] [] rfl
      (Or.inl ⟨103, by decide, by decide⟩),
    (ReadValue_cases false).2.2.1 4 [97, 98] (by decide) (by decide)⟩

/-! ### `Command.escape` -/

theorem shellWord_single_replaceQuotes (s : List Byte) :
    shellWord .single (replaceQuotes s ++ [39]) = some s := by
  induction s with
  | nil => rfl
  | cons c rest ih =>
    by_cases hc : c = 39
    · subst hc
      have e : replaceQuotes ((39 : Byte) :: rest) ++ [39]
          = 39 :: 34 :: 39 :: 34 :: 39 :: (replaceQuotes rest ++ [39]) := rfl
      rw [e]
      have h1 : shellWord .single (39 :: 34 :: 39 :: 34 :: 39 :: (replaceQuotes rest ++ [39]))
          = shellWord .outside (34 :: 39 :: 34 :: 39 :: (replaceQuotes rest ++ [39])) := rfl
      have h2 : shellWord .outside (34 :: 39 :: 34 :: 39 :: (replaceQuotes rest ++ [39]))
          = shellWord .double (39 :: 34 :: 39 :: (replaceQuotes rest ++ [39])) := rfl
      have h3 : shellWord .double (39 :: 34 :: 39 :: (replaceQuotes rest ++ [39]))
          = (shellWord .double (34 :: 39 :: (replaceQuotes rest ++ [39]))).map (39 :: ·) := rfl
      have h4 : shellWord .double (34 :: 39 :: (replaceQuotes rest ++ [39]))
          = shellWord .outside (39 :: (replaceQuotes rest ++ [39])) := rfl
      have h5 : shellWord .outside (39 :: (replaceQuotes rest ++ [39]))
          = shellWord .single (replaceQuotes rest ++ [39]) := rfl
      rw [h1, h2, h3, h4, h5, ih]
      rfl
    · have e : replaceQuotes (c :: rest) ++ [39] = c :: (replaceQuotes rest ++ [39]) := by
        conv_lhs => unfold replaceQuotes
        rw [if_neg hc]
        rfl
      rw [e]
      unfold shellWord
      rw [if_neg hc, ih]
      rfl

theorem decDigit_val (d : Nat) : 48 ≤ (decDigit d).val ∧ (decDigit d).val ≤ 57 := by
  unfold decDigit
  simp only
  omega

theorem decDigitsAux_digits (fuel : Nat) :
    ∀ (n : Nat) (acc : List Byte), (∀ c ∈ acc, 48 ≤ c.val ∧ c.val ≤ 57) →
      ∀ c ∈ decDigitsAux fuel n acc, 48 ≤ c.val ∧ c.val ≤ 57 := by
  induction fuel with
  | zero =>
    intro n acc hacc c hc
    exact hacc c hc
  | succ fuel ih =>
    intro n acc hacc c hc
    unfold decDigitsAux at hc
    have hacc2 : ∀ c ∈ decDigit n :: acc, 48 ≤ c.val ∧ c.val ≤ 57 := by
      intro x hx
      rcases List.mem_cons.mp hx with rfl | hx
      · exact decDigit_val n
      · exact hacc x hx
    by_cases h : n / 10 = 0
    · rw [if_pos h] at hc
      exact hacc2 c hc
    · rw [if_neg h] at hc
      exact ih (n / 10) _ hacc2 c hc

theorem Itoa_chars (v : Int) : ∀ c ∈ Itoa v, c.val = 45 ∨ (48 ≤ c.val ∧ c.val ≤ 57) := by
  intro c hc
  unfold Itoa at hc
  by_cases h : v < 0
  · rw [if_pos h] at hc
    rcases List.mem_cons.mp hc with rfl | hc
    · exact Or.inl rfl
    · exact Or.inr (decDigitsAux_digits 20 _ [] (fun _ hx => absurd hx (List.not_mem_nil _)) c hc)
  · rw [if_neg h] at hc
    exact Or.inr (decDigitsAux_digits 20 _ [] (fun _ hx => absurd hx (List.not_mem_nil _)) c hc)

theorem replaceQuotes_no_quote (s : List Byte) (h : ∀ c ∈ s, c ≠ 39) : replaceQuotes s = s := by
  induction s with
  | nil => rfl
  | cons c rest ih =>
    unfold replaceQuotes
    rw [if_neg (h c (List.mem_cons_self _ _)), ih fun x hx => h x (List.mem_cons_of_mem _ hx)]

theorem shellWord_outside_plain (s : List Byte)
    (h : ∀ c ∈ s, c.val = 45 ∨ (48 ≤ c.val ∧ c.val ≤ 57)) : shellWord .outside s = some s := by
  induction s with
  | nil => rfl
  | cons c rest ih =>
    have hc := h c (List.mem_cons_self _ _)
    have h39 : c ≠ 39 := by
      intro e
      rw [e] at hc
      revert hc
      decide
    have h34 : c ≠ 34 := by
      intro e
      rw [e] at hc
      revert hc
      decide
    have hp : plainShellChar c = true := by
      unfold plainShellChar
      rcases hc with hc | ⟨h1, h2⟩
      · simp [hc]
      · simp [h1, h2]
    unfold shellWord
    rw [if_neg h39, if_neg h34, if_pos hp, ih fun x hx => h x (List.mem_cons_of_mem _ hx)]
    rfl

theorem Itoa_no_quote (v : Int) : ∀ c ∈ Itoa v, c ≠ 39 := by
  intro c hc e
  have := Itoa_chars v c hc
  rw [e] at this
  revert this
  decide

/-- C30 (amended): `Command.escape` maps a string `s` to a single quote, `s`
with every single quote replaced by `'"'"'`, and a single quote, and this text
read as a POSIX shell word is `s`; it maps a Go `int` to its decimal text, in
which there is no quote; an integer of another type, such as an `int64`, is
handled like a string: its decimal text comes out between single quotes. -/
theorem escape_cases :
    (∀ s : List Byte, Command.escape (.str s) = [39] ++ replaceQuotes s ++ [39]
        ∧ shellWord .outside (Command.escape (.str s)) = some s)
      ∧ (∀ v : Int, Command.escape (.int v) = Itoa v
        ∧ (∀ c ∈ Command.escape (.int v), c.val = 45 ∨ (48 ≤ c.val ∧ c.val ≤ 57))
        ∧ shellWord .outside (Command.escape (.int v)) = some (Itoa v))
      ∧ (∀ v : Int, Command.escape (.int64 v) = [39] ++ Itoa v ++ [39]
        ∧ shellWord .outside (Command.escape (.int64 v)) = some (Itoa v)) := by
  refine ⟨?_, ?_, ?_⟩
  · intro s
    refine ⟨rfl, ?_⟩
    show shellWord .outside (39 :: (replaceQuotes s ++ [39])) = some s
    unfold shellWord
    rw [if_pos rfl]
    exact shellWord_single_replaceQuotes s
  · intro v
    exact ⟨rfl, Itoa_chars v, shellWord_outside_plain _ (Itoa_chars v)⟩
  · intro v
    have hq : replaceQuotes (Itoa v) = Itoa v := replaceQuotes_no_quote _ (Itoa_no_quote v)
    have he : Command.escape (.int64 v) = [39] ++ replaceQuotes (Itoa v) ++ [39] := rfl
    refine ⟨by rw [he, hq], ?_⟩
    rw [he]
    show shellWord .outside (39 :: (replaceQuotes (Itoa v) ++ [39])) = some (Itoa v)
    unfold shellWord
    rw [if_pos rfl]
    exact shellWord_single_replaceQuotes (Itoa v)

/-- C30 as stated fails for an integer that is not a Go `int`: the `int64`
value `5` takes the default branch and comes out as `'5'`, in quotes. -/
theorem escape_int64_quoted :
    Command.escape (.int64 5) = [39, 53, 39] ∧ Command.escape (.int64 5) ≠ Itoa 5 := by
  decide

/-! ### `DevicesCommand.parseDevices` -/

theorem spaceRuneLen_le_length (s : List Nat) : spaceRuneLen s ≤ s.length := by
  unfold spaceRuneLen
  split
  · exact Nat.le_refl _
  · split
    · simp
    · split
      · simp
      · split
        · simp
        · split
          · simp
          · simp only [List.length_cons]
            split
            · omega
            · split
              · omega
              · split
                · omega
                · split <;> omega

theorem spaceRuneLenLast_le_length (r : List Nat) : spaceRuneLenLast r ≤ r.length := by
  unfold spaceRuneLenLast
  split
  · exact Nat.le_refl _
  · split
    · simp
    · split
      · simp
      · split
        · simp
        · split
          · simp
          · simp only [List.length_cons]
            split <;> omega

theorem trimLeftSpace_length_le (fuel : Nat) :
    ∀ s : List Byte, (trimLeftSpace fuel s).length ≤ s.length := by
  induction fuel with
  | zero =>
    intro s
    exact Nat.le_refl _
  | succ fuel ih =>
    intro s
    unfold trimLeftSpace
    split
    · exact Nat.le_refl _
    · exact le_trans (ih _) (by rw [List.length_drop]; omega)

theorem trimRightSpace_length_le (fuel : Nat) :
    ∀ r : List Byte, (trimRightSpace fuel r).length ≤ r.length := by
  induction fuel with
  | zero =>
    intro r
    exact Nat.le_refl _
  | succ fuel ih =>
    intro r
    unfold trimRightSpace
    split
    · exact Nat.le_refl _
    · exact le_trans (ih _) (by rw [List.length_drop]; omega)

theorem trimLeftSpace_lt (fuel : Nat) (s : List Byte)
    (h : spaceRuneLen (s.map Fin.val) ≠ 0) :
    (trimLeftSpace (fuel + 1) s).length < s.length := by
  have hle := spaceRuneLen_le_length (s.map Fin.val)
  rw [List.length_map] at hle
  unfold trimLeftSpace
  rw [if_neg h]
  exact lt_of_le_of_lt (trimLeftSpace_length_le fuel _) (by rw [List.length_drop]; omega)

theorem trimRightSpace_lt (fuel : Nat) (r : List Byte)
    (h : spaceRuneLenLast (r.map Fin.val) ≠ 0) :
    (trimRightSpace (fuel + 1) r).length < r.length := by
  have hle := spaceRuneLenLast_le_length (r.map Fin.val)
  rw [List.length_map] at hle
  unfold trimRightSpace
  rw [if_neg h]
  exact lt_of_le_of_lt (trimRightSpace_length_le fuel _) (by rw [List.length_drop]; omega)

theorem TrimSpace_of_edges (s : List Byte) (hl : spaceRuneLen (s.map Fin.val) = 0)
    (hr : spaceRuneLenLast (s.reverse.map Fin.val) = 0) : TrimSpace s = s := by
  unfold TrimSpace
  cases hs : s.length with
  | zero =>
    have : s = [] := List.length_eq_zero.mp hs
    subst this
    rfl
  | succ n =>
    have h1 : trimLeftSpace (n + 1) s = s := by
      unfold trimLeftSpace
      rw [if_pos hl]
    rw [h1]
    have h2 : trimRightSpace (n + 1) s.reverse = s.reverse := by
      unfold trimRightSpace
      rw [if_pos hr]
    rw [h2, List.reverse_reverse]

theorem edges_of_TrimSpace (s : List Byte) (h : TrimSpace s = s) :
    spaceRuneLen (s.map Fin.val) = 0 ∧ spaceRuneLenLast (s.reverse.map Fin.val) = 0 := by
  cases hs : s.length with
  | zero =>
    have : s = [] := List.length_eq_zero.mp hs
    subst this
    exact ⟨rfl, rfl⟩
  | succ n =>
    have hlen : (TrimSpace s).length = s.length := by rw [h]
    unfold TrimSpace at hlen
    rw [List.length_reverse, hs] at hlen
    have hR := trimRightSpace_length_le (n + 1) (trimLeftSpace (n + 1) s).reverse
    rw [List.length_reverse] at hR
    have hL := trimLeftSpace_length_le (n + 1) s
    have hl : spaceRuneLen (s.map Fin.val) = 0 := by
      by_contra hne
      have := trimLeftSpace_lt n s hne
      omega
    have h1 : trimLeftSpace (n + 1) s = s := by
      unfold trimLeftSpace
      rw [if_pos hl]
    rw [h1] at hlen
    refine ⟨hl, ?_⟩
    by_contra hne
    have := trimRightSpace_lt n s.reverse hne
    rw [List.length_reverse] at this
    omega

theorem spaceRuneLen_append_tab (a b : List Nat) (ha : a ≠ []) (h : spaceRuneLen a = 0) :
    spaceRuneLen (a ++ 9 :: b) = 0 := by
  match a, ha, h with
  | [x], _, h =>
    simp only [spaceRuneLen] at h
    simp only [List.cons_append, List.nil_append, spaceRuneLen]
    split_ifs at h ⊢ <;> first | rfl | omega | (cases b <;> simp_all)
  | [x, y], _, h =>
    simp only [spaceRuneLen] at h
    simp only [List.cons_append, List.nil_append, spaceRuneLen]
    split_ifs at h ⊢ <;> first | rfl | omega
  | x :: y :: z :: rest, _, h =>
    simp only [spaceRuneLen] at h
    simp only [List.cons_append, spaceRuneLen]
    exact h

theorem spaceRuneLen_tab_first (l : List Nat) : spaceRuneLen (9 :: l) = 1 := by
  simp only [spaceRuneLen, true_or, if_true]

theorem spaceRuneLen_tab_second (c x : Nat) : spaceRuneLen [c, 9, x] ≠ 3 := by
  simp only [spaceRuneLen]
  split_ifs <;> omega

theorem spaceRuneLenLast_append_tab (r b : List Nat) (hr : r ≠ [])
    (h : spaceRuneLenLast r = 0) : spaceRuneLenLast (r ++ 9 :: b) = 0 := by
  match r, hr, h with
  | [x], _, h =>
    have h1 : ¬ spaceRuneLen [x] = 1 := by
      intro e
      simp only [spaceRuneLenLast, e, if_true] at h
      omega
    have h2 : ¬ spaceRuneLen [9, x] = 2 := by
      rw [spaceRuneLen_tab_first]
      omega
    rw [List.cons_append, List.nil_append]
    cases b with
    | nil => simp only [spaceRuneLenLast, h1, h2, if_false]
    | cons c t =>
      simp only [spaceRuneLenLast, h1, h2, if_false, spaceRuneLen_tab_second c x]
  | [x, y], _, h =>
    have h1 : ¬ spaceRuneLen [x] = 1 := by
      intro e
      simp only [spaceRuneLenLast, e, if_true] at h
      omega
    have h2 : ¬ spaceRuneLen [y, x] = 2 := by
      intro e
      simp only [spaceRuneLenLast, h1, if_false, e, if_true] at h
      omega
    have h3 : ¬ spaceRuneLen [9, y, x] = 3 := by
      rw [spaceRuneLen_tab_first]
      omega
    rw [List.cons_append, List.cons_append, List.nil_append]
    simp only [spaceRuneLenLast, h1, h2, h3, if_false]
  | x :: y :: z :: rest, _, h =>
    simp only [spaceRuneLenLast] at h
    simp only [List.cons_append, spaceRuneLenLast]
    exact h

theorem TrimSpace_device_line (id st : List Byte) (hid : id ≠ []) (hst : st ≠ [])
    (h1 : TrimSpace id = id) (h2 : TrimSpace st = st) :
    TrimSpace (id ++ 9 :: st) = id ++ 9 :: st := by
  apply TrimSpace_of_edges
  · have h := (edges_of_TrimSpace id h1).1
    rw [List.map_append, List.map_cons]
    exact spaceRuneLen_append_tab _ _ (by simpa using hid) h
  · have h := (edges_of_TrimSpace st h2).2
    rw [List.reverse_append, List.reverse_cons, List.append_assoc, List.map_append,
      List.singleton_append, List.map_cons]
    exact spaceRuneLenLast_append_tab _ _ (by simpa using hst) h

theorem parseLines_devices (devices : List (List Byte × List Byte)) :
    ∀ acc : List host.Device, (∀ d ∈ devices, plainField d.1 ∧ plainField d.2) →
      DevicesCommand.parseLines ((devices.map fun d => d.1 ++ 9 :: d.2) ++ [[]]) acc
        = (some (acc ++ devices.map fun d => { ID := d.1, Type_ := d.2, Path := [] }), none) := by
  induction devices with
  | nil =>
    intro acc _
    simp only [List.map_nil, List.nil_append, List.append_nil]
    unfold DevicesCommand.parseLines
    rw [if_pos (show TrimSpace [] = [] from rfl)]
    rfl
  | cons d rest ih =>
    intro acc h
    obtain ⟨⟨hid, hid9, _, hidT⟩, ⟨hst, hst9, _, hstT⟩⟩ := h d (List.mem_cons_self _ _)
    have hline := TrimSpace_device_line d.1 d.2 hid hst hidT hstT
    have hsplit : splitByte 9 (d.1 ++ 9 :: d.2) = [d.1, d.2] := by
      rw [splitByte_append_sep 9 d.1 d.2 hid9, splitByte_no_sep 9 d.2 hst9]
    rw [List.map_cons, List.cons_append]
    unfold DevicesCommand.parseLines
    rw [hline, if_neg (by simp), hsplit]
    simp only
    rw [ih _ fun x hx => h x (List.mem_cons_of_mem _ hx)]
    simp only [List.append_assoc, List.singleton_append, List.map_cons]

theorem splitByte_deviceText (devices : List (List Byte × List Byte))
    (h : ∀ d ∈ devices, plainField d.1 ∧ plainField d.2) :
    splitByte 10 (deviceText devices) = (devices.map fun d => d.1 ++ 9 :: d.2) ++ [[]] := by
  induction devices with
  | nil => rfl
  | cons d rest ih =>
    obtain ⟨⟨_, _, hid10, _⟩, ⟨_, _, hst10, _⟩⟩ := h d (List.mem_cons_self _ _)
    have hno : (10 : Byte) ∉ d.1 ++ 9 :: d.2 := by
      intro hm
      rcases List.mem_append.mp hm with hm | hm
      · exact hid10 hm
      · rcases List.mem_cons.mp hm with hm | hm
        · exact absurd hm (by decide)
        · exact hst10 hm
    have e : deviceText (d :: rest) = (d.1 ++ 9 :: d.2) ++ 10 :: deviceText rest := by
      unfold deviceText
      simp only [List.map_cons, List.flatten_cons, List.append_assoc, List.cons_append,
        List.nil_append]
    rw [e, splitByte_append_sep 10 _ _ hno, ih fun x hx => h x (List.mem_cons_of_mem _ hx)]
    rfl

theorem parseLines_bad_line (lines : List (List Byte)) :
    ∀ acc : List host.Device,
      (∃ line ∈ lines, TrimSpace line ≠ [] ∧ (splitByte 9 (TrimSpace line)).length ≠ 2) →
      (DevicesCommand.parseLines lines acc).1 = none
        ∧ ∃ l, (DevicesCommand.parseLines lines acc).2 = some (.invalidDevice l) := by
  induction lines with
  | nil =>
    intro acc h
    obtain ⟨line, hm, _⟩ := h
    exact absurd hm (List.not_mem_nil _)
  | cons line rest ih =>
    intro acc h
    unfold DevicesCommand.parseLines
    by_cases hblank : TrimSpace line = []
    · rw [if_pos hblank]
      apply ih
      obtain ⟨l, hm, hl1, hl2⟩ := h
      rcases List.mem_cons.mp hm with rfl | hm
      · exact absurd hblank hl1
      · exact ⟨l, hm, hl1, hl2⟩
    · rw [if_neg hblank]
      rcases hsp : splitByte 9 (TrimSpace line) with _ | ⟨a, _ | ⟨b, _ | ⟨c, t⟩⟩⟩
      · exact ⟨rfl, _, rfl⟩
      · exact ⟨rfl, _, rfl⟩
      · simp only
        apply ih
        obtain ⟨l, hm, hl1, hl2⟩ := h
        rcases List.mem_cons.mp hm with rfl | hm
        · rw [hsp] at hl2
          exact absurd rfl hl2
        · exact ⟨l, hm, hl1, hl2⟩
      · exact ⟨rfl, _, rfl⟩

/-- C29 (amended): `DevicesCommand.parseDevices` returns, for the text with
one line `id TAB state LF` per device, the devices in their order, when ids
and states are non-empty, free of tabs and line feeds and without white space
at either end; it returns the empty list for the empty value; and it fails as
soon as a line whose trimmed text is not empty does not split, after the
trimming, into exactly two tab-separated fields. -/
theorem parseDevices_cases :
    (∀ devices : List (List Byte × List Byte),
        (∀ d ∈ devices, plainField d.1 ∧ plainField d.2) →
        DevicesCommand.parseDevices (deviceText devices)
          = (some (devices.map fun d => { ID := d.1, Type_ := d.2, Path := [] }), none))
      ∧ DevicesCommand.parseDevices [] = (some [], none)
      ∧ (∀ value : List Byte,
          (∃ line ∈ splitByte 10 value,
            TrimSpace line ≠ [] ∧ (splitByte 9 (TrimSpace line)).length ≠ 2) →
          (DevicesCommand.parseDevices value).1 = none
            ∧ ∃ l, (DevicesCommand.parseDevices value).2 = some (.invalidDevice l)) := by
  refine ⟨?_, rfl, ?_⟩
  · intro devices h
    unfold DevicesCommand.parseDevices
    cases devices with
    | nil => rfl
    | cons d rest =>
      have hne : deviceText (d :: rest) ≠ [] := by
        unfold deviceText
        simp
      rw [if_neg hne, splitByte_deviceText _ h, parseLines_devices _ [] h, List.nil_append]
  · intro value h
    have hne : value ≠ [] := by
      rintro rfl
      obtain ⟨line, hm, hl, _⟩ := h
      have : line = [] := by simpa [splitByte] using hm
      subst this
      exact hl rfl
    unfold DevicesCommand.parseDevices
    rw [if_neg hne]
    exact parseLines_bad_line _ [] h

/-- Witness for `parseDevices_cases`: two devices, and the line `a` alone. -/
theorem parseDevices_cases_witness :
    DevicesCommand.parseDevices (deviceText [([97], [100]), ([98, 99], [111])])
        = (some [{ ID := [97], Type_ := [100], Path := [] },
                 { ID := [98, 99], Type_ := [111], Path := [] }], none)
      ∧ (DevicesCommand.parseDevices [97, 10]).1 = none :=
  ⟨parseDevices_cases.1 [([97], [100]), ([98, 99], [111])] (by decide),
    (parseDevices_cases.2.2 [97, 10] ⟨[97], by decide, by decide, by decide⟩).1⟩

/-- C29 as stated fails: the line `a TAB b TAB` is not blank and has three
tab-separated fields, the last one empty, but `parseDevices` trims it before
it splits it and returns the device `a` in state `b`. -/
theorem parseDevices_trims_before_split :
    (splitByte 9 [97, 9, 98, 9]).length = 3
      ∧ DevicesCommand.parseDevices [97, 9, 98, 9, 10]
          = (some [{ ID := [97], Type_ := [98], Path := [] }], none) := by
  decide

/-! ## `Stats.IsFile` -/

theorem and_bit15 (m : Nat) : ((m &&& 0x8000) != 0) = m.testBit 15 := by
  have h : (0x8000 : Nat) = 2 ^ 15 := by norm_num
  rw [h, Nat.and_two_pow]
  cases m.testBit 15 <;> simp

theorem IsFile_testBit (s : sync.Stats) : s.IsFile = s.mode.testBit 15 := by
  unfold sync.Stats.IsFile
  exact and_bit15 s.mode

theorem testBit15_of_format (m v : Nat) (h : m &&& S_IFMT = v) (hv : v.testBit 15 = true) :
    m.testBit 15 = true := by
  have h1 : (m &&& S_IFMT).testBit 15 = true := by rw [h]; exact hv
  rw [Nat.testBit_and] at h1
  simp only [Bool.and_eq_true] at h1
  exact h1.1

/-- C34: `Stats.IsFile` is not `Stats.IsRegular`. It tests bit 15 of the mode
alone (`mode & 0x8000 != 0`), so it is true for every regular file, but also
for every symbolic link (format `0o120000`) and every socket (format
`0o140000`), for which `IsRegular` is false. -/
theorem IsFile_not_IsRegular :
    (∀ s : sync.Stats, s.IsFile = s.mode.testBit 15)
    ∧ (∀ s : sync.Stats, s.IsRegular = true → s.IsFile = true)
    ∧ (∀ s : sync.Stats, s.IsSymlink = true → s.IsFile = true ∧ s.IsRegular = false)
    ∧ (∀ s : sync.Stats, s.IsSocket = true → s.IsFile = true ∧ s.IsRegular = false)
    ∧ (sync.Stats.mk 0o120777 0 0).IsFile = true
    ∧ (sync.Stats.mk 0o120777 0 0).IsRegular = false
    ∧ (sync.Stats.mk 0o140755 0 0).IsFile = true
    ∧ (sync.Stats.mk 0o140755 0 0).IsRegular = false := by
  refine ⟨IsFile_testBit, ?_, ?_, ?_, by decide, by decide, by decide, by decide⟩
  · intro s h
    rw [IsFile_testBit]
    simp only [sync.Stats.IsRegular, beq_iff_eq] at h
    exact testBit15_of_format _ _ h (by decide)
  · intro s h
    simp only [sync.Stats.IsSymlink, beq_iff_eq] at h
    refine ⟨?_, ?_⟩
    · rw [IsFile_testBit]
      exact testBit15_of_format _ _ h (by decide)
    · simp only [sync.Stats.IsRegular, h]
      decide
  · intro s h
    simp only [sync.Stats.IsSocket, beq_iff_eq] at h
    refine ⟨?_, ?_⟩
    · rw [IsFile_testBit]
      exact testBit15_of_format _ _ h (by decide)
    · simp only [sync.Stats.IsRegular, h]
      decide

/-! ## `Protocol.DecodeData` on a negative length -/

theorem DecodeLength_minus_one : DecodeLength [45, 48, 48, 49] = .ok (-1) := by
  decide

theorem DecodeData_ok_bounds (data out : List Byte) (h : DecodeData data = .ok out) :
    ∃ length : Nat, DecodeLength (slice data 0 4) = .ok (length : Int)
      ∧ 4 + length ≤ data.length ∧ out = slice data 4 (4 + length) := by
  unfold DecodeData at h
  split_ifs at h with h4
  cases hl : DecodeLength (slice data 0 4) with
  | error e => simp only [hl] at h; cases h
  | ok length =>
    simp only [hl] at h
    split_ifs at h with h1 h2
    refine ⟨length.toNat, ?_, ?_, ?_⟩
    · congr 1
      omega
    · omega
    · have : (4 + length).toNat = 4 + length.toNat := by omega
      rw [← this]
      exact (Except.ok.inj h).symm

/-- C37: `Protocol.DecodeData` is not total. When it returns a slice, the
bounds are in range (`4 ≤ 4 + length ≤ |data|`); but for every input that
starts with `-001` the length decodes to `-1`, the test `len(data) < 4+length`
passes, and the slice expression `data[4:3]` panics. -/
theorem DecodeData_negative_length_panics :
    (∀ data out : List Byte, DecodeData data = .ok out →
      ∃ length : Nat, DecodeLength (slice data 0 4) = .ok (length : Int)
        ∧ 4 + length ≤ data.length ∧ out = slice data 4 (4 + length))
    ∧ DecodeLength [45, 48, 48, 49] = .ok (-1)
    ∧ (∀ rest : List Byte, DecodeData ([45, 48, 48, 49] ++ rest) = .error .panic) := by
  refine ⟨DecodeData_ok_bounds, DecodeLength_minus_one, ?_⟩
  intro rest
  have hs : slice ([45, 48, 48, 49] ++ rest) 0 4 = [45, 48, 48, 49] := by
    simp [slice]
  unfold DecodeData
  rw [hs, DecodeLength_minus_one]
  simp only [List.length_append, List.length_cons, List.length_nil]
  rw [if_neg (by omega), if_neg (by push_cast; omega), if_pos (by decide)]

/-! ## `am start`, `am startservice` and `pm uninstall` -/

/-- C31: `formatExtras` has no type code `--el`. For a map with the single
entry `(k, v)` it emits `--es` for a string, `--ez` for a bool, `--ef` for a
float64 and `--esn` for nil, each once; an `int` gives `--ei` whatever its
size, also when it does not fit in 32 bits (`4294967296`), and an `int64`
gives no argument at all. -/
theorem formatExtras_single (k : List Byte) :
    (∀ v, StartActivityCommand.formatExtras [(k, .str v)]
      = [[45, 45, 101, 115, 32] ++ StartActivityCommand.escape k ++ [32] ++ StartActivityCommand.escape v])
    ∧ (∀ b, StartActivityCommand.formatExtras [(k, .bool b)]
      = [[45, 45, 101, 122, 32] ++ StartActivityCommand.escape k ++ [32] ++ boolText b])
    ∧ (∀ v, StartActivityCommand.formatExtras [(k, .int v)]
      = [[45, 45, 101, 105, 32] ++ StartActivityCommand.escape k ++ [32] ++ Itoa v])
    ∧ (∀ text, StartActivityCommand.formatExtras [(k, .float64 text)]
      = [[45, 45, 101, 102, 32] ++ StartActivityCommand.escape k ++ [32] ++ text])
    ∧ StartActivityCommand.formatExtras [(k, .nil)]
      = [[45, 45, 101, 115, 110, 32] ++ StartActivityCommand.escape k]
    ∧ (∀ v, StartActivityCommand.formatExtras [(k, .int64 v)] = [])
    ∧ StartActivityCommand.formatExtras [([107], .int 4294967296)]
      = [[45, 45, 101, 105, 32, 107, 32, 52, 50, 57, 52, 57, 54, 55, 50, 57, 54]] := by
  refine ⟨?_, ?_, ?_, ?_, ?_, ?_, ?_⟩
  · intro v; simp [StartActivityCommand.formatExtras]
  · intro b; simp [StartActivityCommand.formatExtras]
  · intro v; simp [StartActivityCommand.formatExtras]
  · intro text; simp [StartActivityCommand.formatExtras]
  · simp [StartActivityCommand.formatExtras]
  · intro v; simp [StartActivityCommand.formatExtras]
  · decide

theorem StartActivity_okayThen (t : List Byte) (options : IntentOptions) :
    StartActivityCommand.Execute (okayThen t) options = none := by
  simp [StartActivityCommand.Execute, okayThen]

theorem StartService_okayThen (t : List Byte) (options : IntentOptions) :
    StartServiceCommand.Execute (okayThen t) options
      = if containsBytes errorMark t then some (.failed (TrimSpace t)) else none := by
  simp [StartServiceCommand.Execute, okayThen]

/-- C32: only `StartServiceCommand.Execute` looks at the output. After `OKAY`
and the output `t` it returns an error exactly when `t` contains `Error:`;
`StartActivityCommand.Execute` reads `t`, drops it and returns nil for every
`t`, for instance for `Error: Activity class does not exist.`. -/
theorem Execute_output_check (t : List Byte) (options : IntentOptions) :
    ((StartServiceCommand.Execute (okayThen t) options).isSome = true
      ↔ containsBytes errorMark t = true)
    ∧ StartActivityCommand.Execute (okayThen t) options = none
    ∧ containsBytes errorMark [69, 114, 114, 111, 114, 58, 32, 65, 99, 116, 105, 118, 105, 116, 121, 32, 99, 108, 97, 115, 115, 32, 100, 111, 101, 115, 32, 110, 111, 116, 32, 101, 120, 105, 115, 116, 46] = true
    ∧ StartActivityCommand.Execute (okayThen [69, 114, 114, 111, 114, 58, 32, 65, 99, 116, 105, 118, 105, 116, 121, 32, 99, 108, 97, 115, 115, 32, 100, 111, 101, 115, 32, 110, 111, 116, 32, 101, 120, 105, 115, 116, 46]) options = none := by
  refine ⟨?_, StartActivity_okayThen t options, by decide, StartActivity_okayThen _ options⟩
  rw [StartService_okayThen]
  split_ifs with h <;> simp [h]

theorem run_okayThen (t cmd : List Byte) :
    UninstallCommand.run (okayThen t) cmd
      = if TrimSpace t = successText ∨ containsBytes failureText (TrimSpace t)
            ∨ containsBytes unknownPackageText (TrimSpace t) then none
        else some (.unexpectedOutput (TrimSpace t)) := by
  simp [UninstallCommand.run, okayThen]

theorem run_okayThen_none (t cmd : List Byte) :
    UninstallCommand.run (okayThen t) cmd = none
      ↔ (TrimSpace t = successText ∨ containsBytes failureText (TrimSpace t) = true
        ∨ containsBytes unknownPackageText (TrimSpace t) = true) := by
  rw [run_okayThen]
  split_ifs with h
  · simp only [true_iff]; exact h
  · simp only [reduceCtorEq, false_iff]; exact h

/-- C33: after `OKAY` and the output `t`, `UninstallCommand.Execute` and
`ExecuteWithOptions` return nil exactly when `t` without its leading and
trailing white space is equal to `Success`, or contains `Failure`, or contains
`Unknown package`. -/
theorem Uninstall_success (t pkg : List Byte) (keepData : Bool) (user : Int) :
    (UninstallCommand.Execute (okayThen t) pkg = none
      ↔ (TrimSpace t = successText ∨ containsBytes failureText (TrimSpace t) = true
        ∨ containsBytes unknownPackageText (TrimSpace t) = true))
    ∧ (UninstallCommand.ExecuteWithOptions (okayThen t) pkg keepData user = none
      ↔ (TrimSpace t = successText ∨ containsBytes failureText (TrimSpace t) = true
        ∨ containsBytes unknownPackageText (TrimSpace t) = true)) :=
  ⟨run_okayThen_none t _, run_okayThen_none t _⟩

/-- C33, counterexample: the output `Success!` contains `Success`, yet both
methods (here for the package `com.a`) return the error
`unexpected uninstall output: Success!`. -/
theorem Uninstall_contains_Success_error :
    containsBytes successText [83, 117, 99, 99, 101, 115, 115, 33] = true
    ∧ UninstallCommand.Execute (okayThen [83, 117, 99, 99, 101, 115, 115, 33]) [99, 111, 109, 46, 97]
      = some (.unexpectedOutput [83, 117, 99, 99, 101, 115, 115, 33])
    ∧ UninstallCommand.ExecuteWithOptions (okayThen [83, 117, 99, 99, 101, 115, 115, 33]) [99, 111, 109, 46, 97] false 0
      = some (.unexpectedOutput [83, 117, 99, 99, 101, 115, 115, 33]) := by
  refine ⟨by decide, ?_, ?_⟩
  · unfold UninstallCommand.Execute
    rw [run_okayThen]
    decide
  · unfold UninstallCommand.ExecuteWithOptions
    rw [run_okayThen]
    decide

theorem joinSpace_append_pair (l : List (List Byte)) (a b : List Byte) (hl : l ≠ []) :
    joinSpace (l ++ [a, b]) = joinSpace l ++ [32] ++ a ++ [32] ++ b := by
  induction l with
  | nil => exact absurd rfl hl
  | cons x rest ih =>
    cases rest with
    | nil => simp [joinSpace]
    | cons y rest2 =>
      have h := ih (by simp)
      rw [List.cons_append] at h
      rw [List.cons_append, List.cons_append]
      conv_lhs => unfold joinSpace
      rw [h]
      conv_rhs => unfold joinSpace
      simp

/-- C39: `StartServiceCommand.Execute` sends `--user N` twice. When the options
set the `int` user `N`, `intentArgs` already ends with the pair `--user N`, and
`Execute` appends the pair once more: the service string is
`shell:am startservice `, the joined `intentArgs`, and then ` --user N`. -/
theorem StartService_user_twice (options : IntentOptions) (n : Int)
    (h : options.user = some n) :
    (∃ front, StartActivityCommand.intentArgs options = front ++ [[45, 45, 117, 115, 101, 114], Itoa n]
      ∧ StartServiceCommand.args options
        = front ++ [[45, 45, 117, 115, 101, 114], Itoa n, [45, 45, 117, 115, 101, 114], Itoa n])
    ∧ StartServiceCommand.command options
      = [115, 104, 101, 108, 108, 58, 97, 109, 32, 115, 116, 97, 114, 116, 115, 101, 114, 118, 105, 99, 101, 32] ++ joinSpace (StartActivityCommand.intentArgs options)
        ++ [32, 45, 45, 117, 115, 101, 114, 32] ++ Itoa n := by
  have hi : ∃ front, StartActivityCommand.intentArgs options = front ++ [[45, 45, 117, 115, 101, 114], Itoa n] := by
    unfold StartActivityCommand.intentArgs
    rw [h]
    exact ⟨_, rfl⟩
  obtain ⟨front, hf⟩ := hi
  refine ⟨⟨front, hf, ?_⟩, ?_⟩
  · unfold StartServiceCommand.args
    rw [hf, h]
    simp
  · unfold StartServiceCommand.command StartServiceCommand.args
    rw [h]
    simp only
    rw [joinSpace_append_pair _ _ _ (by rw [hf]; simp)]
    simp

theorem StartService_user_twice_witness :
    StartServiceCommand.command
        { extras := none, action := none, data := none, mimeType := none, category := none,
          component := none, flags := none, debug := none, wait := none, user := some 0 }
      = [115, 104, 101, 108, 108, 58, 97, 109, 32, 115, 116, 97, 114, 116, 115, 101, 114, 118, 105, 99, 101, 32] ++ joinSpace (StartActivityCommand.intentArgs
        { extras := none, action := none, data := none, mimeType := none, category := none,
          component := none, flags := none, debug := none, wait := none, user := some 0 })
        ++ [32, 45, 45, 117, 115, 101, 114, 32] ++ Itoa 0 :=
  (StartService_user_twice _ 0 rfl).2

theorem StartService_user_zero :
    StartServiceCommand.command
        { extras := none, action := none, data := none, mimeType := none, category := none,
          component := none, flags := none, debug := none, wait := none, user := some 0 }
      = [115, 104, 101, 108, 108, 58, 97, 109, 32, 115, 116, 97, 114, 116, 115, 101, 114, 118, 105, 99, 101, 32, 45, 45, 117, 115, 101, 114, 32, 48, 32, 45, 45, 117, 115, 101, 114, 32, 48] := by
  decide

/-! ## `TransformReader.Read` -/

theorem scanChunk_no_cr (chunk : List Byte) (h : ∀ b ∈ chunk, b ≠ 0x0d) :
    scanChunk chunk = (chunk, none) := by
  induction chunk with
  | nil => rfl
  | cons c rest ih =>
    rw [scanChunk_cons_ne c rest (h c (List.mem_cons_self c rest)),
      ih (fun b hb => h b (List.mem_cons_of_mem c hb))]

theorem take_append_drop_self (raw buffer : List Byte) :
    (raw ++ buffer.drop raw.length).take raw.length = raw := by
  rw [List.take_append_of_le_length (le_refl _), List.take_length]

theorem Read_fresh_plain (raw p : List Byte) (rerr : Option StreamError)
    (hcr : ∀ b ∈ raw, b ≠ 0x0d) (hr : rerr = none ∨ rerr = some .eof) :
    ((NewTransformReader none).Read raw rerr p).n = raw.length
    ∧ ((NewTransformReader none).Read raw rerr p).err = none
    ∧ ((NewTransformReader none).Read raw rerr p).p = copyInto p raw := by
  have hT : (NewLineTransform none).Transform raw = (raw, NewLineTransform none) := by
    by_cases hne : raw = []
    · subst hne; rfl
    · rw [Transform_crlf _ raw hne rfl rfl rfl, scanChunk_no_cr raw hcr]
      rfl
  have hlt : ({ NewLineTransform none with
      savedR := (NewLineTransform none).savedR.map fun saved =>
        slice (raw ++ (List.replicate 4096 (0 : Byte)).drop raw.length) 0 (0 + saved.length) }
        : LineTransform) = NewLineTransform none := rfl
  rcases hr with hr | hr <;> subst hr <;>
    simp only [TransformReader.Read, NewTransformReader, take_append_drop_self, hlt, hT] <;>
    exact ⟨trivial, trivial, trivial⟩

/-- C38: `TransformReader.Read` does not keep the count within the
destination. For a new reader, a read `raw` without a carriage return and a
destination `p`, it returns `n = len(raw)` and a nil error, after copying only
the first `len(p)` bytes into `p`: with `len(raw) > len(p)` the count exceeds
`len(p)` and the bytes past `len(p)` are never delivered. -/
theorem Read_count_unbounded (raw p : List Byte) (hcr : ∀ b ∈ raw, b ≠ 0x0d)
    (hlen : p.length < raw.length) :
    p.length < ((NewTransformReader none).Read raw none p).n
    ∧ ((NewTransformReader none).Read raw none p).n = raw.length
    ∧ ((NewTransformReader none).Read raw none p).err = none
    ∧ ((NewTransformReader none).Read raw none p).p = raw.take p.length := by
  obtain ⟨h1, h2, h3⟩ := Read_fresh_plain raw p none hcr (Or.inl rfl)
  refine ⟨by rw [h1]; exact hlen, h1, h2, ?_⟩
  rw [h3, copyInto, List.drop_of_length_le (Nat.le_of_lt hlen), List.append_nil]

theorem Read_count_unbounded_witness :
    ([0] : List Byte).length < ((NewTransformReader none).Read [97, 98] none [0]).n
    ∧ ((NewTransformReader none).Read [97, 98] none [0]).n = ([97, 98] : List Byte).length
    ∧ ((NewTransformReader none).Read [97, 98] none [0]).err = none
    ∧ ((NewTransformReader none).Read [97, 98] none [0]).p
      = ([97, 98] : List Byte).take ([0] : List Byte).length :=
  Read_count_unbounded [97, 98] [0]
    (by intro b hb; simp at hb; rcases hb with rfl | rfl <;> decide) (by decide)

/-- The end of the stream is never reported, and a carriage return saved at
the end of the last chunk is not flushed: after the read `a`, CR the read that
meets `io.EOF` returns `0` and a nil error. -/
theorem Read_eof_not_reported :
    ((NewTransformReader none).Read [97, 13] none (List.replicate 8 0)).n = 1
    ∧ (((NewTransformReader none).Read [97, 13] none (List.replicate 8 0)).reader.Read []
        (some .eof) (List.replicate 8 0)).n = 0
    ∧ (((NewTransformReader none).Read [97, 13] none (List.replicate 8 0)).reader.Read []
        (some .eof) (List.replicate 8 0)).err = none := by
  refine ⟨?_, ?_, ?_⟩ <;> decide

/-- The saved carriage return shares its memory with the read buffer: after
the read `a`, CR the read `b`, `c` overwrites it, and `Read` delivers `c`,
`b`, `c` where the stream had CR, `b`, `c`. -/
theorem Read_saved_byte_overwritten :
    (((NewTransformReader none).Read [97, 13] none (List.replicate 8 0)).reader.Read [98, 99]
        none (List.replicate 8 0)).n = 3
    ∧ (((NewTransformReader none).Read [97, 13] none (List.replicate 8 0)).reader.Read [98, 99]
        none (List.replicate 8 0)).p.take 3 = [99, 98, 99] := by
  refine ⟨?_, ?_⟩ <;> decide

/-! ## The modulus read by `parsePublicKeyFromStruct` -/

theorem getElem?_of_getD (l1 l2 : List Byte) (i j : Nat) (hi : i < l1.length)
    (hj : j < l2.length) (h : l1.getD i 0 = l2.getD j 0) : l1[i]? = l2[j]? := by
  rw [List.getD_eq_getElem _ _ hi, List.getD_eq_getElem _ _ hj] at h
  rw [List.getElem?_eq_getElem hi, List.getElem?_eq_getElem hj, h]

theorem getD_set_eq (l : List Byte) (i : Nat) (v : Byte) (j : Nat) :
    (l.set i v).getD j 0 = if i = j ∧ i < l.length then v else l.getD j 0 := by
  simp only [List.getD_eq_getElem?_getD, List.getElem?_set]
  by_cases h : i = j
  · subst h
    by_cases h2 : i < l.length
    · simp [h2]
    · simp [h2, List.getElem?_eq_none (Nat.le_of_not_lt h2)]
  · simp [h]

theorem reverse_of_swapped (b cur : List Byte) (i : Nat) (hlen : cur.length = b.length)
    (hi : i = b.length / 2)
    (hinv : ∀ j, j < b.length → cur.getD j 0
      = if j < i ∨ b.length - i ≤ j then b.getD (b.length - 1 - j) 0 else b.getD j 0) :
    cur = b.reverse := by
  apply List.ext_getElem?
  intro j
  by_cases hj : j < b.length
  · rw [List.getElem?_reverse hj]
    apply getElem?_of_getD _ _ _ _ (by omega) (by omega)
    rw [hinv j hj]
    split_ifs with hc
    · rfl
    · have : b.length - 1 - j = j := by omega
      rw [this]
  · rw [List.getElem?_eq_none (by omega), List.getElem?_eq_none (by simp; omega)]

theorem reverseBytesLoop_spec (b : List Byte) :
    ∀ (fuel i : Nat) (cur : List Byte), cur.length = b.length → i ≤ b.length / 2 →
      b.length / 2 ≤ fuel + i →
      (∀ j, j < b.length → cur.getD j 0
        = if j < i ∨ b.length - i ≤ j then b.getD (b.length - 1 - j) 0 else b.getD j 0) →
      reverseBytesLoop fuel i cur = b.reverse := by
  intro fuel
  induction fuel with
  | zero =>
    intro i cur hlen hi hf hinv
    unfold reverseBytesLoop
    exact reverse_of_swapped b cur i hlen (by omega) hinv
  | succ fuel ih =>
    intro i cur hlen hi hf hinv
    unfold reverseBytesLoop
    by_cases hlt : i < cur.length / 2
    · rw [if_pos hlt]
      rw [hlen] at hlt ⊢
      apply ih (i + 1) _ (by simp [hlen]) (by omega) (by omega)
      intro j hj
      rw [getD_set_eq, getD_set_eq, List.length_set]
      have h1 := hinv i (by omega)
      have h2 := hinv (b.length - i - 1) (by omega)
      have h3 := hinv j hj
      rw [if_neg (by omega)] at h1 h2
      by_cases hja : b.length - i - 1 = j
      · rw [if_pos ⟨hja, by omega⟩, if_pos (by omega), h1]
        congr 1
        omega
      · rw [if_neg (fun hh => hja hh.1)]
        by_cases hjb : i = j
        · rw [if_pos ⟨hjb, by omega⟩, if_pos (by omega), h2]
          congr 1
          omega
        · rw [if_neg (fun hh => hjb hh.1), h3]
          by_cases hc : j < i ∨ b.length - i ≤ j
          · rw [if_pos hc, if_pos (by omega)]
          · rw [if_neg hc, if_neg (by omega)]
    · rw [if_neg hlt]
      rw [hlen] at hlt
      exact reverse_of_swapped b cur i hlen (by omega) hinv

theorem reverseBytes_eq_reverse (b : List Byte) : reverseBytes b = b.reverse := by
  unfold reverseBytes
  apply reverseBytesLoop_spec b b.length 0 b rfl (Nat.zero_le _) (by omega)
  intro j hj
  rw [if_neg (by omega)]

theorem SetBytes_reverse (l : List Byte) : SetBytes l.reverse = leValue l := by
  unfold SetBytes
  rw [List.foldl_reverse]
  induction l with
  | nil => rfl
  | cons b rest ih =>
    rw [List.foldr_cons, ih, leValue]
    ring

theorem leValue_putUint32_append (v : Nat) (hv : v < 2 ^ 32) (rest : List Byte) :
    leValue (putUint32 v ++ rest) = v + 2 ^ 32 * leValue rest := by
  show leValue (_ :: _ :: _ :: _ :: rest) = _
  simp only [leValue]
  generalize leValue rest = L
  omega

theorem sum_range_shift (B x : Nat) (rest : List Nat) :
    ((List.range (rest.length + 1)).map fun i => (x :: rest).getD i 0 * B ^ i).sum
      = x + B * ((List.range rest.length).map fun i => rest.getD i 0 * B ^ i).sum := by
  rw [List.range_succ_eq_map, List.map_cons, List.sum_cons, List.map_map,
    ← List.sum_map_mul_left]
  simp only [List.getD_cons_zero, pow_zero, Nat.mul_one]
  congr 2
  apply List.map_congr_left
  intro i _
  simp only [Function.comp, List.getD_cons_succ, pow_succ]
  ring

theorem limbSum_cons (x : Nat) (rest : List Nat) :
    limbSum (x :: rest) = x + 2 ^ 32 * limbSum rest := by
  unfold limbSum
  simp only [pow_mul, List.length_cons]
  exact sum_range_shift (2 ^ 32) x rest

theorem leValue_limbs (n : List Nat) (hn : ∀ x ∈ n, x < 2 ^ 32) :
    leValue (n.map putUint32).flatten = limbSum n := by
  induction n with
  | nil => rfl
  | cons x rest ih =>
    rw [List.map_cons, List.flatten_cons, leValue_putUint32_append x (hn x (List.mem_cons_self x rest)),
      ih (fun y hy => hn y (List.mem_cons_of_mem x hy)), limbSum_cons]

theorem limbs_length (n : List Nat) : (n.map putUint32).flatten.length = 4 * n.length := by
  induction n with
  | nil => rfl
  | cons x rest ih =>
    rw [List.map_cons, List.flatten_cons, List.length_append, ih, putUint32_length,
      List.length_cons]
    ring

theorem keyStruct_length (len n0inv : Nat) (n rr : List Nat) (e : Nat)
    (hrr : rr.length = n.length) :
    (keyStruct len n0inv n rr e).length = 12 + 8 * n.length := by
  unfold keyStruct
  simp only [List.length_append, putUint32_length, limbs_length, hrr]
  omega

theorem leUint32_putUint32_append (v : Nat) (rest : List Byte) :
    leUint32 (putUint32 v ++ rest) = some (v % 2 ^ 32) := by
  unfold leUint32
  rw [if_neg (by rw [List.length_append, putUint32_length]; omega)]
  congr 1
  rw [← getUint32_putUint32]
  rfl

theorem keyStruct_limbs (len n0inv : Nat) (n rr : List Nat) (e : Nat) :
    slice (keyStruct len n0inv n rr e) 8 (8 + 4 * n.length) = (n.map putUint32).flatten := by
  have h : keyStruct len n0inv n rr e
      = (putUint32 len ++ putUint32 n0inv)
        ++ ((n.map putUint32).flatten ++ ((rr.map putUint32).flatten ++ putUint32 e)) := by
    unfold keyStruct
    simp only [List.append_assoc]
  unfold slice
  rw [h, List.drop_left' (by simp [putUint32_length]), Nat.add_sub_cancel_left,
    List.take_left' (limbs_length n)]

theorem keyStruct_exponent (len n0inv : Nat) (n rr : List Nat) (e : Nat)
    (hrr : rr.length = n.length) :
    (keyStruct len n0inv n rr e).drop (8 + 4 * n.length + 4 * n.length) = putUint32 e := by
  unfold keyStruct
  apply List.drop_left'
  simp only [List.length_append, putUint32_length, limbs_length, hrr]

theorem parsePublicKeyFromStruct_keyStruct (keys : KeyMap) (comment : List Byte)
    (n0inv e : Nat) (n rr : List Nat) (hn : ∀ x ∈ n, x < 2 ^ 32) (hrr : rr.length = n.length)
    (he : e < 2 ^ 32) :
    (parsePublicKeyFromStruct keys (keyStruct n.length n0inv n rr e) comment).1
      = if 12 + 8 * n.length < 2 ^ 32 then
          if e ≠ 3 ∧ e ≠ 65537 then .error (.invalidExponent e)
          else .ok { N := limbSum n, E := (e : Int) }
        else .error .invalidLength := by
  have hlen := keyStruct_length n.length n0inv n rr e hrr
  have hle : leUint32 (keyStruct n.length n0inv n rr e) = some (n.length % 2 ^ 32) := by
    unfold keyStruct
    simp only [List.append_assoc]
    exact leUint32_putUint32_append _ _
  unfold parsePublicKeyFromStruct
  rw [if_neg (by omega), hle]
  simp only
  by_cases hb : 12 + 8 * n.length < 2 ^ 32
  · rw [if_pos hb]
    have hm : n.length % 2 ^ 32 = n.length := Nat.mod_eq_of_lt (by omega)
    have hm4 : n.length * 4 % 2 ^ 32 = 4 * n.length := by omega
    rw [hm, hm4, if_neg (by rw [hlen]; omega), if_neg (by omega), if_neg (by omega),
      keyStruct_exponent _ _ _ _ _ hrr]
    have hee : leUint32 (putUint32 e) = some e := by
      have := leUint32_putUint32_append e []
      rw [List.append_nil, Nat.mod_eq_of_lt he] at this
      exact this
    rw [hee]
    simp only
    by_cases hx : e ≠ 3 ∧ e ≠ 65537
    · rw [if_pos hx, if_pos hx]
    · rw [if_neg hx, if_neg hx, keyStruct_limbs, reverseBytes_eq_reverse, SetBytes_reverse,
        leValue_limbs n hn]
  · rw [if_neg hb, if_pos (by rw [hlen]; omega)]

/-- C36: for a public-key struct with the limbs `n` (each below `2 ^ 32`, least
significant first), as many limbs of `rr` and the exponent field `e`, the key
that `parsePublicKeyFromStruct` returns has the modulus
`N = sum_i n[i] * 2 ^ (32 * i)` and the exponent `E = e`; and a key is returned
whenever the struct has fewer than `2 ^ 32` bytes and `e` is 3 or 65537. -/
theorem parsePublicKeyFromStruct_modulus (keys : KeyMap) (comment : List Byte)
    (n0inv e : Nat) (n rr : List Nat) (hn : ∀ x ∈ n, x < 2 ^ 32) (hrr : rr.length = n.length)
    (he : e < 2 ^ 32) :
    (∀ key, (parsePublicKeyFromStruct keys (keyStruct n.length n0inv n rr e) comment).1 = .ok key
      → key.N = limbSum n ∧ key.E = (e : Int))
    ∧ (12 + 8 * n.length < 2 ^ 32 → (e = 3 ∨ e = 65537) →
      (parsePublicKeyFromStruct keys (keyStruct n.length n0inv n rr e) comment).1
        = .ok { N := limbSum n, E := (e : Int) }) := by
  have h := parsePublicKeyFromStruct_keyStruct keys comment n0inv e n rr hn hrr he
  refine ⟨?_, ?_⟩
  · intro key hk
    rw [h] at hk
    split_ifs at hk with h1 h2
    cases hk
    exact ⟨rfl, rfl⟩
  · intro hb hx
    rw [h, if_pos hb, if_neg (by omega)]

theorem parsePublicKeyFromStruct_modulus_witness :
    (parsePublicKeyFromStruct [] (keyStruct 2 7 [0xC0FFEE01, 9] [5, 6] 65537) []).1
      = .ok { N := limbSum [0xC0FFEE01, 9], E := 65537 } :=
  (parsePublicKeyFromStruct_modulus [] [] 7 65537 [0xC0FFEE01, 9] [5, 6]
    (by intro x hx; simp at hx; rcases hx with rfl | rfl <;> norm_num) rfl (by norm_num)).2
    (by norm_num) (Or.inr rfl)

/-! ## `RgbTransform.Transform` -/

theorem indexAt_nat (b : List Byte) (n : Nat) (h : n < b.length) :
    indexAt b (n : Int) = some (b.getD n 0) := by
  unfold indexAt
  rw [if_pos (Int.natCast_nonneg n), Int.toNat_natCast, List.getElem?_eq_getElem h,
    List.getD_eq_getElem _ _ h]

theorem storeAt_nat (b : List Byte) (n : Nat) (v : Byte) (h : n < b.length) :
    storeAt b (n : Int) v = some (b.set n v) := by
  unfold storeAt
  rw [if_pos ⟨Int.natCast_nonneg n, by exact_mod_cast h⟩, Int.toNat_natCast]

theorem take_set_three (l : List Byte) (i : Nat) (a b c : Byte) (h : i + 3 ≤ l.length) :
    (((l.set i a).set (i + 1) b).set (i + 2) c).take (i + 3) = l.take i ++ [a, b, c] := by
  induction i generalizing l with
  | zero =>
    match l, h with
    | x :: y :: z :: rest, _ => simp
  | succ i ih =>
    match l, h with
    | x :: rest, h =>
      have h2 : i + 3 ≤ rest.length := by
        rw [List.length_cons] at h
        omega
      have := ih rest h2
      simp only [List.set_cons_succ, List.take_succ_cons, List.cons_append]
      simpa using this

theorem pixelRows_succ (pb r g b : Nat) (x : List Byte) (i : Nat) :
    pixelRows pb r g b x (i + 1)
      = pixelRows pb r g b x i
        ++ [x.getD (i * pb + r) 0, x.getD (i * pb + g) 0, x.getD (i * pb + b) 0] := by
  unfold pixelRows
  rw [List.range_succ, List.map_append, List.flatten_append]
  simp

theorem pixelRows_length (pb r g b : Nat) (x : List Byte) (i : Nat) :
    (pixelRows pb r g b x i).length = 3 * i := by
  induction i with
  | zero => rfl
  | succ i ih =>
    rw [pixelRows_succ, List.length_append, ih]
    simp only [List.length_cons, List.length_nil]
    omega

theorem pixelLoop_spec (t : RgbTransform) (pb r g b k : Nat) (hpb : t.pixelBytes = (pb : Int))
    (hr : t.rPos = (r : Int)) (hg : t.gPos = (g : Int)) (hb : t.bPos = (b : Int))
    (hrl : r < pb) (hgl : g < pb) (hbl : b < pb)
    (hk1 : k * pb ≤ t.buffer.length) (hk2 : t.buffer.length < k * pb + pb) :
    ∀ (fuel i : Nat) (target : List Byte), i ≤ k → k - i < fuel → target.length = 3 * k →
      target.take (3 * i) = pixelRows pb r g b t.buffer i →
      ∃ target1, t.pixelLoop fuel ((i * pb : Nat) : Int) ((3 * i : Nat) : Int) target
          = .done ((k * pb : Nat) : Int) ((3 * k : Nat) : Int) target1
        ∧ target1.length = 3 * k ∧ target1.take (3 * k) = pixelRows pb r g b t.buffer k := by
  intro fuel
  induction fuel with
  | zero => intro i target hik hf; omega
  | succ fuel ih =>
    intro i target hik hf hlen htake
    unfold RgbTransform.pixelLoop
    by_cases hlt : i < k
    · have hmul : (i + 1) * pb ≤ k * pb := Nat.mul_le_mul_right pb hlt
      rw [Nat.succ_mul] at hmul
      rw [if_pos (by rw [hpb]; omega), hr, hg, hb, hpb]
      rw [show ((i * pb : Nat) : Int) + (r : Int) = ((i * pb + r : Nat) : Int) by push_cast; ring,
        show ((i * pb : Nat) : Int) + (g : Int) = ((i * pb + g : Nat) : Int) by push_cast; ring,
        show ((i * pb : Nat) : Int) + (b : Int) = ((i * pb + b : Nat) : Int) by push_cast; ring,
        show ((3 * i : Nat) : Int) + 0 = ((3 * i : Nat) : Int) by simp,
        show ((3 * i : Nat) : Int) + 1 = ((3 * i + 1 : Nat) : Int) by push_cast; ring,
        show ((3 * i : Nat) : Int) + 2 = ((3 * i + 2 : Nat) : Int) by push_cast; ring,
        show ((3 * i : Nat) : Int) + 3 = ((3 * (i + 1) : Nat) : Int) by push_cast; ring,
        show ((i * pb : Nat) : Int) + (pb : Int) = (((i + 1) * pb : Nat) : Int) by
          push_cast; ring,
        indexAt_nat _ _ (by omega), indexAt_nat _ _ (by omega), indexAt_nat _ _ (by omega)]
      simp only
      rw [storeAt_nat _ _ _ (by omega)]
      simp only
      rw [storeAt_nat _ _ _ (by rw [List.length_set]; omega)]
      simp only
      rw [storeAt_nat _ _ _ (by rw [List.length_set, List.length_set]; omega)]
      simp only
      apply ih (i + 1) _ hlt (by omega)
      · rw [List.length_set, List.length_set, List.length_set, hlen]
      · rw [show 3 * (i + 1) = 3 * i + 3 by ring, take_set_three _ _ _ _ _ (by omega), htake,
          pixelRows_succ]
    · have hik2 : i = k := by omega
      subst hik2
      rw [if_neg (by rw [hpb]; omega)]
      exact ⟨target, rfl, hlen, htake⟩
theorem Transform_spec (t : RgbTransform) (pb r g b : Nat) (hpb : t.pixelBytes = (pb : Int))
    (hr : t.rPos = (r : Int)) (hg : t.gPos = (g : Int)) (hb : t.bPos = (b : Int))
    (hrl : r < pb) (hgl : g < pb) (hbl : b < pb) (input : List Byte) :
    t.Transform input
      = .ok (pixels pb r g b (t.buffer ++ input))
          { t with buffer := (t.buffer ++ input).drop ((t.buffer ++ input).length / pb * pb) } := by
  have h0 : 0 < pb := by omega
  obtain ⟨meta, buffer, rPos, gPos, bPos, aPos, pixelBytes⟩ := t
  simp only at hpb hr hg hb
  subst hpb hr hg hb
  simp only
  have hk1 : (buffer ++ input).length / pb * pb ≤ (buffer ++ input).length :=
    Nat.div_mul_le_self _ _
  have hk2 : (buffer ++ input).length
      < (buffer ++ input).length / pb * pb + pb := by
    have h1 := Nat.div_add_mod (buffer ++ input).length pb
    have h2 := Nat.mod_lt (buffer ++ input).length h0
    rw [Nat.mul_comm] at h1
    omega
  obtain ⟨target1, hloop, hlen1, htake1⟩ :=
    pixelLoop_spec (RgbTransform.mk meta (buffer ++ input) r g b aPos pb) pb r g b
      ((buffer ++ input).length / pb) rfl rfl rfl rfl hrl hgl hbl hk1 hk2
      ((buffer ++ input).length + 1) 0
      (List.replicate (3 * ((buffer ++ input).length / pb)) 0) (Nat.zero_le _)
      (by have := Nat.div_le_self (buffer ++ input).length pb; omega)
      (List.length_replicate _ _) rfl
  have hsize : (Int.tdiv ((buffer ++ input).length : Int) (pb : Int) * 3).toNat
      = 3 * ((buffer ++ input).length / pb) := by
    rw [← Int.ofNat_tdiv]
    omega
  unfold RgbTransform.Transform
  simp only
  rw [if_neg (by omega), if_neg (by rw [← Int.ofNat_tdiv]; omega), hsize]
  simp only [Nat.zero_mul, Nat.mul_zero, Nat.cast_zero] at hloop
  rw [hloop]
  simp only
  rw [if_neg (by omega), if_neg (by omega), Int.toNat_natCast, Int.toNat_natCast, htake1]
  rfl
theorem pixelRows_append_left (pb r g b : Nat) (a y : List Byte) (j : Nat)
    (hrl : r < pb) (hgl : g < pb) (hbl : b < pb) (hj : j * pb ≤ a.length) :
    pixelRows pb r g b (a ++ y) j = pixelRows pb r g b a j := by
  unfold pixelRows
  congr 1
  apply List.map_congr_left
  intro i hi
  rw [List.mem_range] at hi
  have hmul : (i + 1) * pb ≤ j * pb := Nat.mul_le_mul_right pb hi
  rw [Nat.succ_mul] at hmul
  rw [List.getD_append _ _ _ _ (by omega), List.getD_append _ _ _ _ (by omega),
    List.getD_append _ _ _ _ (by omega)]

theorem pixels_append_aligned (pb r g b k : Nat) (a y : List Byte) (h0 : 0 < pb)
    (hrl : r < pb) (hgl : g < pb) (hbl : b < pb) (ha : a.length = k * pb) :
    pixels pb r g b (a ++ y) = pixels pb r g b a ++ pixels pb r g b y := by
  have hk : a.length / pb = k := by rw [ha, Nat.mul_div_cancel _ h0]
  have hky : (a ++ y).length / pb = k + y.length / pb := by
    rw [List.length_append, ha, Nat.add_comm, Nat.add_mul_div_right _ _ h0, Nat.add_comm]
  unfold pixels
  rw [hk, hky]
  conv_lhs => unfold pixelRows
  rw [List.range_add, List.map_append, List.flatten_append, List.map_map]
  congr 1
  · exact pixelRows_append_left pb r g b a y k hrl hgl hbl (by omega)
  · unfold pixelRows
    congr 1
    apply List.map_congr_left
    intro i _
    simp only [Function.comp]
    rw [show (k + i) * pb + r = a.length + (i * pb + r) by rw [ha]; ring,
      show (k + i) * pb + g = a.length + (i * pb + g) by rw [ha]; ring,
      show (k + i) * pb + b = a.length + (i * pb + b) by rw [ha]; ring,
      List.getD_append_right _ _ _ _ (by omega), List.getD_append_right _ _ _ _ (by omega),
      List.getD_append_right _ _ _ _ (by omega)]
    simp only [Nat.add_sub_cancel_left]

theorem pixels_short (pb r g b : Nat) (x : List Byte) (h : x.length < pb) :
    pixels pb r g b x = [] := by
  unfold pixels
  rw [Nat.div_eq_of_lt h]
  rfl

theorem pixels_chunk (pb r g b : Nat) (x y : List Byte) (h0 : 0 < pb)
    (hrl : r < pb) (hgl : g < pb) (hbl : b < pb) :
    pixels pb r g b x ++ pixels pb r g b (x.drop (x.length / pb * pb) ++ y)
      = pixels pb r g b (x ++ y) := by
  have hk1 : x.length / pb * pb ≤ x.length := Nat.div_mul_le_self _ _
  have hlen : (x.take (x.length / pb * pb)).length = x.length / pb * pb := by
    rw [List.length_take]
    omega
  have hrem : (x.drop (x.length / pb * pb)).length < pb := by
    rw [List.length_drop]
    have h1 := Nat.div_add_mod x.length pb
    have h2 := Nat.mod_lt x.length h0
    rw [Nat.mul_comm] at h1
    omega
  have hx : pixels pb r g b x = pixels pb r g b (x.take (x.length / pb * pb)) := by
    conv_lhs => rw [← List.take_append_drop (x.length / pb * pb) x]
    rw [pixels_append_aligned pb r g b _ _ _ h0 hrl hgl hbl hlen, pixels_short _ _ _ _ _ hrem,
      List.append_nil]
  rw [hx, ← pixels_append_aligned pb r g b _ _ _ h0 hrl hgl hbl hlen, ← List.append_assoc,
    List.take_append_drop]

theorem rest_chunk (pb : Nat) (x y : List Byte) (h0 : 0 < pb) :
    (x.drop (x.length / pb * pb) ++ y).drop ((x.drop (x.length / pb * pb) ++ y).length / pb * pb)
      = (x ++ y).drop ((x ++ y).length / pb * pb) := by
  have hk1 : x.length / pb * pb ≤ x.length := Nat.div_mul_le_self _ _
  have hq : (x ++ y).length / pb
      = x.length / pb + (x.drop (x.length / pb * pb) ++ y).length / pb := by
    rw [List.length_append, List.length_append, List.length_drop,
      show x.length + y.length = x.length - x.length / pb * pb + y.length + x.length / pb * pb by
        omega,
      Nat.add_mul_div_right _ _ h0, Nat.add_comm]
  rw [hq, Nat.add_mul, ← List.drop_drop]
  congr 1
  rw [List.drop_append_of_le_length hk1]

theorem feed_spec (pb r g b : Nat) (hrl : r < pb) (hgl : g < pb) (hbl : b < pb)
    (meta : Meta) (aPos : Int) (chunks : List (List Byte)) :
    ∀ buffer : List Byte, buffer.length < pb →
      (RgbTransform.mk meta buffer r g b aPos pb).feed chunks
        = some (pixels pb r g b (buffer ++ chunks.flatten),
            RgbTransform.mk meta
              ((buffer ++ chunks.flatten).drop ((buffer ++ chunks.flatten).length / pb * pb))
              r g b aPos pb) := by
  have h0 : 0 < pb := by omega
  induction chunks with
  | nil =>
    intro buffer hbuf
    unfold RgbTransform.feed
    rw [List.flatten_nil, List.append_nil, pixels_short _ _ _ _ _ hbuf, Nat.div_eq_of_lt hbuf,
      Nat.zero_mul, List.drop_zero]
  | cons chunk rest ih =>
    intro buffer hbuf
    unfold RgbTransform.feed
    rw [Transform_spec _ pb r g b rfl rfl rfl rfl hrl hgl hbl chunk]
    simp only
    have hrem : ((buffer ++ chunk).drop ((buffer ++ chunk).length / pb * pb)).length < pb := by
      rw [List.length_drop]
      have h1 := Nat.div_add_mod (buffer ++ chunk).length pb
      have h2 := Nat.mod_lt (buffer ++ chunk).length h0
      rw [Nat.mul_comm] at h1
      omega
    rw [ih _ hrem]
    simp only
    rw [pixels_chunk pb r g b _ _ h0 hrl hgl hbl, rest_chunk pb _ _ h0, List.flatten_cons,
      List.append_assoc]
/-- C40: for a `Meta` with `Bpp` 24 or 32 whose red, green and blue byte
positions (`offset / 8`) are at least 0 and smaller than `Bpp / 8`,
`NewRgbTransform` returns a transform, and for every list of chunks the calls
of `Transform` all return without a panic; their outputs, concatenated, are
the bytes red, green, blue of every complete pixel of the whole input, the same
as for the input in one piece, and the buffer keeps the bytes of the incomplete
last pixel. -/
theorem RgbTransform_chunks (meta : Meta) (hB : meta.Bpp = 24 ∨ meta.Bpp = 32)
    (hr0 : 0 ≤ Int.tdiv meta.RedOffset 8)
    (hr : Int.tdiv meta.RedOffset 8 < Int.tdiv meta.Bpp 8)
    (hg0 : 0 ≤ Int.tdiv meta.GreenOffset 8)
    (hg : Int.tdiv meta.GreenOffset 8 < Int.tdiv meta.Bpp 8)
    (hb0 : 0 ≤ Int.tdiv meta.BlueOffset 8)
    (hb : Int.tdiv meta.BlueOffset 8 < Int.tdiv meta.Bpp 8) :
    ∃ t, NewRgbTransform meta = some t ∧ ∀ chunks : List (List Byte),
      t.feed chunks
        = some (pixels (Int.tdiv meta.Bpp 8).toNat (Int.tdiv meta.RedOffset 8).toNat
              (Int.tdiv meta.GreenOffset 8).toNat (Int.tdiv meta.BlueOffset 8).toNat
              chunks.flatten,
            { t with
              buffer := chunks.flatten.drop
                (chunks.flatten.length / (Int.tdiv meta.Bpp 8).toNat
                  * (Int.tdiv meta.Bpp 8).toNat) })
      ∧ t.feed chunks = t.feed [chunks.flatten] := by
  have hp0 : 0 ≤ Int.tdiv meta.Bpp 8 := by omega
  have hnew : NewRgbTransform meta
      = some (RgbTransform.mk meta [] ((Int.tdiv meta.RedOffset 8).toNat : Nat)
          ((Int.tdiv meta.GreenOffset 8).toNat : Nat) ((Int.tdiv meta.BlueOffset 8).toNat : Nat)
          (Int.tdiv meta.AlphaOffset 8) ((Int.tdiv meta.Bpp 8).toNat : Nat)) := by
    unfold NewRgbTransform
    rw [if_neg (by omega), Int.toNat_of_nonneg hr0, Int.toNat_of_nonneg hg0,
      Int.toNat_of_nonneg hb0, Int.toNat_of_nonneg hp0]
  have hfeed := feed_spec (Int.tdiv meta.Bpp 8).toNat (Int.tdiv meta.RedOffset 8).toNat
    (Int.tdiv meta.GreenOffset 8).toNat (Int.tdiv meta.BlueOffset 8).toNat
    (by omega) (by omega) (by omega) meta (Int.tdiv meta.AlphaOffset 8)
  refine ⟨_, hnew, ?_⟩
  intro chunks
  have h1 := hfeed chunks [] (by simp only [List.length_nil]; omega)
  have h2 := hfeed [chunks.flatten] [] (by simp only [List.length_nil]; omega)
  rw [List.nil_append] at h1 h2
  rw [List.flatten_cons, List.flatten_nil, List.append_nil] at h2
  exact ⟨h1, by rw [h1, h2]⟩

theorem RgbTransform_chunks_witness :
    ∃ t, NewRgbTransform ⟨32, 0, 8, 16, 24⟩ = some t ∧ ∀ chunks : List (List Byte),
      t.feed chunks
        = some (pixels (Int.tdiv (Meta.mk 32 0 8 16 24).Bpp 8).toNat
              (Int.tdiv (Meta.mk 32 0 8 16 24).RedOffset 8).toNat
              (Int.tdiv (Meta.mk 32 0 8 16 24).GreenOffset 8).toNat
              (Int.tdiv (Meta.mk 32 0 8 16 24).BlueOffset 8).toNat
              chunks.flatten,
            { t with
              buffer := chunks.flatten.drop
                (chunks.flatten.length / (Int.tdiv (Meta.mk 32 0 8 16 24).Bpp 8).toNat
                  * (Int.tdiv (Meta.mk 32 0 8 16 24).Bpp 8).toNat) })
      ∧ t.feed chunks = t.feed [chunks.flatten] :=
  RgbTransform_chunks ⟨32, 0, 8, 16, 24⟩ (Or.inr rfl) (by decide) (by decide) (by decide)
    (by decide) (by decide) (by decide)

/-- C40, counterexample: with `Bpp = 24` and `RedOffset = -8` the red position
is `-1`, smaller than `Bpp / 8 = 3`; `NewRgbTransform` accepts the `Meta`, and
`Transform` of one pixel reads `t.buffer[-1]` and panics. -/
theorem Transform_negative_position_panics :
    ∃ t, NewRgbTransform ⟨24, -8, 8, 16, 0⟩ = some t
      ∧ t.rPos < t.pixelBytes ∧ t.gPos < t.pixelBytes ∧ t.bPos < t.pixelBytes
      ∧ t.Transform [1, 2, 3] = .panic :=
  ⟨_, rfl, by decide, by decide, by decide, by decide⟩

/-! ## The packet reader on a stream of packets -/

theorem prefix_split (acc tail x W : List Byte) (h : acc ++ tail = x ++ W)
    (hlen : x.length ≤ acc.length) :
    acc.take x.length = x ∧ acc.drop x.length ++ tail = W := by
  have h1 : (acc ++ tail).take x.length = x := by rw [h, List.take_left' rfl]
  rw [List.take_append_of_le_length hlen] at h1
  have h2 : (acc ++ tail).drop x.length = W := by rw [h, List.drop_left' rfl]
  rw [List.drop_append_of_le_length hlen] at h2
  exact ⟨h1, h2⟩

theorem wireOf_cons (a : PacketArgs) (rest : List PacketArgs) :
    wireOf (a :: rest) = a.wire.take 24 ++ (a.data ++ wireOf rest) := by
  unfold wireOf
  rw [List.map_cons, List.flatten_cons, ← List.append_assoc]
  congr 1

theorem decodeHeader_wire (a : PacketArgs) (h : a.fits) :
    decodeHeader (a.wire.take 24) = { a.packet with Data := [] } := by
  obtain ⟨hc, h0, h1, hd⟩ := h
  unfold PacketArgs.wire
  rw [decodeHeader_take_Assemble, Nat.mod_eq_of_lt hc, Nat.mod_eq_of_lt h0,
    Nat.mod_eq_of_lt h1, Nat.mod_eq_of_lt hd]
  rfl

theorem drainBuffer_body_ok (fuel : Nat) (acc : List Byte) (p : Packet)
    (hne : acc ≠ []) (hge : p.Length ≤ acc.length)
    (hok : ({ p with Data := acc.take p.Length } : Packet).VerifyChecksum = true) :
    (PacketReader.mk true (bufOf acc) p).drainBuffer (fuel + 1)
      = (((PacketReader.mk false (bufOf (acc.drop p.Length))
            { p with Data := acc.take p.Length }).drainBuffer fuel).1,
          { p with Data := acc.take p.Length } ::
            ((PacketReader.mk false (bufOf (acc.drop p.Length))
              { p with Data := acc.take p.Length }).drainBuffer fuel).2.1,
          ((PacketReader.mk false (bufOf (acc.drop p.Length))
            { p with Data := acc.take p.Length }).drainBuffer fuel).2.2) := by
  have hnlt : ¬ acc.length < p.Length := by omega
  simp [PacketReader.drainBuffer, bufOf_of_ne hne, hnlt, hok, consume_some _ _ _ _ hge]
theorem packet_verify (a : PacketArgs) :
    ({ ({ a.packet with Data := [] } : Packet) with Data := a.data } : Packet) = a.packet
    ∧ a.packet.VerifyChecksum = true
    ∧ ({ a.packet with Data := [] } : Packet).VerifyMagic = true
    ∧ ({ a.packet with Data := [] } : Packet).Length = a.data.length := by
  refine ⟨rfl, ?_, ?_, rfl⟩
  · simp [Packet.VerifyChecksum, PacketArgs.packet]
  · simp [Packet.VerifyMagic, PacketArgs.packet]

theorem drain_body (fuel : Nat)
    (hA : ∀ f, f < fuel → ∀ (ps : List PacketArgs) (acc tail : List Byte) (p : Packet),
      (∀ a ∈ ps, a.fits) → acc ++ tail = wireOf ps → acc.length < f →
      Drained ((PacketReader.mk false (bufOf acc) p).drainBuffer f) tail ps)
    (a : PacketArgs) (rest : List PacketArgs) (acc tail : List Byte)
    (hfit : ∀ b ∈ rest, b.fits) (hd : a.data ≠ [])
    (h : acc ++ tail = a.data ++ wireOf rest) (hf : acc.length < fuel) :
    Drained ((PacketReader.mk true (bufOf acc) { a.packet with Data := [] }).drainBuffer fuel)
      tail (a :: rest) := by
  obtain ⟨f, rfl⟩ : ∃ f, fuel = f + 1 := ⟨fuel - 1, by omega⟩
  obtain ⟨hpk, hck, _, hlen⟩ := packet_verify a
  by_cases hshort : acc.length < a.data.length
  · by_cases hacc : acc = []
    · subst hacc
      rw [drainBuffer_nil]
      exact ⟨[], a :: rest, rfl, rfl, Or.inr ⟨a, rest, [], rfl, rfl, hshort, h⟩, Or.inl rfl⟩
    · rw [drainBuffer_body_short _ _ _ hacc (by rw [hlen]; exact hshort)]
      exact ⟨[], a :: rest, rfl, rfl, Or.inr ⟨a, rest, acc, rfl, rfl, hshort, h⟩, Or.inr rfl⟩
  · have hge : a.data.length ≤ acc.length := by omega
    have hacc : acc ≠ [] := by
      intro h0
      subst h0
      have : a.data.length = 0 := by simpa using hge
      exact hd (List.length_eq_zero.mp this)
    obtain ⟨htake, hdrop⟩ := prefix_split acc tail a.data (wireOf rest) h hge
    have hdata : ({ ({ a.packet with Data := [] } : Packet) with
        Data := acc.take ({ a.packet with Data := [] } : Packet).Length } : Packet)
          = a.packet := by
      rw [hlen, htake]
      exact hpk
    rw [drainBuffer_body_ok _ _ _ hacc (by rw [hlen]; exact hge) (by rw [hdata]; exact hck),
      hdata, hlen]
    obtain ⟨front, rest2, hps, hout, haw, hex⟩ :=
      hA f (by omega) rest (acc.drop a.data.length) tail a.packet hfit hdrop
        (by rw [List.length_drop]; have := List.length_pos.mpr hd; omega)
    exact ⟨a :: front, rest2, by rw [hps]; rfl, by simp only [hout, List.map_cons], haw, hex⟩

theorem drain_header (fuel : Nat) :
    ∀ (ps : List PacketArgs) (acc tail : List Byte) (p : Packet),
      (∀ a ∈ ps, a.fits) → acc ++ tail = wireOf ps → acc.length < fuel →
      Drained ((PacketReader.mk false (bufOf acc) p).drainBuffer fuel) tail ps := by
  induction fuel using Nat.strong_induction_on with
  | _ fuel ih =>
    intro ps acc tail p hfit h hf
    obtain ⟨f, rfl⟩ : ∃ f, fuel = f + 1 := ⟨fuel - 1, by omega⟩
    by_cases hshort : acc.length < 24
    · by_cases hacc : acc = []
      · subst hacc
        rw [drainBuffer_nil]
        exact ⟨[], ps, rfl, rfl, Or.inl ⟨[], p, rfl, hshort, h⟩, Or.inl rfl⟩
      · rw [drainBuffer_header_short _ _ _ hacc hshort]
        exact ⟨[], ps, rfl, rfl, Or.inl ⟨acc, p, rfl, hshort, h⟩, Or.inr rfl⟩
    · have hge : 24 ≤ acc.length := by omega
      cases ps with
      | nil =>
        have : acc = [] := (List.append_eq_nil.mp h).1
        subst this
        simp at hge
      | cons a rest =>
        rw [wireOf_cons] at h
        have hl24 : (a.wire.take 24).length = 24 := take24_Assemble_length _ _ _ _
        obtain ⟨htake, hdrop⟩ := prefix_split acc tail (a.wire.take 24) _ h
          (by rw [hl24]; exact hge)
        rw [hl24] at htake hdrop
        have hdec : decodeHeader (acc.take 24) = { a.packet with Data := [] } := by
          rw [htake]
          exact decodeHeader_wire a (hfit a (List.mem_cons_self a rest))
        obtain ⟨_, _, hmg, hlen⟩ := packet_verify a
        have hfit2 : ∀ b ∈ rest, b.fits := fun b hb => hfit b (List.mem_cons_of_mem a hb)
        by_cases hd : a.data = []
        · rw [drainBuffer_header_empty _ _ _ hge (by rw [hdec]; exact hmg)
            (by rw [hdec, hlen, hd]; rfl), hdec]
          rw [hd, List.nil_append] at hdrop
          obtain ⟨front, rest2, hps, hout, haw, hex⟩ :=
            ih f (by omega) rest (acc.drop 24) tail { a.packet with Data := [] } hfit2 hdrop
              (by rw [List.length_drop]; omega)
          have hpk : ({ a.packet with Data := [] } : Packet) = a.packet := by
            simp only [PacketArgs.packet, hd]
          refine ⟨a :: front, rest2, by rw [hps]; rfl, ?_, haw, hex⟩
          show ({ a.packet with Data := [] } : Packet) :: _ = _
          rw [hout, hpk, List.map_cons]
        · rw [drainBuffer_header_body _ _ _ hge (by rw [hdec]; exact hmg)
            (by rw [hdec, hlen]; exact fun h0 => hd (List.length_eq_zero.mp h0)), hdec]
          exact drain_body f (fun f2 hf2 => ih f2 (by omega)) a rest (acc.drop 24) tail hfit2 hd
            hdrop (by rw [List.length_drop]; omega)
theorem awaiting_end (r : PacketReader) (ps : List PacketArgs) (h : Awaiting r [] ps) :
    ps = [] := by
  rcases h with ⟨acc, p, _, hlen, hw⟩ | ⟨a, rest, acc, _, _, hlen, hw⟩
  · cases ps with
    | nil => rfl
    | cons a rest =>
      rw [wireOf_cons, List.append_nil] at hw
      have := congrArg List.length hw
      have h24 : (a.wire.take 24).length = 24 := take24_Assemble_length _ _ _ _
      rw [List.length_append, h24] at this
      omega
  · rw [List.append_nil] at hw
    have := congrArg List.length hw
    rw [List.length_append] at this
    omega

theorem tryRead_stream (chunks : List (List Byte)) :
    ∀ (r : PacketReader) (ps : List PacketArgs), (∀ a ∈ ps, a.fits) →
      Awaiting r chunks.flatten ps →
      ∃ front rest, ps = front ++ rest
        ∧ (r.tryRead chunks).emitted = front.map PacketArgs.packet
        ∧ Awaiting (r.tryRead chunks).reader (r.tryRead chunks).stream.flatten rest
        ∧ (((r.tryRead chunks).exit = .nil ∧ (r.tryRead chunks).stream.length < chunks.length)
          ∨ ((r.tryRead chunks).exit = .err .eof ∧ (r.tryRead chunks).stream = [])) := by
  induction chunks with
  | nil =>
    intro r ps _ haw
    exact ⟨[], ps, rfl, rfl, haw, Or.inr ⟨rfl, rfl⟩⟩
  | cons c rest ih =>
    intro r ps hfit haw
    rw [List.flatten_cons] at haw
    obtain ⟨ib, acc, p, hr, hdr⟩ : ∃ ib acc p, r = PacketReader.mk ib (bufOf acc) p
        ∧ Drained ((PacketReader.mk ib (bufOf (acc ++ c)) p).drainBuffer
            ((2 * (acc ++ c).length + 1) + 1)) rest.flatten ps := by
      rcases haw with ⟨acc, p, hr, _, hw⟩ | ⟨a, rest2, acc, hps, hr, hlen, hw⟩
      · exact ⟨false, acc, p, hr,
          drain_header _ ps (acc ++ c) rest.flatten p hfit (by rw [List.append_assoc]; exact hw)
            (by omega)⟩
      · subst hps
        have hd : a.data ≠ [] := by
          intro h0
          rw [h0] at hlen
          simp at hlen
        exact ⟨true, acc, _, hr,
          drain_body _ (fun f _ => drain_header f) a rest2 (acc ++ c) rest.flatten
            (fun b hb => hfit b (List.mem_cons_of_mem a hb)) hd
            (by rw [List.append_assoc]; exact hw) (by omega)⟩
    subst hr
    rw [tryRead_cons]
    rcases hres : (PacketReader.mk ib (bufOf (acc ++ c)) p).drainBuffer
      ((2 * (acc ++ c).length + 1) + 1) with ⟨r2, out, exit⟩
    rw [hres] at hdr
    obtain ⟨front, rest2, hps, hout, haw2, hex⟩ := hdr
    simp only at hout haw2 hex
    rcases hex with hex | hex
    · subst hex
      simp only
      have hfit2 : ∀ a ∈ rest2, a.fits := fun a ha => hfit a (by rw [hps]; simp [ha])
      obtain ⟨front3, rest3, hps3, hout3, haw3, hex3⟩ := ih r2 rest2 hfit2 haw2
      refine ⟨front ++ front3, rest3, by rw [hps, hps3, List.append_assoc], ?_, haw3, ?_⟩
      · simp only [hout, hout3, List.map_append]
      · rcases hex3 with ⟨h1, h2⟩ | ⟨h1, h2⟩
        · exact Or.inl ⟨h1, by simp only [List.length_cons]; omega⟩
        · exact Or.inr ⟨h1, h2⟩
    · subst hex
      simp only
      exact ⟨front, rest2, hps, hout, haw2, Or.inl ⟨trivial, by simp⟩⟩

theorem readLoop_stream (fuel : Nat) :
    ∀ (chunks : List (List Byte)) (r : PacketReader) (ps : List PacketArgs),
      (∀ a ∈ ps, a.fits) → Awaiting r chunks.flatten ps → chunks.length < fuel →
      r.readLoop fuel chunks = (ps.map PacketArgs.packet, .ended) := by
  induction fuel with
  | zero => intro chunks r ps _ _ hf; omega
  | succ fuel ih =>
    intro chunks r ps hfit haw hf
    obtain ⟨front, rest, hps, hout, haw2, hex⟩ := tryRead_stream chunks r ps hfit haw
    rw [PacketReader.readLoop]
    rcases hex with ⟨h1, h2⟩ | ⟨h1, h2⟩
    · have hfit2 : ∀ a ∈ rest, a.fits := fun a ha => hfit a (by rw [hps]; simp [ha])
      simp only [h1]
      rw [ih _ _ rest hfit2 haw2 (by omega), hout, hps, List.map_append]
    · rw [h2] at haw2
      have hrest := awaiting_end _ _ haw2
      simp only [h1]
      rw [hout, hps, hrest, List.append_nil]
theorem NewPacketReader_awaiting (chunks : List (List Byte)) (ps : List PacketArgs)
    (hcut : chunks.flatten = wireOf ps) : Awaiting NewPacketReader chunks.flatten ps :=
  Or.inl ⟨[], ⟨0, 0, 0, 0, 0, 0, []⟩, rfl, by decide, hcut⟩

theorem tryRead_bad_header (hdr payload : List Byte) (p : Packet) (hhdr : hdr.length = 24)
    (hbad : (decodeHeader hdr).VerifyMagic = false) :
    (PacketReader.mk false (bufOf []) p).tryRead [hdr ++ payload]
      = ⟨[], ⟨false, bufOf payload, decodeHeader hdr⟩, [], .err (.magic (decodeHeader hdr))⟩ := by
  have htake : (hdr ++ payload).take 24 = hdr := List.take_left' hhdr
  have hdrop : (hdr ++ payload).drop 24 = payload := List.drop_left' hhdr
  rw [tryRead_cons, List.nil_append,
    drainBuffer_header_bad _ _ _ (by rw [List.length_append]; omega)
      (by rw [htake]; exact hbad), htake, hdrop]

theorem drainBuffer_empty_packet (a : PacketArgs) (ha : a.fits) (hd : a.data = [])
    (p : Packet) (fuel : Nat) :
    (PacketReader.mk false (bufOf a.wire) p).drainBuffer (fuel + 2)
      = (⟨false, bufOf [], a.packet⟩, [a.packet], .bufferNil) := by
  have hlen : a.wire.length = 24 := by
    unfold PacketArgs.wire
    rw [Assemble_length, hd]
    rfl
  have htake : a.wire.take 24 = a.wire := by rw [← hlen, List.take_length]
  have hdrop : a.wire.drop 24 = [] := by rw [← hlen, List.drop_length]
  have hpk : ({ a.packet with Data := [] } : Packet) = a.packet := by
    simp only [PacketArgs.packet, hd]
  have hdec : decodeHeader (a.wire.take 24) = a.packet := by
    rw [decodeHeader_wire a ha, hpk]
  obtain ⟨_, _, hmg, hl⟩ := packet_verify a
  rw [hpk] at hmg hl
  rw [drainBuffer_header_empty _ _ _ (by omega) (by rw [hdec]; exact hmg)
    (by rw [hdec, hl, hd]; rfl), hdec, hdrop, drainBuffer_nil]

/-- C35: for packets with 32-bit arguments and payloads of fewer than `2 ^ 32`
bytes, and every way of cutting the concatenation of their assembled bytes
into reads, the `PacketReader` emits exactly these packets, in order, with
the same fields and payloads, and then `end`, no error. A stream that starts
with a header whose magic is not the complement of its command gives a
`MagicError` and no packet, however it is cut, and the bytes after the header
stay in the buffer; a packet without payload is emitted by the pass of the
inner loop that finds its 24 header bytes in the buffer. -/
theorem PacketReader_stream (ps : List PacketArgs) (chunks : List (List Byte))
    (hfit : ∀ a ∈ ps, a.fits) (hcut : chunks.flatten = wireOf ps) :
    NewPacketReader.readLoop (chunks.length + 1) chunks = (ps.map PacketArgs.packet, .ended)
    ∧ (∀ (bytes : List Byte) (cs : List (List Byte)), 24 ≤ bytes.length →
        (decodeHeader (bytes.take 24)).VerifyMagic = false → cs.flatten = bytes →
        NewPacketReader.readLoop (cs.length + 1) cs
          = ([], .error (.magic (decodeHeader (bytes.take 24)))))
    ∧ (∀ (hdr payload : List Byte), hdr.length = 24 →
        (decodeHeader hdr).VerifyMagic = false →
        NewPacketReader.tryRead [hdr ++ payload]
          = ⟨[], ⟨false, bufOf payload, decodeHeader hdr⟩, [],
              .err (.magic (decodeHeader hdr))⟩)
    ∧ (∀ (a : PacketArgs) (p : Packet) (fuel : Nat), a.fits → a.data = [] →
        (PacketReader.mk false (bufOf a.wire) p).drainBuffer (fuel + 2)
          = (⟨false, bufOf [], a.packet⟩, [a.packet], .bufferNil)) := by
  refine ⟨?_, ?_, ?_, ?_⟩
  · exact readLoop_stream _ chunks NewPacketReader ps hfit
      (NewPacketReader_awaiting chunks ps hcut) (Nat.lt_succ_self _)
  · intro bytes cs h24 hbad hcs
    exact readLoop_bad_magic bytes h24 hbad _ cs [] ⟨0, 0, 0, 0, 0, 0, []⟩ (by decide) hcs
      (Nat.lt_succ_self _)
  · intro hdr payload hhdr hbad
    exact tryRead_bad_header hdr payload _ hhdr hbad
  · intro a p fuel ha hd
    exact drainBuffer_empty_packet a ha hd p fuel

theorem PacketReader_stream_witness :
    NewPacketReader.readLoop 4
        [[87, 82, 84, 69, 1, 0, 0, 0, 2, 0],
          [0, 0, 3, 0, 0, 0, 14, 1, 0, 0, 168, 173, 171, 186, 7, 8],
          [255, 79, 75, 65, 89, 3, 0, 0, 0, 4, 0, 0, 0, 0, 0, 0, 0, 0, 0, 0, 0,
            176, 180, 190, 166]]
      = ([⟨A_WRTE, 1, 2, 3, 270, magic A_WRTE, [7, 8, 255]⟩,
          ⟨A_OKAY, 3, 4, 0, 0, magic A_OKAY, []⟩], .ended) :=
  (PacketReader_stream [⟨A_WRTE, 1, 2, [7, 8, 255]⟩, ⟨A_OKAY, 3, 4, []⟩]
    [[87, 82, 84, 69, 1, 0, 0, 0, 2, 0],
      [0, 0, 3, 0, 0, 0, 14, 1, 0, 0, 168, 173, 171, 186, 7, 8],
      [255, 79, 75, 65, 89, 3, 0, 0, 0, 4, 0, 0, 0, 0, 0, 0, 0, 0, 0, 0, 0,
        176, 180, 190, 166]]
    (by
      intro a ha
      simp only [List.mem_cons, List.mem_singleton, List.not_mem_nil, or_false] at ha
      rcases ha with rfl | rfl <;> exact ⟨by decide, by decide, by decide, by decide⟩)
    (by decide)).1
theorem readLoop_wrapped_header (c a0 a1 : Nat) (d : List Byte) (hd : d.length % 2 ^ 32 = 0)
    (rest : List (List Byte)) (fuel : Nat) :
    (NewPacketReader.readLoop (fuel + 1) ((Assemble c a0 a1 d).take 24 :: rest)).1.head?
      = some ⟨c % 2 ^ 32, a0 % 2 ^ 32, a1 % 2 ^ 32, 0, checksum d, magic c, []⟩ := by
  have hdec : decodeHeader ((Assemble c a0 a1 d).take 24)
      = ⟨c % 2 ^ 32, a0 % 2 ^ 32, a1 % 2 ^ 32, 0, checksum d, magic c, []⟩ := by
    rw [decodeHeader_take_Assemble, hd]
  obtain ⟨out, hout⟩ := readLoop_emitted_append fuel ((Assemble c a0 a1 d).take 24 :: rest)
    NewPacketReader
  rw [hout]
  have hem := tryRead_empty_header ((Assemble c a0 a1 d).take 24) rest ⟨0, 0, 0, 0, 0, 0, []⟩
    (take24_Assemble_length c a0 a1 d)
    (by rw [hdec]; simp only [Packet.VerifyMagic, magic_mod, beq_self_eq_true])
    (by rw [hdec])
  have hnew : NewPacketReader = PacketReader.mk false (bufOf []) ⟨0, 0, 0, 0, 0, 0, []⟩ := rfl
  rw [hnew, hem, hdec]
  rfl

/-- C35 as stated fails for a payload of `2 ^ 32` bytes: the length field of
the header is `0`, so the reader emits the packet at once with an empty
payload, and what it emits is not the packet that was assembled. -/
theorem oversize_stream_not_emitted :
    oversizeStream.flatten = wireOf [oversizeArgs]
      ∧ (NewPacketReader.readLoop (oversizeStream.length + 1) oversizeStream).1.head?
          = some ⟨A_WRTE, 1, 2, 0, 0, magic A_WRTE, []⟩
      ∧ NewPacketReader.readLoop (oversizeStream.length + 1) oversizeStream
          ≠ ([oversizeArgs].map PacketArgs.packet, .ended) := by
  have hk : checksum (List.replicate 4294967296 (0 : Byte)) = 0 := by
    rw [checksum_eq_sum, sum_replicate_zero, Nat.zero_mod]
  have hhead : (NewPacketReader.readLoop (oversizeStream.length + 1) oversizeStream).1.head?
      = some ⟨A_WRTE, 1, 2, 0, 0, magic A_WRTE, []⟩ := by
    have h := readLoop_wrapped_header A_WRTE 1 2 (List.replicate 4294967296 0)
      (by rw [List.length_replicate]; rfl)
      (fullReads 4294967296 (oversizeArgs.wire.drop 24)) oversizeStream.length
    rw [hk] at h
    exact h
  refine ⟨?_, hhead, ?_⟩
  · unfold oversizeStream wireOf
    rw [List.flatten_cons, fullReads_flatten, List.take_append_drop, List.map_cons,
      List.map_nil, List.flatten_cons, List.flatten_nil, List.append_nil]
  · intro heq
    rw [heq] at hhead
    simp only [List.map_cons, List.map_nil, List.head?_cons, Option.some.injEq] at hhead
    have hlen := congrArg (fun p : Packet => p.Data.length) hhead
    simp only [PacketArgs.packet, oversizeArgs, List.length_replicate, List.length_nil] at hlen
    exact absurd hlen (by decide)

end AdbKit
